import Mathlib

/-! # OpenMATERIAL path tracer: intersection, scene graph, material model and renderer

A shallow embedding of the geometric core of the path tracer
(`vector.h`, `matrix.h`, `quaternion.h`, `transformation.h`, `ray.h`, `bbox.h`,
`intersect.h`, `mesh.cpp`, `node.h`, `assetgeometry.cpp`, `assetinstance.h`),
of the specular
material model (`spectrum.h`, `interpolation.h`, `assetmaterialior.cpp`,
`materialmodels/common.cpp`, `materialmodels/specular.cpp`), of the camera
(`sensor.h`, `sensor.cpp`, `random.h`, `sensors/camera.cpp`, `tonemapping.h`),
of the renderer (`background.h`, `backgrounds/fatal.h`, `renderer.cpp`) and of
the utilities of the assets (`uuid.h`, `utils.cpp`, `assetbase.h`,
`assetinfo.h`).

Conventions of the embedding.

* The C++ type `Float` is modelled by the exact rationals `ℚ`: rounding and
  overflow are not part of the model.
* Two places of the code produce non-finite values on purpose: the constant
  `fInfinity` (default `tmax`, start values of the box folds) and the
  reciprocal `1/d` of `Ray::setDirection` when a direction component is zero.
  Values that can come from there are modelled by `XFloat`, the rationals
  extended by `+inf`, `-inf` and `NaN` with the IEEE rules for the operations
  the code applies to them.
* A read outside a buffer, which C++ leaves undefined, yields the default
  element (`0`) in the model.
* Indices, counters and node numbers are natural numbers: they stay far below
  the machine widths, so wrap-around is not modelled.
* An in/out reference parameter becomes an argument and a component of the
  result; a pointer to an immutable object becomes the object.
* The recursion over the scene graph and the loop over the parents take a
  fuel argument and return `none` when it runs out; the theorems show that a
  fuel above the depth of the graph is enough. Nodes and meshes are referred
  to by their position in the lists of the asset.
* The functions of the C library (`sqrt`, the complex `sqrt`, `hypot`, `tan`,
  `cos`, `sin`) and the stream of the random generator are the fields of a
  parameter `Libm`; a theorem that needs a property of one of them states it
  as a hypothesis.
* The spectra made with `new SpectrumRGB` live in a heap, a list in which a
  pointer is a position and `delete` leaves an empty position, so that two
  rays with the same pointer share one spectrum.
* A C++ exception, and a step that C++ leaves undefined in the renderer
  (reading through a null or deleted pointer, writing outside of the image
  buffer), ends a call with a value of `Fault`.
* The renderer keeps a log of the calls it makes to the sensor, the
  background and the material model. The recursion of `trace` takes a fuel
  argument that bounds the depth of the nested calls. The rays of one batch
  are traced one after the other; the threads of the parallel loop are not
  part of the model.
* A `std::string` is the list of its characters. A position in a string is a
  `size_t` value of 64 bits with `npos` as the largest one, and the arithmetic
  on positions wraps at `2^64`. The functions of `<cctype>` work on the code
  of a character and are those of the "C" locale. The 64-bit halves of a uuid
  are natural numbers, with the shifts reduced modulo `2^64`.
* The loop of `split` takes a fuel argument; the theorem shows that a fuel
  above the length of the string is enough.
* The loop of `Node::hasParent` takes a fuel argument; a call that never
  returns is one that gives `none` for every fuel. The glTF nodes that
  `loadNodes` reads are records with the members the function uses.
* The routine `sort_r` of `buildBVH` is an argument of the model, as is the
  comparison it is called with.
-/

namespace OpenMaterial

/-! ## Extended floats -/

/-- Extended value: a finite rational, an infinity or a not-a-number. -/
inductive XFloat where
  | nan
  | ninf
  | fin (q : ℚ)
  | pinf
  deriving DecidableEq, Repr

namespace XFloat

instance : Inhabited XFloat := ⟨fin 0⟩

/-- The comparison `a < b` of the C++ code; false when an operand is NaN. -/
def lt : XFloat → XFloat → Bool
  | fin a, fin b => decide (a < b)
  | ninf, fin _ => true
  | ninf, pinf => true
  | fin _, pinf => true
  | _, _ => false

/-- The comparison `a <= b` of the C++ code; false when an operand is NaN. -/
def le : XFloat → XFloat → Bool
  | fin a, fin b => decide (a ≤ b)
  | ninf, ninf => true
  | ninf, fin _ => true
  | ninf, pinf => true
  | fin _, pinf => true
  | pinf, pinf => true
  | _, _ => false

/-- The difference `a - o` of an extended value and a finite one. -/
def subQ : XFloat → ℚ → XFloat
  | fin a, o => fin (a - o)
  | x, _ => x

/-- The difference `a - b` of two extended values. -/
def sub : XFloat → XFloat → XFloat
  | fin a, fin b => fin (a - b)
  | fin _, pinf => ninf
  | fin _, ninf => pinf
  | pinf, fin _ => pinf
  | pinf, ninf => pinf
  | ninf, fin _ => ninf
  | ninf, pinf => ninf
  | _, _ => nan

/-- The product of an infinity with sign `pos` and a finite value `q`. -/
def mulInf (pos : Bool) (q : ℚ) : XFloat :=
  if q = 0 then nan else if (decide (0 < q)) = pos then pinf else ninf

/-- The product `a * b` with the IEEE rules for infinities and NaN. -/
def mul : XFloat → XFloat → XFloat
  | fin a, fin b => fin (a * b)
  | fin a, pinf => mulInf true a
  | fin a, ninf => mulInf false a
  | pinf, fin b => mulInf true b
  | ninf, fin b => mulInf false b
  | pinf, pinf => pinf
  | ninf, ninf => pinf
  | pinf, ninf => ninf
  | ninf, pinf => ninf
  | _, _ => nan

/-- The reciprocal `1/d` of a finite value; `1/0` is `+inf`. -/
def recip (d : ℚ) : XFloat :=
  if d = 0 then pinf else fin (1 / d)

/-- The result `std::min(x, m)` for a finite `x`: `m` when `m < x`, else `x`. -/
def minQ (x : ℚ) (m : XFloat) : XFloat :=
  if lt m (fin x) then m else fin x

/-- The result `std::max(x, m)` for a finite `x`: `m` when `x < m`, else `x`. -/
def maxQ (x : ℚ) (m : XFloat) : XFloat :=
  if lt (fin x) m then m else fin x

end XFloat

/-! ## Vectors (`vector.h`) -/

/-- Three-dimensional vector of `Float`s. -/
structure Vector3 where
  x : ℚ
  y : ℚ
  z : ℚ
  deriving DecidableEq, Repr

namespace Vector3

instance : Inhabited Vector3 := ⟨⟨0, 0, 0⟩⟩

/-- Component `v[m]`. -/
def get (v : Vector3) (m : Nat) : ℚ :=
  match m with
  | 0 => v.x
  | 1 => v.y
  | _ => v.z

/-- Dot product. -/
def dot (u v : Vector3) : ℚ :=
  u.x * v.x + u.y * v.y + u.z * v.z

/-- Cross product `u x v`. -/
def cross (u v : Vector3) : Vector3 :=
  ⟨u.y * v.z - u.z * v.y, u.z * v.x - u.x * v.z, u.x * v.y - u.y * v.x⟩

/-- Sum `u + v`. -/
def add (u v : Vector3) : Vector3 :=
  ⟨u.x + v.x, u.y + v.y, u.z + v.z⟩

/-- Difference `u - v`. -/
def sub (u v : Vector3) : Vector3 :=
  ⟨u.x - v.x, u.y - v.y, u.z - v.z⟩

/-- Negation `-u`. -/
def neg (u : Vector3) : Vector3 :=
  ⟨-u.x, -u.y, -u.z⟩

/-- Scaling `value * u`. -/
def smul (value : ℚ) (u : Vector3) : Vector3 :=
  ⟨value * u.x, value * u.y, value * u.z⟩

end Vector3

/-- Vector whose components are extended floats (box corners, reciprocal
direction). -/
structure XVector3 where
  x : XFloat
  y : XFloat
  z : XFloat
  deriving DecidableEq, Repr

namespace XVector3

instance : Inhabited XVector3 := ⟨⟨XFloat.fin 0, XFloat.fin 0, XFloat.fin 0⟩⟩

/-- Component `v[m]`. -/
def get (v : XVector3) (m : Nat) : XFloat :=
  match m with
  | 0 => v.x
  | 1 => v.y
  | _ => v.z

/-- The finite vector as an extended one. -/
def ofVector3 (v : Vector3) : XVector3 :=
  ⟨XFloat.fin v.x, XFloat.fin v.y, XFloat.fin v.z⟩

end XVector3

/-! ## Matrices (`matrix.h`) -/

/-- A 3x3 matrix, elements in row-major order as in `m_M[9]`. -/
structure Matrix3x3 where
  m0 : ℚ
  m1 : ℚ
  m2 : ℚ
  m3 : ℚ
  m4 : ℚ
  m5 : ℚ
  m6 : ℚ
  m7 : ℚ
  m8 : ℚ
  deriving DecidableEq, Repr

namespace Matrix3x3

/-- Identity matrix. -/
def Identity : Matrix3x3 :=
  ⟨1, 0, 0, 0, 1, 0, 0, 0, 1⟩

instance : Inhabited Matrix3x3 := ⟨Identity⟩

/-- Diagonal matrix `diag(x,y,z)`. -/
def Scale (x y z : ℚ) : Matrix3x3 :=
  ⟨x, 0, 0, 0, y, 0, 0, 0, z⟩

/-- Transposed matrix. -/
def transpose (a : Matrix3x3) : Matrix3x3 :=
  ⟨a.m0, a.m3, a.m6, a.m1, a.m4, a.m7, a.m2, a.m5, a.m8⟩

/-- Matrix-vector product `A v`. -/
def apply (a : Matrix3x3) (v : Vector3) : Vector3 :=
  ⟨0 + a.m0 * v.x + a.m1 * v.y + a.m2 * v.z,
   0 + a.m3 * v.x + a.m4 * v.y + a.m5 * v.z,
   0 + a.m6 * v.x + a.m7 * v.y + a.m8 * v.z⟩

/-- Product `(A^T) v` with the transposed matrix. -/
def applyTransposed (a : Matrix3x3) (v : Vector3) : Vector3 :=
  ⟨0 + a.m0 * v.x + a.m3 * v.y + a.m6 * v.z,
   0 + a.m1 * v.x + a.m4 * v.y + a.m7 * v.z,
   0 + a.m2 * v.x + a.m5 * v.y + a.m8 * v.z⟩

/-- Determinant of the 3x3 matrix (expansion along the first row). -/
def det (u : Matrix3x3) : ℚ :=
  let A := u.m4 * u.m8 - u.m5 * u.m7
  let B := -(u.m3 * u.m8 - u.m5 * u.m6)
  let C := u.m3 * u.m7 - u.m4 * u.m6
  u.m0 * A + u.m1 * B + u.m2 * C

/-- Inverse of the 3x3 matrix: the adjugate divided by the determinant. -/
def invert (m : Matrix3x3) : Matrix3x3 :=
  let n0 := m.m4 * m.m8 - m.m5 * m.m7
  let n1 := -(m.m1 * m.m8 - m.m2 * m.m7)
  let n2 := m.m1 * m.m5 - m.m2 * m.m4
  let n3 := -(m.m3 * m.m8 - m.m5 * m.m6)
  let n4 := m.m0 * m.m8 - m.m2 * m.m6
  let n5 := -(m.m0 * m.m5 - m.m2 * m.m3)
  let n6 := m.m3 * m.m7 - m.m4 * m.m6
  let n7 := -(m.m0 * m.m7 - m.m1 * m.m6)
  let n8 := m.m0 * m.m4 - m.m1 * m.m3
  let determinant := m.m0 * n0 + m.m1 * n3 + m.m2 * n6
  ⟨n0 / determinant, n1 / determinant, n2 / determinant,
   n3 / determinant, n4 / determinant, n5 / determinant,
   n6 / determinant, n7 / determinant, n8 / determinant⟩

/-- Matrix product `A*B`. -/
def matmult (a b : Matrix3x3) : Matrix3x3 :=
  ⟨0 + a.m0 * b.m0 + a.m1 * b.m3 + a.m2 * b.m6,
   0 + a.m0 * b.m1 + a.m1 * b.m4 + a.m2 * b.m7,
   0 + a.m0 * b.m2 + a.m1 * b.m5 + a.m2 * b.m8,
   0 + a.m3 * b.m0 + a.m4 * b.m3 + a.m5 * b.m6,
   0 + a.m3 * b.m1 + a.m4 * b.m4 + a.m5 * b.m7,
   0 + a.m3 * b.m2 + a.m4 * b.m5 + a.m5 * b.m8,
   0 + a.m6 * b.m0 + a.m7 * b.m3 + a.m8 * b.m6,
   0 + a.m6 * b.m1 + a.m7 * b.m4 + a.m8 * b.m7,
   0 + a.m6 * b.m2 + a.m7 * b.m5 + a.m8 * b.m8⟩

end Matrix3x3

/-! ## Rays (`ray.h`) -/

/-- Type tag of the payload of a ray. -/
inductive e_rayType where
  | RAY_PLAIN
  | RAY_RGB_UNPOLARIZED
  | RAY_RGB_POLARIZED
  | RAY_POLARIZED_TUBE
  deriving DecidableEq, Repr

/-- A ray `P(t) = O + t*D` with the cached reciprocal direction and sign
flags used by the box test. The payload pointer is an optional address. -/
structure Ray where
  m_uId : Nat
  m_iBounces : Int
  m_vOrigin : Vector3
  m_vDirection : Vector3
  m_vInvDirection : XVector3
  m_fOpticalPathLength : ℚ
  m_posneg : Nat × Nat × Nat
  m_eType : e_rayType
  m_pType : Option Nat
  m_fIntensity : ℚ
  deriving DecidableEq, Repr

namespace Ray

/-- The default-constructed ray `Ray()`. -/
def default : Ray :=
  { m_uId := 0, m_iBounces := 0, m_vOrigin := ⟨0, 0, 0⟩, m_vDirection := ⟨0, 0, 0⟩,
    m_vInvDirection := ⟨XFloat.fin 0, XFloat.fin 0, XFloat.fin 0⟩,
    m_fOpticalPathLength := 0, m_posneg := (0, 0, 0),
    m_eType := e_rayType.RAY_PLAIN, m_pType := none, m_fIntensity := 0 }

instance : Inhabited Ray := ⟨Ray.default⟩

/-- Sign flag `m_posneg[j]`. -/
def posneg (r : Ray) (j : Nat) : Nat :=
  match j with
  | 0 => r.m_posneg.1
  | 1 => r.m_posneg.2.1
  | _ => r.m_posneg.2.2

/-- Set origin to `crvOrigin`. -/
def setOrigin (r : Ray) (crvOrigin : Vector3) : Ray :=
  { r with m_vOrigin := crvOrigin }

/-- Set direction to `crvDirection`; caches `1/direction` and the sign flags
(`1` for a negative component, else `0`). -/
def setDirection (r : Ray) (crvDirection : Vector3) : Ray :=
  { r with
    m_vDirection := crvDirection
    m_vInvDirection :=
      ⟨XFloat.recip crvDirection.x, XFloat.recip crvDirection.y, XFloat.recip crvDirection.z⟩
    m_posneg :=
      (if crvDirection.x ≥ 0 then 0 else 1,
       if crvDirection.y ≥ 0 then 0 else 1,
       if crvDirection.z ≥ 0 then 0 else 1) }

/-- Constructor `Ray(uId, crvOrigin, crvDirection)`. -/
def mk3 (uId : Nat) (crvOrigin crvDirection : Vector3) : Ray :=
  ({ Ray.default with m_uId := uId }.setOrigin crvOrigin).setDirection crvDirection

/-- Copy constructor `Ray(const Ray&)`; the intensity is not copied. -/
def copy (ray : Ray) : Ray :=
  { Ray.default with
    m_uId := ray.m_uId
    m_vOrigin := ray.m_vOrigin
    m_vDirection := ray.m_vDirection
    m_vInvDirection := ray.m_vInvDirection
    m_iBounces := ray.m_iBounces
    m_fOpticalPathLength := ray.m_fOpticalPathLength
    m_eType := ray.m_eType
    m_pType := ray.m_pType
    m_posneg := ray.m_posneg }

/-- Point `P(t) = origin + t*direction` (the method `at`). -/
def pointAt (r : Ray) (t : ℚ) : Vector3 :=
  r.m_vOrigin.add (Vector3.smul t r.m_vDirection)

end Ray

/-! ## Affine transformations (`transformation.h`) -/

/-- Affine transformation `f(x) = M x + d` with a cached inverse of `M`. -/
structure Transformation where
  m_m : Matrix3x3
  m_mInv : Matrix3x3
  m_d : Vector3
  deriving DecidableEq, Repr

namespace Transformation

/-- Constructor `Transformation(M, d)`: the inverse is computed by `invert`. -/
def mk2 (M : Matrix3x3) (d : Vector3) : Transformation :=
  ⟨M, M.invert, d⟩

/-- Identity transformation. -/
def Identity : Transformation :=
  ⟨Matrix3x3.Identity, Matrix3x3.Identity, ⟨0, 0, 0⟩⟩

instance : Inhabited Transformation := ⟨Identity⟩

/-- Translation by `translation`. -/
def Translation (translation : Vector3) : Transformation :=
  ⟨Matrix3x3.Identity, Matrix3x3.Identity, translation⟩

/-- Scaling transformation; the cached inverse is the transposed matrix, as
in the source. -/
def Scale (x y z : ℚ) : Transformation :=
  ⟨Matrix3x3.Scale x y z, (Matrix3x3.Scale x y z).transpose, ⟨0, 0, 0⟩⟩

/-- Combined transformation `T1.apply(T2)`: first `T2`, then `T1`. -/
def apply (T1 T : Transformation) : Transformation :=
  let m := T1.m_m.matmult T.m_m
  let mInv := T.m_mInv.matmult T1.m_mInv
  let d := T1.m_d.add (T1.m_m.apply T.m_d)
  ⟨m, mInv, d⟩

/-- Transform point from local to world coordinates. -/
def transformPointToWorld (T : Transformation) (point : Vector3) : Vector3 :=
  (T.m_m.apply point).add T.m_d

/-- Transform point from world to local coordinates. -/
def transformPointToLocal (T : Transformation) (point : Vector3) : Vector3 :=
  T.m_mInv.apply (point.sub T.m_d)

/-- Transform vector from world to local coordinates. -/
def transformVectorToLocal (T : Transformation) (vector : Vector3) : Vector3 :=
  T.m_mInv.apply vector

/-- Transform vector from local to world coordinates. -/
def transformVectorToWorld (T : Transformation) (vector : Vector3) : Vector3 :=
  T.m_m.apply vector

/-- Transform ray from world to local coordinates. -/
def transformRayToLocal (T : Transformation) (ray : Ray) : Ray :=
  (ray.copy.setOrigin (T.transformPointToLocal ray.m_vOrigin)).setDirection
    (T.transformVectorToLocal ray.m_vDirection)

/-- Transform ray from local to world coordinates. -/
def transformRayToWorld (T : Transformation) (ray : Ray) : Ray :=
  (ray.copy.setOrigin (T.transformPointToWorld ray.m_vOrigin)).setDirection
    (T.transformVectorToWorld ray.m_vDirection)

/-- The cached inverse is the two-sided inverse of the matrix. -/
def InverseCorrect (T : Transformation) : Prop :=
  T.m_mInv.matmult T.m_m = Matrix3x3.Identity ∧ T.m_m.matmult T.m_mInv = Matrix3x3.Identity

end Transformation

/-! ## Bounding boxes (`bbox.h`) -/

/-- Axis-aligned bounding box: `m_pp0` is the minimum corner `m_pp[0]`,
`m_pp1` the maximum corner `m_pp[1]`. -/
structure BBox where
  m_pp0 : XVector3
  m_pp1 : XVector3
  deriving DecidableEq, Repr

namespace BBox

/-- The box `BBox()` with both corners at the origin. -/
def default : BBox :=
  ⟨⟨XFloat.fin 0, XFloat.fin 0, XFloat.fin 0⟩, ⟨XFloat.fin 0, XFloat.fin 0, XFloat.fin 0⟩⟩

instance : Inhabited BBox := ⟨BBox.default⟩

/-- Corner `m_pp[k]`. -/
def m_pp (b : BBox) (k : Nat) : XVector3 :=
  if k = 0 then b.m_pp0 else b.m_pp1

/-- The box with finite corners `vMin`, `vMax`. -/
def ofCorners (vMin vMax : Vector3) : BBox :=
  ⟨XVector3.ofVector3 vMin, XVector3.ofVector3 vMax⟩

/-- Bounding box surrounding this box and `bbox2`. -/
def surrround (b bbox2 : BBox) : BBox :=
  let afMin := fun (j : Nat) =>
    if XFloat.lt (b.m_pp0.get j) (bbox2.m_pp0.get j) then b.m_pp0.get j else bbox2.m_pp0.get j
  let afMax := fun (j : Nat) =>
    if XFloat.lt (bbox2.m_pp1.get j) (b.m_pp1.get j) then b.m_pp1.get j else bbox2.m_pp1.get j
  ⟨⟨afMin 0, afMin 1, afMin 2⟩, ⟨afMax 0, afMax 1, afMax 2⟩⟩

/-- One pass of the loop of `intersectRay` for axis `j`: the narrowed interval,
or `none` when the loop returns `false`. -/
def intersectRayAxis (b : BBox) (ray : Ray) (j : Nat) (iv : XFloat × XFloat) :
    Option (XFloat × XFloat) :=
  let posneg := ray.posneg j
  let t0 := (((b.m_pp posneg).get j).subQ (ray.m_vOrigin.get j)).mul (ray.m_vInvDirection.get j)
  let t1 := (((b.m_pp (1 - posneg)).get j).subQ (ray.m_vOrigin.get j)).mul
    (ray.m_vInvDirection.get j)
  let interval_min := if XFloat.lt iv.1 t0 then t0 else iv.1
  let interval_max := if XFloat.lt t1 iv.2 then t1 else iv.2
  if XFloat.lt interval_max interval_min then none else some (interval_min, interval_max)

/-- Ray box intersection (slab test over the three axes). -/
def intersectRay (b : BBox) (ray : Ray) (tmin tmax : XFloat) : Bool :=
  match b.intersectRayAxis ray 0 (tmin, tmax) with
  | none => false
  | some iv0 =>
    match b.intersectRayAxis ray 1 iv0 with
    | none => false
    | some iv1 =>
      match b.intersectRayAxis ray 2 iv1 with
      | none => false
      | some _ => true

end BBox

/-! ## Ray-triangle intersection (`intersect.h`) -/

/-- Outputs of a successful `intersectRayTriangle`: the returned orientation
and the values written to `rf_t`, `rf_u`, `rf_v`. -/
structure TriangleHit where
  orientation : Int
  t : ℚ
  u : ℚ
  v : ℚ
  deriving DecidableEq, Repr

/-- Intersection of the ray `O + t*D` with the triangle `V0 V1 V2`
(Moeller-Trumbore). The result `none` stands for the return value `0`, in which
case the outputs are not written. -/
def intersectRayTriangle (V0 V1 V2 O D : Vector3) (tmin tmax : XFloat)
    (bCulling : Bool) : Option TriangleHit :=
  let E1 := V1.sub V0
  let E2 := V2.sub V0
  let T := O.sub V0
  let P := D.cross E2
  let det := P.dot E1
  if det = 0 then none
  else if bCulling && decide (det < 0) then none
  else
    let invdet := 1 / det
    let u := invdet * P.dot T
    if u < 0 ∨ u > 1 then none
    else
      let Q := T.cross E1
      let v := invdet * Q.dot D
      if v < 0 ∨ u + v > 1 then none
      else
        let t := invdet * Q.dot E2
        if XFloat.lt (XFloat.fin t) tmin || XFloat.lt tmax (XFloat.fin t) then none
        else some ⟨if det > 0 then 1 else -1, t, u, v⟩

/-- Return value of `intersectRayTriangle`. -/
def intersectRayTriangleRet (V0 V1 V2 O D : Vector3) (tmin tmax : XFloat)
    (bCulling : Bool) : Int :=
  match intersectRayTriangle V0 V1 V2 O D tmin tmax bCulling with
  | none => 0
  | some h => h.orientation

/-! ## Meshes (`mesh.h`, `mesh.cpp`) -/

/-- Mesh: triangle index buffer (three vertex indices per triangle), vertex
buffer (three `Float`s per vertex), optional normals and the boxes of the
bounding volume hierarchy. -/
structure Mesh where
  m_sName : String
  m_vBbox : List BBox
  m_pMaterial : Option Nat
  m_IndexBuffer : List Nat
  m_VertexBuffer : List ℚ
  m_NormalBuffer : List ℚ
  deriving DecidableEq, Repr

/-- Information on an intersection (`intersect.h`); `none` in `m_t`, `m_u`,
`m_v` stands for the initial `NAN`. -/
structure Intersection where
  m_bHit : Bool
  m_uTriangleIndex : Nat
  m_uNodeNumber : Nat
  m_vRayOrigin : Vector3
  m_vRayDirection : Vector3
  m_pMesh : Option Mesh
  m_transformation : Transformation
  m_t : Option ℚ
  m_u : Option ℚ
  m_v : Option ℚ
  deriving DecidableEq, Repr

namespace Intersection

/-- Constructor `Intersection(crIncidentRay)`. -/
def ofRay (crIncidentRay : Ray) : Intersection :=
  { m_bHit := false, m_uTriangleIndex := 0, m_uNodeNumber := 0,
    m_vRayOrigin := crIncidentRay.m_vOrigin, m_vRayDirection := crIncidentRay.m_vDirection,
    m_pMesh := none, m_transformation := Transformation.Identity,
    m_t := none, m_u := none, m_v := none }

/-- Set the mesh, the triangle index and the coordinates `t`, `u`, `v`. -/
def setMesh (I : Intersection) (pMesh : Mesh) (uTriangleIndex : Nat) (t u v : ℚ) :
    Intersection :=
  { I with m_bHit := true, m_uTriangleIndex := uTriangleIndex,
           m_t := some t, m_u := some u, m_v := some v, m_pMesh := some pMesh }

/-- Set transformation. -/
def setTransformation (I : Intersection) (crTransformation : Transformation) : Intersection :=
  { I with m_transformation := crTransformation }

/-- Set node number. -/
def setNodeNumber (I : Intersection) (uNode : Nat) : Intersection :=
  { I with m_uNodeNumber := uNode }

/-- Intersection point `origin + t*direction`; `none` while `m_t` is `NAN`. -/
def getIntersectionPoint (I : Intersection) : Option Vector3 :=
  I.m_t.map (fun t => I.m_vRayOrigin.add (Vector3.smul t I.m_vRayDirection))

end Intersection

/-- Triangle as stored in the index buffer: three vertex indices. -/
abbrev IndexTriple := Nat × Nat × Nat

namespace Mesh

/-- Number of triangles stored in the mesh. -/
def getNumberOfTriangles (m : Mesh) : Nat :=
  m.m_IndexBuffer.length / 3

/-- The three index-buffer entries of triangle `uTriangleIndex`. -/
def indexTriple (m : Mesh) (uTriangleIndex : Nat) : IndexTriple :=
  (m.m_IndexBuffer.getD (3 * uTriangleIndex + 0) 0,
   m.m_IndexBuffer.getD (3 * uTriangleIndex + 1) 0,
   m.m_IndexBuffer.getD (3 * uTriangleIndex + 2) 0)

/-- Vertex `Vector3(&VertexBuffer[3*i])`. -/
def vertex (m : Mesh) (i : Nat) : Vector3 :=
  ⟨m.m_VertexBuffer.getD (3 * i) 0, m.m_VertexBuffer.getD (3 * i + 1) 0,
   m.m_VertexBuffer.getD (3 * i + 2) 0⟩

/-- The three vertices of triangle `uTriangleIndex`. -/
def getVerticesOfTriangle (m : Mesh) (uTriangleIndex : Nat) : Vector3 × Vector3 × Vector3 :=
  (m.vertex (m.m_IndexBuffer.getD (3 * uTriangleIndex + 0) 0),
   m.vertex (m.m_IndexBuffer.getD (3 * uTriangleIndex + 1) 0),
   m.vertex (m.m_IndexBuffer.getD (3 * uTriangleIndex + 2) 0))

/-- One pass of the loop of `binaryTreeBoundaries`. -/
def binaryTreeStep (k level : Nat) (lr : Nat × Nat) (i : Nat) : Nat × Nat :=
  let middle := (lr.1 + lr.2) / 2
  if k &&& (1 <<< (level - i - 1)) ≠ 0 then (middle + 1, lr.2) else (lr.1, middle)

/-- Left boundary `uLeft` and number of elements of the tree position `uLeaf`,
returned as `(uLeft, uElems)`. -/
def binaryTreeBoundaries (m : Mesh) (uLeaf : Nat) : Nat × Nat :=
  let k := uLeaf + 1
  let level := Nat.log2 (1 + uLeaf)
  let lr := (List.range level).foldl (binaryTreeStep k level) (0, m.m_IndexBuffer.length / 3 - 1)
  (lr.1, lr.2 + 1 - lr.1)

/-- Comparison handed to `sort_r`: `index` is the chosen axis. The key of a
triangle adds the coordinate of its entries `0`, `1` and again `1`; the result
is `x < y` as an integer. -/
def compareFunction (pVertexBuffer : List ℚ) (index : Nat) (a b : IndexTriple) : Int :=
  let x := (pVertexBuffer.getD (3 * a.1 + index) 0 + pVertexBuffer.getD (3 * a.2.1 + index) 0
    + pVertexBuffer.getD (3 * a.2.1 + index) 0) / 3
  let y := (pVertexBuffer.getD (3 * b.1 + index) 0 + pVertexBuffer.getD (3 * b.2.1 + index) 0
    + pVertexBuffer.getD (3 * b.2.1 + index) 0) / 3
  if x < y then 1 else 0

/-- One pass of the loop of `buildBVH` that computes the box of a range: entry
`3*uLeft+i` of the index buffer names the vertex that is folded in. -/
def boundsStep (m : Mesh) (uLeft : Nat) (acc : XVector3 × XVector3) (i : Nat) :
    XVector3 × XVector3 :=
  let p := m.vertex (m.m_IndexBuffer.getD (3 * uLeft + i) 0)
  (⟨XFloat.minQ p.x acc.1.x, XFloat.minQ p.y acc.1.y, XFloat.minQ p.z acc.1.z⟩,
   ⟨XFloat.maxQ p.x acc.2.x, XFloat.maxQ p.y acc.2.y, XFloat.maxQ p.z acc.2.z⟩)

/-- Corners `(vMin, vMax)` of the box over the triangles `[uLeft, uLeft+uElems)`,
folded from `+inf` and `-inf`. -/
def rangeBounds (m : Mesh) (uLeft uElems : Nat) : XVector3 × XVector3 :=
  (List.range (3 * uElems)).foldl (boundsStep m uLeft)
    (⟨XFloat.pinf, XFloat.pinf, XFloat.pinf⟩, ⟨XFloat.ninf, XFloat.ninf, XFloat.ninf⟩)

/-- Split axis chosen in `buildBVH` from `vDiff = vMax - vMin`. -/
def splitAxis (vMin vMax : XVector3) : Nat :=
  let d0 := XFloat.sub vMax.x vMin.x
  let d1 := XFloat.sub vMax.y vMin.y
  let d2 := XFloat.sub vMax.z vMin.z
  if XFloat.lt d1 d0 && XFloat.lt d2 d0 then 0
  else if XFloat.lt d2 d1 then 1
  else 2

/-- The index triples of the triangles `[uLeft, uLeft+uElems)`. -/
def rangeTriples (m : Mesh) (uLeft uElems : Nat) : List IndexTriple :=
  (List.range uElems).map (fun i => m.indexTriple (uLeft + i))

/-- The flat index-buffer entries of a list of triples. -/
def flattenTriples (l : List IndexTriple) : List Nat :=
  l.flatMap (fun a => [a.1, a.2.1, a.2.2])

/-- Body of the loop of `buildBVH` for the tree position `uLeaf`: store the
box of the owned range and sort the range in place. The library routine
`sort_r` is the argument `sort_r`, called with the comparison. -/
def buildBVHStep (sort_r : List IndexTriple → (IndexTriple → IndexTriple → Int) → List IndexTriple)
    (m : Mesh) (uLeaf : Nat) : Mesh :=
  let lb := m.binaryTreeBoundaries uLeaf
  let uLeft := lb.1
  let uElems := lb.2
  let vv := m.rangeBounds uLeft uElems
  let index := splitAxis vv.1 vv.2
  let sorted := sort_r (m.rangeTriples uLeft uElems) (compareFunction m.m_VertexBuffer index)
  { m with
    m_vBbox := m.m_vBbox ++ [⟨vv.1, vv.2⟩]
    m_IndexBuffer := m.m_IndexBuffer.take (3 * uLeft) ++ flattenTriples sorted
      ++ m.m_IndexBuffer.drop (3 * uLeft + 3 * uElems) }

/-- Number of tree levels `max(log2(N) - 2, 0)` converted to an integer. -/
def bvhLevels (uNumberOfTriangles : Nat) : Nat :=
  Nat.log2 uNumberOfTriangles - 2

/-- Build the bounding volume hierarchy: `(1 << uLevels) - 1` tree positions
in level order. -/
def buildBVH (sort_r : List IndexTriple → (IndexTriple → IndexTriple → Int) → List IndexTriple)
    (m : Mesh) : Mesh :=
  let uNumberOfTriangles := m.m_IndexBuffer.length / 3
  let uLevels := bvhLevels uNumberOfTriangles
  let uNumberOfLeafs := (1 <<< uLevels) - 1
  (List.range uNumberOfLeafs).foldl (buildBVHStep sort_r) m

/-- State of the triangle loop of `intersectRay`: the integer `hit`, the
running `tmax` and the intersection record. -/
abbrev ScanState := Nat × XFloat × Intersection

/-- One pass of the triangle loop of `intersectRay` for the triangle
`uLeft + i`. -/
def scanStep (mesh : Mesh) (ray : Ray) (tmin : XFloat) (uLeft : Nat) (st : ScanState)
    (i : Nat) : ScanState :=
  let triangleIndex := uLeft + i
  let V := mesh.getVerticesOfTriangle triangleIndex
  match intersectRayTriangle V.1 V.2.1 V.2.2 ray.m_vOrigin ray.m_vDirection tmin st.2.1 true with
  | none => st
  | some h => (1, XFloat.fin h.t, st.2.2.setMesh mesh triangleIndex h.t h.u h.v)

/-- Intersect ray with mesh, starting at the tree position `uLeaf`. The result
is the returned flag, the in/out `tmax` and the intersection record. -/
def intersectRay (mesh : Mesh) (ray : Ray) (rIntersection : Intersection) (tmin tmax : XFloat)
    (uLeaf : Nat) : Bool × XFloat × Intersection :=
  if mesh.m_vBbox.isEmpty then (false, tmax, rIntersection)
  else if !(mesh.m_vBbox.getD uLeaf BBox.default).intersectRay ray tmin tmax then
    (false, tmax, rIntersection)
  else
    if h : 2 * uLeaf + 2 ≥ mesh.m_vBbox.length then
      let lb := mesh.binaryTreeBoundaries uLeaf
      let st := (List.range lb.2).foldl (scanStep mesh ray tmin lb.1) (0, tmax, rIntersection)
      (decide (st.1 ≠ 0), st.2.1, st.2.2)
    else
      let l := intersectRay mesh ray rIntersection tmin tmax (2 * uLeaf + 1)
      let r := intersectRay mesh ray l.2.2 tmin l.2.1 (2 * uLeaf + 2)
      let hit : Nat := 0 + (if l.1 then 1 else 0) + (if r.1 then 1 else 0)
      (decide (hit ≠ 0), r.2.1, r.2.2)
termination_by mesh.m_vBbox.length - uLeaf
decreasing_by
  all_goals simp_wf
  all_goals omega

/-- Brute-force linear scan over all triangles of the mesh with
`intersectRayTriangle`, keeping the closest accepted hit. -/
def linearScan (mesh : Mesh) (ray : Ray) (rIntersection : Intersection) (tmin tmax : XFloat) :
    Bool × XFloat × Intersection :=
  let st := (List.range mesh.getNumberOfTriangles).foldl (scanStep mesh ray tmin 0)
    (0, tmax, rIntersection)
  (decide (st.1 ≠ 0), st.2.1, st.2.2)

end Mesh

/-! ## Scene graph (`node.h`)

Nodes and meshes are owned by the geometry asset; a pointer to a node or a
mesh is its position in the owning array `m_vpNodes` or `m_vpMeshes`. The
recursion over the children carries a fuel argument, since a cyclic graph
makes the C++ recursion run forever; `none` stands for exhausted fuel or a
dangling pointer. -/

/-- Node of the scene graph. -/
structure Node where
  m_sName : String
  m_uNodeNumber : Nat
  m_transformation : Transformation
  m_pMesh : Option Nat
  m_pParent : Option Nat
  m_pChildren : List Nat
  deriving DecidableEq, Repr

namespace Node

/-- The part of `intersectRay` before the loop over the children: the query
of the own mesh, if any, and the stamp with the node number on a hit. -/
def intersectOwnMesh (meshes : List Mesh) (node : Node) (rayLocal : Ray)
    (rIntersection : Intersection) (tmin tmax : XFloat) : Option Mesh.ScanState :=
  match node.m_pMesh with
  | none => some (0, tmax, rIntersection)
  | some pMesh =>
    match meshes.get? pMesh with
    | none => none
    | some mesh =>
      let r := mesh.intersectRay rayLocal rIntersection tmin tmax 0
      if r.1 then some (1, r.2.1, r.2.2.setNodeNumber node.m_uNodeNumber)
      else some (0, r.2.1, r.2.2)

/-- The loop of `intersectRay` over the children: `call` is the recursive
call for a child with the running record and `tmax`; the integer `hit` is
raised by the flag each child returns. -/
def childrenLoop (call : Nat → Intersection → XFloat → Option (Bool × XFloat × Intersection)) :
    List Nat → Mesh.ScanState → Option Mesh.ScanState
  | [], st => some st
  | pChildNode :: rest, st =>
    match call pChildNode st.2.2 st.2.1 with
    | none => none
    | some r => childrenLoop call rest (st.1 + (if r.1 then 1 else 0), r.2.1, r.2.2)

/-- Intersect ray with the node `pNode` and its descendants. -/
def intersectRay (meshes : List Mesh) (nodes : List Node) :
    Nat → Nat → Ray → Intersection → XFloat → XFloat → Option (Bool × XFloat × Intersection)
  | 0, _, _, _, _, _ => none
  | fuel + 1, pNode, ray, rIntersection, tmin, tmax =>
    match nodes.get? pNode with
    | none => none
    | some node =>
      let rayLocal := node.m_transformation.transformRayToLocal ray
      match intersectOwnMesh meshes node rayLocal rIntersection tmin tmax with
      | none => none
      | some st0 =>
        match childrenLoop
            (fun pChildNode I t => intersectRay meshes nodes fuel pChildNode rayLocal I tmin t)
            node.m_pChildren st0 with
        | none => none
        | some st => some (decide (st.1 ≠ 0), st.2.1, st.2.2)

end Node

/-! ## Geometry asset and instance (`assetgeometry.cpp`, `assetinstance.h`) -/

/-- Geometry asset: the meshes, the nodes and the root nodes of the scene. -/
structure AssetGeometry where
  m_vpMeshes : List Mesh
  m_vpNodes : List Node
  m_viSceneNodes : List Nat
  deriving DecidableEq, Repr

namespace AssetGeometry

/-- The loop `while((pNode = pNode->getParent()) != nullptr)` that composes
the transformations of the ancestors onto `transformation`. -/
def composeParents (nodes : List Node) :
    Nat → Option Nat → Transformation → Option Transformation
  | _, none, transformation => some transformation
  | 0, some _, _ => none
  | fuel + 1, some pParent, transformation =>
    match nodes.get? pParent with
    | none => none
    | some node =>
      composeParents nodes fuel node.m_pParent (node.m_transformation.apply transformation)

/-- The loop of `intersectRay` over the scene nodes. -/
def intersectSceneNodes (g : AssetGeometry) (fuel : Nat) (ray : Ray) (tmin : XFloat) :
    List Nat → Bool × XFloat × Intersection → Option (Bool × XFloat × Intersection)
  | [], st => some st
  | uNodeNumber :: rest, st =>
    match Node.intersectRay g.m_vpMeshes g.m_vpNodes fuel uNodeNumber ray st.2.2 tmin st.2.1 with
    | none => none
    | some r => intersectSceneNodes g fuel ray tmin rest (st.1 || r.1, r.2.1, r.2.2)

/-- Intersect ray with this asset; `tmax` is passed by value, so the result is
the returned flag and the intersection record. -/
def intersectRay (g : AssetGeometry) (fuel : Nat) (ray : Ray) (rIntersection : Intersection)
    (tmin tmax : XFloat) : Option (Bool × Intersection) :=
  match intersectSceneNodes g fuel ray tmin g.m_viSceneNodes (false, tmax, rIntersection) with
  | none => none
  | some st =>
    if st.1 then
      match g.m_vpNodes.get? st.2.2.m_uNodeNumber with
      | none => none
      | some pNode =>
        match composeParents g.m_vpNodes fuel pNode.m_pParent pNode.m_transformation with
        | none => none
        | some transformation => some (true, st.2.2.setTransformation transformation)
    else some (false, st.2.2)

/-- Build the bounding volume hierarchy of every mesh. -/
def BVH (sort_r : List IndexTriple → (IndexTriple → IndexTriple → Int) → List IndexTriple)
    (g : AssetGeometry) : AssetGeometry :=
  { g with m_vpMeshes := g.m_vpMeshes.map (Mesh.buildBVH sort_r) }

end AssetGeometry

/-- Instance of a geometry asset with a placement transformation. -/
structure AssetInstance where
  m_transformation : Transformation
  m_pAssetGeometry : AssetGeometry
  deriving DecidableEq, Repr

namespace AssetInstance

/-- Intersect ray with this instance. -/
def intersectRay (a : AssetInstance) (fuel : Nat) (incidentRay : Ray)
    (rIntersection : Intersection) (tmin tmax : XFloat) : Option (Bool × Intersection) :=
  let rayLocal := a.m_transformation.transformRayToLocal incidentRay
  match a.m_pAssetGeometry.intersectRay fuel rayLocal rIntersection tmin tmax with
  | none => none
  | some r =>
    if r.1 then
      some (true, r.2.setTransformation (a.m_transformation.apply r.2.m_transformation))
    else some (false, r.2)

end AssetInstance

/-! ## Predicates used in the statements -/

/-- The finite value `t` lies in the closed interval with the extended ends
`iv`. -/
def XFloat.Inside (iv : XFloat × XFloat) (t : ℚ) : Prop :=
  XFloat.le iv.1 (XFloat.fin t) = true ∧ XFloat.le (XFloat.fin t) iv.2 = true

/-- The cached reciprocal direction and sign flags of the ray are the ones
that `Ray::setDirection` computes from its direction. -/
def Ray.Consistent (r : Ray) : Prop :=
  ∀ j : Nat, r.m_vInvDirection.get j = XFloat.recip (r.m_vDirection.get j) ∧
    r.posneg j = if r.m_vDirection.get j ≥ 0 then 0 else 1

/-- The box is ordered on every axis: `min[j] <= max[j]`. -/
def BBox.Valid (b : BBox) : Prop :=
  XFloat.le b.m_pp0.x b.m_pp1.x = true ∧ XFloat.le b.m_pp0.y b.m_pp1.y = true ∧
    XFloat.le b.m_pp0.z b.m_pp1.z = true

/-- The box `b` contains the box `a`. -/
def BBox.Contains (b a : BBox) : Prop :=
  (XFloat.le b.m_pp0.x a.m_pp0.x = true ∧ XFloat.le a.m_pp1.x b.m_pp1.x = true) ∧
  (XFloat.le b.m_pp0.y a.m_pp0.y = true ∧ XFloat.le a.m_pp1.y b.m_pp1.y = true) ∧
  (XFloat.le b.m_pp0.z a.m_pp0.z = true ∧ XFloat.le a.m_pp1.z b.m_pp1.z = true)

/-- The pair `(uLeft, uRight)` with which the loop of `binaryTreeBoundaries`
ends for a mesh of `N` triangles: the inclusive range of the tree position. -/
def Mesh.treeRange (N uLeaf : Nat) : Nat × Nat :=
  (List.range (Nat.log2 (1 + uLeaf))).foldl
    (Mesh.binaryTreeStep (uLeaf + 1) (Nat.log2 (1 + uLeaf))) (0, N - 1)

/-- The point `v` lies in the closed box `b`. -/
def BBox.CoversPoint (b : BBox) (v : Vector3) : Prop :=
  (XFloat.le b.m_pp0.x (XFloat.fin v.x) = true ∧ XFloat.le (XFloat.fin v.x) b.m_pp1.x = true) ∧
  (XFloat.le b.m_pp0.y (XFloat.fin v.y) = true ∧ XFloat.le (XFloat.fin v.y) b.m_pp1.y = true) ∧
  (XFloat.le b.m_pp0.z (XFloat.fin v.z) = true ∧ XFloat.le (XFloat.fin v.z) b.m_pp1.z = true)

/-- The box `b` contains the three vertices named by the index triple `a`. -/
def Mesh.BoxCoversTriple (m : Mesh) (b : BBox) (a : IndexTriple) : Prop :=
  b.CoversPoint (m.vertex a.1) ∧ b.CoversPoint (m.vertex a.2.1) ∧ b.CoversPoint (m.vertex a.2.2)

/-- The result of `intersectRayTriangle` (with culling) for triangle `p` of the
mesh and the ray, with the bounds `tmin`, `tmax`. -/
def Mesh.triangleHit (m : Mesh) (ray : Ray) (p : Nat) (tmin tmax : XFloat) :
    Option TriangleHit :=
  intersectRayTriangle (m.getVerticesOfTriangle p).1 (m.getVerticesOfTriangle p).2.1
    (m.getVerticesOfTriangle p).2.2 ray.m_vOrigin ray.m_vDirection tmin tmax true

/-- The finite value `t` is not below the lower end and not above the upper
end of `iv`, in the sense of the comparisons of the code (a NaN end does not
bound). -/
def XFloat.Within (iv : XFloat × XFloat) (t : ℚ) : Prop :=
  XFloat.lt (XFloat.fin t) iv.1 = false ∧ XFloat.lt iv.2 (XFloat.fin t) = false

/-- Specification of a closest-hit query over the triangles selected by `S`,
started with the bound `tmax` and the record `I`: a result `res` with a false
flag leaves bound and record unchanged and no selected triangle is accepted; a
result with a true flag records an accepted selected triangle, sets the bound
to its `t`, and no selected triangle is accepted at a smaller `t`. -/
def Mesh.ClosestIn (m : Mesh) (ray : Ray) (tmin : XFloat) (S : Nat → Prop) (tmax : XFloat)
    (I : Intersection) (res : Bool × XFloat × Intersection) : Prop :=
  (res.1 = false → res.2.1 = tmax ∧ res.2.2 = I ∧
    ∀ p, S p → m.triangleHit ray p tmin tmax = none) ∧
  (res.1 = true → ∃ p h, S p ∧ m.triangleHit ray p tmin tmax = some h ∧
    res.2.1 = XFloat.fin h.t ∧ res.2.2 = I.setMesh m p h.t h.u h.v ∧
    ∀ q h', S q → m.triangleHit ray q tmin tmax = some h' → h.t ≤ h'.t)

/-! ## Example data for the witnesses -/

/-- A sorting routine that can stand for `sort_r`: insertion sort with the
order "the comparison is not positive". -/
def exampleSort (l : List IndexTriple) (cmp : IndexTriple → IndexTriple → Int) :
    List IndexTriple :=
  l.insertionSort (fun a b => cmp a b ≤ 0)

/-- Mesh with the single triangle `(0,0,0) (1,0,0) (0,1,0)`, before `buildBVH`. -/
def exampleMesh1 : Mesh :=
  { m_sName := "one", m_vBbox := [], m_pMaterial := none,
    m_IndexBuffer := [0, 1, 2],
    m_VertexBuffer := [0, 0, 0, 1, 0, 0, 0, 1, 0],
    m_NormalBuffer := [] }

/-- Mesh with eight copies of the triangle `(0,0,0) (1,0,0) (0,1,0)`, before
`buildBVH`. -/
def exampleMesh8 : Mesh :=
  { m_sName := "eight", m_vBbox := [], m_pMaterial := none,
    m_IndexBuffer := [0, 1, 2, 0, 1, 2, 0, 1, 2, 0, 1, 2, 0, 1, 2, 0, 1, 2, 0, 1, 2, 0, 1, 2],
    m_VertexBuffer := [0, 0, 0, 1, 0, 0, 0, 1, 0],
    m_NormalBuffer := [] }

/-- The ray from `(1/4, 1/4, 1)` along `-z`, which meets the example triangle
at `t = 1`. -/
def exampleRay : Ray :=
  Ray.mk3 0 ⟨1/4, 1/4, 1⟩ ⟨0, 0, -1⟩

/-! ## Instrumented traversal of the scene graph

The traversal of `Node::intersectRay` with a log: one event per mesh query,
in the order of the calls, holding the pointer of the node and the result of
its mesh query. -/

/-- Event of the traversal: the node and the result `(flag, tmax, record)` of
the query of its mesh. -/
abbrev Node.Event := Nat × (Bool × XFloat × Intersection)

/-- The query of the own mesh with its event. -/
def Node.intersectOwnMeshTraced (meshes : List Mesh) (pNode : Nat) (node : Node) (rayLocal : Ray)
    (rIntersection : Intersection) (tmin tmax : XFloat) :
    Option (Mesh.ScanState × List Node.Event) :=
  match node.m_pMesh with
  | none => some ((0, tmax, rIntersection), [])
  | some pMesh =>
    match meshes.get? pMesh with
    | none => none
    | some mesh =>
      let r := mesh.intersectRay rayLocal rIntersection tmin tmax 0
      if r.1 then some ((1, r.2.1, r.2.2.setNodeNumber node.m_uNodeNumber), [(pNode, r)])
      else some ((0, r.2.1, r.2.2), [(pNode, r)])

/-- The loop over the children with the events of the children appended. -/
def Node.childrenLoopTraced
    (call : Nat → Intersection → XFloat →
      Option ((Bool × XFloat × Intersection) × List Node.Event)) :
    List Nat → Mesh.ScanState × List Node.Event → Option (Mesh.ScanState × List Node.Event)
  | [], st => some st
  | pChildNode :: rest, st =>
    match call pChildNode st.1.2.2 st.1.2.1 with
    | none => none
    | some r =>
      Node.childrenLoopTraced call rest
        ((st.1.1 + (if r.1.1 then 1 else 0), r.1.2.1, r.1.2.2), st.2 ++ r.2)

/-- The traversal of `Node.intersectRay` together with its events. -/
def Node.intersectRayTraced (meshes : List Mesh) (nodes : List Node) :
    Nat → Nat → Ray → Intersection → XFloat → XFloat →
      Option ((Bool × XFloat × Intersection) × List Node.Event)
  | 0, _, _, _, _, _ => none
  | fuel + 1, pNode, ray, rIntersection, tmin, tmax =>
    match nodes.get? pNode with
    | none => none
    | some node =>
      let rayLocal := node.m_transformation.transformRayToLocal ray
      match Node.intersectOwnMeshTraced meshes pNode node rayLocal rIntersection tmin tmax with
      | none => none
      | some st0 =>
        match Node.childrenLoopTraced
            (fun pChildNode I t =>
              Node.intersectRayTraced meshes nodes fuel pChildNode rayLocal I tmin t)
            node.m_pChildren st0 with
        | none => none
        | some st => some ((decide (st.1.1 ≠ 0), st.1.2.1, st.1.2.2), st.2)

/-- The node `j` is the node `i` or one of its descendants. -/
inductive Node.Reaches (nodes : List Node) : Nat → Nat → Prop where
  | refl (i : Nat) : Node.Reaches nodes i i
  | step (i c j : Nat) (node : Node) (hn : nodes.get? i = some node)
      (hc : c ∈ node.m_pChildren) (h : Node.Reaches nodes c j) : Node.Reaches nodes i j

/-- The last event of the log whose mesh query returned true. -/
def Node.lastHit (events : List Node.Event) : Option Node.Event :=
  (events.filter (fun e => e.2.1)).getLast?

/-- The mesh query either returns false and leaves bound and record as they
are, or returns true and records an accepted triangle with its `t`. -/
def Mesh.Recorded (m : Mesh) (ray : Ray) (tmin tmax : XFloat) (I : Intersection)
    (res : Bool × XFloat × Intersection) : Prop :=
  (res.1 = false → res.2.1 = tmax ∧ res.2.2 = I) ∧
  (res.1 = true → ∃ p h, m.triangleHit ray p tmin tmax = some h ∧
    res.2.1 = XFloat.fin h.t ∧ res.2.2 = I.setMesh m p h.t h.u h.v)

/-- Relation between the start values `tmax0`, `I0` of a traversal, its result
`st` and its log: the flag is true exactly when some logged mesh query returned
true; a false flag leaves bound and record unchanged; with a true flag the
record is the one of the last successful mesh query, stamped with the number
of its node, and the bound is the one that query ended with. -/
def Node.TraceOK (nodes : List Node) (tmax0 : XFloat) (I0 : Intersection)
    (st : Bool × XFloat × Intersection) (events : List Node.Event) : Prop :=
  (st.1 = true ↔ ∃ e ∈ events, e.2.1 = true) ∧
  (st.1 = false → st.2.1 = tmax0 ∧ st.2.2 = I0) ∧
  (st.1 = true → ∃ e X, Node.lastHit events = some e ∧ nodes.get? e.1 = some X ∧
    st.2.2 = e.2.2.2.setNodeNumber X.m_uNodeNumber ∧ st.2.1 = e.2.2.1)

/-- The two-level hierarchy: a root node (number 0) with transformation `Tr`
and no mesh, and its only child (number 1) with transformation `Tc` carrying
the only mesh. -/
def twoLevelAsset (Tr Tc : Transformation) (mesh : Mesh) : AssetGeometry :=
  { m_vpMeshes := [mesh],
    m_vpNodes :=
      [{ m_sName := "root", m_uNodeNumber := 0, m_transformation := Tr, m_pMesh := none,
         m_pParent := none, m_pChildren := [1] },
       { m_sName := "child", m_uNodeNumber := 1, m_transformation := Tc, m_pMesh := some 0,
         m_pParent := some 0, m_pChildren := [] }],
    m_viSceneNodes := [0] }

/-- The event is the result of `Mesh::intersectRay` (with the lower bound
`tmin`) on the mesh of the node that the event names. -/
def Node.IsMeshQuery (meshes : List Mesh) (nodes : List Node) (tmin : XFloat)
    (e : Node.Event) : Prop :=
  ∃ (X : Node) (k : Nat) (mesh : Mesh) (rayLocal : Ray) (I : Intersection) (t : XFloat),
    nodes.get? e.1 = some X ∧ X.m_pMesh = some k ∧ meshes.get? k = some mesh ∧
    e.2 = mesh.intersectRay rayLocal I tmin t 0

/-! ## Parent chains and the transformation composed along them -/

/-- The transformation of the node with index `i` (the identity for an index
without node). -/
def Node.transformationAt (nodes : List Node) (i : Nat) : Transformation :=
  match nodes.get? i with
  | some X => X.m_transformation
  | none => Transformation.Identity

/-- The nested product `T_i.apply(T_c.apply(... T_end))` of the transformations
of the nodes `i`, then `path`, from the first node down to the last. -/
def Node.pathTransformation (nodes : List Node) : Nat → List Nat → Transformation
  | i, [] => Node.transformationAt nodes i
  | i, c :: rest =>
    (Node.transformationAt nodes i).apply (Node.pathTransformation nodes c rest)

/-- The last node of the chain `i`, then `path`. -/
def Node.pathEnd : Nat → List Nat → Nat
  | i, [] => i
  | _, c :: rest => Node.pathEnd c rest

/-- The nodes `i`, then `path`, are linked by their parent pointers: the
parent pointer of `i` is `p`, and the parent pointer of every later node is
the node before it. -/
def Node.IsParentChain (nodes : List Node) : Option Nat → Nat → List Nat → Prop
  | p, i, [] => ∃ X, nodes.get? i = some X ∧ X.m_pParent = p
  | p, i, c :: rest =>
    (∃ X, nodes.get? i = some X ∧ X.m_pParent = p) ∧ Node.IsParentChain nodes (some i) c rest

/-- The point `(1-u-v)*V0 + u*V1 + v*V2` of triangle `uTriangleIndex` in the
coordinates of the mesh. -/
def Mesh.hitPoint (m : Mesh) (uTriangleIndex : Nat) (u v : ℚ) : Vector3 :=
  ((Vector3.smul (1 - u - v) (m.getVerticesOfTriangle uTriangleIndex).1).add
    (Vector3.smul u (m.getVerticesOfTriangle uTriangleIndex).2.1)).add
    (Vector3.smul v (m.getVerticesOfTriangle uTriangleIndex).2.2)

/-- The record `I` holds a hit of the traversal started at the node `top`
(whose parent pointer is `p`) with the ray `ray`: a parent chain of fewer than
`fuel` steps leads from `top` to the node whose number is recorded, the mesh
of that node is recorded, and `intersectRayTriangle` accepts the recorded
triangle with the recorded `t`, `u`, `v` for `ray` transformed to local
coordinates by the transformation composed along the chain. -/
def Node.HitBelow (meshes : List Mesh) (nodes : List Node) (fuel : Nat) (p : Option Nat)
    (top : Nat) (ray : Ray) (tmin : XFloat) (I : Intersection) : Prop :=
  ∃ (path : List Nat) (X : Node) (k : Nat) (mesh : Mesh) (h : TriangleHit) (tm : XFloat),
    path.length < fuel ∧ Node.IsParentChain nodes p top path ∧
    nodes.get? (Node.pathEnd top path) = some X ∧ X.m_pMesh = some k ∧
    meshes.get? k = some mesh ∧ I.m_uNodeNumber = X.m_uNodeNumber ∧ I.m_pMesh = some mesh ∧
    I.m_t = some h.t ∧ I.m_u = some h.u ∧ I.m_v = some h.v ∧
    mesh.triangleHit ((Node.pathTransformation nodes top path).transformRayToLocal ray)
      I.m_uTriangleIndex tmin tm = some h

/-- The invariants of a loaded scene graph, with a rank that bounds the depth:
the number of a node is its index, children have a smaller rank and point back
to the node as their parent, mesh pointers are resolved, the cached inverse of
every node transformation is correct, and the scene nodes have no parent and a
rank below `fuel`. -/
def AssetGeometry.WellFormed (g : AssetGeometry) (rank : Nat → Nat) (fuel : Nat) : Prop :=
  (∀ i X, g.m_vpNodes.get? i = some X →
    X.m_uNodeNumber = i ∧
    (∀ c ∈ X.m_pChildren, rank c < rank i ∧
      ∃ C, g.m_vpNodes.get? c = some C ∧ C.m_pParent = some i) ∧
    (∀ k, X.m_pMesh = some k → k < g.m_vpMeshes.length) ∧
    X.m_transformation.InverseCorrect) ∧
  (∀ s ∈ g.m_viSceneNodes, rank s < fuel ∧
    ∃ X, g.m_vpNodes.get? s = some X ∧ X.m_pParent = none)

/-- An instance of the two-level hierarchy over the built example mesh of
eight triangles: placement by a translation along `z`, root translated along
`x`, child not transformed. -/
def exampleInstance : AssetInstance :=
  { m_transformation := Transformation.Translation ⟨0, 0, 1⟩,
    m_pAssetGeometry := twoLevelAsset (Transformation.Translation ⟨1, 0, 0⟩)
      Transformation.Identity (exampleMesh8.buildBVH exampleSort) }

/-- The world ray from `(5/4, 1/4, 2)` along `-z`, which meets the example
instance. -/
def exampleInstanceRay : Ray :=
  Ray.mk3 0 ⟨5/4, 1/4, 2⟩ ⟨0, 0, -1⟩

/-- Mesh with 32 triangles in a row along `x`: triangle `k` is the triangle
`(0,0,0) (1,0,0) (0,1,0)` moved by `62 - 2*k` along `x`, so the triangles are
stored from the largest `x` to the smallest; before `buildBVH`. -/
def exampleMesh32 : Mesh :=
  { m_sName := "row", m_vBbox := [], m_pMaterial := none,
    m_IndexBuffer := List.range 96,
    m_VertexBuffer := (List.range 32).flatMap
      (fun k => [62 - 2 * (k : ℚ), 0, 0, 63 - 2 * (k : ℚ), 0, 0, 62 - 2 * (k : ℚ), 1, 0]),
    m_NormalBuffer := [] }

/-- The ray from `(46 + 1/4, 1/4, 1)` along `-z`, which meets triangle 8 of the
row of 32 triangles at `t = 1`. -/
def exampleRay32 : Ray :=
  Ray.mk3 0 ⟨185/4, 1/4, 1⟩ ⟨0, 0, -1⟩

/-- The row of 32 triangles with the boxes `bs`. -/
def exampleMesh32With (bs : List BBox) : Mesh :=
  { exampleMesh32 with m_vBbox := bs }

/-- The boxes that `buildBVH` computes for the row of 32 triangles: the boxes
of the ranges of the tree positions `0 .. 6`. -/
def exampleBoxes32 : List BBox :=
  (List.range 7).map (fun u =>
    ⟨(exampleMesh32.rangeBounds (Mesh.treeRange 32 u).1
        ((Mesh.treeRange 32 u).2 + 1 - (Mesh.treeRange 32 u).1)).1,
     (exampleMesh32.rangeBounds (Mesh.treeRange 32 u).1
        ((Mesh.treeRange 32 u).2 + 1 - (Mesh.treeRange 32 u).1)).2⟩)

/-! ## Functions of the C++ library and constants (`constants.h`)

The functions of `<cmath>`, `<complex>` and `<random>` that the code calls
are not part of the repository. They are the fields of `Libm`; a theorem that
needs a property of one of them states it as a hypothesis. -/

/-- Complex number `std::complex<Float>` with rational parts. -/
structure Complex where
  re : ℚ
  im : ℚ
  deriving DecidableEq, Repr

namespace Complex

/-- Product of two complex numbers. -/
def mul (a b : Complex) : Complex :=
  ⟨a.re * b.re - a.im * b.im, a.re * b.im + a.im * b.re⟩

/-- Sum of two complex numbers. -/
def add (a b : Complex) : Complex :=
  ⟨a.re + b.re, a.im + b.im⟩

/-- Difference of two complex numbers. -/
def sub (a b : Complex) : Complex :=
  ⟨a.re - b.re, a.im - b.im⟩

/-- Quotient of two complex numbers. -/
def div (a b : Complex) : Complex :=
  ⟨(a.re * b.re + a.im * b.im) / (b.re * b.re + b.im * b.im),
   (a.im * b.re - a.re * b.im) / (b.re * b.re + b.im * b.im)⟩

/-- Product `z * c` with a real number. -/
def mulReal (z : Complex) (c : ℚ) : Complex :=
  ⟨z.re * c, z.im * c⟩

/-- Difference `z - c` with a real number. -/
def subReal (z : Complex) (c : ℚ) : Complex :=
  ⟨z.re - c, z.im⟩

/-- Difference `c - z` of a real number and a complex number. -/
def realSub (c : ℚ) (z : Complex) : Complex :=
  ⟨c - z.re, -z.im⟩

/-- Sum `c + z` of a real number and a complex number. -/
def realAdd (c : ℚ) (z : Complex) : Complex :=
  ⟨c + z.re, z.im⟩

/-- Quotient `c / z` of a real number by a complex number. -/
def realDiv (c : ℚ) (z : Complex) : Complex :=
  ⟨c * z.re / (z.re * z.re + z.im * z.im), -(c * z.im) / (z.re * z.re + z.im * z.im)⟩

/-- Complex conjugate. -/
def conj (z : Complex) : Complex :=
  ⟨z.re, -z.im⟩

end Complex

/-- The library functions used by the code: the square root, the complex
square root, `hypot`, the trigonometric functions, and the stream of values
that the random generator hands to `std::uniform_real_distribution` (value
number `n` of the stream, in `[0,1)`). -/
structure Libm where
  sqrt : ℚ → ℚ
  csqrt : Complex → Complex
  hypot : ℚ → ℚ → ℚ
  tan : ℚ → ℚ
  cos : ℚ → ℚ
  sin : ℚ → ℚ
  canonical : Nat → ℚ

/-- The constant `M_PI` of `constants.h`. -/
def M_PI : ℚ := 3141592653589793 / 1000000000000000

/-- Speed of light `PhysicalConstants::c`. -/
def PhysicalConstants.c : ℚ := 299792458

/-- What ends a call other than a return: the exceptions of `exceptions.h`
and of the standard library, and `undefined` for behaviour that C++ leaves
undefined (a dereferenced null or dangling pointer). -/
inductive Fault where
  | RuntimeError
  | ValueError
  | NotImplementedError
  | GltfError
  | out_of_range
  | undefined
  deriving DecidableEq, Repr

namespace Vector3

/-- Square of the Euclidean length. -/
def length2 (v : Vector3) : ℚ :=
  v.x * v.x + v.y * v.y + v.z * v.z

/-- Euclidean length `std::sqrt(length2())`. -/
def length (L : Libm) (v : Vector3) : ℚ :=
  L.sqrt v.length2

/-- Normalized vector: every component times `1/length()`. -/
def normalize (L : Libm) (v : Vector3) : Vector3 :=
  let inv := 1 / v.length L
  ⟨inv * v.x, inv * v.y, inv * v.z⟩

end Vector3

/-- Matrix `(a,b,c)` with the column vectors `a`, `b`, `c`. -/
def Matrix3x3.ofColumns (a b c : Vector3) : Matrix3x3 :=
  ⟨a.x, b.x, c.x, a.y, b.y, c.y, a.z, b.z, c.z⟩

/-- Transform normal from local to world coordinates. -/
def Transformation.transformNormalToWorld (L : Libm) (T : Transformation) (vNormal : Vector3) :
    Vector3 :=
  (T.m_mInv.applyTransposed vNormal).normalize L

/-- Transform normal from world to local coordinates. -/
def Transformation.transformNormalToLocal (L : Libm) (T : Transformation) (vNormal : Vector3) :
    Vector3 :=
  (T.m_m.applyTransposed vNormal).normalize L

/-! ## Spectra and the objects created with `new` (`spectrum.h`) -/

/-- The wavelengths `pfRGBWavelengths` of red, green and blue light. -/
def pfRGBWavelengths : List ℚ := [650 / 1000000000, 510 / 1000000000, 440 / 1000000000]

/-- RGB spectrum: one value each for red, green and blue. -/
structure SpectrumRGB where
  m_pfRGB0 : ℚ
  m_pfRGB1 : ℚ
  m_pfRGB2 : ℚ
  deriving DecidableEq, Repr

namespace SpectrumRGB

/-- Multiply the spectrum by the values for red, green and blue. -/
def multiply (s : SpectrumRGB) (fRed fGreen fBlue : ℚ) : SpectrumRGB :=
  ⟨s.m_pfRGB0 * fRed, s.m_pfRGB1 * fGreen, s.m_pfRGB2 * fBlue⟩

/-- The values for red, green and blue. -/
def toRGB (s : SpectrumRGB) : ℚ × ℚ × ℚ :=
  (s.m_pfRGB0, s.m_pfRGB1, s.m_pfRGB2)

/-- Number of elements of the spectrum. -/
def size (_ : SpectrumRGB) : Nat := 3

/-- Value `m_pfRGB[i]`, the second part of `operator[]`. -/
def value (s : SpectrumRGB) (i : Nat) : ℚ :=
  match i with
  | 0 => s.m_pfRGB0
  | 1 => s.m_pfRGB1
  | _ => s.m_pfRGB2

/-- Write through the reference that `operator[]` returns as second part. -/
def setValue (s : SpectrumRGB) (i : Nat) (v : ℚ) : SpectrumRGB :=
  match i with
  | 0 => { s with m_pfRGB0 := v }
  | 1 => { s with m_pfRGB1 := v }
  | _ => { s with m_pfRGB2 := v }

end SpectrumRGB

/-- The spectra created with `new SpectrumRGB`: the pointer to a spectrum is
its position, and a deleted spectrum leaves `none` behind. -/
abbrev Heap := List (Option SpectrumRGB)

namespace Heap

/-- The expression `new SpectrumRGB(...)`: the new pointer and the new heap. -/
def alloc (h : Heap) (s : SpectrumRGB) : Nat × Heap :=
  (h.length, h ++ [some s])

/-- Read through a pointer; a null pointer or a pointer to a deleted
spectrum is undefined. -/
def read (h : Heap) (p : Option Nat) : Except Fault SpectrumRGB :=
  match p with
  | none => Except.error Fault.undefined
  | some a =>
    match h.get? a with
    | some (some s) => Except.ok s
    | _ => Except.error Fault.undefined

/-- Write through a valid pointer. -/
def write (h : Heap) (a : Nat) (s : SpectrumRGB) : Heap :=
  h.set a (some s)

/-- The statement `delete p` for a valid pointer. -/
def delete (h : Heap) (a : Nat) : Heap :=
  h.set a none

end Heap

namespace Ray

/-- Pointer to the `SpectrumRGB` payload; throws when the ray is not of type
`RAY_RGB_UNPOLARIZED`. -/
def getDataRGBUnpolarized (r : Ray) : Except Fault (Option Nat) :=
  if r.m_eType ≠ e_rayType.RAY_RGB_UNPOLARIZED then Except.error Fault.RuntimeError
  else Except.ok r.m_pType

/-- Set the pointer to the `SpectrumRGB` payload. -/
def setDataRGBUnpolarized (r : Ray) (pSpectrum : Option Nat) : Ray :=
  { r with m_eType := e_rayType.RAY_RGB_UNPOLARIZED, m_pType := pSpectrum }

/-- Create a bounced ray: same id, one bounce more, the optical path length
raised by `fDeltaOpticalPathLength`. -/
def bounce (r : Ray) (rv3fOrigin rv3fDirection : Vector3) (fDeltaOpticalPathLength : ℚ) : Ray :=
  { Ray.mk3 r.m_uId rv3fOrigin rv3fDirection with
    m_iBounces := r.m_iBounces + 1
    m_fOpticalPathLength := r.m_fOpticalPathLength + fDeltaOpticalPathLength }

end Ray

/-! ## Interpolation of tabulated functions (`interpolation.h`) -/

/-- Available types for interpolation. -/
inductive e_interpolationType where
  | INTERPOLATION_STEP
  | INTERPOLATION_NEAREST
  | INTERPOLATION_LINEAR
  deriving DecidableEq, Repr

/-- Interpolation of a function `y = f(x)` from data points `(x_j, y_j)`. -/
structure Interpolation where
  m_data : List (ℚ × ℚ)
  m_interpolationType : e_interpolationType
  deriving DecidableEq, Repr

namespace Interpolation

/-- The default-constructed object: no points, linear interpolation. -/
def default : Interpolation :=
  ⟨[], e_interpolationType.INTERPOLATION_LINEAR⟩

instance : Inhabited Interpolation := ⟨Interpolation.default⟩

/-- Data point `m_data[i]` for an `int` index. -/
def point (I : Interpolation) (i : Int) : ℚ × ℚ :=
  I.m_data.getD i.toNat (0, 0)

/-- The binary search of `_get`: the loop
`while((indexRight-indexLeft) > 1)`, returning the final pair of indices. -/
def search (I : Interpolation) (x : ℚ) (indexLeft indexRight : Int) : Int × Int :=
  if h : indexRight - indexLeft > 1 then
    let indexMiddle := (indexLeft + indexRight) / 2
    if x < (I.point indexMiddle).1 then I.search x indexLeft indexMiddle
    else I.search x indexMiddle indexRight
  else (indexLeft, indexRight)
termination_by (indexRight - indexLeft).toNat
decreasing_by
  all_goals simp_wf
  all_goals omega

/-- Internal function for interpolation. -/
def _get (I : Interpolation) (x : ℚ) : ℚ :=
  let lr := I.search x 0 ((I.m_data.length : Int) - 1)
  let indexLeft := lr.1
  let indexRight := lr.2
  match I.m_interpolationType with
  | e_interpolationType.INTERPOLATION_LINEAR =>
    let delta_x := (I.point indexRight).1 - (I.point indexLeft).1
    let delta_y := (I.point indexRight).2 - (I.point indexLeft).2
    (I.point indexLeft).2 + (x - (I.point indexLeft).1) * delta_y / delta_x
  | e_interpolationType.INTERPOLATION_STEP => (I.point indexLeft).2
  | e_interpolationType.INTERPOLATION_NEAREST =>
    if (I.point indexRight).1 - x < x - (I.point indexLeft).1 then (I.point indexRight).2
    else (I.point indexLeft).2

/-- Set type of interpolation. -/
def setInterpolationType (I : Interpolation) (interpolationType : e_interpolationType) :
    Interpolation :=
  { I with m_interpolationType := interpolationType }

/-- Add point `(x,y)`. -/
def addPoint (I : Interpolation) (x y : ℚ) : Interpolation :=
  { I with m_data := I.m_data ++ [(x, y)] }

/-- Number of points. -/
def size (I : Interpolation) : Nat := I.m_data.length

/-- Sort the data points: `std::sort` with the order of pairs (first parts,
then second parts). -/
def sort (I : Interpolation) : Interpolation :=
  { I with
    m_data := List.insertionSort (fun a b => a.1 < b.1 ∨ (a.1 = b.1 ∧ a.2 ≤ b.2)) I.m_data }

/-- Minimum x value `m_data.front().first`. -/
def xMin (I : Interpolation) : ℚ := (I.m_data.headD (0, 0)).1

/-- Maximum x value `m_data.back().first`. -/
def xMax (I : Interpolation) : ℚ := (I.m_data.getLastD (0, 0)).1

/-- Interpolated value at `x`; a `ValueError` is thrown outside of the
interpolation domain. -/
def get (I : Interpolation) (x : ℚ) : Except Fault ℚ :=
  if I.m_data.length = 0 then Except.error Fault.ValueError
  else if I.m_data.length = 1
      ∧ I.m_interpolationType = e_interpolationType.INTERPOLATION_LINEAR then
    Except.error Fault.ValueError
  else if x < I.xMin then Except.error Fault.ValueError
  else if x > I.xMax then Except.error Fault.ValueError
  else Except.ok (I._get x)

/-- True if `x` is in the interpolation domain. -/
def contains (I : Interpolation) (x : ℚ) : Bool :=
  !(decide (I.m_data.length = 0) || decide (x < I.xMin) || decide (x > I.xMax))

/-- Interpolated value at `x`, or `notFoundItem` outside of the domain. -/
def getOr (I : Interpolation) (x notFoundItem : ℚ) : ℚ :=
  if I.m_data.length = 0 ∨ x < I.xMin ∨ x > I.xMax then notFoundItem else I._get x

end Interpolation

/-! ## Index of refraction data (`assetmaterialior.h`, `assetmaterial.h`) -/

/-- Data of one temperature: the tables for `n` and `k` with their common
range of wavelengths, and the data of the Lorentz oscillator model with its
range. -/
structure ior_data_t where
  fTemperature : ℚ
  interpolationN : Interpolation
  interpolationK : Interpolation
  fIorMin : ℚ
  fIorMax : ℚ
  vLoData : List ℚ
  fLOMin : ℚ
  fLOMax : ℚ
  deriving DecidableEq, Repr

/-- The default-initialised data of one temperature. -/
def ior_data_t.default : ior_data_t :=
  ⟨0, Interpolation.default, Interpolation.default, 0, 0, [], 0, 0⟩

instance : Inhabited ior_data_t := ⟨ior_data_t.default⟩

/-- Index of refraction asset: the data for the available temperatures. -/
structure AssetMaterialIor where
  m_iorData : List ior_data_t
  deriving DecidableEq, Repr

namespace AssetMaterialIor

/-- One pass of the loop of `find_closest`: `(index, delta)` after looking at
the entry `i`. -/
def closestStep (m : AssetMaterialIor) (fTemp : ℚ) (st : Nat × ℚ) (i : Nat) : Nat × ℚ :=
  let delta_i := |(m.m_iorData.getD i ior_data_t.default).fTemperature - fTemp|
  if delta_i < st.2 then (i, delta_i) else st

/-- Find index of the temperature closest to `fTemp`; `at(0)` throws for an
empty list. -/
def find_closest (m : AssetMaterialIor) (fTemp : ℚ) : Except Fault Nat :=
  match m.m_iorData with
  | [] => Except.error Fault.out_of_range
  | d0 :: _ =>
    Except.ok (((List.range (m.m_iorData.length - 1)).map (· + 1)).foldl
      (m.closestStep fTemp) (0, |d0.fTemperature - fTemp|)).1

/-- One pass of the loop of the Lorentz oscillator model for oscillator `i`. -/
def loStep (data : ior_data_t) (omega omega2 : ℚ) (eps : Complex) (i : Nat) : Complex :=
  let omegap2 := data.vLoData.getD (3 * i + 0) 0
  let omega1 := data.vLoData.getD (3 * i + 1) 0
  let gamma := data.vLoData.getD (3 * i + 2) 0
  let imag : Complex := ⟨0, 1⟩
  eps.add (Complex.realDiv omegap2
    ((Complex.realSub omega1 ((imag.mulReal omega).mulReal gamma)).subReal omega2))

/-- Index of refraction for temperature `fTemp` and wavelength `wl`: the
result is `(temperature of the data, n, k)`. -/
def getIor (L : Libm) (m : AssetMaterialIor) (fTemp wl : ℚ) : Except Fault (ℚ × ℚ × ℚ) :=
  match m.find_closest fTemp with
  | Except.error e => Except.error e
  | Except.ok index =>
    let data := m.m_iorData.getD index ior_data_t.default
    if data.fIorMin ≤ wl ∧ wl ≤ data.fIorMax then
      match data.interpolationN.get wl with
      | Except.error e => Except.error e
      | Except.ok n =>
        match data.interpolationK.get wl with
        | Except.error e => Except.error e
        | Except.ok k => Except.ok (data.fTemperature, n, k)
    else if data.fLOMin ≤ wl ∧ wl ≤ data.fLOMax then
      let omega := (2 * M_PI * PhysicalConstants.c) / wl
      let omega2 := omega * omega
      let eps := (List.range (data.vLoData.length / 3)).foldl (loStep data omega omega2)
        (⟨1, 0⟩ : Complex)
      let eps_real := eps.re
      let eps_imag := eps.im
      let s := L.hypot eps_real eps_imag
      Except.ok (data.fTemperature, L.sqrt (1/2 * (s + eps_real)),
        L.sqrt (1/2 * (s - eps_real)))
    else Except.error Fault.RuntimeError

end AssetMaterialIor

/-- Material asset: the fields read by the material model, the temperature and
the pointer to the index of refraction data (may be a null pointer). -/
structure AssetMaterial where
  m_fTemperature : ℚ
  m_pMaterialIor : Option AssetMaterialIor
  deriving DecidableEq, Repr

/-! ## Normals of a mesh and accessors of the intersection record -/

namespace Mesh

/-- Normal `Vector3(&pNormalBuffer[3*i])`. -/
def normal (m : Mesh) (i : Nat) : Vector3 :=
  ⟨m.m_NormalBuffer.getD (3 * i) 0, m.m_NormalBuffer.getD (3 * i + 1) 0,
   m.m_NormalBuffer.getD (3 * i + 2) 0⟩

/-- The three vertex normals of a triangle, or `none` (the return value
`false`) when the mesh has no normals. -/
def getNormalsOfTriangle (m : Mesh) (uTriangleIndex : Nat) :
    Option (Vector3 × Vector3 × Vector3) :=
  if m.m_NormalBuffer.isEmpty then none
  else some (m.normal (m.m_IndexBuffer.getD (3 * uTriangleIndex + 0) 0),
    m.normal (m.m_IndexBuffer.getD (3 * uTriangleIndex + 1) 0),
    m.normal (m.m_IndexBuffer.getD (3 * uTriangleIndex + 2) 0))

/-- Flat normal of a triangle. -/
def getFlatNormal (L : Libm) (m : Mesh) (uTriangleIndex : Nat) : Vector3 :=
  let V := m.getVerticesOfTriangle uTriangleIndex
  let E0 := V.2.1.sub V.1
  let E1 := V.2.2.sub V.1
  (E0.cross E1).normalize L

/-- Normal of a triangle at the barycentric coordinates `u`, `v`: interpolated
from the vertex normals when they are present, else the flat normal. -/
def getNormal (L : Libm) (m : Mesh) (uTriangleIndex : Nat) (u v : ℚ) : Vector3 :=
  match m.getNormalsOfTriangle uTriangleIndex with
  | some N =>
    (((Vector3.smul (1 - u - v) N.1).add (Vector3.smul u N.2.1)).add
      (Vector3.smul v N.2.2)).normalize L
  | none => m.getFlatNormal L uTriangleIndex

end Mesh

namespace Intersection

/-- Normal at the intersection point in world coordinates. The record of a
hit has a mesh and coordinates; without them (null mesh pointer, `NAN`) the
call is outside of the model. -/
def getNormal (L : Libm) (I : Intersection) : Except Fault Vector3 :=
  match I.m_pMesh, I.m_u, I.m_v with
  | some mesh, some u, some v =>
    Except.ok (I.m_transformation.transformNormalToWorld L
      (mesh.getNormal L I.m_uTriangleIndex u v))
  | _, _, _ => Except.error Fault.undefined

/-- Flat normal at the intersection point in world coordinates. -/
def getFlatNormal (L : Libm) (I : Intersection) : Except Fault Vector3 :=
  match I.m_pMesh with
  | some mesh =>
    Except.ok (I.m_transformation.transformNormalToWorld L
      (mesh.getFlatNormal L I.m_uTriangleIndex))
  | none => Except.error Fault.undefined

/-- Separation from the origin of the ray to the intersection point. -/
def getSeparation (I : Intersection) : Option ℚ := I.m_t

/-- Pointer to the material of the mesh of the record. -/
def getMaterial (I : Intersection) : Except Fault (Option Nat) :=
  match I.m_pMesh with
  | some mesh => Except.ok mesh.m_pMaterial
  | none => Except.error Fault.undefined

end Intersection

/-! ## Specular material model (`materialmodels/common.cpp`,
`materialmodels/specular.cpp`) -/

/-- Reflection at a plane surface: the reflectances `(fTermP, fTermS)` for
p-polarized and s-polarized light. -/
def fresnelReflection (L : Libm) (fN : Complex) (fCosTheta : ℚ) : ℚ × ℚ :=
  let fN2 := fN.mul fN
  let fCos2Theta := fCosTheta * fCosTheta
  let fSin2Theta := 1 - fCos2Theta
  let fNumerator_p := (fN2.mulReal fCosTheta).sub (L.csqrt (fN2.subReal fSin2Theta))
  let fDenominator_p := (fN2.mulReal fCosTheta).add (L.csqrt (fN2.subReal fSin2Theta))
  let ratio_p := fNumerator_p.div fDenominator_p
  let fTermP := (ratio_p.mul ratio_p.conj).re
  let fNumerator_s := Complex.realSub fCosTheta (L.csqrt (fN2.subReal fSin2Theta))
  let fDenominator_s := Complex.realAdd fCosTheta (L.csqrt (fN2.subReal fSin2Theta))
  let ratio_s := fNumerator_s.div fDenominator_s
  let fTermS := (ratio_s.mul ratio_s.conj).re
  (fTermP, fTermS)

/-- Compute the reflection of an incident vector at a plane. -/
def reflect (L : Libm) (vIncident vNormal : Vector3) : Vector3 :=
  (vIncident.sub (Vector3.smul (2 * vNormal.dot vIncident) vNormal)).normalize L

/-- Specular material model; the flag for the diagnostic output is left out
with the output. -/
structure MaterialModelSpecular where
  m_applyFlippedNormalCorrection : Bool
  deriving DecidableEq, Repr

namespace MaterialModelSpecular

/-- The object after construction: the correction of flipped normals is
enabled. -/
def default : MaterialModelSpecular := ⟨true⟩

/-- The normal and the cosine of the incidence angle that `bounce` uses:
`none` stands for the early `return {}`. -/
def incidence (L : Libm) (M : MaterialModelSpecular) (vIncident : Vector3)
    (crIntersection : Intersection) : Except Fault (Option (Vector3 × ℚ)) :=
  match crIntersection.getNormal L with
  | Except.error e => Except.error e
  | Except.ok vNormal =>
    let fCosIncidenceAngle := -(vIncident.dot vNormal)
    if fCosIncidenceAngle > 1 then Except.ok (some (vNormal, 1))
    else if fCosIncidenceAngle < 0 then
      match crIntersection.getFlatNormal L with
      | Except.error e => Except.error e
      | Except.ok vNormalFlat =>
        let fCosFlat := -(vIncident.dot vNormalFlat)
        if fCosFlat < 0 then
          if M.m_applyFlippedNormalCorrection then Except.ok (some (vNormal.neg, fCosFlat))
          else Except.ok none
        else Except.ok (some (vNormal.neg, fCosFlat))
    else Except.ok (some (vNormal, fCosIncidenceAngle))

/-- One pass of the loop over the wavelengths: the radiance of entry `i` of
the spectrum is multiplied by the mean of the two reflectances. -/
def attenuate (L : Libm) (pIor : AssetMaterialIor) (fTemperature fCosIncidenceAngle : ℚ)
    (S : SpectrumRGB) (i : Nat) : Except Fault SpectrumRGB :=
  let fWavelength := pfRGBWavelengths.getD i 0
  let fRadiance := S.value i
  match pIor.getIor L fTemperature fWavelength with
  | Except.error e => Except.error e
  | Except.ok r =>
    let fN : Complex := ⟨r.2.1, r.2.2⟩
    let PS := fresnelReflection L fN fCosIncidenceAngle
    Except.ok (S.setValue i (fRadiance * (PS.2 + PS.1) / 2))

/-- The loop over the wavelengths of the spectrum. -/
def attenuateAll (L : Libm) (pIor : AssetMaterialIor) (fTemperature fCosIncidenceAngle : ℚ) :
    List Nat → SpectrumRGB → Except Fault SpectrumRGB
  | [], S => Except.ok S
  | i :: rest, S =>
    match attenuate L pIor fTemperature fCosIncidenceAngle S i with
    | Except.error e => Except.error e
    | Except.ok S' => attenuateAll L pIor fTemperature fCosIncidenceAngle rest S'

/-- Create bounced rays for the incident ray: the vector of bounced rays and
the heap with the attenuated spectrum. `materials` are the material assets, a
material pointer being a position in it. -/
def bounce (L : Libm) (M : MaterialModelSpecular) (materials : List AssetMaterial)
    (incidentRay : Ray) (crIntersection : Intersection) (heap : Heap) :
    Except Fault (List Ray × Heap) :=
  let vIncident := incidentRay.m_vDirection.normalize L
  match M.incidence L vIncident crIntersection with
  | Except.error e => Except.error e
  | Except.ok none => Except.ok ([], heap)
  | Except.ok (some (vNormal, fCosIncidenceAngle)) =>
    let vReflected :=
      (vIncident.sub (Vector3.smul (2 * vNormal.dot vIncident) vNormal)).normalize L
    match crIntersection.getIntersectionPoint, crIntersection.getSeparation with
    | some vPoint, some t =>
      let reflectedRay := incidentRay.bounce vPoint vReflected t
      match crIntersection.getMaterial with
      | Except.error e => Except.error e
      | Except.ok pMaterial =>
        match pMaterial.bind materials.get? with
        | none => Except.error Fault.undefined
        | some material =>
          match incidentRay.getDataRGBUnpolarized with
          | Except.error e => Except.error e
          | Except.ok pSpectrum =>
            let reflectedRay := reflectedRay.setDataRGBUnpolarized pSpectrum
            match heap.read pSpectrum, pSpectrum, material.m_pMaterialIor with
            | Except.ok S, some a, some pIor =>
              match attenuateAll L pIor material.m_fTemperature fCosIncidenceAngle
                  (List.range S.size) S with
              | Except.error e => Except.error e
              | Except.ok S' => Except.ok ([reflectedRay.copy], heap.write a S')
            | _, _, _ => Except.error Fault.undefined
    | _, _ => Except.error Fault.undefined

end MaterialModelSpecular

/-! ## Sensors, backgrounds, material models (`sensor.h`, `background.h`,
`materialmodel.h`)

The abstract classes are records of the virtual methods; the state of a sensor
is a value of the type `σ`. A method that takes an object by reference returns
the object with its result. A call that ends with a fault returns the fault
only. -/

/-- Abstract sensor: the virtual methods of `Sensor` acting on the state `σ`,
the heap of spectra and the position of the random generator. -/
structure Sensor (σ : Type) where
  getPrimaryRays : σ → Heap → Nat → List Ray × σ × Heap × Nat
  deletePrimaryRays : σ → List Ray → σ
  reportPrimaryRay : σ → Ray → Heap → Except Fault (σ × Ray × Heap)
  isCompatible : σ → Bool → Bool
  callSensor : σ → Bool
  hook : σ → Ray → Intersection → Heap → Except Fault (Bool × σ × Ray × Intersection × Heap)

/-- Abstract background: the method `hit` may change the ray and the spectra. -/
structure Background where
  hit : Ray → Heap → Except Fault (Ray × Heap)

/-- Background that throws a `RuntimeError` (`backgrounds/fatal.h`). -/
def BackgroundFatal : Background :=
  ⟨fun _ _ => Except.error Fault.RuntimeError⟩

/-- Abstract material model: the method `bounce`, and whether the dynamic type
of the object is `MaterialModelSpecular`. -/
structure MaterialModel where
  bounce : Ray → Intersection → Heap → Except Fault (List Ray × Heap)
  typeIsSpecular : Bool

/-- The specular material model as a material model. -/
def MaterialModelSpecular.toMaterialModel (L : Libm) (M : MaterialModelSpecular)
    (materials : List AssetMaterial) : MaterialModel :=
  ⟨M.bounce L materials, true⟩

/-! ## Thin lens camera (`sensors/camera.cpp`, `random.h`) -/

namespace Random

/-- A real number in `[min,max)` from the value number `n` of the generator:
the value and the next position. -/
def uniformRealDistribution (L : Libm) (n : Nat) (min max : ℚ) : ℚ × Nat :=
  (L.canonical n * (max - min) + min, n + 1)

/-- Random point inside the unit disk: `x` and `y` come in with the values of
the caller's variables, which the comparison of the code reads, and go out
with the point; the third part is the next position of the generator. -/
def sampleConcentricDisk (L : Libm) (n : Nat) (x y : ℚ) : ℚ × ℚ × Nat :=
  let ux := uniformRealDistribution L n (-1) 1
  let uy := uniformRealDistribution L ux.2 (-1) 1
  if ux.1 = 0 ∧ uy.1 = 0 then (0, 0, uy.2)
  else
    let rt : ℚ × ℚ :=
      if |x| > |y| then (ux.1, (M_PI / 4) * uy.1 / ux.1)
      else (uy.1, (M_PI / 4) * ux.1 / uy.1)
    (rt.1 * L.cos rt.2, rt.1 * L.sin rt.2, uy.2)

end Random

/-- Thin lens camera with the members of its base class `Sensor`. -/
structure Camera where
  m_pos : Vector3
  m_dir : Vector3
  m_up : Vector3
  m_transformCameraToWorld : Transformation
  m_uWres : Nat
  m_uHres : Nat
  m_fFocalLength : ℚ
  m_fLensRadius : ℚ
  m_fFocalDist : ℚ
  m_fAspectRatio : ℚ
  m_fYFieldOfView : ℚ
  m_iSamples : Int
  m_pfBuffer : List ℚ
  m_bDone : Bool
  deriving DecidableEq, Repr

namespace Camera

/-- Constructor `Camera(pos, dir, up, wres, hres)`: the buffer has
`3*wres*hres` entries, a product of `unsigned int` values. -/
def mk5 (pos dir up : Vector3) (wres hres : Nat) : Camera :=
  { m_pos := pos, m_dir := dir, m_up := up,
    m_transformCameraToWorld :=
      Transformation.mk2 (Matrix3x3.ofColumns (dir.cross up).neg up dir.neg) pos,
    m_uWres := wres, m_uHres := hres,
    m_fFocalLength := 1/2, m_fLensRadius := 0, m_fFocalDist := 4, m_fAspectRatio := 1,
    m_fYFieldOfView := 120, m_iSamples := 1,
    m_pfBuffer := List.replicate ((3 * wres * hres) % 2 ^ 32) 0,
    m_bDone := false }

/-- Set radius of the lens; the radius `0` sets the number of samples to 1. -/
def setLensRadius (c : Camera) (fLensRadius : ℚ) : Camera :=
  if fLensRadius = 0 then { c with m_fLensRadius := fLensRadius, m_iSamples := 1 }
  else { c with m_fLensRadius := fLensRadius }

/-- Get radius of the lens. -/
def getLensRadius (c : Camera) : ℚ := c.m_fLensRadius

/-- Set number of samples. -/
def setNumberOfSamples (c : Camera) (iNumberOfSamples : Int) : Camera :=
  { c with m_iSamples := iNumberOfSamples }

/-- Get number of samples. -/
def getNumberOfSamples (c : Camera) : Int := c.m_iSamples

/-- Set the focal length. -/
def setFocalLength (c : Camera) (fFocalLength : ℚ) : Camera :=
  { c with m_fFocalLength := fFocalLength }

/-- Set focal distance. -/
def setFocalDistance (c : Camera) (fFocalDistance : ℚ) : Camera :=
  { c with m_fFocalDist := fFocalDistance }

/-- Set y field of view. -/
def setYFieldOfView (c : Camera) (fYFieldOfView : ℚ) : Camera :=
  { c with m_fYFieldOfView := fYFieldOfView }

/-- Set aspect ratio. -/
def setAspectRatio (c : Camera) (fAspectRatio : ℚ) : Camera :=
  { c with m_fAspectRatio := fAspectRatio }

/-- Set height resolution. -/
def setHres (c : Camera) (uHres : Nat) : Camera :=
  { c with m_uHres := uHres }

/-- Set width resolution. -/
def setWres (c : Camera) (uWres : Nat) : Camera :=
  { c with m_uWres := uWres }

/-- State of the loops of `getPrimaryRays`: the vector of rays, the heap, the
position of the random generator and the variable `ray_local`. -/
structure RayLoop where
  primaryRays : List Ray
  heap : Heap
  rng : Nat
  ray_local : Ray

/-- One pass of the loop over the samples of a pixel with ray id `id`. -/
def sampleStep (L : Libm) (c : Camera) (id : Nat) (st : RayLoop) (_k : Nat) : RayLoop :=
  let lr : Ray × Ray × Nat :=
    if c.m_fLensRadius = 0 then
      (st.ray_local, c.m_transformCameraToWorld.transformRayToWorld st.ray_local, st.rng)
    else
      let rx := Random.uniformRealDistribution L st.rng 0 1
      let ry := Random.uniformRealDistribution L rx.2 0 1
      let r : Vector3 := ⟨rx.1, ry.1, 0⟩
      let disk := Random.sampleConcentricDisk L ry.2 rx.1 ry.1
      let pLens := Vector3.smul c.m_fLensRadius r
      let ft := c.m_fFocalDist / -(st.ray_local.m_vDirection.get 2)
      let pFocal := st.ray_local.pointAt ft
      let ray_local := Ray.mk3 id pLens ((pFocal.sub pLens).normalize L)
      (ray_local, c.m_transformCameraToWorld.transformRayToWorld ray_local, disk.2.2)
  let a := st.heap.alloc ⟨1, 1, 1⟩
  let ray_world := lr.2.1.setDataRGBUnpolarized (some a.1)
  { primaryRays := st.primaryRays ++ [ray_world.copy], heap := a.2, rng := lr.2.2,
    ray_local := lr.1 }

/-- One pass of the loop over the columns: the pixel in column `i` of row
`j`. -/
def pixelStep (L : Libm) (c : Camera) (origin dw dh : Vector3) (j : Nat) (st : RayLoop)
    (i : Nat) : RayLoop :=
  let id := j * c.m_uWres + i
  let pFilm := (origin.add (Vector3.smul (i : ℚ) dw)).add (Vector3.smul (j : ℚ) dh)
  let pos_c : Vector3 := ⟨0, 0, 0⟩
  let ray_local := Ray.mk3 id pos_c ((pos_c.sub pFilm).normalize L)
  (List.range c.m_iSamples.toNat).foldl (sampleStep L c id) { st with ray_local := ray_local }

/-- One pass of the loop over the rows. -/
def rowStep (L : Libm) (c : Camera) (origin dw dh : Vector3) (st : RayLoop) (j : Nat) :
    RayLoop :=
  (List.range c.m_uWres).foldl (pixelStep L c origin dw dh j) st

/-- Return vector of primary rays: all rays at the first call, none later.
The result is the vector, the camera, the heap and the position of the random
generator. The steps `dw`, `dh` divide by the resolution minus one in
`unsigned int`; for a resolution of one pixel the code divides by zero, where
the model has the quotient `0` of the rationals. -/
def getPrimaryRays (L : Libm) (c : Camera) (heap : Heap) (rng : Nat) :
    List Ray × Camera × Heap × Nat :=
  if c.m_bDone then ([], c, heap, rng)
  else
    let dir_c : Vector3 := ⟨0, 0, -1⟩
    let up_c : Vector3 := ⟨0, 1, 0⟩
    let right_c := (dir_c.cross up_c).normalize L
    let zf_prime := (c.m_fFocalLength * c.m_fFocalDist) / (c.m_fFocalLength + c.m_fFocalDist)
    let alpha := c.m_fYFieldOfView * M_PI / 180
    let height := 2 * zf_prime * L.tan (alpha / 2)
    let width := height * c.m_fAspectRatio
    let origin : Vector3 := ⟨-width / 2, -height / 2, c.m_fFocalLength⟩
    let dw := Vector3.smul (1 / (((c.m_uWres + 2 ^ 32 - 1) % 2 ^ 32 : Nat) : ℚ))
      (Vector3.smul width right_c)
    let dh := Vector3.smul (1 / (((c.m_uHres + 2 ^ 32 - 1) % 2 ^ 32 : Nat) : ℚ))
      (Vector3.smul height up_c)
    let st := (List.range c.m_uHres).foldl (rowStep L c origin dw dh)
      { primaryRays := [], heap := heap, rng := rng, ray_local := Ray.default }
    (st.primaryRays, { c with m_bDone := true }, st.heap, st.rng)

/-- Report back the result for a ray: the values of its spectrum are added to
the three buffer entries of its id and the spectrum is deleted. A write
outside of the buffer is undefined. -/
def reportPrimaryRay (c : Camera) (rBouncedRay : Ray) (heap : Heap) :
    Except Fault (Camera × Ray × Heap) :=
  let uId := rBouncedRay.m_uId
  match rBouncedRay.getDataRGBUnpolarized with
  | Except.error e => Except.error e
  | Except.ok pSpectrum =>
    match heap.read pSpectrum, pSpectrum with
    | Except.ok S, some a =>
      if 3 * uId + 2 < c.m_pfBuffer.length then
        let b0 := c.m_pfBuffer.set (3 * uId + 0) (c.m_pfBuffer.getD (3 * uId + 0) 0 + S.toRGB.1)
        let b1 := b0.set (3 * uId + 1) (b0.getD (3 * uId + 1) 0 + S.toRGB.2.1)
        let b2 := b1.set (3 * uId + 2) (b1.getD (3 * uId + 2) 0 + S.toRGB.2.2)
        Except.ok ({ c with m_pfBuffer := b2 }, rBouncedRay, heap.delete a)
      else Except.error Fault.undefined
    | _, _ => Except.error Fault.undefined

/-- The camera as a sensor: `callSensor`, `hook` and `deletePrimaryRays` are
the defaults of the base class. -/
def toSensor (L : Libm) : Sensor Camera :=
  { getPrimaryRays := fun c heap rng => c.getPrimaryRays L heap rng
    deletePrimaryRays := fun c _ => c
    reportPrimaryRay := fun c ray heap => c.reportPrimaryRay ray heap
    isCompatible := fun _ typeIsSpecular => typeIsSpecular
    callSensor := fun _ => false
    hook := fun c ray I heap => Except.ok (true, c, ray, I, heap) }

end Camera

/-! ## Renderer (`renderer.cpp`)

The state the renderer acts on is the sensor, the heap of spectra, the position
of the random generator and the list of the calls the renderer has made, oldest
first. `trace` calls itself for every bounced ray; the model counts the depth
of these calls with a fuel argument and returns `none` when it is used up. The
printing of the verbose mode is left out. The rays of one batch are traced one
after the other in the order of the vector. -/

/-- A call made by the renderer, with the ray it is made for. -/
inductive Call where
  | hook (ray : Ray)
  | bounce (ray : Ray)
  | backgroundHit (ray : Ray)
  | reportPrimaryRay (ray : Ray)
  deriving DecidableEq, Repr

/-- State of a rendering. -/
structure World (σ : Type) where
  sensor : σ
  heap : Heap
  rng : Nat
  log : List Call

/-- Renderer: asset instance, material model, optional background and the
settings with their defaults. -/
structure Renderer where
  m_cpAssetInstance : AssetInstance
  m_pMaterialModel : MaterialModel
  m_pBackground : Option Background
  m_thbounces : Int
  m_minradiance : ℚ
  m_raytracer : Int

namespace Renderer

/-- Constructor `Renderer(cpAssetInstance, pMaterialModel, pBackground)`. -/
def mk3 (cpAssetInstance : AssetInstance) (pMaterialModel : MaterialModel)
    (pBackground : Option Background) : Renderer :=
  { m_cpAssetInstance := cpAssetInstance, m_pMaterialModel := pMaterialModel,
    m_pBackground := pBackground, m_thbounces := 50, m_minradiance := 1/10,
    m_raytracer := 0 }

/-- Set number of allowed bounces. -/
def setNumberofAllowedBounces (R : Renderer) (a : Int) : Renderer :=
  { R with m_thbounces := a }

/-- Set threshold on radiance. -/
def setThresholdOnRadiance (R : Renderer) (a : ℚ) : Renderer :=
  { R with m_minradiance := a }

/-- Set the ray caster mode. -/
def setRaytracer (R : Renderer) (a : Int) : Renderer :=
  { R with m_raytracer := a }

/-- Result of `trace`: the state, the incident ray, and the fault if the call
ended with one. -/
abbrev TraceResult (σ : Type) := World σ × Ray × Option Fault

/-- First part of `trace` after the intersection test: the hook of the sensor,
or the mean of the three values of the spectrum of the ray. The result is
`none` for the early return, else the total radiance. -/
def radiance {σ : Type} (S : Sensor σ) (w : World σ) (incidentRay : Ray)
    (intersection : Intersection) :
    Except (World σ × Fault) (World σ × Ray × Intersection × Option ℚ) :=
  if S.callSensor w.sensor then
    let w1 := { w with log := w.log ++ [Call.hook incidentRay] }
    match S.hook w.sensor incidentRay intersection w.heap with
    | Except.error e => Except.error (w1, e)
    | Except.ok (bCont, s, ray, I, heap) =>
      let w2 := { w1 with sensor := s, heap := heap }
      if !bCont then Except.ok (w2, ray, I, none) else Except.ok (w2, ray, I, some 1)
  else
    match incidentRay.getDataRGBUnpolarized with
    | Except.error e => Except.error (w, e)
    | Except.ok pSpectrum =>
      match w.heap.read pSpectrum with
      | Except.error e => Except.error (w, e)
      | Except.ok S =>
        Except.ok (w, incidentRay, intersection,
          some ((S.m_pfRGB0 + S.m_pfRGB1 + S.m_pfRGB2) / 3))

/-- Loop over the bounced rays: each ray is traced by `call`, and reported to
the sensor in ray caster mode. A fault ends the loop. -/
def bouncedLoop {σ : Type} (R : Renderer) (S : Sensor σ)
    (call : World σ → Ray → Option (TraceResult σ)) :
    List Ray → World σ → Option (World σ × Option Fault)
  | [], w => some (w, none)
  | bouncedRay :: rest, w =>
    match call w bouncedRay with
    | none => none
    | some (w1, _, some e) => some (w1, some e)
    | some (w1, ray1, none) =>
      if R.m_raytracer > 0 then
        let w2 := { w1 with log := w1.log ++ [Call.reportPrimaryRay ray1] }
        match S.reportPrimaryRay w1.sensor ray1 w1.heap with
        | Except.error e => some (w2, some e)
        | Except.ok (s, _, heap) =>
          bouncedLoop R S call rest { w2 with sensor := s, heap := heap }
      else bouncedLoop R S call rest w1

/-- Second branch of `trace`: the background is hit and the ray is reported to
the sensor. -/
def backgroundBranch {σ : Type} (S : Sensor σ) (b : Background) (w : World σ)
    (incidentRay : Ray) : TraceResult σ :=
  let w1 := { w with log := w.log ++ [Call.backgroundHit incidentRay] }
  match b.hit incidentRay w.heap with
  | Except.error e => (w1, incidentRay, some e)
  | Except.ok (ray, heap) =>
    let w2 := { w1 with heap := heap, log := w1.log ++ [Call.reportPrimaryRay ray] }
    match S.reportPrimaryRay w.sensor ray heap with
    | Except.error e => (w2, ray, some e)
    | Except.ok (s, ray2, heap2) => ({ w2 with sensor := s, heap := heap2 }, ray2, none)

/-- Trace a ray, `trace(rSensor, incidentRay)`. `sceneFuel` is the fuel of the
intersection test, the first argument the fuel of the calls of `trace`. -/
def trace {σ : Type} (R : Renderer) (S : Sensor σ) (sceneFuel : Nat) :
    Nat → World σ → Ray → Option (TraceResult σ)
  | 0, _, _ => none
  | fuel + 1, w, incidentRay =>
    match R.m_cpAssetInstance.intersectRay sceneFuel incidentRay
        (Intersection.ofRay incidentRay) (XFloat.fin 0) XFloat.pinf with
    | none => none
    | some (hit, intersection) =>
      match radiance S w incidentRay intersection with
      | Except.error (w1, e) => some (w1, incidentRay, some e)
      | Except.ok (w1, ray, _, none) => some (w1, ray, none)
      | Except.ok (w1, ray, I, some totalradiance) =>
        if hit = true ∧ ray.m_iBounces < R.m_thbounces ∧ totalradiance > R.m_minradiance then
          let w2 := { w1 with log := w1.log ++ [Call.bounce ray] }
          match R.m_pMaterialModel.bounce ray I w1.heap with
          | Except.error e => some (w2, ray, some e)
          | Except.ok (rays, heap) =>
            match bouncedLoop R S (trace R S sceneFuel fuel) rays { w2 with heap := heap } with
            | none => none
            | some (w3, f) => some (w3, ray, f)
        else
          match R.m_pBackground with
          | some b =>
            if R.m_raytracer < 1 then some (backgroundBranch S b w1 ray)
            else some (w1, ray, none)
          | none => some (w1, ray, none)

/-- Loop over the primary rays of one batch in `render`. -/
def batchLoop {σ : Type} (R : Renderer) (S : Sensor σ) (sceneFuel traceFuel : Nat) :
    List Ray → World σ → Option (World σ × Option Fault)
  | [], w => some (w, none)
  | ray :: rest, w =>
    match trace R S sceneFuel traceFuel w ray with
    | none => none
    | some (w1, _, some e) => some (w1, some e)
    | some (w1, _, none) => batchLoop R S sceneFuel traceFuel rest w1

/-- The loop `while(true)` of `render`: batches of primary rays until the
sensor returns none. The first argument bounds the number of batches. -/
def renderLoop {σ : Type} (R : Renderer) (S : Sensor σ) (sceneFuel traceFuel : Nat) :
    Nat → World σ → Option (World σ × Option Fault)
  | 0, _ => none
  | fuel + 1, w =>
    match S.getPrimaryRays w.sensor w.heap w.rng with
    | (primaryRays, s, heap, rng) =>
      let w1 := { w with sensor := s, heap := heap, rng := rng }
      if primaryRays.length = 0 then some (w1, none)
      else
        match batchLoop R S sceneFuel traceFuel primaryRays w1 with
        | none => none
        | some (w2, some e) => some (w2, some e)
        | some (w2, none) =>
          renderLoop R S sceneFuel traceFuel fuel
            { w2 with sensor := S.deletePrimaryRays w2.sensor primaryRays }

/-- Start rendering, `render(rSensor)`. -/
def render {σ : Type} (R : Renderer) (S : Sensor σ) (sceneFuel traceFuel fuel : Nat)
    (w : World σ) : Option (World σ × Option Fault) :=
  if !S.isCompatible w.sensor R.m_pMaterialModel.typeIsSpecular then
    some (w, some Fault.RuntimeError)
  else renderLoop R S sceneFuel traceFuel fuel w

end Renderer

/-! ## A library for the examples -/

/-- Square root that is exact on the squares of rational numbers: the quotient
of the integer square roots of numerator and denominator. -/
def exampleSqrt (x : ℚ) : ℚ :=
  (Nat.sqrt x.num.toNat : ℚ) / (Nat.sqrt x.den : ℚ)

/-- Library for the examples: the square roots are those of `exampleSqrt` (of
the real part for a complex number), the trigonometric functions are cut off
after the first term of their series, and every value of the random generator
is `1/2`. -/
def exampleLibm : Libm :=
  { sqrt := exampleSqrt
    csqrt := fun z => ⟨exampleSqrt z.re, 0⟩
    hypot := fun x y => exampleSqrt (x * x + y * y)
    tan := fun x => x
    cos := fun _ => 1
    sin := fun x => x
    canonical := fun _ => 1/2 }

/-! ## Predicates on the batch of primary rays -/

/-- The ids of the rays of a batch in the order of the loops of
`getPrimaryRays`: `s` times the id `j*W + i` for every row `j` and column
`i`. -/
def Camera.batchIds (W H s : Nat) : List Nat :=
  (List.range H).flatMap (fun j => (List.range W).flatMap (fun i => List.replicate s (j * W + i)))

/-- The state of the loops of `getPrimaryRays` started on the heap `heap0`
holds rays with the ids `ids`, ray number `k` carrying the pointer to the
spectrum allocated as number `k`, and every allocated spectrum is
`(1,1,1)`. -/
def Camera.Batch (heap0 : Heap) (ids : List Nat) (st : Camera.RayLoop) : Prop :=
  st.primaryRays.map (fun r => r.m_uId) = ids ∧
  st.primaryRays.map (fun r => r.getDataRGBUnpolarized)
    = (List.range ids.length).map (fun k => Except.ok (some (heap0.length + k))) ∧
  st.heap = heap0 ++ List.replicate ids.length (some ⟨1, 1, 1⟩)

/-- Camera of 2 x 2 pixels at `(0,1,-4)` looking along `z`, with a lens of
radius `1/10` and two samples per pixel. -/
def exampleCamera : Camera :=
  ((Camera.mk5 ⟨0, 1, -4⟩ ⟨0, 0, 1⟩ ⟨0, 1, 0⟩ 2 2).setLensRadius (1/10)).setNumberOfSamples 2

/-! ## Example material -/

/-- Index of refraction data for the examples: one temperature, 300, with
`n = 3/2` and `k = 0` for the wavelengths from 400 nm to 700 nm. -/
def exampleIor : AssetMaterialIor :=
  ⟨[{ fTemperature := 300,
      interpolationN := ⟨[(400 / 1000000000, 3/2), (700 / 1000000000, 3/2)],
        e_interpolationType.INTERPOLATION_LINEAR⟩,
      interpolationK := ⟨[(400 / 1000000000, 0), (700 / 1000000000, 0)],
        e_interpolationType.INTERPOLATION_LINEAR⟩,
      fIorMin := 400 / 1000000000, fIorMax := 700 / 1000000000,
      vLoData := [], fLOMin := 0, fLOMax := 0 }]⟩

/-- Material of temperature 300 with the example index of refraction. -/
def exampleMaterial : AssetMaterial :=
  ⟨300, some exampleIor⟩

/-- The example mesh of eight triangles with a pointer to material 0. -/
def exampleGlass8 : Mesh :=
  { exampleMesh8 with m_sName := "glass", m_pMaterial := some 0 }

/-- The example ray with a pointer to the spectrum at position 0 as payload. -/
def exampleRayRGB : Ray :=
  exampleRay.setDataRGBUnpolarized (some 0)

/-- The record of the hit of the example ray on triangle 0 of the example mesh
with a material, at `t = 1`, `u = v = 1/4`. -/
def exampleHit : Intersection :=
  (Intersection.ofRay exampleRayRGB).setMesh exampleGlass8 0 1 (1/4) (1/4)

/-- An instance like `exampleInstance` for the mesh `m0` after `buildBVH`:
placement by a translation along `z`, root translated along `x`, child not
transformed. -/
def eightInstance (m0 : Mesh) : AssetInstance :=
  { m_transformation := Transformation.Translation ⟨0, 0, 1⟩,
    m_pAssetGeometry := twoLevelAsset (Transformation.Translation ⟨1, 0, 0⟩)
      Transformation.Identity (m0.buildBVH exampleSort) }

/-- The example instance with a material: the two-level hierarchy over the
built example mesh with a material. -/
def exampleGlassInstance : AssetInstance :=
  eightInstance exampleGlass8

/-- The mesh has the buffers of the example mesh of eight triangles and no
boxes yet. -/
def Mesh.IsEight (m0 : Mesh) : Prop :=
  m0.m_vBbox = [] ∧ m0.m_IndexBuffer = exampleMesh8.m_IndexBuffer ∧
    m0.m_VertexBuffer = exampleMesh8.m_VertexBuffer

/-- A background that leaves the ray and the spectra as they are. -/
def exampleBackground : Background :=
  ⟨fun ray _heap => Except.ok (ray, _heap)⟩

/-- The renderer that `main` sets up in ray caster mode: fatal background,
radiance threshold 0, one bounce allowed, ray caster mode 1. -/
def Renderer.raycast (cpAssetInstance : AssetInstance) (pMaterialModel : MaterialModel) :
    Renderer :=
  (((Renderer.mk3 cpAssetInstance pMaterialModel (some BackgroundFatal)).setThresholdOnRadiance
    0).setNumberofAllowedBounces 1).setRaytracer 1

/-- Ray 0 from `(5/4, 1/4, 2)` along `-z`, which meets the example instances,
with a pointer to the spectrum at position 0 as payload. -/
def exampleHitRay : Ray :=
  (Ray.mk3 0 ⟨5/4, 1/4, 2⟩ ⟨0, 0, -1⟩).setDataRGBUnpolarized (some 0)

/-- Ray 1 from `(5, 5, 2)` along `-z`, which misses the example instances,
with a pointer to the spectrum at position 0 as payload. -/
def exampleMissRay : Ray :=
  (Ray.mk3 1 ⟨5, 5, 2⟩ ⟨0, 0, -1⟩).setDataRGBUnpolarized (some 0)

/-- State of a rendering with a camera of 2 x 2 pixels, the spectrum `(1,1,1)`
at position 0 of the heap and no calls made yet. -/
def exampleWorld : World Camera :=
  { sensor := Camera.mk5 ⟨0, 1, -4⟩ ⟨0, 0, 1⟩ ⟨0, 1, 0⟩ 2 2,
    heap := [some ⟨1, 1, 1⟩], rng := 0, log := [] }

/-- No call of `bounce` in the list is for a ray with `B` or more bounces. -/
def Renderer.BouncesBelow (B : Int) (calls : List Call) : Prop :=
  ∀ r, Call.bounce r ∈ calls → r.m_iBounces < B

/-! ## Tone mapping and the saved image (`tonemapping.h`, `Camera::save`) -/

/-- Simple tone mapping operator with the parameter `alpha`. -/
structure ToneMapping where
  m_fAlpha : ℚ
  deriving DecidableEq, Repr

namespace ToneMapping

/-- The function call operator: `fIn/(alpha + fIn)`. -/
def call (t : ToneMapping) (fIn : ℚ) : ℚ :=
  fIn / (t.m_fAlpha + fIn)

end ToneMapping

namespace Camera

end Camera

/-- The box that the pass of the loop of `buildBVH` for the tree position `u`
stores when it starts on the mesh `m`. -/
def Mesh.stepBox (m : Mesh) (u : Nat) : BBox :=
  ⟨(m.rangeBounds (m.binaryTreeBoundaries u).1 (m.binaryTreeBoundaries u).2).1,
   (m.rangeBounds (m.binaryTreeBoundaries u).1 (m.binaryTreeBoundaries u).2).2⟩

/-! ## Strings (`std::string`, `<cctype>`)

A `std::string` is the list of its characters. A position in a string is a
`size_t` value of 64 bits, and `npos` is the largest of them. The functions
`std::tolower`, `std::toupper` and `std::isdigit` take and return the code of
a character as an `int`; they are those of the "C" locale. -/

/-- The function `std::tolower` on the code of a character: the letters
`A`..`Z` (65..90) go to `a`..`z`. -/
def tolower (c : Int) : Int :=
  if 65 ≤ c ∧ c ≤ 90 then c + 32 else c

/-- The function `std::toupper` on the code of a character: the letters
`a`..`z` (97..122) go to `A`..`Z`. -/
def toupper (c : Int) : Int :=
  if 97 ≤ c ∧ c ≤ 122 then c - 32 else c

/-- The function `std::isdigit` on the code of a character: `0`..`9` are the
codes 48..57. -/
def isdigit (c : Int) : Bool :=
  decide (48 ≤ c ∧ c ≤ 57)

/-- The code of a character as an `int`. -/
def intOfChar (c : Char) : Int := (c.toNat : Int)

/-- The character with the code `c`, for an `int` that holds a code. -/
def charOfInt (c : Int) : Char := Char.ofNat c.toNat

namespace StdString

/-- The value `std::string::npos`. -/
def npos : Nat := 2 ^ 64 - 1

/-- The call `s.find_last_of(c)`: the position of the last `c` in `s`, or
`npos` when `s` holds no `c`. -/
def find_last_of (s : List Char) (c : Char) : Nat :=
  if c ∈ s then s.length - 1 - s.reverse.indexOf c else npos

/-- The call `s.find_first_not_of(c)`: the position of the first character
other than `c`, or `npos` when there is none. -/
def find_first_not_of (s : List Char) (c : Char) : Nat :=
  if s.findIdx (fun x => x != c) < s.length then s.findIdx (fun x => x != c) else npos

/-- Search of `d` in the rest `t` of a string, where `t` starts at position
`pos` of the string. -/
def findFrom (d : List Char) : List Char → Nat → Nat
  | [], pos => if d = [] then pos else npos
  | c :: t, pos => if d.isPrefixOf (c :: t) then pos else findFrom d t (pos + 1)

/-- The call `s.find(d, pos)`: the first position not before `pos` at which
`d` occurs in `s`, or `npos`. -/
def find (s d : List Char) (pos : Nat) : Nat :=
  if pos > s.length then npos else findFrom d (s.drop pos) pos

/-- The call `s.substr(pos, n)`: at most `n` characters from position `pos`
on; `std::out_of_range` when `pos` is beyond the end. -/
def substr (s : List Char) (pos n : Nat) : Except Fault (List Char) :=
  if pos > s.length then Except.error Fault.out_of_range else Except.ok ((s.drop pos).take n)

end StdString

/-! ## Asset types and categories (`assetbase.h`, `assetinfo.h`) -/

/-- All available asset types. -/
inductive e_AssetType where
  | ASSET_TYPE_UNKNOWN
  | ASSET_TYPE_REFERENCE
  | ASSET_TYPE_GEOMETRY
  | ASSET_TYPE_MATERIAL
  | ASSET_TYPE_MATERIAL_IOR
  | ASSET_TYPE_SCENE
  | ASSET_TYPE_SENSOR
  deriving DecidableEq, Repr

/-- The enumerators of `e_AssetType` in the order of their values. -/
def e_AssetType.values : List e_AssetType :=
  [ASSET_TYPE_UNKNOWN, ASSET_TYPE_REFERENCE, ASSET_TYPE_GEOMETRY, ASSET_TYPE_MATERIAL,
   ASSET_TYPE_MATERIAL_IOR, ASSET_TYPE_SCENE, ASSET_TYPE_SENSOR]

/-- The conversion `static_cast<e_AssetType>(i)` for a value of an enumerator. -/
def e_AssetType.static_cast (i : Nat) : e_AssetType :=
  e_AssetType.values.getD i ASSET_TYPE_UNKNOWN

/-- All asset categories. -/
inductive e_AssetCategory where
  | ASSET_CATEGORY_UNKNOWN
  | ASSET_CATEGORY_UNLABELED
  | ASSET_CATEGORY_EGO_VEHICLE
  | ASSET_CATEGORY_RECTIFICATION_BORDER
  | ASSET_CATEGORY_OUT_OF_ROI
  | ASSET_CATEGORY_STATIC
  | ASSET_CATEGORY_DYNAMIC
  | ASSET_CATEGORY_GROUND
  | ASSET_CATEGORY_ROAD
  | ASSET_CATEGORY_SIDEWALK
  | ASSET_CATEGORY_PARKING
  | ASSET_CATEGORY_RAIL_TRACK
  | ASSET_CATEGORY_BUILDING
  | ASSET_CATEGORY_WALL
  | ASSET_CATEGORY_FENCE
  | ASSET_CATEGORY_GUARD_RAIL
  | ASSET_CATEGORY_BRIDGE
  | ASSET_CATEGORY_TUNNEL
  | ASSET_CATEGORY_POLE
  | ASSET_CATEGORY_POLEGROUP
  | ASSET_CATEGORY_TRAFFIC_LIGHT
  | ASSET_CATEGORY_TRAFFIC_SIGN
  | ASSET_CATEGORY_VEGETATION
  | ASSET_CATEGORY_TERRAIN
  | ASSET_CATEGORY_SKY
  | ASSET_CATEGORY_PERSON
  | ASSET_CATEGORY_RIDER
  | ASSET_CATEGORY_CAR
  | ASSET_CATEGORY_TRUCK
  | ASSET_CATEGORY_BUS
  | ASSET_CATEGORY_CARAVAN
  | ASSET_CATEGORY_TRAILER
  | ASSET_CATEGORY_TRAIN
  | ASSET_CATEGORY_MOTORCYCLE
  | ASSET_CATEGORY_BICYCLE
  | ASSET_CATEGORY_LICENSE_PLATE
  deriving DecidableEq, Repr

/-- The enumerators of `e_AssetCategory` in the order of their values. -/
def e_AssetCategory.values : List e_AssetCategory :=
  [ASSET_CATEGORY_UNKNOWN, ASSET_CATEGORY_UNLABELED, ASSET_CATEGORY_EGO_VEHICLE,
   ASSET_CATEGORY_RECTIFICATION_BORDER, ASSET_CATEGORY_OUT_OF_ROI, ASSET_CATEGORY_STATIC,
   ASSET_CATEGORY_DYNAMIC, ASSET_CATEGORY_GROUND, ASSET_CATEGORY_ROAD, ASSET_CATEGORY_SIDEWALK,
   ASSET_CATEGORY_PARKING, ASSET_CATEGORY_RAIL_TRACK, ASSET_CATEGORY_BUILDING,
   ASSET_CATEGORY_WALL, ASSET_CATEGORY_FENCE, ASSET_CATEGORY_GUARD_RAIL, ASSET_CATEGORY_BRIDGE,
   ASSET_CATEGORY_TUNNEL, ASSET_CATEGORY_POLE, ASSET_CATEGORY_POLEGROUP,
   ASSET_CATEGORY_TRAFFIC_LIGHT, ASSET_CATEGORY_TRAFFIC_SIGN, ASSET_CATEGORY_VEGETATION,
   ASSET_CATEGORY_TERRAIN, ASSET_CATEGORY_SKY, ASSET_CATEGORY_PERSON, ASSET_CATEGORY_RIDER,
   ASSET_CATEGORY_CAR, ASSET_CATEGORY_TRUCK, ASSET_CATEGORY_BUS, ASSET_CATEGORY_CARAVAN,
   ASSET_CATEGORY_TRAILER, ASSET_CATEGORY_TRAIN, ASSET_CATEGORY_MOTORCYCLE,
   ASSET_CATEGORY_BICYCLE, ASSET_CATEGORY_LICENSE_PLATE]

/-- The conversion `static_cast<e_AssetCategory>(i)` for a value of an
enumerator. -/
def e_AssetCategory.static_cast (i : Nat) : e_AssetCategory :=
  e_AssetCategory.values.getD i ASSET_CATEGORY_UNKNOWN

/-- The loop `for(auto elem : s) elem = std::tolower(elem);` over the string
`s`: `elem` is a copy of the character, so every pass assigns the lower-case
letter to the copy and leaves the string as it is. -/
def lowerCopies (s : List Char) : List Char :=
  s.foldl (fun (str : List Char) (c : Char) =>
    let _elem : Char := charOfInt (tolower (intOfChar c)); str) s

/-- The loop `for(i = 0; i < names.size(); i++) if(s == names[i]) return i;`:
the first position of `s` in `names`, if any. -/
def findInVector (names : List (List Char)) (s : List Char) : Option Nat :=
  (List.range names.length).find? (fun i => decide (s = names.getD i []))

namespace AssetBase

/-- Asset types as string, in the same order as in `e_AssetType`. -/
def m_assetTypeString : List (List Char) :=
  ["unknown".toList, "reference".toList, "geometry".toList, "material".toList,
   "material_ior".toList, "scene".toList, "sensor".toList]

/-- Get number of asset type from its name. -/
def stringToAssetType (crsType : List Char) : Except Fault e_AssetType :=
  let sTypeLower := lowerCopies crsType
  match findInVector m_assetTypeString sTypeLower with
  | some i => Except.ok (e_AssetType.static_cast i)
  | none => Except.error Fault.GltfError

end AssetBase

namespace AssetInfo

/-- Human readable strings of asset categories, in the same order as in
`e_AssetCategory`. -/
def m_assetCategoryString : List (List Char) :=
  ["unknown".toList, "unlabeled".toList, "ego-vehicle".toList, "rectification-border".toList,
   "out-of-roi".toList, "static".toList, "dynamic".toList, "ground".toList, "road".toList,
   "sidewalk".toList, "parking".toList, "rail-track".toList, "building".toList, "wall".toList,
   "fence".toList, "guard-rail".toList, "bridge".toList, "tunnel".toList, "pole".toList,
   "polegroup".toList, "traffic-light".toList, "traffic-sign".toList, "vegetation".toList,
   "terrain".toList, "sky".toList, "person".toList, "rider".toList, "car".toList,
   "truck".toList, "bus".toList, "caravan".toList, "trailer".toList, "train".toList,
   "motorcycle".toList, "bicycle".toList, "license-plate".toList]

/-- Get number of asset category from its name. -/
def stringToAssetCategory (crsCategory : List Char) : Except Fault e_AssetCategory :=
  let sCategoryLower := lowerCopies crsCategory
  match findInVector m_assetCategoryString sCategoryLower with
  | some i => Except.ok (e_AssetCategory.static_cast i)
  | none => Except.error Fault.GltfError

end AssetInfo

/-! ## Path names (`utils.cpp`) -/

namespace utils

namespace path

/-- File separator of the operating system (the value outside Windows). -/
def separator : Char := '/'

/-- Return the final component of a pathname. -/
def basename (pathname : List Char) : Except Fault (List Char) :=
  let pos := StdString.find_last_of pathname separator
  if pos = StdString.npos then Except.ok pathname
  else StdString.substr pathname ((pos + 1) % 2 ^ 64) StdString.npos

/-- Return the file extension of the file name. -/
def fileextension (pathname : List Char) : Except Fault (List Char) :=
  match basename pathname with
  | Except.error e => Except.error e
  | Except.ok bname =>
    let start := StdString.find_first_not_of bname '.'
    let pos := StdString.find_last_of bname '.'
    if start ≥ pos then Except.ok []
    else StdString.substr bname ((pos + 1) % 2 ^ 64) StdString.npos

/-- Returns the directory component of a pathname. -/
def dirname (rsPathname : List Char) : Except Fault (List Char) :=
  let pos := StdString.find_last_of rsPathname separator
  StdString.substr rsPathname 0 pos

end path

end utils

/-! ## Bounding box of the scene graph (`node.h`, `assetgeometry.cpp`)

The corners `vMin` and `vMax` that `Node::getBBox` updates in place are the
pair that the functions below pass on. The assertions of the constructor
`BBox(vMin, vMax)` are not part of the model. -/

namespace Node

/-- The body of the loops of `getBBox` for one vertex `V` of a triangle: the
vertex is transformed to world coordinates and folded into `(vMin, vMax)`. -/
def bboxVertex (transformation : Transformation) (acc : XVector3 × XVector3) (V : Vector3) :
    XVector3 × XVector3 :=
  let v := transformation.transformPointToWorld V
  (⟨XFloat.minQ v.x acc.1.x, XFloat.minQ v.y acc.1.y, XFloat.minQ v.z acc.1.z⟩,
   ⟨XFloat.maxQ v.x acc.2.x, XFloat.maxQ v.y acc.2.y, XFloat.maxQ v.z acc.2.z⟩)

/-- One pass of the loop of `getBBox` over the triangles of the mesh. -/
def bboxTriangle (mesh : Mesh) (transformation : Transformation) (acc : XVector3 × XVector3)
    (uTriangleNumber : Nat) : XVector3 × XVector3 :=
  let V := mesh.getVerticesOfTriangle uTriangleNumber
  bboxVertex transformation
    (bboxVertex transformation (bboxVertex transformation acc V.1) V.2.1) V.2.2

/-- The part of `getBBox` before the loop over the children: the vertices of
the own mesh, if any, are folded into `(vMin, vMax)`. -/
def bboxOwnMesh (meshes : List Mesh) (node : Node) (transformation : Transformation)
    (acc : XVector3 × XVector3) : Option (XVector3 × XVector3) :=
  match node.m_pMesh with
  | none => some acc
  | some pMesh =>
    match meshes.get? pMesh with
    | none => none
    | some mesh =>
      some ((List.range mesh.getNumberOfTriangles).foldl (bboxTriangle mesh transformation) acc)

/-- The loop of `getBBox` over the children: `call` is the recursive call for
a child with the running corners. -/
def bboxChildren (call : Nat → XVector3 × XVector3 → Option (XVector3 × XVector3)) :
    List Nat → XVector3 × XVector3 → Option (XVector3 × XVector3)
  | [], acc => some acc
  | pNodeChild :: rest, acc =>
    match call pNodeChild acc with
    | none => none
    | some acc1 => bboxChildren call rest acc1

/-- The internal method `getBBox(vMin, vMax, transformation)` for the node
`pNode`: the result is the updated pair `(vMin, vMax)`. -/
def getBBoxInto (meshes : List Mesh) (nodes : List Node) :
    Nat → Nat → XVector3 × XVector3 → Transformation → Option (XVector3 × XVector3)
  | 0, _, _, _ => none
  | fuel + 1, pNode, acc, transformation =>
    match nodes.get? pNode with
    | none => none
    | some node =>
      let transformation := node.m_transformation.apply transformation
      match bboxOwnMesh meshes node transformation acc with
      | none => none
      | some acc1 =>
        bboxChildren (fun pNodeChild a => getBBoxInto meshes nodes fuel pNodeChild a transformation)
          node.m_pChildren acc1

/-- The public method `getBBox()` for the node `pNode`. -/
def getBBox (meshes : List Mesh) (nodes : List Node) (fuel pNode : Nat) : Option BBox :=
  match getBBoxInto meshes nodes fuel pNode
      (⟨XFloat.pinf, XFloat.pinf, XFloat.pinf⟩, ⟨XFloat.ninf, XFloat.ninf, XFloat.ninf⟩)
      Transformation.Identity with
  | none => none
  | some a => some ⟨a.1, a.2⟩

end Node

namespace AssetGeometry

/-- One pass of the loop of `getBBox` over all nodes of the asset. -/
def getBBoxStep (g : AssetGeometry) (fuel : Nat) (bbox : Option BBox) (i : Nat) : Option BBox :=
  match bbox, Node.getBBox g.m_vpMeshes g.m_vpNodes fuel i with
  | some bbox, some b => some (if i = 0 then b else bbox.surrround b)
  | _, _ => none

/-- Compute the bounding box of this asset. -/
def getBBox (g : AssetGeometry) (fuel : Nat) : Option BBox :=
  (List.range g.m_vpNodes.length).foldl (g.getBBoxStep fuel) (some BBox.default)

end AssetGeometry

/-- The two-level hierarchy with the root translated by `(1,0,0)`, the child
scaled by `2`, and the triangle `(0,0,0) (1,0,0) (0,1,0)` as the mesh of the
child. -/
def exampleBBoxAsset : AssetGeometry :=
  twoLevelAsset (Transformation.Translation ⟨1, 0, 0⟩) (Transformation.Scale 2 2 2) exampleMesh1

/-- The guards of `Interpolation::get` all pass for `x`: the table is not
empty, it is not a single point with linear interpolation, and `x` lies
between the first and the last abscissa. -/
def Interpolation.Covers (I : Interpolation) (x : ℚ) : Prop :=
  I.m_data.length ≠ 0 ∧
  ¬ (I.m_data.length = 1 ∧ I.m_interpolationType = e_interpolationType.INTERPOLATION_LINEAR) ∧
  I.xMin ≤ x ∧ x ≤ I.xMax

/-- Index of refraction data with one temperature, 300, whose tables for `n`
and `k` hold the single wavelength 500 nm: the data that the loader builds
from an entry with one pair in `n` and one pair in `k`. -/
def onePointIor : AssetMaterialIor :=
  ⟨[{ fTemperature := 300,
      interpolationN := ⟨[(500 / 1000000000, 3/2)], e_interpolationType.INTERPOLATION_LINEAR⟩,
      interpolationK := ⟨[(500 / 1000000000, 0)], e_interpolationType.INTERPOLATION_LINEAR⟩,
      fIorMin := 500 / 1000000000, fIorMax := 500 / 1000000000,
      vLoData := [], fLOMin := 0, fLOMax := 0 }]⟩

/-! ## Splitting of strings (`utils.cpp`) -/

/-- Number of non-overlapping occurrences of `d` in the string `t`, counted
from left to right: the first `skip` characters of `t` belong to an occurrence
that is already counted. -/
def StdString.occurrences (d : List Char) : List Char → Nat → Nat
  | [], _ => 0
  | _ :: t, skip + 1 => StdString.occurrences d t skip
  | c :: t, 0 =>
    if d.isPrefixOf (c :: t) then 1 + StdString.occurrences d t (d.length - 1)
    else StdString.occurrences d t 0

namespace utils

namespace string

/-- The loop `for(int i = 0; true; i++)` of `split`, from the pass with the
counter `i`, the start `pos_start` and the tokens `output` collected so far;
`none` stands for exhausted fuel. -/
def splitLoop (s delimiter : List Char) (maxsplit : Int) :
    Nat → Int → Nat → List (List Char) → Option (Except Fault (List (List Char)))
  | 0, _, _, _ => none
  | fuel + 1, i, pos_start, output =>
    let pos_stop :=
      if i = maxsplit then StdString.npos else StdString.find s delimiter pos_start
    match StdString.substr s pos_start ((pos_stop + 2 ^ 64 - pos_start) % 2 ^ 64) with
    | Except.error e => some (Except.error e)
    | Except.ok token =>
      if pos_stop = StdString.npos then some (Except.ok (output ++ [token]))
      else
        splitLoop s delimiter maxsplit fuel (i + 1) ((pos_stop + delimiter.length) % 2 ^ 64)
          (output ++ [token])

/-- Return a list of substrings in the string using `delimiter` as the
delimiter. -/
def split (s delimiter : List Char) (maxsplit : Int) (fuel : Nat) :
    Option (Except Fault (List (List Char))) :=
  if delimiter = [] then some (Except.ok [])
  else splitLoop s delimiter maxsplit fuel 0 0 []

end string

end utils

/-! ## Universally unique identifiers (`uuid.h`) -/

/-- A uuid: the lower and the upper 64 bits of the 128 bit number. -/
structure Uuid where
  m_u64UuidLo : Nat
  m_u64UuidHi : Nat
  deriving DecidableEq, Repr

namespace Uuid

/-- Convert the hexadecimal character with the code `c` to an integer; `-1`
for a character that is no hexadecimal digit. -/
def hex2int (c : Int) : Int :=
  let c := toupper c
  if isdigit c then c - intOfChar '0'
  else if c ≥ intOfChar 'A' ∧ c ≤ intOfChar 'F' then c - intOfChar 'A' + 10
  else -1

/-- The table `map` of `int2hex`. -/
def int2hexMap : List Char :=
  "0123456789abcdef".toList

/-- Convert the number `c` to the code of a hexadecimal character; `-1`
outside of `0..15`. -/
def int2hex (c : Int) : Int :=
  if c ≥ 0 ∧ c ≤ 15 then intOfChar (int2hexMap.getD c.toNat '0') else -1

/-- The loop of the constructor from a string over the characters that are
left, with the number `j` of digits read and the two halves collected so far;
the result is the final `(j, u64UuidLo, u64UuidHi)`. -/
def ofStringLoop : List Char → Nat → Nat → Nat → Except Fault (Nat × Nat × Nat)
  | [], j, u64UuidLo, u64UuidHi => Except.ok (j, u64UuidLo, u64UuidHi)
  | character :: rest, j, u64UuidLo, u64UuidHi =>
    if j < 32 then
      if character = '-' then ofStringLoop rest j u64UuidLo u64UuidHi
      else
        let c := hex2int (intOfChar character)
        if c < 0 then Except.error Fault.ValueError
        else if j < 16 then
          ofStringLoop rest (j + 1) u64UuidLo
            (u64UuidHi ||| ((c.toNat <<< (4 * (15 - j))) % 2 ^ 64))
        else
          ofStringLoop rest (j + 1) (u64UuidLo ||| ((c.toNat <<< (4 * (31 - j))) % 2 ^ 64))
            u64UuidHi
    else Except.ok (j, u64UuidLo, u64UuidHi)

/-- Create Uuid object from string. -/
def ofString (rcsUuid : List Char) : Except Fault Uuid :=
  match ofStringLoop rcsUuid 0 0 0 with
  | Except.error e => Except.error e
  | Except.ok st =>
    if st.1 ≠ 32 then Except.error Fault.ValueError else Except.ok ⟨st.2.1, st.2.2⟩

/-- The value `c` of pass `i` of the loop of `toString`: the hexadecimal digit
number `i` of the uuid. -/
def digit (u : Uuid) (i : Nat) : Int :=
  if i < 16 then (((u.m_u64UuidHi >>> (60 - 4 * i)) &&& 0xf : Nat) : Int)
  else (((u.m_u64UuidLo >>> (124 - 4 * i)) &&& 0xf : Nat) : Int)

/-- One pass of the loop of `toString`: the characters written so far are `s`,
so that the index `j` of the code is `s.length`. -/
def toStringStep (u : Uuid) (s : List Char) (i : Nat) : List Char :=
  let s := s ++ [charOfInt (int2hex (u.digit i))]
  if s.length = 8 ∨ s.length = 13 ∨ s.length = 18 ∨ s.length = 23 then s ++ ['-'] else s

/-- Convert UUID to a hexadecimal string. -/
def toString (u : Uuid) : List Char :=
  (List.range 32).foldl u.toStringStep []

/-- The characters `a` and `b` are equal up to the case of a letter. -/
def SameLetter (a b : Char) : Prop :=
  toupper (intOfChar a) = toupper (intOfChar b)

end Uuid

/-- The entries `n[0..8]` of `invert` before the division by the determinant. -/
def Matrix3x3.cofactors (m : Matrix3x3) : Matrix3x3 :=
  ⟨m.m4 * m.m8 - m.m5 * m.m7, -(m.m1 * m.m8 - m.m2 * m.m7), m.m1 * m.m5 - m.m2 * m.m4,
   -(m.m3 * m.m8 - m.m5 * m.m6), m.m0 * m.m8 - m.m2 * m.m6, -(m.m0 * m.m5 - m.m2 * m.m3),
   m.m3 * m.m7 - m.m4 * m.m6, -(m.m0 * m.m7 - m.m1 * m.m6), m.m0 * m.m4 - m.m1 * m.m3⟩

/-- The value `determinant` by which `invert` divides. -/
def Matrix3x3.invertDeterminant (m : Matrix3x3) : ℚ :=
  m.m0 * m.cofactors.m0 + m.m1 * m.cofactors.m3 + m.m2 * m.cofactors.m6

namespace Camera

/-- The value `origin` of `getPrimaryRays`: the bottom left corner of the
film. -/
def filmOrigin (L : Libm) (c : Camera) : Vector3 :=
  let zf_prime := (c.m_fFocalLength * c.m_fFocalDist) / (c.m_fFocalLength + c.m_fFocalDist)
  let alpha := c.m_fYFieldOfView * M_PI / 180
  let height := 2 * zf_prime * L.tan (alpha / 2)
  let width := height * c.m_fAspectRatio
  ⟨-width / 2, -height / 2, c.m_fFocalLength⟩

/-- The value `dw` of `getPrimaryRays`: the step in x direction. -/
def filmDw (L : Libm) (c : Camera) : Vector3 :=
  let dir_c : Vector3 := ⟨0, 0, -1⟩
  let up_c : Vector3 := ⟨0, 1, 0⟩
  let right_c := (dir_c.cross up_c).normalize L
  let zf_prime := (c.m_fFocalLength * c.m_fFocalDist) / (c.m_fFocalLength + c.m_fFocalDist)
  let alpha := c.m_fYFieldOfView * M_PI / 180
  let height := 2 * zf_prime * L.tan (alpha / 2)
  let width := height * c.m_fAspectRatio
  Vector3.smul (1 / (((c.m_uWres + 2 ^ 32 - 1) % 2 ^ 32 : Nat) : ℚ)) (Vector3.smul width right_c)

/-- The value `dh` of `getPrimaryRays`: the step in y direction. -/
def filmDh (L : Libm) (c : Camera) : Vector3 :=
  let up_c : Vector3 := ⟨0, 1, 0⟩
  let zf_prime := (c.m_fFocalLength * c.m_fFocalDist) / (c.m_fFocalLength + c.m_fFocalDist)
  let alpha := c.m_fYFieldOfView * M_PI / 180
  let height := 2 * zf_prime * L.tan (alpha / 2)
  Vector3.smul (1 / (((c.m_uHres + 2 ^ 32 - 1) % 2 ^ 32 : Nat) : ℚ)) (Vector3.smul height up_c)

/-- The ray `ray_local` that `getPrimaryRays` builds for the pixel in column
`i` of row `j` before the loop over the samples: the ray of the pinhole
camera. -/
def pinholeRay (L : Libm) (c : Camera) (i j : Nat) : Ray :=
  let pFilm := ((c.filmOrigin L).add (Vector3.smul (i : ℚ) (c.filmDw L))).add
    (Vector3.smul (j : ℚ) (c.filmDh L))
  let pos_c : Vector3 := ⟨0, 0, 0⟩
  Ray.mk3 (j * c.m_uWres + i) pos_c ((pos_c.sub pFilm).normalize L)

end Camera

/-- The example library with a random generator whose every value is
`9/10`. -/
def exampleLibmHigh : Libm :=
  { exampleLibm with canonical := fun _ => 9/10 }

/-! ## Rotation factories (`matrix.h`, `quaternion.h`, `transformation.h`) -/

namespace Matrix3x3

/-- Rotation matrix around the x-axis with angle `phi`. -/
def RotationX (L : Libm) (phi : ℚ) : Matrix3x3 :=
  let c := L.cos phi
  let s := L.sin phi
  ⟨1, 0, 0, 0, c, -s, 0, s, c⟩

/-- Rotation matrix around the y-axis with angle `phi`. -/
def RotationY (L : Libm) (phi : ℚ) : Matrix3x3 :=
  let c := L.cos phi
  let s := L.sin phi
  ⟨c, 0, s, 0, 1, 0, -s, 0, c⟩

/-- Rotation matrix around the z-axis with angle `phi`. -/
def RotationZ (L : Libm) (phi : ℚ) : Matrix3x3 :=
  let c := L.cos phi
  let s := L.sin phi
  ⟨c, -s, 0, s, c, 0, 0, 0, 1⟩

/-- Rotation matrix around the vector `n` with angle `phi`. -/
def Rotation (L : Libm) (n : Vector3) (phi : ℚ) : Matrix3x3 :=
  let v := n.normalize L
  let n1 := v.x
  let n2 := v.y
  let n3 := v.z
  let fCosPhi := L.cos phi
  let fSinPhi := L.sin phi
  ⟨n1 * n1 * (1 - fCosPhi) + fCosPhi, n1 * n2 * (1 - fCosPhi) - n3 * fSinPhi,
   n1 * n3 * (1 - fCosPhi) + n2 * fSinPhi,
   n2 * n1 * (1 - fCosPhi) + n3 * fSinPhi, n2 * n2 * (1 - fCosPhi) + fCosPhi,
   n2 * n3 * (1 - fCosPhi) - n1 * fSinPhi,
   n3 * n1 * (1 - fCosPhi) - n2 * fSinPhi, n3 * n2 * (1 - fCosPhi) + n1 * fSinPhi,
   n3 * n3 * (1 - fCosPhi) + fCosPhi⟩

end Matrix3x3

/-- Quaternion `q = w + x i + y j + z k` with imaginary part `m_v` and scalar
part `m_w`. -/
structure Quaternion where
  m_v : Vector3
  m_w : ℚ
  deriving DecidableEq, Repr

namespace Quaternion

/-- Dot product of two quaternions. -/
def dot (p q : Quaternion) : ℚ :=
  p.m_v.dot q.m_v + p.m_w * q.m_w

/-- Squared length of the quaternion. -/
def length2 (q : Quaternion) : ℚ :=
  q.dot q

/-- Length of the quaternion. -/
def length (L : Libm) (q : Quaternion) : ℚ :=
  L.sqrt (q.dot q)

/-- Normalized quaternion `q * (1/length)`. -/
def normalize (L : Libm) (q : Quaternion) : Quaternion :=
  let f := 1 / q.length L
  ⟨⟨f * q.m_v.x, f * q.m_v.y, f * q.m_v.z⟩, f * q.m_w⟩

/-- The rotation matrix that corresponds to the quaternion. -/
def toMatrix (q : Quaternion) : Matrix3x3 :=
  let qw := q.m_w
  let qx := q.m_v.x
  let qy := q.m_v.y
  let qz := q.m_v.z
  ⟨1 - 2 * (qy * qy + qz * qz), 2 * (qx * qy - qz * qw), 2 * (qx * qz + qy * qw),
   2 * (qx * qy + qz * qw), 1 - 2 * (qx * qx + qz * qz), 2 * (qy * qz - qx * qw),
   2 * (qx * qz - qy * qw), 2 * (qy * qz + qx * qw), 1 - 2 * (qx * qx + qy * qy)⟩

end Quaternion

namespace Transformation

/-- Rotation around the x-axis; the cached inverse is the transposed matrix. -/
def RotationX (L : Libm) (fPhi : ℚ) : Transformation :=
  let m := Matrix3x3.RotationX L fPhi
  ⟨m, m.transpose, ⟨0, 0, 0⟩⟩

/-- Rotation around the y-axis; the cached inverse is the transposed matrix. -/
def RotationY (L : Libm) (fPhi : ℚ) : Transformation :=
  let m := Matrix3x3.RotationY L fPhi
  ⟨m, m.transpose, ⟨0, 0, 0⟩⟩

/-- Rotation around the z-axis; the cached inverse is the transposed matrix. -/
def RotationZ (L : Libm) (fPhi : ℚ) : Transformation :=
  let m := Matrix3x3.RotationZ L fPhi
  ⟨m, m.transpose, ⟨0, 0, 0⟩⟩

/-- Rotation around the vector `n`; the cached inverse is the transposed
matrix. -/
def Rotation (L : Libm) (n : Vector3) (fPhi : ℚ) : Transformation :=
  let m := Matrix3x3.Rotation L n fPhi
  ⟨m, m.transpose, ⟨0, 0, 0⟩⟩

/-- Rotation from the quaternion `q`, which is normalized first (the overload
`Rotation(const Quaternion&)`). -/
def RotationQuaternion (L : Libm) (q : Quaternion) : Transformation :=
  let m := (q.normalize L).toMatrix
  ⟨m, m.transpose, ⟨0, 0, 0⟩⟩

/-- Transformation from translation, rotation and scaling: `m = R*S`,
`minv = Sinv*Rinv`; the quaternion is used as given. -/
def TRS (translation : Vector3) (rotation : Quaternion) (scale : Vector3) :
    Transformation :=
  let S := Matrix3x3.Scale scale.x scale.y scale.z
  let R := rotation.toMatrix
  let m := R.matmult S
  let Sinv := Matrix3x3.Scale (1 / scale.x) (1 / scale.y) (1 / scale.z)
  let Rinv := R.transpose
  let minv := Sinv.matmult Rinv
  ⟨m, minv, translation⟩

end Transformation

/-! ## The sort key of `buildBVH` (`mesh.cpp`) -/

namespace Mesh

/-- The value `x` that `compareFunction` computes for the triangle `a`: the
coordinates of the entries `0`, `1` and again `1`, divided by three. -/
def compareKey (pVertexBuffer : List ℚ) (index : Nat) (a : IndexTriple) : ℚ :=
  (pVertexBuffer.getD (3 * a.1 + index) 0 + pVertexBuffer.getD (3 * a.2.1 + index) 0
    + pVertexBuffer.getD (3 * a.2.1 + index) 0) / 3

/-- Centroid coordinate in the words of the specification: the mean of the
coordinates of the three vertices (index entries `0`, `1` and `2`) along the
axis `index`. -/
def centroidCoordinate (pVertexBuffer : List ℚ) (index : Nat) (a : IndexTriple) : ℚ :=
  (pVertexBuffer.getD (3 * a.1 + index) 0 + pVertexBuffer.getD (3 * a.2.1 + index) 0
    + pVertexBuffer.getD (3 * a.2.2 + index) 0) / 3

end Mesh

/-- Mesh of eight triangles over nine vertices on the x-axis with the
x-coordinates `0, 0, 9`, `1, 1, 1` and `2, 2, 2`, before `buildBVH`. -/
def compareMesh8 : Mesh :=
  { m_sName := "keys", m_vBbox := [], m_pMaterial := none,
    m_IndexBuffer := [0, 1, 2, 3, 4, 5, 6, 7, 8, 0, 1, 2, 3, 4, 5, 6, 7, 8, 0, 1, 2, 3, 4, 5],
    m_VertexBuffer := [0, 0, 0, 0, 0, 0, 9, 0, 0, 1, 0, 0, 1, 0, 0, 1, 0, 0, 2, 0, 0, 2, 0, 0,
      2, 0, 0],
    m_NormalBuffer := [] }

/-! ## Loading the node hierarchy (`assetgeometry.cpp`, `node.h`)

`GltfNode` holds the members of a `tinygltf::Node` that `loadNodes` reads;
node numbers are natural numbers. The loop of `hasParent` carries a fuel
argument: `none` stands for exhausted fuel (or a pointer outside the array,
which `loadNodes` never creates), so a loop that runs forever is one that
gives `none` for every fuel. -/

/-- The members of a glTF node read by `loadNodes`; `mesh` is negative when
the node has no mesh. -/
structure GltfNode where
  name : String
  mesh : Int
  matrix : List ℚ
  scale : List ℚ
  rotation : List ℚ
  translation : List ℚ
  children : List Nat
  deriving DecidableEq, Repr

namespace Node

/-- Constructor `Node(uNodeNumber)`: identity transformation, no mesh, no
parent, no children. -/
def mk1 (uNodeNumber : Nat) : Node :=
  { m_sName := "", m_uNodeNumber := uNodeNumber, m_transformation := Transformation.Identity,
    m_pMesh := none, m_pParent := none, m_pChildren := [] }

/-- The loop `while((pNode = pNode->getParent()) != nullptr)` of `hasParent`;
the second argument is the value of `pNode->getParent()`. -/
def hasParentLoop (nodes : List Node) (uNodeNumber : Nat) : Nat → Option Nat → Option Bool
  | _, none => some false
  | 0, some _ => none
  | fuel + 1, some pNode =>
    match nodes.get? pNode with
    | none => none
    | some node =>
      if node.m_uNodeNumber = uNodeNumber then some true
      else hasParentLoop nodes uNodeNumber fuel node.m_pParent

/-- Determine if the parent or any other ancestor of `node` has the node
number `uNodeNumber`. -/
def hasParent (nodes : List Node) (fuel : Nat) (node : Node) (uNodeNumber : Nat) : Option Bool :=
  hasParentLoop nodes uNodeNumber fuel node.m_pParent

/-- Apply the member function `f` to the node at position `i` of the array. -/
def update (nodes : List Node) (i : Nat) (f : Node → Node) : List Node :=
  match nodes.get? i with
  | none => nodes
  | some node => nodes.set i (f node)

end Node

namespace AssetGeometry

/-- No glTF node lists `uNodeNumber` as a child. -/
def checkNodeIsRoot (gltfNodes : List GltfNode) (uNodeNumber : Nat) : Bool :=
  gltfNodes.all (fun gltfNode => !(gltfNode.children.contains uNodeNumber))

/-- The transformation `loadNodes` reads for a node: from the column-major
4x4 `matrix` if present, else `TRS` of translation, rotation and scale with
the identity defaults. -/
def nodeTransformation (gltfNode : GltfNode) : Transformation :=
  if gltfNode.matrix ≠ [] then
    let t : Vector3 :=
      ⟨gltfNode.matrix.getD 3 0, gltfNode.matrix.getD 7 0, gltfNode.matrix.getD 11 0⟩
    let M : Matrix3x3 :=
      ⟨gltfNode.matrix.getD 0 0, gltfNode.matrix.getD 4 0, gltfNode.matrix.getD 8 0,
       gltfNode.matrix.getD 1 0, gltfNode.matrix.getD 5 0, gltfNode.matrix.getD 9 0,
       gltfNode.matrix.getD 2 0, gltfNode.matrix.getD 6 0, gltfNode.matrix.getD 10 0⟩
    Transformation.mk2 M t
  else
    let scale : Vector3 :=
      if gltfNode.scale ≠ [] then
        ⟨gltfNode.scale.getD 0 0, gltfNode.scale.getD 1 0, gltfNode.scale.getD 2 0⟩
      else ⟨1, 1, 1⟩
    let rotation : Quaternion :=
      if gltfNode.rotation ≠ [] then
        ⟨⟨gltfNode.rotation.getD 0 0, gltfNode.rotation.getD 1 0, gltfNode.rotation.getD 2 0⟩,
          gltfNode.rotation.getD 3 0⟩
      else ⟨⟨0, 0, 0⟩, 1⟩
    let translation : Vector3 :=
      if gltfNode.translation ≠ [] then
        ⟨gltfNode.translation.getD 0 0, gltfNode.translation.getD 1 0,
          gltfNode.translation.getD 2 0⟩
      else ⟨0, 0, 0⟩
    Transformation.TRS translation rotation scale

/-- One pass of the loop over the children of the node `uNodeNumber`: the
child must exist; it is added to the current node and gets the current node
as its parent. -/
def addChildStep (uNodeNumber : Nat) (nodes : List Node) (uChild : Nat) :
    Except Fault (List Node) :=
  if uChild ≥ nodes.length then .error Fault.GltfError
  else
    let nodes1 := Node.update nodes uNodeNumber
      (fun n => { n with m_pChildren := n.m_pChildren ++ [uChild] })
    .ok (Node.update nodes1 uChild (fun n => { n with m_pParent := some uNodeNumber }))

/-- The loop `for(size_t uChild : gltfNode.children)`. -/
def addChildren (uNodeNumber : Nat) : List Node → List Nat → Except Fault (List Node)
  | nodes, [] => .ok nodes
  | nodes, uChild :: rest =>
    match addChildStep uNodeNumber nodes uChild with
    | .error e => .error e
    | .ok nodes1 => addChildren uNodeNumber nodes1 rest

/-- Body of the loop that initializes the node `uNodeNumber`: name, mesh,
transformation, children. `uMeshes` is `m_vpMeshes.size()`. -/
def initNode (uMeshes : Nat) (gltfNode : GltfNode) (nodes : List Node) (uNodeNumber : Nat) :
    Except Fault (List Node) :=
  let nodes1 := Node.update nodes uNodeNumber (fun n => { n with m_sName := gltfNode.name })
  if 0 ≤ gltfNode.mesh ∧ gltfNode.mesh.toNat ≥ uMeshes then .error Fault.GltfError
  else
    let nodes2 :=
      if 0 ≤ gltfNode.mesh then
        Node.update nodes1 uNodeNumber (fun n => { n with m_pMesh := some gltfNode.mesh.toNat })
      else nodes1
    let nodes3 := Node.update nodes2 uNodeNumber
      (fun n => { n with m_transformation := nodeTransformation gltfNode })
    addChildren uNodeNumber nodes3 gltfNode.children

/-- The loop that initializes the nodes `uNodeNumber`, `uNodeNumber + 1`, ... -/
def initNodes (uMeshes : Nat) : List GltfNode → Nat → List Node → Except Fault (List Node)
  | [], _, nodes => .ok nodes
  | gltfNode :: rest, uNodeNumber, nodes =>
    match initNode uMeshes gltfNode nodes uNodeNumber with
    | .error e => .error e
    | .ok nodes1 => initNodes uMeshes rest (uNodeNumber + 1) nodes1

/-- The loop `for(const Node *pNode : m_vpNodes)` with the cyclic-structure
check; `none` when a call of `hasParent` does not return. -/
def cycleCheck (nodes : List Node) (fuel : Nat) : List Node → Option (Except Fault Unit)
  | [] => some (.ok ())
  | pNode :: rest =>
    match pNode.hasParent nodes fuel pNode.m_uNodeNumber with
    | none => none
    | some true => some (.error Fault.GltfError)
    | some false => cycleCheck nodes fuel rest

/-- Load the node hierarchy: create the nodes, initialize them, check that
the scene nodes are roots and that the structure is not cyclic. The result is
the array `m_vpNodes`; `none` when the function does not return. -/
def loadNodes (uMeshes : Nat) (gltfNodes : List GltfNode) (m_viSceneNodes : List Nat)
    (fuel : Nat) : Option (Except Fault (List Node)) :=
  let created := (List.range gltfNodes.length).map Node.mk1
  match initNodes uMeshes gltfNodes 0 created with
  | .error e => some (.error e)
  | .ok nodes =>
    if m_viSceneNodes.all (fun iNodeNumber => checkNodeIsRoot gltfNodes iNodeNumber) then
      match cycleCheck nodes fuel nodes with
      | none => none
      | some (.error e) => some (.error e)
      | some (.ok _) => some (.ok nodes)
    else some (.error Fault.GltfError)

end AssetGeometry

/-- A glTF node without mesh, transformation and children. -/
def gltfLeaf : GltfNode :=
  { name := "", mesh := -1, matrix := [], scale := [], rotation := [], translation := [],
    children := [] }

/-- Four glTF nodes: node 1 lists the children 0 and 2, node 2 lists the
child 1, node 3 is the root of the scene. Nodes 1 and 2 are each other's parent and
node 0 hangs below node 1. -/
def cyclicGltfNodes : List GltfNode :=
  [gltfLeaf, { gltfLeaf with children := [0, 2] }, { gltfLeaf with children := [1] }, gltfLeaf]

/-- The node array that the initialization loop of `loadNodes` builds from
`cyclicGltfNodes`. -/
def cyclicNodes : List Node :=
  match AssetGeometry.initNodes 0 cyclicGltfNodes 0 ((List.range 4).map Node.mk1) with
  | .ok nodes => nodes
  | .error _ => []

/-- Two glTF nodes that list each other as child. -/
def twoCycleGltfNodes : List GltfNode :=
  [{ gltfLeaf with children := [1] }, { gltfLeaf with children := [0] }]

/-- Three glTF nodes forming a tree: node 0 has the children 1 and 2. -/
def treeGltfNodes : List GltfNode :=
  [{ gltfLeaf with children := [1, 2] }, gltfLeaf, gltfLeaf]

/-! ## A triangle with bent vertex normals -/

/-- Mesh of the single triangle `(0,0,0) (1,0,0) (0,1,0)`, whose flat normal
is `(0,0,1)`, with the vertex normal `(4/5, 0, 3/5)` at every vertex and a
pointer to material 0. -/
def bentMesh : Mesh :=
  { m_sName := "bent", m_vBbox := [], m_pMaterial := some 0,
    m_IndexBuffer := [0, 1, 2],
    m_VertexBuffer := [0, 0, 0, 1, 0, 0, 0, 1, 0],
    m_NormalBuffer := [4/5, 0, 3/5, 4/5, 0, 3/5, 4/5, 0, 3/5] }

/-- Ray from `(-11/20, 1/4, 3/5)` along the unit vector `(4/5, 0, -3/5)`, which
meets the triangle of `bentMesh` from the front at `t = 1`, with a pointer to
the spectrum at position 0 as payload. -/
def bentRay : Ray :=
  (Ray.mk3 0 ⟨-11/20, 1/4, 3/5⟩ ⟨4/5, 0, -3/5⟩).setDataRGBUnpolarized (some 0)

/-- The record of the hit of `bentRay` on the triangle of `bentMesh`, at
`t = 1`, `u = v = 1/4`. -/
def bentHit : Intersection :=
  (Intersection.ofRay bentRay).setMesh bentMesh 0 1 (1/4) (1/4)

end OpenMaterial

/-! # Properties

Lemmas about the embedding first, then one theorem per specification claim. -/

namespace OpenMaterial

/-! ## Extended floats and the triangle test -/

theorem XFloat.le_of_not_lt {a b : XFloat} (ha : a ≠ XFloat.nan) (hb : b ≠ XFloat.nan)
    (h : XFloat.lt b a = false) : XFloat.le a b = true := by
  cases a <;> cases b <;> simp_all [XFloat.lt, XFloat.le]

theorem intersectRayTriangle_eq_some {V0 V1 V2 O D : Vector3} {tmin tmax : XFloat}
    {bCulling : Bool} {h : TriangleHit}
    (hh : intersectRayTriangle V0 V1 V2 O D tmin tmax bCulling = some h) :
    let det := (D.cross (V2.sub V0)).dot (V1.sub V0)
    det ≠ 0 ∧ (bCulling = true → 0 < det) ∧
    h.u = 1 / det * (D.cross (V2.sub V0)).dot (O.sub V0) ∧
    h.v = 1 / det * ((O.sub V0).cross (V1.sub V0)).dot D ∧
    h.t = 1 / det * ((O.sub V0).cross (V1.sub V0)).dot (V2.sub V0) ∧
    h.orientation = (if det > 0 then 1 else -1) ∧
    0 ≤ h.u ∧ h.u ≤ 1 ∧ 0 ≤ h.v ∧ h.u + h.v ≤ 1 ∧
    XFloat.lt (XFloat.fin h.t) tmin = false ∧ XFloat.lt tmax (XFloat.fin h.t) = false := by
  intro det
  unfold intersectRayTriangle at hh
  simp only [] at hh
  split_ifs at hh with h1 h2 h3 h4 h5 h6
  all_goals
    simp only [Option.some.injEq] at hh
    subst hh
    simp only [Bool.and_eq_true, decide_eq_true_eq, not_and, not_lt, not_or, not_le,
      Bool.or_eq_true, Bool.not_eq_true] at h2 h3 h4 h5
    refine ⟨h1, ?_, rfl, rfl, rfl, ?_, h3.1, h3.2, h4.1, h4.2, h5.1, h5.2⟩
    · intro hc
      exact lt_of_le_of_ne (h2 hc) (Ne.symm h1)
    · simp [det, h6]

theorem hitPoint_identity (V0 V1 V2 O D : Vector3)
    (hdet : (D.cross (V2.sub V0)).dot (V1.sub V0) ≠ 0) :
    let det := (D.cross (V2.sub V0)).dot (V1.sub V0)
    let u := 1 / det * (D.cross (V2.sub V0)).dot (O.sub V0)
    let v := 1 / det * ((O.sub V0).cross (V1.sub V0)).dot D
    let t := 1 / det * ((O.sub V0).cross (V1.sub V0)).dot (V2.sub V0)
    O.add (Vector3.smul t D) =
      ((Vector3.smul (1 - u - v) V0).add (Vector3.smul u V1)).add (Vector3.smul v V2) := by
  intro det u v t
  obtain ⟨ax, ay, az⟩ := V0
  obtain ⟨bx, bY, bz⟩ := V1
  obtain ⟨cx, cy, cz⟩ := V2
  obtain ⟨ox, oy, oz⟩ := O
  obtain ⟨dx, dy, dz⟩ := D
  simp only [u, v, t, det, Vector3.add, Vector3.smul, Vector3.mk.injEq, Vector3.cross,
    Vector3.dot, Vector3.sub] at hdet ⊢
  refine ⟨?_, ?_, ?_⟩ <;> field_simp <;> ring



namespace XFloat

theorem raise_spec (a : XFloat) (x : ℚ) (ha : a ≠ nan) :
    (if lt a (fin x) then fin x else a) ≠ nan ∧
    (if lt a (fin x) then fin x else a) ≠ ninf ∧
    ∀ t : ℚ, le (if lt a (fin x) then fin x else a) (fin t) = true ↔
      (le a (fin t) = true ∧ x ≤ t) := by
  cases a with
  | nan => exact absurd rfl ha
  | ninf => simp [lt, le]
  | pinf => simp [lt, le]
  | fin q =>
    by_cases h : q < x
    · simp only [lt, h, decide_True, if_true, ne_eq, not_false_eq_true, le, decide_eq_true_eq,
        true_and, reduceCtorEq]
      intro t; constructor
      · intro ht; exact ⟨by linarith, ht⟩
      · intro ht; exact ht.2
    · simp only [lt, h, decide_False, ne_eq, not_false_eq_true, le, decide_eq_true_eq,
        true_and, reduceCtorEq, Bool.false_eq_true, if_false]
      intro t; constructor
      · intro ht; exact ⟨ht, by linarith⟩
      · intro ht; exact ht.1

theorem lower_spec (c : XFloat) (y : ℚ) (hc : c ≠ nan) :
    (if lt (fin y) c then fin y else c) ≠ nan ∧
    (if lt (fin y) c then fin y else c) ≠ pinf ∧
    ∀ t : ℚ, le (fin t) (if lt (fin y) c then fin y else c) = true ↔
      (le (fin t) c = true ∧ t ≤ y) := by
  cases c with
  | nan => exact absurd rfl hc
  | ninf => simp [lt, le]
  | pinf => simp [lt, le]
  | fin q =>
    by_cases h : y < q
    · simp only [lt, h, decide_True, if_true, ne_eq, not_false_eq_true, le, decide_eq_true_eq,
        true_and, reduceCtorEq]
      intro t; constructor
      · intro ht; exact ⟨by linarith, ht⟩
      · intro ht; exact ht.2
    · simp only [lt, h, decide_False, ne_eq, not_false_eq_true, le, decide_eq_true_eq,
        true_and, reduceCtorEq, Bool.false_eq_true, if_false]
      intro t; constructor
      · intro ht; exact ⟨ht, by linarith⟩
      · intro ht; exact ht.1

theorem lt_false_iff_le {a c : XFloat} (ha : a ≠ nan) (hc : c ≠ nan) :
    lt c a = false ↔ le a c = true := by
  cases a <;> cases c <;> simp_all [lt, le]

theorem le_trans_fin {a c : XFloat} {t : ℚ} (h1 : le a (fin t) = true)
    (h2 : le (fin t) c = true) : le a c = true := by
  cases a <;> cases c <;> simp_all [le]
  linarith

theorem exists_fin_of_le {a c : XFloat} (ha : a ≠ ninf) (hc : c ≠ pinf)
    (h : le a c = true) : ∃ p q : ℚ, a = fin p ∧ c = fin q ∧ p ≤ q := by
  cases a <;> cases c <;> simp_all [le]

end XFloat

theorem slab_pos {lo hi o d t : ℚ} (hd : 0 < d) :
    ((lo - o) * (1 / d) ≤ t ∧ t ≤ (hi - o) * (1 / d)) ↔ (lo ≤ o + t * d ∧ o + t * d ≤ hi) := by
  rw [mul_one_div, mul_one_div, div_le_iff₀ hd, le_div_iff₀ hd]
  constructor <;> rintro ⟨h1, h2⟩ <;> constructor <;> linarith

theorem slab_neg {lo hi o d t : ℚ} (hd : d < 0) :
    ((hi - o) * (1 / d) ≤ t ∧ t ≤ (lo - o) * (1 / d)) ↔ (lo ≤ o + t * d ∧ o + t * d ≤ hi) := by
  rw [mul_one_div, mul_one_div, div_le_iff_of_neg hd, le_div_iff_of_neg hd]
  constructor <;> rintro ⟨h1, h2⟩ <;> constructor <;> linarith

/-- The narrowing of an interval by finite values `x` (from below) and `y`
(from above) as done in one pass of the slab loop. -/
theorem narrow_spec (a c : XFloat) (x y : ℚ) (ha : a ≠ XFloat.nan) (hc : c ≠ XFloat.nan) :
    match (if XFloat.lt (if XFloat.lt (XFloat.fin y) c then XFloat.fin y else c)
              (if XFloat.lt a (XFloat.fin x) then XFloat.fin x else a) then none
           else some ((if XFloat.lt a (XFloat.fin x) then XFloat.fin x else a),
                      (if XFloat.lt (XFloat.fin y) c then XFloat.fin y else c)) :
            Option (XFloat × XFloat)) with
    | some iv' => (∃ p q : ℚ, iv' = (XFloat.fin p, XFloat.fin q) ∧ p ≤ q) ∧
        ∀ t, XFloat.Inside iv' t ↔ (XFloat.Inside (a, c) t ∧ x ≤ t ∧ t ≤ y)
    | none => ∀ t, ¬ (XFloat.Inside (a, c) t ∧ x ≤ t ∧ t ≤ y) := by
  obtain ⟨r1, r2, r3⟩ := XFloat.raise_spec a x ha
  obtain ⟨l1, l2, l3⟩ := XFloat.lower_spec c y hc
  generalize (if XFloat.lt a (XFloat.fin x) then XFloat.fin x else a) = a' at *
  generalize (if XFloat.lt (XFloat.fin y) c then XFloat.fin y else c) = c' at *
  by_cases h : XFloat.lt c' a' = true
  · simp only [h, if_true]
    rintro t ⟨⟨h1, h2⟩, h3, h4⟩
    have e1 := (r3 t).2 ⟨h1, h3⟩
    have e2 := (l3 t).2 ⟨h2, h4⟩
    have := (XFloat.lt_false_iff_le r1 l1).2 (XFloat.le_trans_fin e1 e2)
    rw [this] at h; exact absurd h (by simp)
  · simp only [h, if_false, Bool.false_eq_true]
    have hle := (XFloat.lt_false_iff_le r1 l1).1 (by simpa using h)
    obtain ⟨p, q, hp, hq, hpq⟩ := XFloat.exists_fin_of_le r2 l2 hle
    refine ⟨⟨p, q, by rw [hp, hq], hpq⟩, ?_⟩
    intro t
    simp only [XFloat.Inside, r3, l3]
    tauto


theorem Ray.setDirection_consistent (r : Ray) (D : Vector3) : (r.setDirection D).Consistent := by
  intro j
  rcases j with _ | _ | j <;> simp [Ray.setDirection, XVector3.get, Vector3.get, Ray.posneg]

theorem BBox.intersectRayAxis_nonzero (b : BBox) (ray : Ray) (j : Nat) (lo hi : ℚ)
    (hlo : b.m_pp0.get j = XFloat.fin lo) (hhi : b.m_pp1.get j = XFloat.fin hi)
    (hray : ray.Consistent) (hd : ray.m_vDirection.get j ≠ 0)
    (iv : XFloat × XFloat) (h1 : iv.1 ≠ XFloat.nan) (h2 : iv.2 ≠ XFloat.nan) :
    match b.intersectRayAxis ray j iv with
    | some iv' => (∃ p q : ℚ, iv' = (XFloat.fin p, XFloat.fin q) ∧ p ≤ q) ∧
        ∀ t, XFloat.Inside iv' t ↔ (XFloat.Inside iv t ∧
          lo ≤ ray.m_vOrigin.get j + t * ray.m_vDirection.get j ∧
          ray.m_vOrigin.get j + t * ray.m_vDirection.get j ≤ hi)
    | none => ∀ t, ¬ (XFloat.Inside iv t ∧
          lo ≤ ray.m_vOrigin.get j + t * ray.m_vDirection.get j ∧
          ray.m_vOrigin.get j + t * ray.m_vDirection.get j ≤ hi) := by
  obtain ⟨a, c⟩ := iv
  obtain ⟨hinv, hpn⟩ := hray j
  simp only [BBox.intersectRayAxis]
  generalize ray.m_vDirection.get j = d at *
  generalize ray.m_vOrigin.get j = o at *
  simp only at h1 h2
  rcases lt_or_gt_of_ne hd with hneg | hpos
  · have hpn' : ray.posneg j = 1 := by rw [hpn]; simp [not_le.mpr hneg]
    have key := narrow_spec a c ((hi - o) * (1 / d)) ((lo - o) * (1 / d)) h1 h2
    simp only [BBox.intersectRayAxis, hpn', BBox.m_pp, hlo, hhi, hinv, XFloat.recip, hd,
      XFloat.subQ, XFloat.mul, if_false, one_ne_zero, Nat.sub_self, if_true]
    simp only [slab_neg hneg] at key
    exact key
  · have hpn' : ray.posneg j = 0 := by rw [hpn]; simp [le_of_lt hpos]
    have key := narrow_spec a c ((lo - o) * (1 / d)) ((hi - o) * (1 / d)) h1 h2
    simp only [BBox.intersectRayAxis, hpn', BBox.m_pp, hlo, hhi, hinv, XFloat.recip, hd,
      XFloat.subQ, XFloat.mul, if_false, one_ne_zero, Nat.sub_zero, if_true]
    simp only [slab_pos hpos] at key
    exact key


theorem XFloat.ne_nan_of_le {a c : XFloat} (h : XFloat.le a c = true) :
    a ≠ XFloat.nan ∧ c ≠ XFloat.nan := by
  cases a <;> cases c <;> simp_all [XFloat.le]

/-- C4: for a box with finite corners, a ray whose direction has no zero
component (reciprocal direction and sign flags as set by `Ray::setDirection`)
and bounds `tmin <= tmax`, `BBox::intersectRay` returns true exactly when some
`t` with `tmin <= t <= tmax` has `origin + t*direction` inside the closed box.
The order `min[j] <= max[j]` of the corners is not needed. -/
theorem BBox_intersectRay_iff_slab (vMin vMax O D : Vector3) (r : Ray) (tmin tmax : XFloat)
    (hD : D.x ≠ 0 ∧ D.y ≠ 0 ∧ D.z ≠ 0) (hle : XFloat.le tmin tmax = true) :
    (BBox.ofCorners vMin vMax).intersectRay ((r.setOrigin O).setDirection D) tmin tmax = true ↔
      ∃ t : ℚ, XFloat.le tmin (XFloat.fin t) = true ∧ XFloat.le (XFloat.fin t) tmax = true ∧
        (vMin.x ≤ O.x + t * D.x ∧ O.x + t * D.x ≤ vMax.x) ∧
        (vMin.y ≤ O.y + t * D.y ∧ O.y + t * D.y ≤ vMax.y) ∧
        (vMin.z ≤ O.z + t * D.z ∧ O.z + t * D.z ≤ vMax.z) := by
  obtain ⟨hn1, hn2⟩ := XFloat.ne_nan_of_le hle
  set ray := (r.setOrigin O).setDirection D with hray
  set b := BBox.ofCorners vMin vMax with hb
  have hc : ray.Consistent := Ray.setDirection_consistent _ _
  have a0 := BBox.intersectRayAxis_nonzero b ray 0 vMin.x vMax.x rfl rfl hc hD.1 (tmin, tmax)
    hn1 hn2
  unfold BBox.intersectRay
  cases e0 : b.intersectRayAxis ray 0 (tmin, tmax) with
  | none =>
    rw [e0] at a0
    simp only [Bool.false_eq_true, false_iff, not_exists]
    intro t ht
    exact a0 t ⟨⟨ht.1, ht.2.1⟩, ht.2.2.1⟩
  | some iv0 =>
    rw [e0] at a0
    obtain ⟨⟨p0, q0, hiv0, _⟩, s0⟩ := a0
    have a1 := BBox.intersectRayAxis_nonzero b ray 1 vMin.y vMax.y rfl rfl hc hD.2.1 iv0
      (by rw [hiv0]; simp) (by rw [hiv0]; simp)
    cases e1 : b.intersectRayAxis ray 1 iv0 with
    | none =>
      rw [e1] at a1
      simp only [e1]
      simp only [Bool.false_eq_true, false_iff, not_exists]
      intro t ht
      exact a1 t ⟨(s0 t).2 ⟨⟨ht.1, ht.2.1⟩, ht.2.2.1⟩, ht.2.2.2.1⟩
    | some iv1 =>
      rw [e1] at a1
      simp only [e1]
      obtain ⟨⟨p1, q1, hiv1, _⟩, s1⟩ := a1
      have a2 := BBox.intersectRayAxis_nonzero b ray 2 vMin.z vMax.z rfl rfl hc hD.2.2 iv1
        (by rw [hiv1]; simp) (by rw [hiv1]; simp)
      cases e2 : b.intersectRayAxis ray 2 iv1 with
      | none =>
        rw [e2] at a2
        simp only [e2]
        simp only [Bool.false_eq_true, false_iff, not_exists]
        intro t ht
        exact a2 t ⟨(s1 t).2 ⟨(s0 t).2 ⟨⟨ht.1, ht.2.1⟩, ht.2.2.1⟩, ht.2.2.2.1⟩, ht.2.2.2.2⟩
      | some iv2 =>
        rw [e2] at a2
        simp only [e2]
        obtain ⟨⟨p2, q2, hiv2, hpq⟩, s2⟩ := a2
        simp only [true_iff]
        have hin : XFloat.Inside iv2 p2 := by
          rw [hiv2]; simp [XFloat.Inside, XFloat.le, hpq]
        obtain ⟨h2a, h2b⟩ := (s2 p2).1 hin
        obtain ⟨h1a, h1b⟩ := (s1 p2).1 h2a
        obtain ⟨h0a, h0b⟩ := (s0 p2).1 h1a
        exact ⟨p2, h0a.1, h0a.2, h0b, h1b, h2b⟩

/-! ## Matrices and transformations -/

namespace Matrix3x3

theorem matmult_assoc (a b c : Matrix3x3) :
    (a.matmult b).matmult c = a.matmult (b.matmult c) := by
  simp only [matmult, Matrix3x3.mk.injEq]
  refine ⟨?_, ?_, ?_, ?_, ?_, ?_, ?_, ?_, ?_⟩ <;> ring

theorem matmult_Identity (a : Matrix3x3) : a.matmult Identity = a := by
  cases a; simp [matmult, Identity]

theorem Identity_matmult (a : Matrix3x3) : Identity.matmult a = a := by
  cases a; simp [matmult, Identity]

theorem apply_matmult (a b : Matrix3x3) (v : Vector3) :
    (a.matmult b).apply v = a.apply (b.apply v) := by
  simp only [matmult, apply, Vector3.mk.injEq]
  refine ⟨?_, ?_, ?_⟩ <;> ring

theorem Identity_apply (v : Vector3) : Identity.apply v = v := by
  cases v; simp [apply, Identity]

theorem apply_add (a : Matrix3x3) (v w : Vector3) :
    a.apply (v.add w) = (a.apply v).add (a.apply w) := by
  simp only [apply, Vector3.add, Vector3.mk.injEq]
  refine ⟨?_, ?_, ?_⟩ <;> ring

theorem apply_sub (a : Matrix3x3) (v w : Vector3) :
    a.apply (v.sub w) = (a.apply v).sub (a.apply w) := by
  simp only [apply, Vector3.sub, Vector3.mk.injEq]
  refine ⟨?_, ?_, ?_⟩ <;> ring

theorem apply_smul (a : Matrix3x3) (c : ℚ) (v : Vector3) :
    a.apply (Vector3.smul c v) = Vector3.smul c (a.apply v) := by
  simp only [apply, Vector3.smul, Vector3.mk.injEq]
  refine ⟨?_, ?_, ?_⟩ <;> ring

theorem invert_det_eq (m : Matrix3x3) :
    m.m0 * (m.m4 * m.m8 - m.m5 * m.m7) + m.m1 * -(m.m3 * m.m8 - m.m5 * m.m6)
      + m.m2 * (m.m3 * m.m7 - m.m4 * m.m6) = m.det := by
  simp only [det]

theorem invert_matmult (m : Matrix3x3) (h : m.det ≠ 0) : m.invert.matmult m = Identity := by
  obtain ⟨a, b, c, d, e, f, g, k, i⟩ := m
  simp only [det] at h
  simp only [invert, matmult, Identity, Matrix3x3.mk.injEq]
  generalize hD : a * (e * i - f * k) + b * -(d * i - f * g) + c * (d * k - e * g) = D at h ⊢
  refine ⟨?_, ?_, ?_, ?_, ?_, ?_, ?_, ?_, ?_⟩ <;> field_simp <;> subst hD <;> ring

theorem matmult_invert (m : Matrix3x3) (h : m.det ≠ 0) : m.matmult m.invert = Identity := by
  obtain ⟨a, b, c, d, e, f, g, k, i⟩ := m
  simp only [det] at h
  simp only [invert, matmult, Identity, Matrix3x3.mk.injEq]
  generalize hD : a * (e * i - f * k) + b * -(d * i - f * g) + c * (d * k - e * g) = D at h ⊢
  refine ⟨?_, ?_, ?_, ?_, ?_, ?_, ?_, ?_, ?_⟩ <;> field_simp <;> subst hD <;> ring

end Matrix3x3

namespace Vector3

theorem add_sub_cancel_right (v w : Vector3) : (v.add w).sub w = v := by
  cases v; cases w; simp [add, sub]

theorem sub_add_cancel (v w : Vector3) : (v.sub w).add w = v := by
  cases v; cases w; simp [add, sub]

end Vector3

namespace Transformation

theorem apply_assoc (T1 T2 T3 : Transformation) :
    (T1.apply T2).apply T3 = T1.apply (T2.apply T3) := by
  simp only [apply, Transformation.mk.injEq, Matrix3x3.matmult_assoc, Matrix3x3.apply_matmult,
    Matrix3x3.apply_add, true_and]
  cases T1.m_d; cases T1.m_m.apply T2.m_d; cases T1.m_m.apply (T2.m_m.apply T3.m_d)
  simp [Vector3.add, add_assoc]

theorem toWorld_apply (T1 T2 : Transformation) (p : Vector3) :
    (T1.apply T2).transformPointToWorld p
      = T1.transformPointToWorld (T2.transformPointToWorld p) := by
  simp only [apply, transformPointToWorld, Matrix3x3.apply_matmult, Matrix3x3.apply_add]
  cases T1.m_d; cases T1.m_m.apply T2.m_d; cases T1.m_m.apply (T2.m_m.apply p)
  simp only [Vector3.add, Vector3.mk.injEq]
  refine ⟨?_, ?_, ?_⟩ <;> ring

theorem inverseCorrect_apply {T1 T2 : Transformation} (h1 : T1.InverseCorrect)
    (h2 : T2.InverseCorrect) : (T1.apply T2).InverseCorrect := by
  constructor
  · show (T2.m_mInv.matmult T1.m_mInv).matmult (T1.m_m.matmult T2.m_m) = Matrix3x3.Identity
    rw [Matrix3x3.matmult_assoc, ← Matrix3x3.matmult_assoc T1.m_mInv, h1.1,
      Matrix3x3.Identity_matmult, h2.1]
  · show (T1.m_m.matmult T2.m_m).matmult (T2.m_mInv.matmult T1.m_mInv) = Matrix3x3.Identity
    rw [Matrix3x3.matmult_assoc, ← Matrix3x3.matmult_assoc T2.m_m, h2.2,
      Matrix3x3.Identity_matmult, h1.2]

theorem toLocal_apply (T1 T2 : Transformation)
    (h1 : T1.m_mInv.matmult T1.m_m = Matrix3x3.Identity) (p : Vector3) :
    (T1.apply T2).transformPointToLocal p
      = T2.transformPointToLocal (T1.transformPointToLocal p) := by
  have hk : T1.m_mInv.apply (T1.m_m.apply T2.m_d) = T2.m_d := by
    rw [← Matrix3x3.apply_matmult, h1, Matrix3x3.Identity_apply]
  have hv : p.sub (T1.m_d.add (T1.m_m.apply T2.m_d))
      = (p.sub T1.m_d).sub (T1.m_m.apply T2.m_d) := by
    cases p; cases T1.m_d; cases T1.m_m.apply T2.m_d
    simp only [Vector3.add, Vector3.sub, Vector3.mk.injEq]
    refine ⟨?_, ?_, ?_⟩ <;> ring
  simp only [apply, transformPointToLocal, Matrix3x3.apply_matmult]
  rw [hv, Matrix3x3.apply_sub, hk]

theorem toLocal_toWorld (T : Transformation)
    (h : T.m_mInv.matmult T.m_m = Matrix3x3.Identity) (p : Vector3) :
    T.transformPointToLocal (T.transformPointToWorld p) = p := by
  simp only [transformPointToLocal, transformPointToWorld, Vector3.add_sub_cancel_right]
  rw [← Matrix3x3.apply_matmult, h, Matrix3x3.Identity_apply]

theorem toWorld_toLocal (T : Transformation)
    (h : T.m_m.matmult T.m_mInv = Matrix3x3.Identity) (p : Vector3) :
    T.transformPointToWorld (T.transformPointToLocal p) = p := by
  simp only [transformPointToLocal, transformPointToWorld]
  rw [← Matrix3x3.apply_matmult, h, Matrix3x3.Identity_apply, Vector3.sub_add_cancel]

theorem mk2_inverseCorrect (M : Matrix3x3) (d : Vector3) (h : M.det ≠ 0) :
    (mk2 M d).InverseCorrect :=
  ⟨Matrix3x3.invert_matmult M h, Matrix3x3.matmult_invert M h⟩

end Transformation

/-! ## Bounding boxes -/

namespace XFloat

theorem le_refl_of_le {a c : XFloat} (h : le a c = true) : le a a = true ∧ le c c = true := by
  cases a <;> cases c <;> simp_all [le]

theorem min_spec {a b : XFloat} (ha : le a a = true) (hb : le b b = true) :
    le (if lt a b then a else b) a = true ∧ le (if lt a b then a else b) b = true ∧
    (∀ c, le c a = true → le c b = true → le c (if lt a b then a else b) = true) ∧
    (if lt a b then a else b) = (if lt b a then b else a) := by
  cases a <;> cases b <;> simp_all [le, lt]
  rename_i p q
  by_cases h : p < q
  · simp [h, le_of_lt h, not_lt.mpr (le_of_lt h)]
    intro c; cases c <;> simp [le]
    intro h1 _; exact h1
  · have h' := not_lt.mp h
    simp only [h, decide_False, Bool.false_eq_true, if_false, le_refl, decide_True, h', true_and]
    refine ⟨?_, ?_⟩
    · intro c; cases c <;> simp [le]
    · by_cases h2 : q < p
      · simp [h2]
      · simp [h2, le_antisymm (not_lt.mp h2) h']

theorem max_spec {a b : XFloat} (ha : le a a = true) (hb : le b b = true) :
    le a (if lt b a then a else b) = true ∧ le b (if lt b a then a else b) = true ∧
    (∀ c, le a c = true → le b c = true → le (if lt b a then a else b) c = true) ∧
    (if lt b a then a else b) = (if lt a b then b else a) := by
  cases a <;> cases b <;> simp_all [le, lt]
  rename_i p q
  by_cases h : q < p
  · simp [h, le_of_lt h, not_lt.mpr (le_of_lt h)]
    intro c; cases c <;> simp [le]
    intro h1 _; exact h1
  · have h' := not_lt.mp h
    simp only [h, decide_False, Bool.false_eq_true, if_false, le_refl, decide_True, h', true_and]
    refine ⟨?_, ?_⟩
    · intro c; cases c <;> simp [le]
    · by_cases h2 : p < q
      · simp [h2]
      · simp [h2, le_antisymm h' (not_lt.mp h2)]

theorem le_trans' {a b c : XFloat} (h1 : le a b = true) (h2 : le b c = true) :
    le a c = true := by
  cases a <;> cases b <;> cases c <;> simp_all [le]
  exact le_trans h1 h2

theorem lt_irrefl' (a : XFloat) : lt a a = false := by
  cases a <;> simp [lt]

end XFloat


theorem BBox.surrround_eq (A B : BBox) :
    A.surrround B =
      ⟨⟨if XFloat.lt A.m_pp0.x B.m_pp0.x then A.m_pp0.x else B.m_pp0.x,
        if XFloat.lt A.m_pp0.y B.m_pp0.y then A.m_pp0.y else B.m_pp0.y,
        if XFloat.lt A.m_pp0.z B.m_pp0.z then A.m_pp0.z else B.m_pp0.z⟩,
       ⟨if XFloat.lt B.m_pp1.x A.m_pp1.x then A.m_pp1.x else B.m_pp1.x,
        if XFloat.lt B.m_pp1.y A.m_pp1.y then A.m_pp1.y else B.m_pp1.y,
        if XFloat.lt B.m_pp1.z A.m_pp1.z then A.m_pp1.z else B.m_pp1.z⟩⟩ := rfl

/-- C5: for boxes `A`, `B` with `min[j] <= max[j]` on every axis, the box
`A.surrround(B)` is again ordered, contains `A` and `B`, is contained in every
box that contains both (its corners are the componentwise minimum and
maximum), and the operation is commutative and idempotent. -/
theorem BBox_surrround_minimal_box (A B : BBox) (hA : A.Valid) (hB : B.Valid) :
    (A.surrround B).Valid ∧ (A.surrround B).Contains A ∧ (A.surrround B).Contains B ∧
    (∀ C : BBox, C.Contains A → C.Contains B → C.Contains (A.surrround B)) ∧
    A.surrround B = B.surrround A ∧ A.surrround A = A := by
  obtain ⟨hAx, hAy, hAz⟩ := hA
  obtain ⟨hBx, hBy, hBz⟩ := hB
  have ax := XFloat.le_refl_of_le hAx
  have ay := XFloat.le_refl_of_le hAy
  have az := XFloat.le_refl_of_le hAz
  have bx := XFloat.le_refl_of_le hBx
  have bY := XFloat.le_refl_of_le hBy
  have bz := XFloat.le_refl_of_le hBz
  have mx := XFloat.min_spec ax.1 bx.1
  have my := XFloat.min_spec ay.1 bY.1
  have mz := XFloat.min_spec az.1 bz.1
  have Mx := XFloat.max_spec ax.2 bx.2
  have My := XFloat.max_spec ay.2 bY.2
  have Mz := XFloat.max_spec az.2 bz.2
  refine ⟨?_, ?_, ?_, ?_, ?_, ?_⟩
  · rw [BBox.surrround_eq]
    exact ⟨XFloat.le_trans' mx.1 (XFloat.le_trans' hAx Mx.1),
      XFloat.le_trans' my.1 (XFloat.le_trans' hAy My.1),
      XFloat.le_trans' mz.1 (XFloat.le_trans' hAz Mz.1)⟩
  · rw [BBox.surrround_eq]
    exact ⟨⟨mx.1, Mx.1⟩, ⟨my.1, My.1⟩, ⟨mz.1, Mz.1⟩⟩
  · rw [BBox.surrround_eq]
    exact ⟨⟨mx.2.1, Mx.2.1⟩, ⟨my.2.1, My.2.1⟩, ⟨mz.2.1, Mz.2.1⟩⟩
  · intro C hCA hCB
    rw [BBox.surrround_eq]
    exact ⟨⟨mx.2.2.1 _ hCA.1.1 hCB.1.1, Mx.2.2.1 _ hCA.1.2 hCB.1.2⟩,
      ⟨my.2.2.1 _ hCA.2.1.1 hCB.2.1.1, My.2.2.1 _ hCA.2.1.2 hCB.2.1.2⟩,
      ⟨mz.2.2.1 _ hCA.2.2.1 hCB.2.2.1, Mz.2.2.1 _ hCA.2.2.2 hCB.2.2.2⟩⟩
  · rw [BBox.surrround_eq, BBox.surrround_eq, mx.2.2.2, my.2.2.2, mz.2.2.2, Mx.2.2.2,
      My.2.2.2, Mz.2.2.2]
  · rw [BBox.surrround_eq]
    simp only [XFloat.lt_irrefl', Bool.false_eq_true, if_false]

/-- Witness for C5 on the boxes `[0,1]^3` and `[-1,2] x [0,3] x [1/2,1]`. -/
theorem BBox_surrround_minimal_box_witness :
    (BBox.ofCorners ⟨0, 0, 0⟩ ⟨1, 1, 1⟩).Valid ∧ (BBox.ofCorners ⟨-1, 0, 1/2⟩ ⟨2, 3, 1⟩).Valid ∧
    ((BBox.ofCorners ⟨0, 0, 0⟩ ⟨1, 1, 1⟩).surrround (BBox.ofCorners ⟨-1, 0, 1/2⟩ ⟨2, 3, 1⟩)).Valid
      ∧
    (BBox.ofCorners ⟨0, 0, 0⟩ ⟨1, 1, 1⟩).surrround (BBox.ofCorners ⟨-1, 0, 1/2⟩ ⟨2, 3, 1⟩)
      = (BBox.ofCorners ⟨-1, 0, 1/2⟩ ⟨2, 3, 1⟩).surrround (BBox.ofCorners ⟨0, 0, 0⟩ ⟨1, 1, 1⟩) :=
  have hA : (BBox.ofCorners ⟨0, 0, 0⟩ ⟨1, 1, 1⟩).Valid := by
    norm_num [BBox.Valid, BBox.ofCorners, XVector3.ofVector3, XFloat.le]
  have hB : (BBox.ofCorners ⟨-1, 0, 1/2⟩ ⟨2, 3, 1⟩).Valid := by
    norm_num [BBox.Valid, BBox.ofCorners, XVector3.ofVector3, XFloat.le]
  ⟨hA, hB, (BBox_surrround_minimal_box _ _ hA hB).1, (BBox_surrround_minimal_box _ _ hA hB).2.2.2.2.1⟩

/-! ## Claims on the triangle test -/

/-- C3: whenever `intersectRayTriangle` returns a non-zero value, the written
outputs satisfy `u >= 0`, `v >= 0`, `u + v <= 1`, `tmin <= t <= tmax` and the
hit point is consistent, `O + t*D = (1-u-v)*V0 + u*V1 + v*V2`; the function
returns `0` when the determinant `(D x E2).E1` is zero, with culling it returns
`0` when the determinant is negative, and with culling it never returns `-1`. -/
theorem intersectRayTriangle_contract (V0 V1 V2 O D : Vector3) (tmin tmax : XFloat)
    (bCulling : Bool) :
    (intersectRayTriangleRet V0 V1 V2 O D tmin tmax bCulling ≠ 0 →
      ∃ h, intersectRayTriangle V0 V1 V2 O D tmin tmax bCulling = some h ∧
        0 ≤ h.u ∧ 0 ≤ h.v ∧ h.u + h.v ≤ 1 ∧
        (tmin ≠ XFloat.nan → XFloat.le tmin (XFloat.fin h.t) = true) ∧
        (tmax ≠ XFloat.nan → XFloat.le (XFloat.fin h.t) tmax = true) ∧
        O.add (Vector3.smul h.t D) =
          ((Vector3.smul (1 - h.u - h.v) V0).add (Vector3.smul h.u V1)).add
            (Vector3.smul h.v V2)) ∧
    ((D.cross (V2.sub V0)).dot (V1.sub V0) = 0 →
      intersectRayTriangleRet V0 V1 V2 O D tmin tmax bCulling = 0) ∧
    ((D.cross (V2.sub V0)).dot (V1.sub V0) < 0 →
      intersectRayTriangleRet V0 V1 V2 O D tmin tmax true = 0) ∧
    intersectRayTriangleRet V0 V1 V2 O D tmin tmax true ≠ -1 := by
  refine ⟨?_, ?_, ?_, ?_⟩
  · intro hne
    unfold intersectRayTriangleRet at hne
    cases hres : intersectRayTriangle V0 V1 V2 O D tmin tmax bCulling with
    | none => rw [hres] at hne; exact absurd rfl hne
    | some h =>
      obtain ⟨hdet, _, hu, hv, ht, _, h0u, _, h0v, huv, hlo, hhi⟩ :=
        intersectRayTriangle_eq_some hres
      refine ⟨h, rfl, h0u, h0v, huv, ?_, ?_, ?_⟩
      · intro hn; exact XFloat.le_of_not_lt hn (by simp) hlo
      · intro hn; exact XFloat.le_of_not_lt (by simp) hn hhi
      · rw [hu, hv, ht]; exact hitPoint_identity V0 V1 V2 O D hdet
  · intro hz
    simp [intersectRayTriangleRet, intersectRayTriangle, hz]
  · intro hneg
    simp [intersectRayTriangleRet, intersectRayTriangle, hneg, ne_of_lt hneg]
  · unfold intersectRayTriangleRet
    cases hres : intersectRayTriangle V0 V1 V2 O D tmin tmax true with
    | none => simp
    | some h =>
      obtain ⟨_, hpos, _, _, _, ho, _⟩ := intersectRayTriangle_eq_some hres
      simp only [ho, hpos rfl, gt_iff_lt, if_true]
      decide

/-- Witness for C3: the ray from `(1/4,1/4,1)` along `-z` hits the triangle
`(0,0,0) (1,0,0) (0,1,0)`. -/
theorem intersectRayTriangle_contract_witness :
    intersectRayTriangleRet ⟨0, 0, 0⟩ ⟨1, 0, 0⟩ ⟨0, 1, 0⟩ ⟨1/4, 1/4, 1⟩ ⟨0, 0, -1⟩
        (XFloat.fin 0) XFloat.pinf true ≠ 0 ∧
    ∃ h, intersectRayTriangle ⟨0, 0, 0⟩ ⟨1, 0, 0⟩ ⟨0, 1, 0⟩ ⟨1/4, 1/4, 1⟩ ⟨0, 0, -1⟩
        (XFloat.fin 0) XFloat.pinf true = some h ∧
        0 ≤ h.u ∧ 0 ≤ h.v ∧ h.u + h.v ≤ 1 ∧
        (XFloat.fin 0 ≠ XFloat.nan → XFloat.le (XFloat.fin 0) (XFloat.fin h.t) = true) ∧
        (XFloat.pinf ≠ XFloat.nan → XFloat.le (XFloat.fin h.t) XFloat.pinf = true) ∧
        Vector3.add ⟨1/4, 1/4, 1⟩ (Vector3.smul h.t ⟨0, 0, -1⟩) =
          ((Vector3.smul (1 - h.u - h.v) ⟨0, 0, 0⟩).add (Vector3.smul h.u ⟨1, 0, 0⟩)).add
            (Vector3.smul h.v ⟨0, 1, 0⟩) :=
  have hne : intersectRayTriangleRet ⟨0, 0, 0⟩ ⟨1, 0, 0⟩ ⟨0, 1, 0⟩ ⟨1/4, 1/4, 1⟩ ⟨0, 0, -1⟩
      (XFloat.fin 0) XFloat.pinf true ≠ 0 := by
    norm_num [intersectRayTriangleRet, intersectRayTriangle, Vector3.sub, Vector3.cross,
      Vector3.dot, XFloat.lt]
  ⟨hne, (intersectRayTriangle_contract _ _ _ _ _ _ _ _).1 hne⟩

/-! ## Claims on transformations -/

theorem Matrix3x3.det_matmult (a b : Matrix3x3) : (a.matmult b).det = a.det * b.det := by
  simp only [Matrix3x3.det, Matrix3x3.matmult]
  ring

theorem Matrix3x3.det_invert_ne_zero (M : Matrix3x3) (h : M.det ≠ 0) : M.invert.det ≠ 0 := by
  intro h0
  have h1 := Matrix3x3.det_matmult M.invert M
  rw [Matrix3x3.invert_matmult M h, h0, zero_mul] at h1
  simp [Matrix3x3.det, Matrix3x3.Identity] at h1

theorem Vector3.add_apply_neg (M : Matrix3x3) (d w : Vector3) (h : M.apply w = d) :
    d.add (M.apply w.neg) = ⟨0, 0, 0⟩ := by
  subst h
  simp only [Matrix3x3.apply, Vector3.neg, Vector3.add, Vector3.mk.injEq]
  refine ⟨?_, ?_, ?_⟩ <;> ring

theorem Vector3.add_zero' (v : Vector3) : v.add ⟨0, 0, 0⟩ = v := by
  cases v; simp [Vector3.add]

theorem Vector3.sub_zero' (v : Vector3) : v.sub ⟨0, 0, 0⟩ = v := by
  cases v; simp [Vector3.sub]

/-- C9: `T1.apply(T2)` acts on a point as first `T2`, then `T1`; when the
cached inverses of `T1` and `T2` are the inverses of their matrices, so is the
cached inverse of `T1.apply(T2)` and its world-to-local map is first the one of
`T1`, then the one of `T2`; and `(T1.apply(T2)).apply(T3)` and
`T1.apply(T2.apply(T3))` act identically on every point, in both directions. -/
theorem Transformation_apply_composes (T1 T2 T3 : Transformation) (p : Vector3) :
    (T1.apply T2).transformPointToWorld p
      = T1.transformPointToWorld (T2.transformPointToWorld p) ∧
    (T1.InverseCorrect → T2.InverseCorrect →
      (T1.apply T2).InverseCorrect ∧
      (T1.apply T2).transformPointToLocal p
        = T2.transformPointToLocal (T1.transformPointToLocal p)) ∧
    ((T1.apply T2).apply T3).transformPointToWorld p
      = (T1.apply (T2.apply T3)).transformPointToWorld p ∧
    ((T1.apply T2).apply T3).transformPointToLocal p
      = (T1.apply (T2.apply T3)).transformPointToLocal p := by
  refine ⟨Transformation.toWorld_apply T1 T2 p, ?_, ?_, ?_⟩
  · intro h1 h2
    exact ⟨Transformation.inverseCorrect_apply h1 h2, Transformation.toLocal_apply T1 T2 h1.1 p⟩
  · rw [Transformation.apply_assoc]
  · rw [Transformation.apply_assoc]

/-- Witness for C9 with a translation and a transformation built by
`Transformation(M, d)`, whose cached inverses are correct. -/
theorem Transformation_apply_composes_witness :
    (Transformation.Translation ⟨1, 2, 3⟩).InverseCorrect ∧
    (Transformation.mk2 ⟨2, 0, 0, 0, 1, 0, 0, 0, 1⟩ ⟨0, 1, 0⟩).InverseCorrect ∧
    ((Transformation.Translation ⟨1, 2, 3⟩).apply
        (Transformation.mk2 ⟨2, 0, 0, 0, 1, 0, 0, 0, 1⟩ ⟨0, 1, 0⟩)).InverseCorrect ∧
    ((Transformation.Translation ⟨1, 2, 3⟩).apply
        (Transformation.mk2 ⟨2, 0, 0, 0, 1, 0, 0, 0, 1⟩ ⟨0, 1, 0⟩)).transformPointToLocal ⟨5, 5, 5⟩
      = (Transformation.mk2 ⟨2, 0, 0, 0, 1, 0, 0, 0, 1⟩ ⟨0, 1, 0⟩).transformPointToLocal
          ((Transformation.Translation ⟨1, 2, 3⟩).transformPointToLocal ⟨5, 5, 5⟩) :=
  have h1 : (Transformation.Translation ⟨1, 2, 3⟩).InverseCorrect := by
    simp [Transformation.InverseCorrect, Transformation.Translation, Matrix3x3.matmult_Identity]
  have h2 : (Transformation.mk2 ⟨2, 0, 0, 0, 1, 0, 0, 0, 1⟩ ⟨0, 1, 0⟩).InverseCorrect :=
    Transformation.mk2_inverseCorrect _ _ (by norm_num [Matrix3x3.det])
  ⟨h1, h2, (Transformation_apply_composes _ _ Transformation.Identity ⟨5, 5, 5⟩).2.1 h1 h2⟩

/-- C10: for `T = Transformation(M, d)` with `det(M) != 0` the maps
`transformPointToLocal` and `transformPointToWorld` are inverse to each other,
and composing `T` via `apply` with an inverse transformation (matrix `M^-1`,
translation `-M^-1*d`) gives a transformation that maps every point to itself;
for the inverse built by `Transformation(M^-1, -M^-1*d)` this also holds for
the world-to-local direction. -/
theorem Transformation_inverse_roundtrip (M : Matrix3x3) (d p : Vector3) (hdet : M.det ≠ 0) :
    (Transformation.mk2 M d).transformPointToLocal
        ((Transformation.mk2 M d).transformPointToWorld p) = p ∧
    (Transformation.mk2 M d).transformPointToWorld
        ((Transformation.mk2 M d).transformPointToLocal p) = p ∧
    (∀ Tinv : Transformation, Tinv.m_m = M.invert → Tinv.m_d = (M.invert.apply d).neg →
      ((Transformation.mk2 M d).apply Tinv).transformPointToWorld p = p) ∧
    ((Transformation.mk2 M d).apply
        (Transformation.mk2 M.invert (M.invert.apply d).neg)).transformPointToLocal p = p := by
  have hc := Transformation.mk2_inverseCorrect M d hdet
  have hMd : M.apply (M.invert.apply d) = d := by
    rw [← Matrix3x3.apply_matmult, Matrix3x3.matmult_invert M hdet, Matrix3x3.Identity_apply]
  refine ⟨Transformation.toLocal_toWorld _ hc.1 p, Transformation.toWorld_toLocal _ hc.2 p, ?_, ?_⟩
  · intro Tinv hm hd
    simp only [Transformation.apply, Transformation.transformPointToWorld, Transformation.mk2, hm,
      hd, Matrix3x3.matmult_invert M hdet, Matrix3x3.Identity_apply,
      Vector3.add_apply_neg M d _ hMd, Vector3.add_zero']
  · simp only [Transformation.apply, Transformation.transformPointToLocal, Transformation.mk2,
      Matrix3x3.invert_matmult M.invert (Matrix3x3.det_invert_ne_zero M hdet),
      Matrix3x3.Identity_apply, Vector3.add_apply_neg M d _ hMd, Vector3.sub_zero']

/-- Witness for C10 with `M = diag(2,1,1)` plus a shear and `d = (1,0,0)`. -/
theorem Transformation_inverse_roundtrip_witness :
    Matrix3x3.det ⟨2, 1, 0, 0, 1, 0, 0, 0, 1⟩ ≠ 0 ∧
    (Transformation.mk2 ⟨2, 1, 0, 0, 1, 0, 0, 0, 1⟩ ⟨1, 0, 0⟩).transformPointToLocal
        ((Transformation.mk2 ⟨2, 1, 0, 0, 1, 0, 0, 0, 1⟩ ⟨1, 0, 0⟩).transformPointToWorld
          ⟨3, 4, 5⟩) = ⟨3, 4, 5⟩ :=
  have h : Matrix3x3.det ⟨2, 1, 0, 0, 1, 0, 0, 0, 1⟩ ≠ 0 := by norm_num [Matrix3x3.det]
  ⟨h, (Transformation_inverse_roundtrip _ ⟨1, 0, 0⟩ ⟨3, 4, 5⟩ h).1⟩


/-- Witness for C4: the ray from `(-1,0,0)` along `(1,1/4,1/4)` meets the unit
box at `t = 1`. -/
theorem BBox_intersectRay_iff_slab_witness :
    ((1 : ℚ) ≠ 0 ∧ (1/4 : ℚ) ≠ 0 ∧ (1/4 : ℚ) ≠ 0) ∧
    XFloat.le (XFloat.fin 0) XFloat.pinf = true ∧
    (BBox.ofCorners ⟨0, 0, 0⟩ ⟨1, 1, 1⟩).intersectRay
      ((Ray.default.setOrigin ⟨-1, 0, 0⟩).setDirection ⟨1, 1/4, 1/4⟩)
      (XFloat.fin 0) XFloat.pinf = true :=
  have hD : (1 : ℚ) ≠ 0 ∧ (1/4 : ℚ) ≠ 0 ∧ (1/4 : ℚ) ≠ 0 := by norm_num
  have hle : XFloat.le (XFloat.fin 0) XFloat.pinf = true := rfl
  ⟨hD, hle, (BBox_intersectRay_iff_slab ⟨0, 0, 0⟩ ⟨1, 1, 1⟩ ⟨-1, 0, 0⟩ ⟨1, 1/4, 1/4⟩
    Ray.default (XFloat.fin 0) XFloat.pinf hD hle).2
    ⟨1, by norm_num [XFloat.le], rfl, by norm_num, by norm_num, by norm_num⟩⟩

/-! ## Ranges of the tree positions -/

namespace Mesh

theorem and_shiftLeft_ne_zero (k s : Nat) : k &&& (1 <<< s) ≠ 0 ↔ k.testBit s = true := by
  rw [Nat.one_shiftLeft]
  constructor
  · intro h
    by_contra hb
    apply h
    apply Nat.eq_of_testBit_eq
    intro i
    simp only [Nat.testBit_and, Nat.testBit_two_pow, Nat.zero_testBit]
    by_cases hi : s = i
    · subst hi; simp [hb]
    · simp [hi]
  · intro h h0
    have := congrArg (fun n => n.testBit s) h0
    simp [Nat.testBit_and, Nat.testBit_two_pow, h] at this

theorem binaryTreeBoundaries_eq (m : Mesh) (uLeaf : Nat) :
    m.binaryTreeBoundaries uLeaf =
      ((treeRange (m.m_IndexBuffer.length / 3) uLeaf).1,
       (treeRange (m.m_IndexBuffer.length / 3) uLeaf).2 + 1
         - (treeRange (m.m_IndexBuffer.length / 3) uLeaf).1) := rfl

theorem treeRange_zero (N : Nat) : treeRange N 0 = (0, N - 1) := by
  simp [treeRange, Nat.log2]

theorem foldl_congr_mem {α β : Type} (f g : β → α → β) (l : List α) (b : β)
    (h : ∀ x ∈ l, ∀ y, f y x = g y x) : l.foldl f b = l.foldl g b := by
  induction l generalizing b with
  | nil => rfl
  | cons a t ih =>
    simp only [List.foldl_cons]
    rw [h a (List.mem_cons_self _ _) b]
    exact ih _ (fun x hx y => h x (List.mem_cons_of_mem _ hx) y)

theorem log2_double (k : Nat) (hk : k ≠ 0) : Nat.log2 (2 * k) = Nat.log2 k + 1 := by
  rw [Nat.log2_eq_log_two, Nat.log2_eq_log_two, Nat.mul_comm, Nat.log_mul_base (by norm_num) hk]

theorem log2_double_succ (k : Nat) (hk : k ≠ 0) : Nat.log2 (2 * k + 1) = Nat.log2 k + 1 := by
  rw [Nat.log2_eq_log_two, Nat.log2_eq_log_two]
  have h1 : (2 * k + 1) / 2 = k := by omega
  have := Nat.log_div_base 2 (2 * k + 1)
  rw [h1] at this
  have hpos : 1 ≤ Nat.log 2 (2 * k + 1) := by
    apply Nat.log_pos (by norm_num); omega
  omega

theorem step_child (k level b : Nat) (hb : b < 2) (lr : Nat × Nat) (i : Nat) (hi : i < level) :
    binaryTreeStep (2 * k + b) (level + 1) lr i = binaryTreeStep k level lr i := by
  have e : level + 1 - i - 1 = (level - i - 1) + 1 := by omega
  have hbit : (2 * k + b).testBit ((level - i - 1) + 1) = k.testBit (level - i - 1) := by
    rw [Nat.testBit_succ]
    congr 1
    omega
  unfold binaryTreeStep
  simp only [e]
  by_cases h : k.testBit (level - i - 1) = true
  · have h1 := (and_shiftLeft_ne_zero k (level - i - 1)).2 h
    have h2 := (and_shiftLeft_ne_zero (2 * k + b) ((level - i - 1) + 1)).2 (by rw [hbit]; exact h)
    simp only [h1, h2, ne_eq, not_false_eq_true, if_true]
  · have h1 : ¬ (k &&& (1 <<< (level - i - 1)) ≠ 0) :=
      fun hh => h ((and_shiftLeft_ne_zero k (level - i - 1)).1 hh)
    have h2 : ¬ ((2 * k + b) &&& (1 <<< ((level - i - 1) + 1)) ≠ 0) :=
      fun hh => h (by rw [← hbit]; exact (and_shiftLeft_ne_zero _ _).1 hh)
    simp only [h1, h2, if_false]

theorem treeRange_child (N u b : Nat) (hb : b < 2) :
    treeRange N (2 * u + 1 + b) =
      binaryTreeStep (2 * (u + 1) + b) (Nat.log2 (1 + u) + 1) (treeRange N u)
        (Nat.log2 (1 + u)) := by
  have hk : 2 * u + 1 + b + 1 = 2 * (u + 1) + b := by omega
  have hk' : 1 + (2 * u + 1 + b) = 2 * (u + 1) + b := by omega
  have hlog : Nat.log2 (2 * (u + 1) + b) = Nat.log2 (1 + u) + 1 := by
    rw [Nat.add_comm 1 u]
    rcases b with _ | _ | b
    · exact log2_double (u + 1) (by omega)
    · exact log2_double_succ (u + 1) (by omega)
    · omega
  unfold treeRange
  rw [hk, hk', hlog, List.range_succ, List.foldl_append]
  simp only [List.foldl_cons, List.foldl_nil]
  congr 1
  apply foldl_congr_mem
  intro x hx y
  rw [Nat.add_comm 1 u]
  exact step_child (u + 1) _ b hb y x (by rw [Nat.add_comm u 1]; exact List.mem_range.1 hx)

theorem treeRange_left (N u : Nat) :
    treeRange N (2 * u + 1) =
      ((treeRange N u).1, ((treeRange N u).1 + (treeRange N u).2) / 2) := by
  have h := treeRange_child N u 0 (by omega)
  simp only [Nat.add_zero] at h
  rw [h]
  unfold binaryTreeStep
  have : ¬ (2 * (u + 1) &&& (1 <<< (Nat.log2 (1 + u) + 1 - Nat.log2 (1 + u) - 1)) ≠ 0) := by
    rw [and_shiftLeft_ne_zero]
    have e : Nat.log2 (1 + u) + 1 - Nat.log2 (1 + u) - 1 = 0 := by omega
    rw [e, Nat.testBit_zero]
    simp
  rw [if_neg this]

theorem treeRange_right (N u : Nat) :
    treeRange N (2 * u + 2) =
      (((treeRange N u).1 + (treeRange N u).2) / 2 + 1, (treeRange N u).2) := by
  have h := treeRange_child N u 1 (by omega)
  rw [h]
  unfold binaryTreeStep
  have : (2 * (u + 1) + 1 &&& (1 <<< (Nat.log2 (1 + u) + 1 - Nat.log2 (1 + u) - 1)) ≠ 0) := by
    rw [and_shiftLeft_ne_zero]
    have e : Nat.log2 (1 + u) + 1 - Nat.log2 (1 + u) - 1 = 0 := by omega
    rw [e, Nat.testBit_zero]
    simp [Nat.add_mod]
  rw [if_pos this]


theorem log2_mono {a b : Nat} (h : a ≤ b) : Nat.log2 a ≤ Nat.log2 b := by
  rw [Nat.log2_eq_log_two, Nat.log2_eq_log_two]
  exact Nat.log_mono_right h

theorem node_cases (u : Nat) (hu : u ≠ 0) : ∃ p, p < u ∧ (u = 2 * p + 1 ∨ u = 2 * p + 2) :=
  ⟨(u - 1) / 2, by omega, by omega⟩

theorem treeRange_wf (N u : Nat) :
    (treeRange N u).1 ≤ (treeRange N u).2 + 1 ∧ (treeRange N u).2 ≤ N - 1 := by
  induction u using Nat.strong_induction_on with
  | _ u ih =>
    by_cases hu : u = 0
    · subst hu; rw [treeRange_zero]; simp
    · obtain ⟨p, hp, hc | hc⟩ := node_cases u hu
      · have := ih p hp
        rw [hc, treeRange_left]
        simp only
        omega
      · have := ih p hp
        rw [hc, treeRange_right]
        simp only
        omega

theorem treeRange_adjacent (N u : Nat) (hlev : Nat.log2 (u + 1) = Nat.log2 (u + 2)) :
    (treeRange N (u + 1)).1 = (treeRange N u).2 + 1 := by
  induction u using Nat.strong_induction_on with
  | _ u ih =>
    by_cases hu : u = 0
    · subst hu
      simp [Nat.log2] at hlev
    · obtain ⟨p, hp, hc | hc⟩ := node_cases u hu
      · subst hc
        rw [show 2 * p + 1 + 1 = 2 * p + 2 by omega, treeRange_left, treeRange_right]
      · subst hc
        have h1 : Nat.log2 (2 * p + 2 + 1) = Nat.log2 (p + 1) + 1 := by
          rw [show 2 * p + 2 + 1 = 2 * (p + 1) + 1 by omega]
          exact log2_double_succ (p + 1) (by omega)
        have h2 : Nat.log2 (2 * p + 2 + 2) = Nat.log2 (p + 2) + 1 := by
          rw [show 2 * p + 2 + 2 = 2 * (p + 2) by omega]
          exact log2_double (p + 2) (by omega)
        have hp' : Nat.log2 (p + 1) = Nat.log2 (p + 2) := by omega
        have := ih p hp hp'
        rw [show 2 * p + 2 + 1 = 2 * (p + 1) + 1 by omega, treeRange_left, treeRange_right]
        simp only
        exact this

theorem treeRange_level_order (N j k : Nat) (hjk : j < k)
    (hlev : Nat.log2 (j + 1) = Nat.log2 (k + 1)) :
    (treeRange N j).2 < (treeRange N k).1 := by
  induction k with
  | zero => omega
  | succ k ih =>
    rw [show k + 1 + 1 = k + 2 by omega] at hlev
    have hk1 : Nat.log2 (k + 1) ≤ Nat.log2 (k + 2) := log2_mono (by omega)
    have hk2 : Nat.log2 (j + 1) ≤ Nat.log2 (k + 1) := log2_mono (by omega)
    have hadj := treeRange_adjacent N k (by omega)
    by_cases hj : j = k
    · subst hj; omega
    · have := ih (by omega) (by omega)
      have := (treeRange_wf N k).1
      omega

theorem treeRange_laminar (N : Nat) (k : Nat) : ∀ j, j < k →
    ((treeRange N j).1 ≤ (treeRange N k).1 ∧ (treeRange N k).2 ≤ (treeRange N j).2) ∨
    (treeRange N j).2 < (treeRange N k).1 ∨ (treeRange N k).2 < (treeRange N j).1 := by
  induction k using Nat.strong_induction_on with
  | _ k ih =>
    intro j hjk
    have hk : k ≠ 0 := by omega
    obtain ⟨p, hp, hc⟩ := node_cases k hk
    -- the range of `k` lies in the range of its parent `p`
    have hnest : (treeRange N p).1 ≤ (treeRange N k).1 ∧ (treeRange N k).2 ≤ (treeRange N p).2 := by
      have hw := (treeRange_wf N p).1
      rcases hc with hc | hc
      · rw [hc, treeRange_left]; simp only; omega
      · rw [hc, treeRange_right]; simp only; omega
    have hlevk : Nat.log2 (k + 1) = Nat.log2 (p + 1) + 1 := by
      rcases hc with hc | hc
      · rw [hc, show 2 * p + 1 + 1 = 2 * (p + 1) by omega]
        exact log2_double (p + 1) (by omega)
      · rw [hc, show 2 * p + 2 + 1 = 2 * (p + 1) + 1 by omega]
        exact log2_double_succ (p + 1) (by omega)
    rcases Nat.lt_trichotomy j p with hjp | hjp | hjp
    · rcases ih p hp j hjp with h | h | h
      · left; omega
      · right; left; omega
      · right; right; omega
    · subst hjp; left; exact hnest
    · have hlevj : Nat.log2 (j + 1) ≤ Nat.log2 (k + 1) := log2_mono (by omega)
      have hlevj2 : Nat.log2 (p + 1) ≤ Nat.log2 (j + 1) := log2_mono (by omega)
      by_cases hsame : Nat.log2 (j + 1) = Nat.log2 (k + 1)
      · right; left; exact treeRange_level_order N j k hjk hsame
      · have := treeRange_level_order N p j hjp (by omega)
        right; right; omega

end Mesh

/-! ## Effect of one pass of `buildBVH` on the index buffer -/

namespace Mesh

theorem length_flattenTriples (s : List IndexTriple) :
    (flattenTriples s).length = 3 * s.length := by
  induction s with
  | nil => rfl
  | cons a t ih =>
    simp only [flattenTriples, List.flatMap_cons, List.length_append, List.length_cons,
      List.length_nil] at ih ⊢
    omega

theorem flattenTriples_cons (a : IndexTriple) (s : List IndexTriple) :
    flattenTriples (a :: s) = a.1 :: a.2.1 :: a.2.2 :: flattenTriples s := by
  simp [flattenTriples]

theorem getElem?_flattenTriples (s : List IndexTriple) (i : Nat) (a : IndexTriple)
    (h : s[i]? = some a) :
    (flattenTriples s)[3 * i]? = some a.1 ∧ (flattenTriples s)[3 * i + 1]? = some a.2.1 ∧
      (flattenTriples s)[3 * i + 2]? = some a.2.2 := by
  induction s generalizing i with
  | nil => simp at h
  | cons b t ih =>
    rw [flattenTriples_cons]
    cases i with
    | zero =>
      simp only [List.getElem?_cons_zero, Option.some.injEq] at h
      subst h
      simp
    | succ i =>
      simp only [List.getElem?_cons_succ] at h
      have := ih i h
      rw [show 3 * (i + 1) = 3 * i + 1 + 1 + 1 by omega,
        show 3 * i + 1 + 1 + 1 + 1 = (3 * i + 1) + 1 + 1 + 1 by omega,
        show 3 * i + 1 + 1 + 1 + 2 = (3 * i + 2) + 1 + 1 + 1 by omega]
      simp only [List.getElem?_cons_succ]
      exact this

/-- Entry `q` of the index buffer after the range `[l, l+n)` has been replaced
by the flattened list `s` of `n` triples. -/
theorem getElem?_splice (L : List Nat) (s : List IndexTriple) (l n : Nat)
    (hs : s.length = n) (hL : 3 * l + 3 * n ≤ L.length) (q : Nat) :
    (L.take (3 * l) ++ flattenTriples s ++ L.drop (3 * l + 3 * n))[q]? =
      if q < 3 * l then L[q]?
      else if q < 3 * l + 3 * n then (flattenTriples s)[q - 3 * l]?
      else L[q]? := by
  have hlen1 : (L.take (3 * l)).length = 3 * l := by
    rw [List.length_take]; omega
  have hlen2 : (flattenTriples s).length = 3 * n := by rw [length_flattenTriples, hs]
  by_cases h1 : q < 3 * l
  · rw [if_pos h1, List.append_assoc, List.getElem?_append_left (by omega),
      List.getElem?_take_of_lt h1]
  · rw [if_neg h1, List.append_assoc, List.getElem?_append_right (by omega), hlen1]
    by_cases h2 : q < 3 * l + 3 * n
    · rw [if_pos h2, List.getElem?_append_left (by omega)]
    · rw [if_neg h2, List.getElem?_append_right (by omega), hlen2, List.getElem?_drop]
      congr 1
      omega

theorem length_splice (L : List Nat) (s : List IndexTriple) (l n : Nat)
    (hs : s.length = n) (hL : 3 * l + 3 * n ≤ L.length) :
    (L.take (3 * l) ++ flattenTriples s ++ L.drop (3 * l + 3 * n)).length = L.length := by
  simp only [List.length_append, List.length_take, List.length_drop, length_flattenTriples, hs]
  omega


theorem indexTriple_eq (m : Mesh) (p : Nat) :
    m.indexTriple p = ((m.m_IndexBuffer[3 * p]?).getD 0, (m.m_IndexBuffer[3 * p + 1]?).getD 0,
      (m.m_IndexBuffer[3 * p + 2]?).getD 0) := by
  simp [indexTriple]

theorem mem_rangeTriples (m : Mesh) (l n : Nat) (a : IndexTriple) :
    a ∈ m.rangeTriples l n ↔ ∃ i, i < n ∧ a = m.indexTriple (l + i) := by
  simp only [rangeTriples, List.mem_map, List.mem_range]
  constructor
  · rintro ⟨i, hi, rfl⟩; exact ⟨i, hi, rfl⟩
  · rintro ⟨i, hi, rfl⟩; exact ⟨i, hi, rfl⟩

theorem treeRange_bounds (N u : Nat) (hN : 1 ≤ N) :
    3 * (treeRange N u).1 + 3 * ((treeRange N u).2 + 1 - (treeRange N u).1) ≤ 3 * N := by
  have := treeRange_wf N u
  omega

section step

variable (sort_r : List IndexTriple → (IndexTriple → IndexTriple → Int) → List IndexTriple)
variable (hsort : ∀ l cmp, (sort_r l cmp).Perm l)
include hsort

theorem buildBVHStep_length (m : Mesh) (u : Nat) (hN : 1 ≤ m.m_IndexBuffer.length / 3) :
    (buildBVHStep sort_r m u).m_IndexBuffer.length = m.m_IndexBuffer.length := by
  have hb := treeRange_bounds (m.m_IndexBuffer.length / 3) u hN
  have h3 : 3 * (m.m_IndexBuffer.length / 3) ≤ m.m_IndexBuffer.length := Nat.mul_div_le _ _
  simp only [buildBVHStep, binaryTreeBoundaries_eq]
  apply length_splice
  · rw [(hsort _ _).length_eq]; simp [rangeTriples]
  · omega

theorem buildBVHStep_outside (m : Mesh) (u : Nat) (hN : 1 ≤ m.m_IndexBuffer.length / 3)
    (p : Nat)
    (hp : p < (treeRange (m.m_IndexBuffer.length / 3) u).1 ∨
      (treeRange (m.m_IndexBuffer.length / 3) u).2 < p) :
    (buildBVHStep sort_r m u).indexTriple p = m.indexTriple p := by
  have hb := treeRange_bounds (m.m_IndexBuffer.length / 3) u hN
  have hw := treeRange_wf (m.m_IndexBuffer.length / 3) u
  have h3 : 3 * (m.m_IndexBuffer.length / 3) ≤ m.m_IndexBuffer.length := Nat.mul_div_le _ _
  rw [indexTriple_eq, indexTriple_eq]
  simp only [buildBVHStep, binaryTreeBoundaries_eq]
  have hsp := getElem?_splice m.m_IndexBuffer
    (sort_r (m.rangeTriples (treeRange (m.m_IndexBuffer.length / 3) u).1
      ((treeRange (m.m_IndexBuffer.length / 3) u).2 + 1
        - (treeRange (m.m_IndexBuffer.length / 3) u).1))
      (compareFunction m.m_VertexBuffer (splitAxis
        (m.rangeBounds (treeRange (m.m_IndexBuffer.length / 3) u).1
          ((treeRange (m.m_IndexBuffer.length / 3) u).2 + 1
            - (treeRange (m.m_IndexBuffer.length / 3) u).1)).1
        (m.rangeBounds (treeRange (m.m_IndexBuffer.length / 3) u).1
          ((treeRange (m.m_IndexBuffer.length / 3) u).2 + 1
            - (treeRange (m.m_IndexBuffer.length / 3) u).1)).2)))
    (treeRange (m.m_IndexBuffer.length / 3) u).1
    ((treeRange (m.m_IndexBuffer.length / 3) u).2 + 1
      - (treeRange (m.m_IndexBuffer.length / 3) u).1)
    (by rw [(hsort _ _).length_eq]; simp [rangeTriples]) (by omega)
  rw [hsp, hsp, hsp]
  rcases hp with hp | hp
  · rw [if_pos (by omega), if_pos (by omega), if_pos (by omega)]
  · rw [if_neg (by omega), if_neg (by omega), if_neg (by omega), if_neg (by omega),
      if_neg (by omega), if_neg (by omega)]

theorem buildBVHStep_inside (m : Mesh) (u : Nat) (hN : 1 ≤ m.m_IndexBuffer.length / 3)
    (p : Nat)
    (hp : (treeRange (m.m_IndexBuffer.length / 3) u).1 ≤ p ∧
      p ≤ (treeRange (m.m_IndexBuffer.length / 3) u).2) :
    ∃ q, ((treeRange (m.m_IndexBuffer.length / 3) u).1 ≤ q ∧
      q ≤ (treeRange (m.m_IndexBuffer.length / 3) u).2) ∧
      (buildBVHStep sort_r m u).indexTriple p = m.indexTriple q := by
  have hb := treeRange_bounds (m.m_IndexBuffer.length / 3) u hN
  have hw := treeRange_wf (m.m_IndexBuffer.length / 3) u
  have h3 : 3 * (m.m_IndexBuffer.length / 3) ≤ m.m_IndexBuffer.length := Nat.mul_div_le _ _
  generalize hl : (treeRange (m.m_IndexBuffer.length / 3) u).1 = l at *
  generalize hr : (treeRange (m.m_IndexBuffer.length / 3) u).2 = r at *
  set s := sort_r (m.rangeTriples l (r + 1 - l))
      (compareFunction m.m_VertexBuffer (splitAxis (m.rangeBounds l (r + 1 - l)).1
        (m.rangeBounds l (r + 1 - l)).2)) with hs
  have hperm : s.Perm (m.rangeTriples l (r + 1 - l)) := hsort _ _
  have hslen : s.length = r + 1 - l := by rw [hperm.length_eq]; simp [rangeTriples]
  have hidx : (buildBVHStep sort_r m u).m_IndexBuffer =
      m.m_IndexBuffer.take (3 * l) ++ flattenTriples s ++ m.m_IndexBuffer.drop
        (3 * l + 3 * (r + 1 - l)) := by
    simp only [buildBVHStep, binaryTreeBoundaries_eq, hl, hr, hs]
  have hi : p - l < s.length := by omega
  obtain ⟨h0, h1, h2⟩ := getElem?_flattenTriples s (p - l) s[p - l] (List.getElem?_eq_getElem hi)
  have hmem : s[p - l] ∈ m.rangeTriples l (r + 1 - l) := hperm.subset (List.getElem_mem _)
  obtain ⟨i, hi', hq⟩ := (mem_rangeTriples m l (r + 1 - l) _).1 hmem
  refine ⟨l + i, ⟨by omega, by omega⟩, ?_⟩
  rw [← hq, indexTriple_eq, hidx]
  have hsp := getElem?_splice m.m_IndexBuffer s l (r + 1 - l) hslen (by omega)
  rw [hsp, hsp, hsp, if_neg (by omega), if_pos (by omega), if_neg (by omega), if_pos (by omega),
    if_neg (by omega), if_pos (by omega),
    show 3 * p - 3 * l = 3 * (p - l) by omega,
    show 3 * p + 1 - 3 * l = 3 * (p - l) + 1 by omega,
    show 3 * p + 2 - 3 * l = 3 * (p - l) + 2 by omega, h0, h1, h2]
  rfl

end step

end Mesh

/-! ## The box of a range covers its triangles -/

namespace XFloat

theorem minQ_le (x : ℚ) (a : XFloat) : le (minQ x a) (fin x) = true := by
  cases a <;> simp [minQ, lt, le]
  rename_i q
  by_cases h : q < x <;> simp [h, le, le_of_lt]

theorem le_maxQ (x : ℚ) (a : XFloat) : le (fin x) (maxQ x a) = true := by
  cases a <;> simp [maxQ, lt, le]
  rename_i q
  by_cases h : x < q <;> simp [h, le, le_of_lt]

theorem minQ_le_of_le (x y : ℚ) (a : XFloat) (h : le a (fin y) = true) :
    le (minQ x a) (fin y) = true := by
  cases a <;> simp_all [minQ, lt, le]
  rename_i q
  by_cases h1 : q < x <;> simp [h1, le, h]
  linarith

theorem le_maxQ_of_le (x y : ℚ) (a : XFloat) (h : le (fin y) a = true) :
    le (fin y) (maxQ x a) = true := by
  cases a <;> simp_all [maxQ, lt, le]
  rename_i q
  by_cases h1 : x < q <;> simp [h1, le, h]
  linarith

end XFloat

namespace Mesh

theorem boundsStep_covers_new (m : Mesh) (l : Nat) (acc : XVector3 × XVector3) (i : Nat) :
    (BBox.mk (boundsStep m l acc i).1 (boundsStep m l acc i).2).CoversPoint
      (m.vertex (m.m_IndexBuffer.getD (3 * l + i) 0)) := by
  simp only [boundsStep, BBox.CoversPoint]
  exact ⟨⟨XFloat.minQ_le _ _, XFloat.le_maxQ _ _⟩, ⟨XFloat.minQ_le _ _, XFloat.le_maxQ _ _⟩,
    ⟨XFloat.minQ_le _ _, XFloat.le_maxQ _ _⟩⟩

theorem boundsStep_covers_old (m : Mesh) (l : Nat) (acc : XVector3 × XVector3) (i : Nat)
    (v : Vector3) (h : (BBox.mk acc.1 acc.2).CoversPoint v) :
    (BBox.mk (boundsStep m l acc i).1 (boundsStep m l acc i).2).CoversPoint v := by
  simp only [boundsStep, BBox.CoversPoint] at h ⊢
  exact ⟨⟨XFloat.minQ_le_of_le _ _ _ h.1.1, XFloat.le_maxQ_of_le _ _ _ h.1.2⟩,
    ⟨XFloat.minQ_le_of_le _ _ _ h.2.1.1, XFloat.le_maxQ_of_le _ _ _ h.2.1.2⟩,
    ⟨XFloat.minQ_le_of_le _ _ _ h.2.2.1, XFloat.le_maxQ_of_le _ _ _ h.2.2.2⟩⟩

theorem foldl_boundsStep_covers (m : Mesh) (l k : Nat) (acc : XVector3 × XVector3) :
    ∀ i, i < k →
      (BBox.mk ((List.range k).foldl (boundsStep m l) acc).1
        ((List.range k).foldl (boundsStep m l) acc).2).CoversPoint
        (m.vertex (m.m_IndexBuffer.getD (3 * l + i) 0)) := by
  induction k with
  | zero => intro i hi; omega
  | succ k ih =>
    intro i hi
    rw [List.range_succ, List.foldl_append]
    simp only [List.foldl_cons, List.foldl_nil]
    by_cases hik : i = k
    · subst hik; exact boundsStep_covers_new _ _ _ _
    · exact boundsStep_covers_old _ _ _ _ _ (ih i (by omega))

theorem rangeBounds_covers (m : Mesh) (l n p : Nat) (hp : l ≤ p ∧ p < l + n) :
    m.BoxCoversTriple ⟨(m.rangeBounds l n).1, (m.rangeBounds l n).2⟩ (m.indexTriple p) := by
  have h := foldl_boundsStep_covers m l (3 * n)
    (⟨XFloat.pinf, XFloat.pinf, XFloat.pinf⟩, ⟨XFloat.ninf, XFloat.ninf, XFloat.ninf⟩)
  have h0 := h (3 * (p - l)) (by omega)
  have h1 := h (3 * (p - l) + 1) (by omega)
  have h2 := h (3 * (p - l) + 2) (by omega)
  rw [show 3 * l + 3 * (p - l) = 3 * p + 0 by omega] at h0
  rw [show 3 * l + (3 * (p - l) + 1) = 3 * p + 1 by omega] at h1
  rw [show 3 * l + (3 * (p - l) + 2) = 3 * p + 2 by omega] at h2
  exact ⟨h0, h1, h2⟩

end Mesh

/-! ## Invariant of the loop of `buildBVH` -/

namespace Mesh

theorem boxCoversTriple_congr {m m' : Mesh} (h : m'.m_VertexBuffer = m.m_VertexBuffer)
    (b : BBox) (a : IndexTriple) : m'.BoxCoversTriple b a ↔ m.BoxCoversTriple b a := by
  simp only [BoxCoversTriple, vertex, h]

theorem buildBVHStep_vertexBuffer
    (sort_r : List IndexTriple → (IndexTriple → IndexTriple → Int) → List IndexTriple)
    (m : Mesh) (u : Nat) : (buildBVHStep sort_r m u).m_VertexBuffer = m.m_VertexBuffer := rfl

theorem buildBVHStep_bbox
    (sort_r : List IndexTriple → (IndexTriple → IndexTriple → Int) → List IndexTriple)
    (m : Mesh) (u : Nat) :
    (buildBVHStep sort_r m u).m_vBbox = m.m_vBbox ++
      [⟨(m.rangeBounds (treeRange (m.m_IndexBuffer.length / 3) u).1
          ((treeRange (m.m_IndexBuffer.length / 3) u).2 + 1
            - (treeRange (m.m_IndexBuffer.length / 3) u).1)).1,
        (m.rangeBounds (treeRange (m.m_IndexBuffer.length / 3) u).1
          ((treeRange (m.m_IndexBuffer.length / 3) u).2 + 1
            - (treeRange (m.m_IndexBuffer.length / 3) u).1)).2⟩] := rfl

/-- Invariant of the loop of `buildBVH` after `K` passes: the vertex buffer and
the size of the index buffer are unchanged, `K` boxes have been appended, and
the box of every processed tree position contains every triangle that
currently lies in the range of that position. -/
theorem buildBVH_loop_invariant
    (sort_r : List IndexTriple → (IndexTriple → IndexTriple → Int) → List IndexTriple)
    (hsort : ∀ l cmp, (sort_r l cmp).Perm l) (m0 : Mesh)
    (hN : 1 ≤ m0.m_IndexBuffer.length / 3) (K : Nat) :
    ((List.range K).foldl (buildBVHStep sort_r) m0).m_VertexBuffer = m0.m_VertexBuffer ∧
    ((List.range K).foldl (buildBVHStep sort_r) m0).m_IndexBuffer.length
      = m0.m_IndexBuffer.length ∧
    ((List.range K).foldl (buildBVHStep sort_r) m0).m_vBbox.length = m0.m_vBbox.length + K ∧
    ∀ j, j < K → ∀ p, (treeRange (m0.m_IndexBuffer.length / 3) j).1 ≤ p ∧
        p ≤ (treeRange (m0.m_IndexBuffer.length / 3) j).2 →
      m0.BoxCoversTriple
        (((List.range K).foldl (buildBVHStep sort_r) m0).m_vBbox.getD (m0.m_vBbox.length + j)
          BBox.default)
        (((List.range K).foldl (buildBVHStep sort_r) m0).indexTriple p) := by
  induction K with
  | zero => exact ⟨rfl, rfl, rfl, fun j hj => absurd hj (by omega)⟩
  | succ K ih =>
    rw [List.range_succ, List.foldl_append]
    simp only [List.foldl_cons, List.foldl_nil]
    obtain ⟨hv, hlen, hbl, hcov⟩ := ih
    generalize (List.range K).foldl (buildBVHStep sort_r) m0 = m at *
    have hN' : 1 ≤ m.m_IndexBuffer.length / 3 := by rw [hlen]; exact hN
    have hw := treeRange_wf (m0.m_IndexBuffer.length / 3) K
    refine ⟨by rw [buildBVHStep_vertexBuffer, hv],
      by rw [buildBVHStep_length sort_r hsort m K hN', hlen],
      by rw [buildBVHStep_bbox]; simp [hbl]; omega, ?_⟩
    intro j hj p hp
    by_cases hjK : j = K
    · -- the box stored in this pass
      subst hjK
      have hget : (buildBVHStep sort_r m j).m_vBbox.getD (m0.m_vBbox.length + j) BBox.default
          = ⟨(m.rangeBounds (treeRange (m.m_IndexBuffer.length / 3) j).1
              ((treeRange (m.m_IndexBuffer.length / 3) j).2 + 1
                - (treeRange (m.m_IndexBuffer.length / 3) j).1)).1,
            (m.rangeBounds (treeRange (m.m_IndexBuffer.length / 3) j).1
              ((treeRange (m.m_IndexBuffer.length / 3) j).2 + 1
                - (treeRange (m.m_IndexBuffer.length / 3) j).1)).2⟩ := by
        rw [buildBVHStep_bbox, List.getD_append_right _ _ _ _ (by omega)]
        simp [hbl]
      rw [hget]
      rw [← hlen] at hp
      obtain ⟨q, hq, heq⟩ := buildBVHStep_inside sort_r hsort m j hN' p hp
      rw [heq, ← boxCoversTriple_congr hv]
      exact rangeBounds_covers m _ _ q (by omega)
    · -- a box stored earlier
      have hj' : j < K := by omega
      have hget : (buildBVHStep sort_r m K).m_vBbox.getD (m0.m_vBbox.length + j) BBox.default
          = m.m_vBbox.getD (m0.m_vBbox.length + j) BBox.default := by
        rw [buildBVHStep_bbox, List.getD_append _ _ _ _ (by omega)]
      rw [hget]
      have hlam := treeRange_laminar (m0.m_IndexBuffer.length / 3) K j hj'
      by_cases hin : (treeRange (m0.m_IndexBuffer.length / 3) K).1 ≤ p ∧
          p ≤ (treeRange (m0.m_IndexBuffer.length / 3) K).2
      · have hin' := hin
        rw [← hlen] at hin'
        obtain ⟨q, hq, heq⟩ := buildBVHStep_inside sort_r hsort m K hN' p hin'
        rw [heq]
        rw [hlen] at hq
        exact hcov j hj' q (by omega)
      · rw [buildBVHStep_outside sort_r hsort m K hN' p (by rw [hlen]; omega)]
        exact hcov j hj' p hp

end Mesh

/-! ## Soundness of the box test -/

namespace XFloat

theorem lt_false_of_between {a c : XFloat} {t : ℚ} (h1 : lt (fin t) a = false)
    (h2 : lt c (fin t) = false) : lt c a = false := by
  cases a <;> cases c <;> simp_all [lt]
  linarith

theorem low_pos {c : XFloat} {o d t : ℚ} (hd : 0 < d) (h : le c (fin (o + t * d)) = true) :
    lt (fin t) ((c.subQ o).mul (recip d)) = false := by
  have hd' : d ≠ 0 := ne_of_gt hd
  have hinv : (0 : ℚ) < 1 / d := by positivity
  cases c <;> simp_all [le, lt, subQ, mul, recip, mulInf]
  rename_i q
  rw [← div_eq_mul_inv, div_le_iff₀ hd]; linarith

theorem high_pos {c : XFloat} {o d t : ℚ} (hd : 0 < d) (h : le (fin (o + t * d)) c = true) :
    lt ((c.subQ o).mul (recip d)) (fin t) = false := by
  have hd' : d ≠ 0 := ne_of_gt hd
  have hinv : (0 : ℚ) < 1 / d := by positivity
  cases c <;> simp_all [le, lt, subQ, mul, recip, mulInf]
  rename_i q
  rw [← div_eq_mul_inv, le_div_iff₀ hd]; linarith

theorem low_neg {c : XFloat} {o d t : ℚ} (hd : d < 0) (h : le (fin (o + t * d)) c = true) :
    lt (fin t) ((c.subQ o).mul (recip d)) = false := by
  have hd' : d ≠ 0 := ne_of_lt hd
  have hinv : ¬ ((0 : ℚ) < d⁻¹) := by
    rw [not_lt]; exact le_of_lt (inv_lt_zero.2 hd)
  have hnd : ¬ ((0 : ℚ) < d) := not_lt.mpr (le_of_lt hd)
  cases c <;> simp [le, lt, subQ, mul, recip, mulInf, hd', hnd] at h ⊢
  rename_i q
  rw [← div_eq_mul_inv, div_le_iff_of_neg hd]; linarith

theorem high_neg {c : XFloat} {o d t : ℚ} (hd : d < 0) (h : le c (fin (o + t * d)) = true) :
    lt ((c.subQ o).mul (recip d)) (fin t) = false := by
  have hd' : d ≠ 0 := ne_of_lt hd
  have hinv : ¬ ((0 : ℚ) < d⁻¹) := by
    rw [not_lt]; exact le_of_lt (inv_lt_zero.2 hd)
  have hnd : ¬ ((0 : ℚ) < d) := not_lt.mpr (le_of_lt hd)
  cases c <;> simp [le, lt, subQ, mul, recip, mulInf, hd', hnd] at h ⊢
  rename_i q
  rw [← div_eq_mul_inv, le_div_iff_of_neg hd]; linarith

theorem low_zero {c : XFloat} {o t : ℚ} (h : le c (fin (o + t * 0)) = true) :
    lt (fin t) ((c.subQ o).mul (recip 0)) = false := by
  cases c <;> simp_all [le, lt, subQ, mul, recip, mulInf]
  rename_i q
  by_cases h0 : q - o = 0
  · simp [h0, lt]
  · have : ¬ (o < q) := by push_neg; linarith
    have h0' : ¬ q = o := fun e => h0 (by rw [e]; ring)
    simp [this, lt, h0, h0']

theorem high_zero {c : XFloat} {o t : ℚ} (h : le (fin (o + t * 0)) c = true) :
    lt ((c.subQ o).mul (recip 0)) (fin t) = false := by
  cases c <;> simp_all [le, lt, subQ, mul, recip, mulInf]
  rename_i q
  by_cases h0 : q - o = 0
  · simp [h0, lt]
  · have : o < q := lt_of_le_of_ne h (fun e => h0 (by rw [e]; ring))
    have h0' : ¬ q = o := fun e => h0 (by rw [e]; ring)
    simp [this, lt, h0, h0']

end XFloat


theorem narrow_within (a c t0 t1 : XFloat) (t : ℚ) (hin : XFloat.Within (a, c) t)
    (h0 : XFloat.lt (XFloat.fin t) t0 = false) (h1 : XFloat.lt t1 (XFloat.fin t) = false) :
    ∃ iv', (if XFloat.lt (if XFloat.lt t1 c then t1 else c)
              (if XFloat.lt a t0 then t0 else a) then none
            else some ((if XFloat.lt a t0 then t0 else a),
                       (if XFloat.lt t1 c then t1 else c)) : Option (XFloat × XFloat))
          = some iv' ∧ XFloat.Within iv' t := by
  have e0 : XFloat.lt (XFloat.fin t) (if XFloat.lt a t0 then t0 else a) = false := by
    split_ifs
    · exact h0
    · exact hin.1
  have e1 : XFloat.lt (if XFloat.lt t1 c then t1 else c) (XFloat.fin t) = false := by
    split_ifs
    · exact h1
    · exact hin.2
  have e2 := XFloat.lt_false_of_between e0 e1
  rw [e2]
  exact ⟨((if XFloat.lt a t0 then t0 else a), (if XFloat.lt t1 c then t1 else c)), by simp,
    e0, e1⟩

theorem BBox.intersectRayAxis_sound (b : BBox) (ray : Ray) (j : Nat) (hray : ray.Consistent)
    (t : ℚ) (iv : XFloat × XFloat) (hin : XFloat.Within iv t)
    (hlo : XFloat.le (b.m_pp0.get j)
      (XFloat.fin (ray.m_vOrigin.get j + t * ray.m_vDirection.get j)) = true)
    (hhi : XFloat.le (XFloat.fin (ray.m_vOrigin.get j + t * ray.m_vDirection.get j))
      (b.m_pp1.get j) = true) :
    ∃ iv', b.intersectRayAxis ray j iv = some iv' ∧ XFloat.Within iv' t := by
  obtain ⟨a, c⟩ := iv
  obtain ⟨hinv, hpn⟩ := hray j
  simp only [BBox.intersectRayAxis]
  generalize ray.m_vDirection.get j = d at *
  generalize ray.m_vOrigin.get j = o at *
  rcases lt_trichotomy d 0 with hneg | hz | hpos
  · have hpn' : ray.posneg j = 1 := by rw [hpn]; simp [not_le.mpr hneg]
    simp only [hpn', BBox.m_pp, hinv, one_ne_zero, if_false, Nat.sub_self, if_true]
    exact narrow_within a c _ _ t hin (XFloat.low_neg hneg hhi) (XFloat.high_neg hneg hlo)
  · subst hz
    have hpn' : ray.posneg j = 0 := by rw [hpn]; simp
    simp only [hpn', BBox.m_pp, hinv, if_true, Nat.sub_zero, one_ne_zero, if_false]
    exact narrow_within a c _ _ t hin (XFloat.low_zero hlo) (XFloat.high_zero hhi)
  · have hpn' : ray.posneg j = 0 := by rw [hpn]; simp [le_of_lt hpos]
    simp only [hpn', BBox.m_pp, hinv, if_true, Nat.sub_zero, one_ne_zero, if_false]
    exact narrow_within a c _ _ t hin (XFloat.low_pos hpos hlo) (XFloat.high_pos hpos hhi)

/-- Soundness of the box test: when the point `O + t*D` of a consistent ray
lies in the box and `t` is within the bounds, `BBox::intersectRay` is true. -/
theorem BBox.intersectRay_sound (b : BBox) (ray : Ray) (hray : ray.Consistent) (t : ℚ)
    (tmin tmax : XFloat) (hin : XFloat.Within (tmin, tmax) t)
    (hcov : b.CoversPoint (ray.pointAt t)) : b.intersectRay ray tmin tmax = true := by
  obtain ⟨⟨hx0, hx1⟩, ⟨hy0, hy1⟩, ⟨hz0, hz1⟩⟩ := hcov
  obtain ⟨iv0, e0, w0⟩ := BBox.intersectRayAxis_sound b ray 0 hray t _ hin hx0 hx1
  obtain ⟨iv1, e1, w1⟩ := BBox.intersectRayAxis_sound b ray 1 hray t _ w0 hy0 hy1
  obtain ⟨iv2, e2, _⟩ := BBox.intersectRayAxis_sound b ray 2 hray t _ w1 hz0 hz1
  simp only [BBox.intersectRay, e0, e1, e2]

/-! ## Accepted triangles and their hit points -/

theorem XFloat.le_convex {m : XFloat} {a b c u v : ℚ} (ha : XFloat.le m (XFloat.fin a) = true)
    (hb : XFloat.le m (XFloat.fin b) = true) (hc : XFloat.le m (XFloat.fin c) = true)
    (hu : 0 ≤ u) (hv : 0 ≤ v) (huv : u + v ≤ 1) :
    XFloat.le m (XFloat.fin ((1 - u - v) * a + u * b + v * c)) = true := by
  cases m <;> simp_all [XFloat.le]
  rename_i q
  nlinarith [mul_nonneg hu (sub_nonneg.2 hb), mul_nonneg hv (sub_nonneg.2 hc),
    mul_nonneg (sub_nonneg.2 huv) (sub_nonneg.2 ha)]

theorem XFloat.convex_le {m : XFloat} {a b c u v : ℚ} (ha : XFloat.le (XFloat.fin a) m = true)
    (hb : XFloat.le (XFloat.fin b) m = true) (hc : XFloat.le (XFloat.fin c) m = true)
    (hu : 0 ≤ u) (hv : 0 ≤ v) (huv : u + v ≤ 1) :
    XFloat.le (XFloat.fin ((1 - u - v) * a + u * b + v * c)) m = true := by
  cases m <;> simp_all [XFloat.le]
  rename_i q
  nlinarith [mul_nonneg hu (sub_nonneg.2 hb), mul_nonneg hv (sub_nonneg.2 hc),
    mul_nonneg (sub_nonneg.2 huv) (sub_nonneg.2 ha)]

/-- The hit point of an accepted triangle lies in every box that contains the
three vertices, and its `t` is within the bounds. -/
theorem BBox.covers_hit (b : BBox) (V0 V1 V2 O D : Vector3) (tmin tmax : XFloat) (c : Bool)
    (h : TriangleHit) (hh : intersectRayTriangle V0 V1 V2 O D tmin tmax c = some h)
    (c0 : b.CoversPoint V0) (c1 : b.CoversPoint V1) (c2 : b.CoversPoint V2) :
    b.CoversPoint (O.add (Vector3.smul h.t D)) ∧ XFloat.Within (tmin, tmax) h.t := by
  obtain ⟨hdet, _, hu, hv, ht, _, h0u, _, h0v, huv, hlo, hhi⟩ := intersectRayTriangle_eq_some hh
  have hid := hitPoint_identity V0 V1 V2 O D hdet
  simp only at hid
  rw [← hu, ← hv, ← ht] at hid
  refine ⟨?_, hlo, hhi⟩
  rw [hid]
  obtain ⟨⟨a0, a1⟩, ⟨a2, a3⟩, ⟨a4, a5⟩⟩ := c0
  obtain ⟨⟨b0, b1⟩, ⟨b2, b3⟩, ⟨b4, b5⟩⟩ := c1
  obtain ⟨⟨d0, d1⟩, ⟨d2, d3⟩, ⟨d4, d5⟩⟩ := c2
  simp only [BBox.CoversPoint, Vector3.add, Vector3.smul]
  exact ⟨⟨XFloat.le_convex a0 b0 d0 h0u h0v huv, XFloat.convex_le a1 b1 d1 h0u h0v huv⟩,
    ⟨XFloat.le_convex a2 b2 d2 h0u h0v huv, XFloat.convex_le a3 b3 d3 h0u h0v huv⟩,
    ⟨XFloat.le_convex a4 b4 d4 h0u h0v huv, XFloat.convex_le a5 b5 d5 h0u h0v huv⟩⟩

/-- The upper bound only enters the triangle test through the final
comparison `t > tmax`. -/
theorem intersectRayTriangle_upper (V0 V1 V2 O D : Vector3) (tmin tmax : XFloat) (c : Bool)
    (h : TriangleHit) :
    intersectRayTriangle V0 V1 V2 O D tmin tmax c = some h ↔
      (intersectRayTriangle V0 V1 V2 O D tmin XFloat.nan c = some h ∧
        XFloat.lt tmax (XFloat.fin h.t) = false) := by
  unfold intersectRayTriangle
  simp only []
  split_ifs <;> simp_all [XFloat.lt] <;> (try (intro e; subst e; simp_all))

/-! ## Closest-hit queries -/

theorem XFloat.lt_fin_mono {c : XFloat} {a b : ℚ} (h : XFloat.lt c (XFloat.fin a) = false)
    (hab : b ≤ a) : XFloat.lt c (XFloat.fin b) = false := by
  cases c <;> simp_all [XFloat.lt]
  linarith

theorem Intersection.setMesh_setMesh (I : Intersection) (m m' : Mesh) (p p' : Nat)
    (t u v t' u' v' : ℚ) :
    (I.setMesh m p t u v).setMesh m' p' t' u' v' = I.setMesh m' p' t' u' v' := rfl

namespace Mesh

theorem triangleHit_upper (m : Mesh) (ray : Ray) (p : Nat) (tmin tmax : XFloat)
    (h : TriangleHit) :
    m.triangleHit ray p tmin tmax = some h ↔
      (m.triangleHit ray p tmin XFloat.nan = some h ∧
        XFloat.lt tmax (XFloat.fin h.t) = false) :=
  intersectRayTriangle_upper _ _ _ _ _ _ _ _ _

theorem triangleHit_change (m : Mesh) (ray : Ray) (p : Nat) (tmin tmax tmax' : XFloat)
    (h : TriangleHit) (hh : m.triangleHit ray p tmin tmax = some h)
    (hle : XFloat.lt tmax' (XFloat.fin h.t) = false) :
    m.triangleHit ray p tmin tmax' = some h :=
  (triangleHit_upper m ray p tmin tmax' h).2 ⟨((triangleHit_upper m ray p tmin tmax h).1 hh).1, hle⟩

theorem closestIn_congr (m : Mesh) (ray : Ray) (tmin : XFloat) (S S' : Nat → Prop)
    (hS : ∀ p, S p ↔ S' p) (tmax : XFloat) (I : Intersection)
    (res : Bool × XFloat × Intersection) (h : m.ClosestIn ray tmin S tmax I res) :
    m.ClosestIn ray tmin S' tmax I res := by
  obtain ⟨h1, h2⟩ := h
  refine ⟨fun hf => ?_, fun ht => ?_⟩
  · obtain ⟨a, b, c⟩ := h1 hf
    exact ⟨a, b, fun p hp => c p ((hS p).2 hp)⟩
  · obtain ⟨p, h, hp, a, b, c, d⟩ := h2 ht
    exact ⟨p, h, (hS p).1 hp, a, b, c, fun q h' hq => d q h' ((hS q).2 hq)⟩

/-- Two queries in sequence, the second started from the bound and the record
the first one ended with, form a query over the union. -/
theorem closestIn_seq (m : Mesh) (ray : Ray) (tmin : XFloat) (S1 S2 : Nat → Prop)
    (tmax : XFloat) (I : Intersection) (r1 r2 : Bool × XFloat × Intersection)
    (h1 : m.ClosestIn ray tmin S1 tmax I r1)
    (h2 : m.ClosestIn ray tmin S2 r1.2.1 r1.2.2 r2) :
    m.ClosestIn ray tmin (fun p => S1 p ∨ S2 p) tmax I (r1.1 || r2.1, r2.2.1, r2.2.2) := by
  obtain ⟨f1, t1⟩ := h1
  obtain ⟨f2, t2⟩ := h2
  cases e1 : r1.1 with
  | false =>
    obtain ⟨a1, b1, c1⟩ := f1 e1
    rw [a1, b1] at f2 t2
    cases e2 : r2.1 with
    | false =>
      obtain ⟨a2, b2, c2⟩ := f2 e2
      refine ⟨fun _ => ⟨a2, b2, ?_⟩, fun hh => by simp at hh⟩
      rintro p (hp | hp)
      · exact c1 p hp
      · exact c2 p hp
    | true =>
      obtain ⟨p, h, hp, a2, b2, c2, d2⟩ := t2 e2
      refine ⟨fun hh => by simp at hh, fun _ => ⟨p, h, Or.inr hp, a2, b2, c2, ?_⟩⟩
      rintro q h' (hq | hq) hacc
      · rw [c1 q hq] at hacc; exact absurd hacc (by simp)
      · exact d2 q h' hq hacc
  | true =>
    obtain ⟨p1, h1, hp1, a1, b1, c1, d1⟩ := t1 e1
    rw [b1, c1] at f2 t2
    have hup1 := ((triangleHit_upper m ray p1 tmin tmax h1).1 a1).2
    cases e2 : r2.1 with
    | false =>
      obtain ⟨a2, b2, c2⟩ := f2 e2
      refine ⟨fun hh => by simp at hh, fun _ => ⟨p1, h1, Or.inl hp1, a1, ?_, ?_, ?_⟩⟩
      · rw [a2]
      · rw [b2]
      · rintro q h' (hq | hq) hacc
        · exact d1 q h' hq hacc
        · by_contra hlt
          have := triangleHit_change m ray q tmin tmax (XFloat.fin h1.t) h' hacc
            (by simp only [XFloat.lt, decide_eq_false_iff_not, not_lt]; exact le_of_lt (not_le.1 hlt))
          rw [c2 q hq] at this
          exact absurd this (by simp)
    | true =>
      obtain ⟨p2, h2, hp2, a2, b2, c2, d2⟩ := t2 e2
      have h21 : h2.t ≤ h1.t := by
        have := ((triangleHit_upper m ray p2 tmin (XFloat.fin h1.t) h2).1 a2).2
        simpa [XFloat.lt] using this
      refine ⟨fun hh => by simp at hh, fun _ => ⟨p2, h2, Or.inr hp2, ?_, b2, ?_, ?_⟩⟩
      · exact triangleHit_change m ray p2 tmin _ tmax h2 a2 (XFloat.lt_fin_mono hup1 h21)
      · rw [c2, Intersection.setMesh_setMesh]
      · rintro q h' (hq | hq) hacc
        · exact le_trans h21 (d1 q h' hq hacc)
        · by_cases hle : h'.t ≤ h1.t
          · exact d2 q h' hq (triangleHit_change m ray q tmin tmax (XFloat.fin h1.t) h' hacc
              (by simp only [XFloat.lt, decide_eq_false_iff_not, not_lt]; exact hle))
          · exact le_trans h21 (le_of_lt (not_le.1 hle))

end Mesh

/-! ## The triangle loop and the box test in the query -/

namespace Mesh

theorem scanStep_none (mesh : Mesh) (ray : Ray) (tmin : XFloat) (l : Nat) (st : ScanState)
    (i : Nat) (h : mesh.triangleHit ray (l + i) tmin st.2.1 = none) :
    scanStep mesh ray tmin l st i = st := by
  unfold triangleHit at h
  unfold scanStep
  simp only [h]

theorem scanStep_some (mesh : Mesh) (ray : Ray) (tmin : XFloat) (l : Nat) (st : ScanState)
    (i : Nat) (hit : TriangleHit) (h : mesh.triangleHit ray (l + i) tmin st.2.1 = some hit) :
    scanStep mesh ray tmin l st i
      = (1, XFloat.fin hit.t, st.2.2.setMesh mesh (l + i) hit.t hit.u hit.v) := by
  unfold triangleHit at h
  unfold scanStep
  simp only [h]

/-- One pass of the triangle loop extends a closest-hit query over
`[l, l+n)` to one over `[l, l+n+1)`. -/
theorem scanStep_closest (mesh : Mesh) (ray : Ray) (tmin : XFloat) (l : Nat) (tmax : XFloat)
    (I : Intersection) (n : Nat) (st : ScanState)
    (ih : mesh.ClosestIn ray tmin (fun p => l ≤ p ∧ p < l + n) tmax I
      (decide (st.1 ≠ 0), st.2.1, st.2.2)) :
    mesh.ClosestIn ray tmin (fun p => l ≤ p ∧ p < l + (n + 1)) tmax I
      (decide ((scanStep mesh ray tmin l st n).1 ≠ 0), (scanStep mesh ray tmin l st n).2.1,
       (scanStep mesh ray tmin l st n).2.2) := by
  rcases Option.eq_none_or_eq_some (mesh.triangleHit ray (l + n) tmin st.2.1) with
    hres | ⟨h, hres⟩
  · rw [scanStep_none mesh ray tmin l st n hres]
    have h2 : mesh.ClosestIn ray tmin (fun p => p = l + n) st.2.1 st.2.2
        (false, st.2.1, st.2.2) :=
      ⟨fun _ => ⟨rfl, rfl, fun p hp => by rw [hp]; exact hres⟩, fun h => by simp at h⟩
    have := closestIn_seq mesh ray tmin _ _ tmax I _ _ ih h2
    simp only [Bool.or_false] at this
    exact closestIn_congr mesh ray tmin _ _ (fun p => by omega) tmax I _ this
  · rw [scanStep_some mesh ray tmin l st n h hres]
    have h2 : mesh.ClosestIn ray tmin (fun p => p = l + n) st.2.1 st.2.2
        (true, XFloat.fin h.t, st.2.2.setMesh mesh (l + n) h.t h.u h.v) := by
      refine ⟨fun hh => by simp at hh, fun _ => ⟨l + n, h, rfl, hres, rfl, rfl, ?_⟩⟩
      intro q h' hq hacc
      rw [hq, hres] at hacc
      simp only [Option.some.injEq] at hacc
      rw [hacc]
    have := closestIn_seq mesh ray tmin _ _ tmax I _ _ ih h2
    simp only [Bool.or_true] at this
    have e : decide ((1 : Nat) ≠ 0) = true := by decide
    simp only [e]
    exact closestIn_congr mesh ray tmin _ _ (fun p => by omega) tmax I _ this

/-- The triangle loop over `[l, l+n)` is a closest-hit query over that range. -/
theorem scan_closest (mesh : Mesh) (ray : Ray) (tmin : XFloat) (l : Nat) (tmax : XFloat)
    (I : Intersection) (n : Nat) :
    ∀ st, st = (List.range n).foldl (scanStep mesh ray tmin l) (0, tmax, I) →
    mesh.ClosestIn ray tmin (fun p => l ≤ p ∧ p < l + n) tmax I
      (decide (st.1 ≠ 0), st.2.1, st.2.2) := by
  induction n with
  | zero =>
    intro st hst
    subst hst
    refine ⟨fun _ => ⟨rfl, rfl, fun p hp => absurd hp.2 (by omega)⟩, fun h => by simp at h⟩
  | succ n ih =>
    intro st hst
    rw [List.range_succ, List.foldl_append] at hst
    subst hst
    exact scanStep_closest mesh ray tmin l tmax I n _ (ih _ rfl)

/-- A failed box test of a box that contains all triangles of a range shows
that no triangle of the range is accepted. -/
theorem box_miss_closest (mesh : Mesh) (ray : Ray) (hray : ray.Consistent) (tmin tmax : XFloat)
    (I : Intersection) (b : BBox) (S : Nat → Prop)
    (hcov : ∀ p, S p → mesh.BoxCoversTriple b (mesh.indexTriple p))
    (hmiss : b.intersectRay ray tmin tmax = false) :
    mesh.ClosestIn ray tmin S tmax I (false, tmax, I) := by
  refine ⟨fun _ => ⟨rfl, rfl, ?_⟩, fun h => by simp at h⟩
  intro p hp
  cases hres : mesh.triangleHit ray p tmin tmax with
  | none => rfl
  | some h =>
    exfalso
    obtain ⟨c0, c1, c2⟩ := hcov p hp
    have := BBox.covers_hit b _ _ _ _ _ tmin tmax true h hres c0 c1 c2
    have hs := BBox.intersectRay_sound b ray hray h.t tmin tmax this.2 this.1
    rw [hs] at hmiss
    exact absurd hmiss (by simp)

end Mesh

/-! ## Correctness of the tree query -/

namespace Mesh

theorem intersectRay_unfold (mesh : Mesh) (ray : Ray) (I : Intersection) (tmin tmax : XFloat)
    (u : Nat) (hne : mesh.m_vBbox.isEmpty = false) :
    mesh.intersectRay ray I tmin tmax u =
      if (mesh.m_vBbox.getD u BBox.default).intersectRay ray tmin tmax = false then
        (false, tmax, I)
      else if 2 * u + 2 ≥ mesh.m_vBbox.length then
        (decide (((List.range (mesh.binaryTreeBoundaries u).2).foldl
            (scanStep mesh ray tmin (mesh.binaryTreeBoundaries u).1) (0, tmax, I)).1 ≠ 0),
          ((List.range (mesh.binaryTreeBoundaries u).2).foldl
            (scanStep mesh ray tmin (mesh.binaryTreeBoundaries u).1) (0, tmax, I)).2.1,
          ((List.range (mesh.binaryTreeBoundaries u).2).foldl
            (scanStep mesh ray tmin (mesh.binaryTreeBoundaries u).1) (0, tmax, I)).2.2)
      else
        ((mesh.intersectRay ray I tmin tmax (2 * u + 1)).1 ||
          (mesh.intersectRay ray (mesh.intersectRay ray I tmin tmax (2 * u + 1)).2.2 tmin
            (mesh.intersectRay ray I tmin tmax (2 * u + 1)).2.1 (2 * u + 2)).1,
         (mesh.intersectRay ray (mesh.intersectRay ray I tmin tmax (2 * u + 1)).2.2 tmin
            (mesh.intersectRay ray I tmin tmax (2 * u + 1)).2.1 (2 * u + 2)).2.1,
         (mesh.intersectRay ray (mesh.intersectRay ray I tmin tmax (2 * u + 1)).2.2 tmin
            (mesh.intersectRay ray I tmin tmax (2 * u + 1)).2.1 (2 * u + 2)).2.2) := by
  rw [Mesh.intersectRay]
  simp only [hne, Bool.false_eq_true, if_false, Bool.not_eq_true']
  split_ifs <;> first | rfl | simp_all


/-- The query of `Mesh::intersectRay` at the tree position `u` is a closest-hit
query over the range of `u`, provided every stored box contains the triangles
of its range. -/
theorem intersectRay_closest (mesh : Mesh) (ray : Ray) (hray : ray.Consistent) (tmin : XFloat)
    (hcov : ∀ u, u < mesh.m_vBbox.length → ∀ p,
      (treeRange (mesh.m_IndexBuffer.length / 3) u).1 ≤ p ∧
        p ≤ (treeRange (mesh.m_IndexBuffer.length / 3) u).2 →
      mesh.BoxCoversTriple (mesh.m_vBbox.getD u BBox.default) (mesh.indexTriple p)) :
    ∀ (k u : Nat), mesh.m_vBbox.length - u ≤ k → u < mesh.m_vBbox.length →
      ∀ (tmax : XFloat) (I : Intersection),
        mesh.ClosestIn ray tmin
          (fun p => (treeRange (mesh.m_IndexBuffer.length / 3) u).1 ≤ p ∧
            p ≤ (treeRange (mesh.m_IndexBuffer.length / 3) u).2)
          tmax I (mesh.intersectRay ray I tmin tmax u) := by
  intro k
  induction k with
  | zero => intro u h1 h2; omega
  | succ k ih =>
    intro u hk hu tmax I
    have hne : mesh.m_vBbox.isEmpty = false := by
      cases hb : mesh.m_vBbox with
      | nil => rw [hb] at hu; simp at hu
      | cons a t => rfl
    have hw := treeRange_wf (mesh.m_IndexBuffer.length / 3) u
    rw [intersectRay_unfold mesh ray I tmin tmax u hne]
    by_cases hbox : (mesh.m_vBbox.getD u BBox.default).intersectRay ray tmin tmax = false
    · rw [if_pos hbox]
      exact box_miss_closest mesh ray hray tmin tmax I _ _ (hcov u hu) hbox
    · rw [if_neg hbox]
      by_cases hleaf : 2 * u + 2 ≥ mesh.m_vBbox.length
      · rw [if_pos hleaf]
        have := scan_closest mesh ray tmin (mesh.binaryTreeBoundaries u).1 tmax I
          (mesh.binaryTreeBoundaries u).2 _ rfl
        refine closestIn_congr mesh ray tmin _ _ (fun p => ?_) tmax I _ this
        rw [binaryTreeBoundaries_eq]
        simp only
        omega
      · rw [if_neg hleaf]
        have hl := ih (2 * u + 1) (by omega) (by omega) tmax I
        have hr := ih (2 * u + 2) (by omega) (by omega)
          (mesh.intersectRay ray I tmin tmax (2 * u + 1)).2.1
          (mesh.intersectRay ray I tmin tmax (2 * u + 1)).2.2
        have := closestIn_seq mesh ray tmin _ _ tmax I _ _ hl hr
        refine closestIn_congr mesh ray tmin _ _ (fun p => ?_) tmax I _ this
        rw [treeRange_left, treeRange_right]
        simp only
        omega

end Mesh

/-! ## Claim on the closest hit of the mesh query -/

namespace Mesh

theorem buildBVH_eq_foldl
    (sort_r : List IndexTriple → (IndexTriple → IndexTriple → Int) → List IndexTriple)
    (m : Mesh) :
    m.buildBVH sort_r = (List.range ((1 <<< bvhLevels (m.m_IndexBuffer.length / 3)) - 1)).foldl
      (buildBVHStep sort_r) m := rfl

theorem bvhLevels_zero : bvhLevels 0 = 0 := by
  simp [bvhLevels, Nat.log2]

/-- After `buildBVH` on a mesh without boxes that stored at least one box, the
mesh has at least one triangle, keeps its vertex buffer and triangle count, and
every stored box contains the triangles of the range of its tree position. -/
theorem buildBVH_boxes_cover
    (sort_r : List IndexTriple → (IndexTriple → IndexTriple → Int) → List IndexTriple)
    (hsort : ∀ l cmp, (sort_r l cmp).Perm l) (m0 : Mesh) (h0 : m0.m_vBbox = [])
    (hbox : (m0.buildBVH sort_r).m_vBbox ≠ []) :
    1 ≤ m0.m_IndexBuffer.length / 3 ∧
    (m0.buildBVH sort_r).m_IndexBuffer.length = m0.m_IndexBuffer.length ∧
    (m0.buildBVH sort_r).m_VertexBuffer = m0.m_VertexBuffer ∧
    ∀ u, u < (m0.buildBVH sort_r).m_vBbox.length → ∀ p,
      (treeRange ((m0.buildBVH sort_r).m_IndexBuffer.length / 3) u).1 ≤ p ∧
        p ≤ (treeRange ((m0.buildBVH sort_r).m_IndexBuffer.length / 3) u).2 →
      (m0.buildBVH sort_r).BoxCoversTriple ((m0.buildBVH sort_r).m_vBbox.getD u BBox.default)
        ((m0.buildBVH sort_r).indexTriple p) := by
  have hN : 1 ≤ m0.m_IndexBuffer.length / 3 := by
    by_contra hlt
    have hz : m0.m_IndexBuffer.length / 3 = 0 := by omega
    apply hbox
    rw [buildBVH_eq_foldl, hz, bvhLevels_zero]
    simpa using h0
  obtain ⟨hv, hlen, hbl, hcov⟩ := buildBVH_loop_invariant sort_r hsort m0 hN
    ((1 <<< bvhLevels (m0.m_IndexBuffer.length / 3)) - 1)
  rw [← buildBVH_eq_foldl] at hv hlen hbl hcov
  refine ⟨hN, hlen, hv, ?_⟩
  intro u hu p hp
  rw [hlen] at hp
  rw [hbl, h0] at hu
  have := hcov u (by simpa using hu) p hp
  rw [h0] at this
  simp only [List.length_nil, Nat.zero_add] at this
  exact (boxCoversTriple_congr hv _ _).2 this

end Mesh

/-- C2: for a mesh on which `buildBVH` (called on a mesh without boxes) stored
at least one box, a consistent ray and bounds that are not NaN: when
`Mesh::intersectRay` from position 0 returns true, the recorded `t` satisfies
`tmin <= t <= tmax`, the in/out `tmax` equals `t` on exit, the record names an
accepted triangle with this `t`, and no triangle of the mesh is accepted by
`intersectRayTriangle` (with the original bounds) at a smaller `t`; when it
returns false, no triangle of the mesh is accepted at all. -/
theorem Mesh_intersectRay_closest_hit
    (sort_r : List IndexTriple → (IndexTriple → IndexTriple → Int) → List IndexTriple)
    (hsort : ∀ l cmp, (sort_r l cmp).Perm l) (m0 : Mesh) (h0 : m0.m_vBbox = [])
    (hbox : (m0.buildBVH sort_r).m_vBbox ≠ [])
    (ray : Ray) (hray : ray.Consistent) (I : Intersection) (tmin tmax : XFloat)
    (hmin : tmin ≠ XFloat.nan) (hmax : tmax ≠ XFloat.nan) :
    (((m0.buildBVH sort_r).intersectRay ray I tmin tmax 0).1 = true →
      ∃ t : ℚ, ((m0.buildBVH sort_r).intersectRay ray I tmin tmax 0).2.2.m_t = some t ∧
        ((m0.buildBVH sort_r).intersectRay ray I tmin tmax 0).2.1 = XFloat.fin t ∧
        XFloat.le tmin (XFloat.fin t) = true ∧ XFloat.le (XFloat.fin t) tmax = true ∧
        (∃ h, (m0.buildBVH sort_r).triangleHit ray
            ((m0.buildBVH sort_r).intersectRay ray I tmin tmax 0).2.2.m_uTriangleIndex
            tmin tmax = some h ∧ h.t = t) ∧
        ∀ p h, p < (m0.buildBVH sort_r).getNumberOfTriangles →
          (m0.buildBVH sort_r).triangleHit ray p tmin tmax = some h → t ≤ h.t) ∧
    (((m0.buildBVH sort_r).intersectRay ray I tmin tmax 0).1 = false →
      ∀ p, p < (m0.buildBVH sort_r).getNumberOfTriangles →
        (m0.buildBVH sort_r).triangleHit ray p tmin tmax = none) := by
  obtain ⟨hN, hlen, _, hcov⟩ := Mesh.buildBVH_boxes_cover sort_r hsort m0 h0 hbox
  generalize m0.buildBVH sort_r = m at *
  have hpos : 0 < m.m_vBbox.length := List.length_pos.2 hbox
  have hq := Mesh.intersectRay_closest m ray hray tmin hcov m.m_vBbox.length 0 (by omega) hpos
    tmax I
  rw [Mesh.treeRange_zero] at hq
  have hrange : ∀ p, p < m.getNumberOfTriangles ↔ (0 ≤ p ∧ p ≤ m.m_IndexBuffer.length / 3 - 1) := by
    intro p
    simp only [Mesh.getNumberOfTriangles]
    rw [hlen]
    omega
  obtain ⟨hf, ht⟩ := hq
  refine ⟨fun htrue => ?_, fun hfalse => ?_⟩
  · obtain ⟨p, h, hp, hacc, hb, hrec, hclose⟩ := ht htrue
    have hacc0 : intersectRayTriangle (m.getVerticesOfTriangle p).1
        (m.getVerticesOfTriangle p).2.1 (m.getVerticesOfTriangle p).2.2 ray.m_vOrigin
        ray.m_vDirection tmin tmax true = some h := hacc
    obtain ⟨_, _, _, _, _, _, _, _, _, _, hlo, hhi⟩ := intersectRayTriangle_eq_some hacc0
    refine ⟨h.t, by rw [hrec]; rfl, hb, XFloat.le_of_not_lt hmin (by simp) hlo,
      XFloat.le_of_not_lt (by simp) hmax hhi, ⟨h, by rw [hrec]; exact hacc, rfl⟩, ?_⟩
    intro q h' hq' hacc'
    exact hclose q h' ((hrange q).1 hq') hacc'
  · intro p hp
    exact (hf hfalse).2.2 p ((hrange p).1 hp)

/-! ## Small meshes and the witnesses of the mesh query -/

namespace Mesh

theorem bvhLevels_small (N : Nat) (h : N < 8) : bvhLevels N = 0 := by
  unfold bvhLevels
  by_cases h0 : N = 0
  · subst h0; simp [Nat.log2]
  · have : Nat.log2 N < 3 := (Nat.log2_lt h0).2 (by omega)
    omega

/-- With fewer than eight triangles `buildBVH` makes no pass of its loop: the
mesh is left as it is and no bounding box is stored. -/
theorem buildBVH_small
    (sort_r : List IndexTriple → (IndexTriple → IndexTriple → Int) → List IndexTriple)
    (m : Mesh) (h : m.m_IndexBuffer.length / 3 < 8) : m.buildBVH sort_r = m := by
  rw [buildBVH_eq_foldl, bvhLevels_small _ h]
  rfl

/-- Without bounding boxes `Mesh::intersectRay` reports no hit. -/
theorem intersectRay_no_boxes (m : Mesh) (h : m.m_vBbox = []) (ray : Ray) (I : Intersection)
    (tmin tmax : XFloat) (u : Nat) : m.intersectRay ray I tmin tmax u = (false, tmax, I) := by
  rw [Mesh.intersectRay]
  simp [h]

theorem exampleMesh1_hit :
    exampleMesh1.triangleHit exampleRay 0 (XFloat.fin 0) XFloat.pinf = some ⟨1, 1, 1/4, 1/4⟩ := by
  norm_num [triangleHit, exampleMesh1, exampleRay, Ray.mk3, Ray.setOrigin, Ray.setDirection,
    Ray.default, getVerticesOfTriangle, vertex, intersectRayTriangle, Vector3.sub, Vector3.cross,
    Vector3.dot, XFloat.lt]

end Mesh

/-- C1, evaluated on a mesh with one triangle: after `buildBVH` (with any
sorting routine) `Mesh::intersectRay` from position 0 reports no hit for the
ray from `(1/4,1/4,1)` along `-z`, while the linear scan over the triangles
finds the hit at `t = 1`. -/
theorem Mesh_intersectRay_single_triangle_miss
    (sort_r : List IndexTriple → (IndexTriple → IndexTriple → Int) → List IndexTriple) :
    ((exampleMesh1.buildBVH sort_r).intersectRay exampleRay (Intersection.ofRay exampleRay)
      (XFloat.fin 0) XFloat.pinf 0).1 = false ∧
    ((exampleMesh1.buildBVH sort_r).linearScan exampleRay (Intersection.ofRay exampleRay)
      (XFloat.fin 0) XFloat.pinf).1 = true ∧
    ((exampleMesh1.buildBVH sort_r).linearScan exampleRay (Intersection.ofRay exampleRay)
      (XFloat.fin 0) XFloat.pinf).2.1 = XFloat.fin 1 := by
  have hb : exampleMesh1.buildBVH sort_r = exampleMesh1 :=
    Mesh.buildBVH_small sort_r exampleMesh1 (by simp [exampleMesh1])
  rw [hb]
  have hn : exampleMesh1.getNumberOfTriangles = 1 := by
    simp [Mesh.getNumberOfTriangles, exampleMesh1]
  have hscan : (List.range 1).foldl (Mesh.scanStep exampleMesh1 exampleRay (XFloat.fin 0) 0)
      (0, XFloat.pinf, Intersection.ofRay exampleRay)
      = (1, XFloat.fin 1, (Intersection.ofRay exampleRay).setMesh exampleMesh1 0 1 (1/4) (1/4)) := by
    rw [show List.range 1 = [0] from rfl]
    simp only [List.foldl_cons, List.foldl_nil]
    exact Mesh.scanStep_some exampleMesh1 exampleRay (XFloat.fin 0) 0
      (0, XFloat.pinf, Intersection.ofRay exampleRay) 0 ⟨1, 1, 1/4, 1/4⟩ Mesh.exampleMesh1_hit
  refine ⟨?_, ?_, ?_⟩
  · rw [Mesh.intersectRay_no_boxes exampleMesh1 rfl]
  · simp only [Mesh.linearScan, hn, hscan]
    decide
  · simp only [Mesh.linearScan, hn, hscan]


theorem exampleSort_perm (l : List IndexTriple) (cmp : IndexTriple → IndexTriple → Int) :
    (exampleSort l cmp).Perm l :=
  List.perm_insertionSort _ l

/-- Number of boxes stored by `buildBVH` on a mesh without boxes. -/
theorem Mesh.buildBVH_bbox_length
    (sort_r : List IndexTriple → (IndexTriple → IndexTriple → Int) → List IndexTriple)
    (hsort : ∀ l cmp, (sort_r l cmp).Perm l) (m0 : Mesh) (h0 : m0.m_vBbox = [])
    (hN : 1 ≤ m0.m_IndexBuffer.length / 3) :
    (m0.buildBVH sort_r).m_vBbox.length
      = (1 <<< Mesh.bvhLevels (m0.m_IndexBuffer.length / 3)) - 1 := by
  have := (Mesh.buildBVH_loop_invariant sort_r hsort m0 hN
    ((1 <<< Mesh.bvhLevels (m0.m_IndexBuffer.length / 3)) - 1)).2.2.1
  rw [← Mesh.buildBVH_eq_foldl, h0] at this
  simpa using this

theorem exampleMesh8_boxes : (exampleMesh8.buildBVH exampleSort).m_vBbox ≠ [] := by
  have h := Mesh.buildBVH_bbox_length exampleSort exampleSort_perm exampleMesh8 rfl
    (by simp [exampleMesh8])
  have e : (1 <<< Mesh.bvhLevels (exampleMesh8.m_IndexBuffer.length / 3)) - 1 = 1 := by
    simp [exampleMesh8, Mesh.bvhLevels, Nat.log2]
  rw [e] at h
  intro hnil
  rw [hnil] at h
  simp at h

/-- Witness for C2 on the mesh of eight triangles with insertion sort as the
sorting routine. -/
theorem Mesh_intersectRay_closest_hit_witness :
    (∀ l cmp, (exampleSort l cmp).Perm l) ∧ exampleMesh8.m_vBbox = [] ∧
    (exampleMesh8.buildBVH exampleSort).m_vBbox ≠ [] ∧ exampleRay.Consistent ∧
    XFloat.fin 0 ≠ XFloat.nan ∧ XFloat.pinf ≠ XFloat.nan ∧
    (((exampleMesh8.buildBVH exampleSort).intersectRay exampleRay (Intersection.ofRay exampleRay)
        (XFloat.fin 0) XFloat.pinf 0).1 = false →
      ∀ p, p < (exampleMesh8.buildBVH exampleSort).getNumberOfTriangles →
        (exampleMesh8.buildBVH exampleSort).triangleHit exampleRay p (XFloat.fin 0) XFloat.pinf
          = none) :=
  have hray : exampleRay.Consistent := Ray.setDirection_consistent _ _
  ⟨exampleSort_perm, rfl, exampleMesh8_boxes, hray, by simp, by simp,
    (Mesh_intersectRay_closest_hit exampleSort exampleSort_perm exampleMesh8 rfl
      exampleMesh8_boxes exampleRay hray (Intersection.ofRay exampleRay) (XFloat.fin 0)
      XFloat.pinf (by simp) (by simp)).2⟩

/-! ## The record of the mesh query for arbitrary boxes -/

namespace Mesh

theorem recorded_seq (m : Mesh) (ray : Ray) (tmin tmax : XFloat) (I : Intersection)
    (r1 r2 : Bool × XFloat × Intersection) (h1 : m.Recorded ray tmin tmax I r1)
    (h2 : m.Recorded ray tmin r1.2.1 r1.2.2 r2) :
    m.Recorded ray tmin tmax I (r1.1 || r2.1, r2.2.1, r2.2.2) := by
  obtain ⟨f1, t1⟩ := h1
  obtain ⟨f2, t2⟩ := h2
  cases e1 : r1.1 with
  | false =>
    obtain ⟨a1, b1⟩ := f1 e1
    rw [a1, b1] at f2 t2
    cases e2 : r2.1 with
    | false => exact ⟨fun _ => f2 e2, fun hh => by simp at hh⟩
    | true => exact ⟨fun hh => by simp at hh, fun _ => t2 e2⟩
  | true =>
    obtain ⟨p1, h1, a1, b1, c1⟩ := t1 e1
    rw [b1, c1] at f2 t2
    have hup1 := ((triangleHit_upper m ray p1 tmin tmax h1).1 a1).2
    cases e2 : r2.1 with
    | false =>
      obtain ⟨a2, b2⟩ := f2 e2
      exact ⟨fun hh => by simp at hh, fun _ => ⟨p1, h1, a1, by rw [a2], by rw [b2]⟩⟩
    | true =>
      obtain ⟨p2, h2, a2, b2, c2⟩ := t2 e2
      have h21 : h2.t ≤ h1.t := by
        have := ((triangleHit_upper m ray p2 tmin (XFloat.fin h1.t) h2).1 a2).2
        simpa [XFloat.lt] using this
      exact ⟨fun hh => by simp at hh, fun _ => ⟨p2, h2,
        triangleHit_change m ray p2 tmin _ tmax h2 a2 (XFloat.lt_fin_mono hup1 h21), b2,
        by rw [c2, Intersection.setMesh_setMesh]⟩⟩

theorem scanStep_recorded (mesh : Mesh) (ray : Ray) (tmin tmax : XFloat) (l : Nat)
    (I : Intersection) (n : Nat) (st : ScanState)
    (ih : mesh.Recorded ray tmin tmax I (decide (st.1 ≠ 0), st.2.1, st.2.2)) :
    mesh.Recorded ray tmin tmax I
      (decide ((scanStep mesh ray tmin l st n).1 ≠ 0), (scanStep mesh ray tmin l st n).2.1,
       (scanStep mesh ray tmin l st n).2.2) := by
  rcases Option.eq_none_or_eq_some (mesh.triangleHit ray (l + n) tmin st.2.1) with
    hres | ⟨h, hres⟩
  · rw [scanStep_none mesh ray tmin l st n hres]
    exact ih
  · rw [scanStep_some mesh ray tmin l st n h hres]
    have h2 : mesh.Recorded ray tmin st.2.1 st.2.2
        (true, XFloat.fin h.t, st.2.2.setMesh mesh (l + n) h.t h.u h.v) :=
      ⟨fun hh => by simp at hh, fun _ => ⟨l + n, h, hres, rfl, rfl⟩⟩
    have := recorded_seq mesh ray tmin tmax I _ _ ih h2
    simp only [Bool.or_true] at this
    have e : decide ((1 : Nat) ≠ 0) = true := by decide
    simp only [e]
    exact this

theorem scan_recorded (mesh : Mesh) (ray : Ray) (tmin tmax : XFloat) (l : Nat)
    (I : Intersection) (n : Nat) :
    ∀ st, st = (List.range n).foldl (scanStep mesh ray tmin l) (0, tmax, I) →
    mesh.Recorded ray tmin tmax I (decide (st.1 ≠ 0), st.2.1, st.2.2) := by
  induction n with
  | zero =>
    intro st hst
    subst hst
    exact ⟨fun _ => ⟨rfl, rfl⟩, fun h => by simp at h⟩
  | succ n ih =>
    intro st hst
    rw [List.range_succ, List.foldl_append] at hst
    subst hst
    exact scanStep_recorded mesh ray tmin tmax l I n _ (ih _ rfl)

/-- For every mesh, whatever its boxes are, `Mesh::intersectRay` either
returns false and leaves `tmax` and the record unchanged, or returns true with
an accepted triangle recorded and `tmax` set to its `t`. -/
theorem intersectRay_recorded (mesh : Mesh) (ray : Ray) (tmin : XFloat) :
    ∀ (k u : Nat), mesh.m_vBbox.length - u ≤ k → ∀ (tmax : XFloat) (I : Intersection),
      mesh.Recorded ray tmin tmax I (mesh.intersectRay ray I tmin tmax u) := by
  intro k
  induction k with
  | zero =>
    intro u hk tmax I
    by_cases hne : mesh.m_vBbox = []
    · rw [intersectRay_no_boxes mesh hne]
      exact ⟨fun _ => ⟨rfl, rfl⟩, fun h => by simp at h⟩
    · have hne' : mesh.m_vBbox.isEmpty = false := by
        cases hb : mesh.m_vBbox with
        | nil => exact absurd hb hne
        | cons a t => rfl
      rw [intersectRay_unfold mesh ray I tmin tmax u hne']
      split_ifs with h1 h2
      · exact ⟨fun _ => ⟨rfl, rfl⟩, fun h => by simp at h⟩
      · exact scan_recorded mesh ray tmin tmax _ I _ _ rfl
      · omega
  | succ k ih =>
    intro u hk tmax I
    by_cases hne : mesh.m_vBbox = []
    · rw [intersectRay_no_boxes mesh hne]
      exact ⟨fun _ => ⟨rfl, rfl⟩, fun h => by simp at h⟩
    · have hne' : mesh.m_vBbox.isEmpty = false := by
        cases hb : mesh.m_vBbox with
        | nil => exact absurd hb hne
        | cons a t => rfl
      rw [intersectRay_unfold mesh ray I tmin tmax u hne']
      split_ifs with h1 h2
      · exact ⟨fun _ => ⟨rfl, rfl⟩, fun h => by simp at h⟩
      · exact scan_recorded mesh ray tmin tmax _ I _ _ rfl
      · exact recorded_seq mesh ray tmin tmax I _ _ (ih (2 * u + 1) (by omega) tmax I)
          (ih (2 * u + 2) (by omega) _ _)

end Mesh

/-! ## The instrumented traversal of the scene graph -/

namespace Node

theorem lastHit_append (ev1 ev2 : List Event) :
    lastHit (ev1 ++ ev2) = (lastHit ev2).or (lastHit ev1) := by
  simp [lastHit, List.filter_append, List.getLast?_append]

theorem lastHit_eq_none (ev : List Event) (h : ∀ e ∈ ev, e.2.1 = false) : lastHit ev = none := by
  simp only [lastHit, List.getLast?_eq_none_iff, List.filter_eq_nil_iff]
  intro a ha
  simp [h a ha]

theorem lastHit_mem (ev : List Event) (e : Event) (h : lastHit ev = some e) :
    e ∈ ev ∧ e.2.1 = true := by
  have hm : e ∈ ev.filter (fun e => e.2.1) := List.mem_of_getLast?_eq_some h
  simpa [List.mem_filter] using hm

/-- Two traversals in sequence, the second started from what the first ended
with, satisfy `TraceOK` for the concatenated log. -/
theorem traceOK_seq (nodes : List Node) (tmax0 : XFloat) (I0 : Intersection)
    (r1 r2 : Bool × XFloat × Intersection) (ev1 ev2 : List Event)
    (h1 : TraceOK nodes tmax0 I0 r1 ev1) (h2 : TraceOK nodes r1.2.1 r1.2.2 r2 ev2) :
    TraceOK nodes tmax0 I0 (r1.1 || r2.1, r2.2.1, r2.2.2) (ev1 ++ ev2) := by
  obtain ⟨a1, b1, c1⟩ := h1
  obtain ⟨a2, b2, c2⟩ := h2
  cases e2 : r2.1 with
  | true =>
    obtain ⟨e, X, hl, hX, hI, ht⟩ := c2 e2
    refine ⟨?_, fun hh => by simp at hh, fun _ => ⟨e, X, ?_, hX, hI, ht⟩⟩
    · simp only [Bool.or_true, true_iff]
      obtain ⟨e', he', ht'⟩ := a2.1 e2
      exact ⟨e', List.mem_append_right _ he', ht'⟩
    · rw [lastHit_append, hl]; rfl
  | false =>
    obtain ⟨ht2, hI2⟩ := b2 e2
    have hnone : ∀ e ∈ ev2, e.2.1 = false := by
      intro e he
      by_contra hne
      have : r2.1 = true := a2.2 ⟨e, he, by simpa using hne⟩
      rw [e2] at this
      exact absurd this (by simp)
    have hl : lastHit (ev1 ++ ev2) = lastHit ev1 := by
      rw [lastHit_append, lastHit_eq_none ev2 hnone]; rfl
    simp only [Bool.or_false]
    refine ⟨?_, fun hf => ?_, fun ht => ?_⟩
    · rw [a1]
      constructor
      · rintro ⟨e, he, hte⟩; exact ⟨e, List.mem_append_left _ he, hte⟩
      · rintro ⟨e, he, hte⟩
        rcases List.mem_append.1 he with h | h
        · exact ⟨e, h, hte⟩
        · rw [hnone e h] at hte; exact absurd hte (by simp)
    · obtain ⟨x, y⟩ := b1 hf
      exact ⟨by rw [ht2, x], by rw [hI2, y]⟩
    · obtain ⟨e, X, hle, hX, hI, hte⟩ := c1 ht
      exact ⟨e, X, by rw [hl]; exact hle, hX, by rw [hI2]; exact hI, by rw [ht2]; exact hte⟩


theorem decide_hit_add (n : Nat) (b : Bool) :
    decide (n + (if b then 1 else 0) ≠ 0) = (decide (n ≠ 0) || b) := by
  cases b <;> simp

/-- The query of the own mesh: the instrumented version returns the state of
the plain version, and the state satisfies `TraceOK` for its log. -/
theorem ownMeshTraced_spec (meshes : List Mesh) (nodes : List Node) (pNode : Nat) (node : Node)
    (hn : nodes.get? pNode = some node)
    (hmesh : ∀ k, node.m_pMesh = some k → k < meshes.length)
    (rayLocal : Ray) (I : Intersection) (tmin tmax : XFloat) :
    ∃ st ev, intersectOwnMeshTraced meshes pNode node rayLocal I tmin tmax = some (st, ev) ∧
      intersectOwnMesh meshes node rayLocal I tmin tmax = some st ∧
      TraceOK nodes tmax I (decide (st.1 ≠ 0), st.2.1, st.2.2) ev ∧
      ∀ e ∈ ev, e.1 = pNode := by
  unfold intersectOwnMeshTraced intersectOwnMesh
  cases hm : node.m_pMesh with
  | none =>
    refine ⟨(0, tmax, I), [], rfl, rfl, ?_, by simp⟩
    exact ⟨by simp, fun _ => ⟨rfl, rfl⟩, fun h => by simp at h⟩
  | some k =>
    have hk := hmesh k hm
    have hget : meshes.get? k = some (meshes.get ⟨k, hk⟩) := List.get?_eq_get hk
    simp only [hget]
    generalize meshes.get ⟨k, hk⟩ = mesh
    have hrec := Mesh.intersectRay_recorded mesh rayLocal tmin mesh.m_vBbox.length 0
      (by omega) tmax I
    cases hr : (mesh.intersectRay rayLocal I tmin tmax 0).1 with
    | true =>
      simp only [hr, if_true]
      refine ⟨_, _, rfl, rfl, ?_, by simp⟩
      refine ⟨by simp [hr], fun h => by simp at h, fun _ => ?_⟩
      exact ⟨(pNode, mesh.intersectRay rayLocal I tmin tmax 0), node, by simp [lastHit, hr],
        hn, rfl, rfl⟩
    | false =>
      simp only [hr, Bool.false_eq_true, if_false]
      refine ⟨_, _, rfl, rfl, ?_, by simp⟩
      obtain ⟨a, b⟩ := hrec.1 hr
      exact ⟨by simp [hr], fun _ => ⟨a, b⟩, fun h => by simp at h⟩

/-- The loop over the children, for recursive calls that satisfy the
specification of the traversal. -/
theorem childrenLoopTraced_spec (nodes : List Node) (top : Nat) (node : Node)
    (hn : nodes.get? top = some node)
    (call : Nat → Intersection → XFloat → Option (Bool × XFloat × Intersection))
    (callT : Nat → Intersection → XFloat →
      Option ((Bool × XFloat × Intersection) × List Event))
    (cs : List Nat) (hcs : ∀ c ∈ cs, c ∈ node.m_pChildren)
    (hcall : ∀ c ∈ cs, ∀ I t, ∃ r ev, callT c I t = some (r, ev) ∧ call c I t = some r ∧
      TraceOK nodes t I r ev ∧ ∀ e ∈ ev, Reaches nodes c e.1) :
    ∀ (st : Mesh.ScanState) (ev : List Event) (tmax0 : XFloat) (I0 : Intersection),
      TraceOK nodes tmax0 I0 (decide (st.1 ≠ 0), st.2.1, st.2.2) ev →
      (∀ e ∈ ev, Reaches nodes top e.1) →
      ∃ st' ev', childrenLoopTraced callT cs (st, ev) = some (st', ev') ∧
        childrenLoop call cs st = some st' ∧
        TraceOK nodes tmax0 I0 (decide (st'.1 ≠ 0), st'.2.1, st'.2.2) ev' ∧
        ∀ e ∈ ev', Reaches nodes top e.1 := by
  induction cs with
  | nil =>
    intro st ev tmax0 I0 hok hreach
    exact ⟨st, ev, rfl, rfl, hok, hreach⟩
  | cons c rest ih =>
    intro st ev tmax0 I0 hok hreach
    obtain ⟨r, evc, hT, hP, hokc, hreachc⟩ := hcall c (List.mem_cons_self _ _) st.2.2 st.2.1
    have hseq := traceOK_seq nodes tmax0 I0 _ r ev evc hok hokc
    rw [← decide_hit_add] at hseq
    have hreach' : ∀ e ∈ ev ++ evc, Reaches nodes top e.1 := by
      intro e he
      rcases List.mem_append.1 he with h | h
      · exact hreach e h
      · exact Reaches.step top c e.1 node hn (hcs c (List.mem_cons_self _ _)) (hreachc e h)
    obtain ⟨st', ev', h1, h2, h3, h4⟩ :=
      ih (fun c' hc' => hcs c' (List.mem_cons_of_mem _ hc'))
        (fun c' hc' => hcall c' (List.mem_cons_of_mem _ hc'))
        (st.1 + (if r.1 then 1 else 0), r.2.1, r.2.2) (ev ++ evc) tmax0 I0 hseq hreach'
    refine ⟨st', ev', ?_, ?_, h3, h4⟩
    · simp only [childrenLoopTraced, hT]; exact h1
    · simp only [childrenLoop, hP]; exact h2

/-- Specification of the traversal of an acyclic node graph with resolved
pointers: with enough fuel both versions return, the instrumented version
returns the result of the plain one, the result satisfies `TraceOK`, and every
logged node is the start node or a descendant. -/
theorem intersectRayTraced_spec (meshes : List Mesh) (nodes : List Node) (rank : Nat → Nat)
    (hacyc : ∀ i X, nodes.get? i = some X →
      (∀ c ∈ X.m_pChildren, c < nodes.length ∧ rank c < rank i) ∧
      (∀ k, X.m_pMesh = some k → k < meshes.length)) :
    ∀ (fuel pNode : Nat), pNode < nodes.length → rank pNode < fuel →
      ∀ (ray : Ray) (I : Intersection) (tmin tmax : XFloat),
        ∃ r ev, intersectRayTraced meshes nodes fuel pNode ray I tmin tmax = some (r, ev) ∧
          intersectRay meshes nodes fuel pNode ray I tmin tmax = some r ∧
          TraceOK nodes tmax I r ev ∧ ∀ e ∈ ev, Reaches nodes pNode e.1 := by
  intro fuel
  induction fuel with
  | zero => intro pNode _ h; omega
  | succ fuel ih =>
    intro pNode hp hrank ray I tmin tmax
    have hget : nodes.get? pNode = some (nodes.get ⟨pNode, hp⟩) := List.get?_eq_get hp
    generalize nodes.get ⟨pNode, hp⟩ = node at hget
    obtain ⟨hch, hmesh⟩ := hacyc pNode node hget
    obtain ⟨st0, ev0, hT0, hP0, hok0, hev0⟩ := ownMeshTraced_spec meshes nodes pNode node hget
      hmesh (node.m_transformation.transformRayToLocal ray) I tmin tmax
    obtain ⟨st', ev', h1, h2, h3, h4⟩ := childrenLoopTraced_spec nodes pNode node hget
      (fun c I' t => intersectRay meshes nodes fuel c
        (node.m_transformation.transformRayToLocal ray) I' tmin t)
      (fun c I' t => intersectRayTraced meshes nodes fuel c
        (node.m_transformation.transformRayToLocal ray) I' tmin t)
      node.m_pChildren (fun c hc => hc)
      (fun c hc I' t => ih c (hch c hc).1 (by have := (hch c hc).2; omega) _ I' tmin t)
      st0 ev0 tmax I hok0 (fun e he => by rw [hev0 e he]; exact Reaches.refl pNode)
    refine ⟨(decide (st'.1 ≠ 0), st'.2.1, st'.2.2), ev', ?_, ?_, h3, h4⟩
    · simp only [intersectRayTraced, hget, hT0, h1]
    · simp only [intersectRay, hget, hP0, h2]

end Node

/-! ## The two-level hierarchy -/

theorem Transformation.transformRayToLocal_eq (T : Transformation) (ray : Ray) :
    T.transformRayToLocal ray =
      { m_uId := ray.m_uId, m_iBounces := ray.m_iBounces,
        m_vOrigin := T.transformPointToLocal ray.m_vOrigin,
        m_vDirection := T.transformVectorToLocal ray.m_vDirection,
        m_vInvDirection :=
          ⟨XFloat.recip (T.transformVectorToLocal ray.m_vDirection).x,
           XFloat.recip (T.transformVectorToLocal ray.m_vDirection).y,
           XFloat.recip (T.transformVectorToLocal ray.m_vDirection).z⟩,
        m_fOpticalPathLength := ray.m_fOpticalPathLength,
        m_posneg :=
          (if (T.transformVectorToLocal ray.m_vDirection).x ≥ 0 then 0 else 1,
           if (T.transformVectorToLocal ray.m_vDirection).y ≥ 0 then 0 else 1,
           if (T.transformVectorToLocal ray.m_vDirection).z ≥ 0 then 0 else 1),
        m_eType := ray.m_eType, m_pType := ray.m_pType, m_fIntensity := 0 } := rfl

theorem Transformation.toLocalVector_apply (T1 T2 : Transformation) (v : Vector3) :
    T2.transformVectorToLocal (T1.transformVectorToLocal v)
      = (T1.apply T2).transformVectorToLocal v := by
  simp only [Transformation.transformVectorToLocal, Transformation.apply,
    Matrix3x3.apply_matmult]

/-- Changing the frame twice equals changing it once with the combined
transformation, when the cached inverse of the outer transformation is a left
inverse of its matrix. -/
theorem Transformation.transformRayToLocal_apply (T1 T2 : Transformation)
    (h1 : T1.m_mInv.matmult T1.m_m = Matrix3x3.Identity) (ray : Ray) :
    T2.transformRayToLocal (T1.transformRayToLocal ray)
      = (T1.apply T2).transformRayToLocal ray := by
  rw [Transformation.transformRayToLocal_eq T1, Transformation.transformRayToLocal_eq T2,
    Transformation.transformRayToLocal_eq (T1.apply T2)]
  simp only [Transformation.toLocalVector_apply, Transformation.toLocal_apply T1 T2 h1]

/-- Evaluation of `Node::intersectRay` on the root of the two-level hierarchy:
the result is the one of the mesh query for the ray taken to the frame of the
root and then to the frame of the child, stamped with the number of the child
on a hit. -/
theorem Node.intersectRay_twoLevel (Tr Tc : Transformation) (mesh : Mesh) (fuel : Nat)
    (ray : Ray) (I : Intersection) (tmin tmax : XFloat) :
    Node.intersectRay (twoLevelAsset Tr Tc mesh).m_vpMeshes (twoLevelAsset Tr Tc mesh).m_vpNodes
        (fuel + 2) 0 ray I tmin tmax =
      some ((mesh.intersectRay (Tc.transformRayToLocal (Tr.transformRayToLocal ray)) I tmin
              tmax 0).1,
            (mesh.intersectRay (Tc.transformRayToLocal (Tr.transformRayToLocal ray)) I tmin
              tmax 0).2.1,
            if (mesh.intersectRay (Tc.transformRayToLocal (Tr.transformRayToLocal ray)) I tmin
              tmax 0).1
            then (mesh.intersectRay (Tc.transformRayToLocal (Tr.transformRayToLocal ray)) I tmin
              tmax 0).2.2.setNodeNumber 1
            else (mesh.intersectRay (Tc.transformRayToLocal (Tr.transformRayToLocal ray)) I tmin
              tmax 0).2.2) := by
  generalize hr : mesh.intersectRay (Tc.transformRayToLocal (Tr.transformRayToLocal ray)) I tmin
    tmax 0 = r
  simp only [twoLevelAsset, Node.intersectRay, List.get?_cons_zero, List.get?_cons_succ,
    Node.intersectOwnMesh, Node.childrenLoop, hr]
  cases h : r.1 <;> simp [Node.childrenLoop, h]


/-- Evaluation of `AssetGeometry::intersectRay` on the two-level hierarchy: on a
hit the transformation `Tr.apply(Tc)` is stored. -/
theorem AssetGeometry.sceneIntersectRay_twoLevel (Tr Tc : Transformation) (mesh : Mesh) (fuel : Nat)
    (ray : Ray) (I : Intersection) (tmin tmax : XFloat) :
    (twoLevelAsset Tr Tc mesh).intersectRay (fuel + 2) ray I tmin tmax =
      some ((mesh.intersectRay (Tc.transformRayToLocal (Tr.transformRayToLocal ray)) I tmin
              tmax 0).1,
            if (mesh.intersectRay (Tc.transformRayToLocal (Tr.transformRayToLocal ray)) I tmin
              tmax 0).1
            then ((mesh.intersectRay (Tc.transformRayToLocal (Tr.transformRayToLocal ray)) I
              tmin tmax 0).2.2.setNodeNumber 1).setTransformation (Tr.apply Tc)
            else (mesh.intersectRay (Tc.transformRayToLocal (Tr.transformRayToLocal ray)) I tmin
              tmax 0).2.2) := by
  have hnode := Node.intersectRay_twoLevel Tr Tc mesh fuel ray I tmin tmax
  generalize hr : mesh.intersectRay (Tc.transformRayToLocal (Tr.transformRayToLocal ray)) I tmin
    tmax 0 = r at hnode
  have hsc : (twoLevelAsset Tr Tc mesh).m_viSceneNodes = [0] := rfl
  simp only [AssetGeometry.intersectRay, hsc, AssetGeometry.intersectSceneNodes, hnode,
    Bool.false_or]
  cases h : r.1 with
  | false => simp
  | true =>
    simp only [if_true]
    have hnum : (r.2.2.setNodeNumber 1).m_uNodeNumber = 1 := rfl
    simp only [hnum, twoLevelAsset, List.get?_cons_succ, List.get?_cons_zero,
      AssetGeometry.composeParents]

namespace Mesh

/-- Every index triple of the mesh after `K` passes of the loop of `buildBVH`
is an index triple of the mesh before, at a position below the triangle count
when the position asked for is below it. -/
theorem buildBVH_loop_triples
    (sort_r : List IndexTriple → (IndexTriple → IndexTriple → Int) → List IndexTriple)
    (hsort : ∀ l cmp, (sort_r l cmp).Perm l) (m0 : Mesh)
    (hN : 1 ≤ m0.m_IndexBuffer.length / 3) (K : Nat) :
    ∀ p, ∃ q, (p < m0.m_IndexBuffer.length / 3 → q < m0.m_IndexBuffer.length / 3) ∧
      ((List.range K).foldl (buildBVHStep sort_r) m0).indexTriple p = m0.indexTriple q := by
  induction K with
  | zero => intro p; exact ⟨p, fun h => h, rfl⟩
  | succ K ih =>
    intro p
    have hlen := (buildBVH_loop_invariant sort_r hsort m0 hN K).2.1
    rw [List.range_succ, List.foldl_append]
    simp only [List.foldl_cons, List.foldl_nil]
    generalize (List.range K).foldl (buildBVHStep sort_r) m0 = m at *
    have hN' : 1 ≤ m.m_IndexBuffer.length / 3 := by rw [hlen]; exact hN
    have hw := treeRange_wf (m.m_IndexBuffer.length / 3) K
    by_cases hin : (treeRange (m.m_IndexBuffer.length / 3) K).1 ≤ p ∧
        p ≤ (treeRange (m.m_IndexBuffer.length / 3) K).2
    · obtain ⟨q, hq, heq⟩ := buildBVHStep_inside sort_r hsort m K hN' p hin
      obtain ⟨q', hq', heq'⟩ := ih q
      refine ⟨q', fun _ => hq' (by rw [← hlen]; omega), by rw [heq, heq']⟩
    · obtain ⟨q', hq', heq'⟩ := ih p
      exact ⟨q', hq', by rw [buildBVHStep_outside sort_r hsort m K hN' p (by omega), heq']⟩

end Mesh

namespace Mesh

/-- Every triangle of the example mesh of eight triangles is the example
triangle `(0,0,0) (1,0,0) (0,1,0)`, also after `buildBVH`. -/
theorem exampleMesh8_vertices (p : Nat) (hp : p < 8) :
    (exampleMesh8.buildBVH exampleSort).getVerticesOfTriangle p
      = (⟨0, 0, 0⟩, ⟨1, 0, 0⟩, ⟨0, 1, 0⟩) := by
  obtain ⟨hN, hlen, hv, _⟩ :=
    buildBVH_boxes_cover exampleSort exampleSort_perm exampleMesh8 rfl exampleMesh8_boxes
  obtain ⟨q, hq, heq⟩ := buildBVH_loop_triples exampleSort exampleSort_perm exampleMesh8 hN
    ((1 <<< bvhLevels (exampleMesh8.m_IndexBuffer.length / 3)) - 1) p
  rw [← buildBVH_eq_foldl] at heq
  have hq8 : q < 8 := hq (by simpa [exampleMesh8] using hp)
  have h8 : exampleMesh8.indexTriple q = (0, 1, 2) := by
    interval_cases q <;> rfl
  rw [h8] at heq
  have h1 : (exampleMesh8.buildBVH exampleSort).m_IndexBuffer.getD (3 * p + 0) 0 = 0 :=
    congrArg (fun t => t.1) heq
  have h2 : (exampleMesh8.buildBVH exampleSort).m_IndexBuffer.getD (3 * p + 1) 0 = 1 :=
    congrArg (fun t => t.2.1) heq
  have h3 : (exampleMesh8.buildBVH exampleSort).m_IndexBuffer.getD (3 * p + 2) 0 = 2 :=
    congrArg (fun t => t.2.2) heq
  simp only [getVerticesOfTriangle, vertex, h1, h2, h3, hv]
  simp [exampleMesh8]

/-- The flag of the query on the built example mesh of eight triangles is
true exactly when the ray is accepted by the example triangle. -/
theorem exampleMesh8_flag (ray : Ray) (hray : ray.Consistent) (I : Intersection)
    (tmin tmax : XFloat) :
    ((exampleMesh8.buildBVH exampleSort).intersectRay ray I tmin tmax 0).1 = true ↔
      (intersectRayTriangle ⟨0, 0, 0⟩ ⟨1, 0, 0⟩ ⟨0, 1, 0⟩ ray.m_vOrigin ray.m_vDirection
        tmin tmax true).isSome = true := by
  obtain ⟨hN, hlen, hv, hcov⟩ :=
    buildBVH_boxes_cover exampleSort exampleSort_perm exampleMesh8 rfl exampleMesh8_boxes
  have hpos : 0 < (exampleMesh8.buildBVH exampleSort).m_vBbox.length :=
    List.length_pos.2 exampleMesh8_boxes
  have hq := intersectRay_closest _ ray hray tmin hcov _ 0 (Nat.le_refl _) hpos tmax I
  rw [treeRange_zero, hlen] at hq
  have hN8 : exampleMesh8.m_IndexBuffer.length / 3 - 1 = 7 := by simp [exampleMesh8]
  rw [hN8] at hq
  have htri : ∀ p, p ≤ 7 → (exampleMesh8.buildBVH exampleSort).triangleHit ray p tmin tmax
      = intersectRayTriangle ⟨0, 0, 0⟩ ⟨1, 0, 0⟩ ⟨0, 1, 0⟩ ray.m_vOrigin ray.m_vDirection
        tmin tmax true := by
    intro p hp
    simp only [triangleHit, exampleMesh8_vertices p (by omega)]
  obtain ⟨hf, ht⟩ := hq
  constructor
  · intro h
    obtain ⟨p, hh, hS, hacc, _⟩ := ht h
    rw [htri p hS.2] at hacc
    simp [hacc]
  · intro h
    by_contra hne
    have hfl := (hf (by simpa using hne)).2.2 0 ⟨Nat.le_refl _, by omega⟩
    rw [htri 0 (by omega)] at hfl
    simp [hfl] at h

end Mesh

namespace Node

/-- The log of the query of the own mesh: every event is a mesh query, and a
node with a mesh logs an event. -/
theorem ownMeshTraced_log (meshes : List Mesh) (nodes : List Node) (pNode : Nat) (node : Node)
    (hn : nodes.get? pNode = some node) (rayLocal : Ray) (I : Intersection) (tmin tmax : XFloat)
    (st : Mesh.ScanState × List Event)
    (h : intersectOwnMeshTraced meshes pNode node rayLocal I tmin tmax = some st) :
    (∀ e ∈ st.2, IsMeshQuery meshes nodes tmin e) ∧
    (node.m_pMesh ≠ none → ∃ e ∈ st.2, e.1 = pNode) := by
  unfold intersectOwnMeshTraced at h
  cases hm : node.m_pMesh with
  | none =>
    simp only [hm] at h
    cases h
    exact ⟨by simp, fun hne => absurd rfl hne⟩
  | some k =>
    simp only [hm] at h
    cases hg : meshes.get? k with
    | none => simp only [hg] at h; cases h
    | some mesh =>
      simp only [hg] at h
      have hq : IsMeshQuery meshes nodes tmin (pNode, mesh.intersectRay rayLocal I tmin tmax 0) :=
        ⟨node, k, mesh, rayLocal, I, tmax, hn, hm, hg, rfl⟩
      split_ifs at h <;> cases h <;>
        exact ⟨by simpa using hq, fun _ => ⟨_, List.mem_singleton.2 rfl, rfl⟩⟩

/-- The log of the loop over the children keeps the events it starts with and
appends the events of the calls for the children. -/
theorem childrenLoopTraced_log
    (callT : Nat → Intersection → XFloat →
      Option ((Bool × XFloat × Intersection) × List Event))
    (P : Event → Prop) (R : Nat → Nat → Prop) (cs : List Nat)
    (hcall : ∀ c ∈ cs, ∀ I t r, callT c I t = some r →
      (∀ e ∈ r.2, P e) ∧ ∀ j, R c j → ∃ e ∈ r.2, e.1 = j) :
    ∀ (st st' : Mesh.ScanState × List Event), childrenLoopTraced callT cs st = some st' →
      (∀ e ∈ st.2, P e) →
      (∀ e ∈ st'.2, P e) ∧ (∀ e ∈ st.2, e ∈ st'.2) ∧
        ∀ c ∈ cs, ∀ j, R c j → ∃ e ∈ st'.2, e.1 = j := by
  induction cs with
  | nil =>
    intro st st' h hP
    simp only [childrenLoopTraced] at h
    cases h
    exact ⟨hP, fun e he => he, fun c hc => by simp at hc⟩
  | cons c rest ih =>
    intro st st' h hP
    simp only [childrenLoopTraced] at h
    cases hc : callT c st.1.2.2 st.1.2.1 with
    | none => simp only [hc] at h; cases h
    | some r =>
      simp only [hc] at h
      obtain ⟨hPr, hRr⟩ := hcall c (List.mem_cons_self _ _) _ _ r hc
      obtain ⟨h1, h2, h3⟩ := ih (fun c' hc' => hcall c' (List.mem_cons_of_mem _ hc')) _ st' h
        (by
          intro e he
          rcases List.mem_append.1 he with h | h
          · exact hP e h
          · exact hPr e h)
      refine ⟨h1, fun e he => h2 e (List.mem_append_left _ he), ?_⟩
      intro c' hc' j hj
      rcases List.mem_cons.1 hc' with rfl | hmem
      · obtain ⟨e, he, hej⟩ := hRr j hj
        exact ⟨e, h2 e (List.mem_append_right _ he), hej⟩
      · exact h3 c' hmem j hj

/-- The log of the traversal: every event is a mesh query, and every node with
a mesh that is the start node or a descendant has an event. -/
theorem intersectRayTraced_log (meshes : List Mesh) (nodes : List Node) :
    ∀ (fuel pNode : Nat) (ray : Ray) (I : Intersection) (tmin tmax : XFloat)
      (r : (Bool × XFloat × Intersection) × List Event),
      intersectRayTraced meshes nodes fuel pNode ray I tmin tmax = some r →
      (∀ e ∈ r.2, IsMeshQuery meshes nodes tmin e) ∧
      ∀ j X, Reaches nodes pNode j → nodes.get? j = some X → X.m_pMesh ≠ none →
        ∃ e ∈ r.2, e.1 = j := by
  intro fuel
  induction fuel with
  | zero => intro pNode ray I tmin tmax r h; simp only [intersectRayTraced] at h; cases h
  | succ fuel ih =>
    intro pNode ray I tmin tmax r h
    simp only [intersectRayTraced] at h
    cases hg : nodes.get? pNode with
    | none => simp only [hg] at h; cases h
    | some node =>
      simp only [hg] at h
      cases ho : intersectOwnMeshTraced meshes pNode node
          (node.m_transformation.transformRayToLocal ray) I tmin tmax with
      | none => simp only [ho] at h; cases h
      | some st0 =>
        simp only [ho] at h
        cases hl : childrenLoopTraced
            (fun pChildNode I t => intersectRayTraced meshes nodes fuel pChildNode
              (node.m_transformation.transformRayToLocal ray) I tmin t)
            node.m_pChildren st0 with
        | none => simp only [hl] at h; cases h
        | some st =>
          simp only [hl] at h
          cases h
          obtain ⟨hq0, hown⟩ := ownMeshTraced_log meshes nodes pNode node hg _ I tmin tmax st0 ho
          obtain ⟨h1, h2, h3⟩ := childrenLoopTraced_log _ (IsMeshQuery meshes nodes tmin)
            (fun c j => Reaches nodes c j ∧ ∃ X, nodes.get? j = some X ∧ X.m_pMesh ≠ none)
            node.m_pChildren
            (fun c _ I' t r' hr' =>
              ⟨(ih c _ I' tmin t r' hr').1,
                fun j hj => by
                  obtain ⟨hreach, X, hX, hm⟩ := hj
                  exact (ih c _ I' tmin t r' hr').2 j X hreach hX hm⟩)
            st0 st hl hq0
          refine ⟨h1, ?_⟩
          intro j X hreach hX hm
          cases hreach with
          | refl =>
            rw [hg] at hX
            cases hX
            obtain ⟨e, he, hej⟩ := hown hm
            exact ⟨e, h2 e he, hej⟩
          | step _ c _ node' hn' hc' hrest =>
            rw [hg] at hn'
            cases hn'
            exact h3 c hc' j ⟨hrest, X, hX, hm⟩

end Node

/-- C8: for a node graph that is acyclic (a rank decreases from every node to
its children) with resolved pointers and a start node of rank below the fuel,
`Node::intersectRay` returns; its log consists of the mesh queries of the start
node and its descendants, one at least for each of them that has a mesh; the
returned flag is true exactly when one of these mesh queries returned true; and
when it is true, the record is the one of the last successful mesh query (the
one that set the final bound), stamped with the number of the node of that
mesh. -/
theorem Node_intersectRay_true_iff_mesh_hit (meshes : List Mesh) (nodes : List Node)
    (rank : Nat → Nat)
    (hacyc : ∀ i X, nodes.get? i = some X →
      (∀ c ∈ X.m_pChildren, c < nodes.length ∧ rank c < rank i) ∧
      (∀ k, X.m_pMesh = some k → k < meshes.length))
    (fuel pNode : Nat) (hp : pNode < nodes.length) (hrank : rank pNode < fuel)
    (ray : Ray) (I : Intersection) (tmin tmax : XFloat) :
    ∃ r ev, Node.intersectRay meshes nodes fuel pNode ray I tmin tmax = some r ∧
      Node.intersectRayTraced meshes nodes fuel pNode ray I tmin tmax = some (r, ev) ∧
      (∀ e ∈ ev, Node.Reaches nodes pNode e.1 ∧ Node.IsMeshQuery meshes nodes tmin e) ∧
      (∀ j X, Node.Reaches nodes pNode j → nodes.get? j = some X → X.m_pMesh ≠ none →
        ∃ e ∈ ev, e.1 = j) ∧
      (r.1 = true ↔ ∃ e ∈ ev, e.2.1 = true) ∧
      (r.1 = true → ∃ e X, Node.lastHit ev = some e ∧ nodes.get? e.1 = some X ∧
        r.2.2 = e.2.2.2.setNodeNumber X.m_uNodeNumber ∧
        r.2.2.m_uNodeNumber = X.m_uNodeNumber ∧ r.2.1 = e.2.2.1) := by
  obtain ⟨r, ev, hT, hP, hok, hreach⟩ :=
    Node.intersectRayTraced_spec meshes nodes rank hacyc fuel pNode hp hrank ray I tmin tmax
  obtain ⟨hq, hall⟩ := Node.intersectRayTraced_log meshes nodes fuel pNode ray I tmin tmax _ hT
  refine ⟨r, ev, hP, hT, fun e he => ⟨hreach e he, hq e he⟩, hall, hok.1, ?_⟩
  intro htrue
  obtain ⟨e, X, h1, h2, h3, h4⟩ := hok.2.2 htrue
  exact ⟨e, X, h1, h2, h3, by rw [h3]; rfl, h4⟩

/-- Witness for C8: the two-level hierarchy with the example triangle. -/
theorem Node_intersectRay_true_iff_mesh_hit_witness :
    ∃ r ev, Node.intersectRay [exampleMesh1]
        (twoLevelAsset Transformation.Identity Transformation.Identity exampleMesh1).m_vpNodes
        2 0 exampleRay (Intersection.ofRay exampleRay) (XFloat.fin 0) XFloat.pinf = some r ∧
      Node.intersectRayTraced [exampleMesh1]
        (twoLevelAsset Transformation.Identity Transformation.Identity exampleMesh1).m_vpNodes
        2 0 exampleRay (Intersection.ofRay exampleRay) (XFloat.fin 0) XFloat.pinf
        = some (r, ev) ∧
      (r.1 = true ↔ ∃ e ∈ ev, e.2.1 = true) :=
  have h := Node_intersectRay_true_iff_mesh_hit [exampleMesh1]
    (twoLevelAsset Transformation.Identity Transformation.Identity exampleMesh1).m_vpNodes
    (fun i => 1 - i)
    (by
      intro i X hX
      rcases i with _ | _ | i
      · simp only [twoLevelAsset, List.get?_cons_zero, Option.some.injEq] at hX
        subst hX
        simp [twoLevelAsset]
      · simp only [twoLevelAsset, List.get?_cons_succ, List.get?_cons_zero,
          Option.some.injEq] at hX
        subst hX
        simp
      · simp [twoLevelAsset] at hX)
    2 0 (by simp [twoLevelAsset]) (by simp) exampleRay (Intersection.ofRay exampleRay)
    (XFloat.fin 0) XFloat.pinf
  match h with
  | ⟨r, ev, h1, h2, _, _, h5, _⟩ => ⟨r, ev, h1, h2, h5⟩

/-! ## The transformation stored on a hit -/

theorem Transformation.toWorld_pointAt (T : Transformation)
    (h : T.m_m.matmult T.m_mInv = Matrix3x3.Identity) (ray : Ray) (t : ℚ) :
    T.transformPointToWorld ((T.transformRayToLocal ray).pointAt t) = ray.pointAt t := by
  have hk : ∀ v, T.m_m.apply (T.m_mInv.apply v) = v := by
    intro v
    rw [← Matrix3x3.apply_matmult, h, Matrix3x3.Identity_apply]
  simp only [Transformation.transformRayToLocal_eq, Ray.pointAt,
    Transformation.transformPointToWorld, Transformation.transformPointToLocal,
    Transformation.transformVectorToLocal, Matrix3x3.apply_add, Matrix3x3.apply_smul, hk]
  cases ray.m_vOrigin; cases ray.m_vDirection; cases T.m_d
  simp only [Vector3.add, Vector3.sub, Vector3.smul, Vector3.mk.injEq]
  refine ⟨?_, ?_, ?_⟩ <;> ring

theorem Mesh.triangleHit_point (m : Mesh) (ray : Ray) (p : Nat) (tmin tmax : XFloat)
    (h : TriangleHit) (hh : m.triangleHit ray p tmin tmax = some h) :
    m.hitPoint p h.u h.v = ray.pointAt h.t := by
  have hh0 : intersectRayTriangle (m.getVerticesOfTriangle p).1
      (m.getVerticesOfTriangle p).2.1 (m.getVerticesOfTriangle p).2.2 ray.m_vOrigin
      ray.m_vDirection tmin tmax true = some h := hh
  obtain ⟨hdet, _, hu, hv, ht, _⟩ := intersectRayTriangle_eq_some hh0
  have key := hitPoint_identity (m.getVerticesOfTriangle p).1
    (m.getVerticesOfTriangle p).2.1 (m.getVerticesOfTriangle p).2.2 ray.m_vOrigin
    ray.m_vDirection hdet
  simp only [Mesh.hitPoint, Ray.pointAt, hu, hv, ht]
  exact key.symm

theorem Transformation.identity_inverseCorrect : Transformation.Identity.InverseCorrect := by
  simp [Transformation.InverseCorrect, Transformation.Identity, Matrix3x3.matmult_Identity]

namespace Node

theorem transformationAt_get {nodes : List Node} {i : Nat} {X : Node}
    (h : nodes.get? i = some X) : transformationAt nodes i = X.m_transformation := by
  simp only [transformationAt, h]

theorem transformationAt_inverseCorrect (nodes : List Node)
    (hinv : ∀ i X, nodes.get? i = some X → X.m_transformation.InverseCorrect) (i : Nat) :
    (transformationAt nodes i).InverseCorrect := by
  cases h : nodes.get? i with
  | none => simp only [transformationAt, h]; exact Transformation.identity_inverseCorrect
  | some X => rw [transformationAt_get h]; exact hinv i X h

theorem pathTransformation_inverseCorrect (nodes : List Node)
    (hinv : ∀ i X, nodes.get? i = some X → X.m_transformation.InverseCorrect)
    (path : List Nat) : ∀ i, (pathTransformation nodes i path).InverseCorrect := by
  induction path with
  | nil => intro i; exact transformationAt_inverseCorrect nodes hinv i
  | cons c rest ih =>
    intro i
    exact Transformation.inverseCorrect_apply (transformationAt_inverseCorrect nodes hinv i)
      (ih c)

end Node

/-- The loop over the parents, started at the end of a parent chain with the
transformation of the last node, arrives at the first node of the chain with
the transformation composed along the chain. -/
theorem AssetGeometry.composeParents_chain (nodes : List Node) (path : List Nat) :
    ∀ (p : Option Nat) (i : Nat) (fuel : Nat), Node.IsParentChain nodes p i path →
      ∀ X, nodes.get? (Node.pathEnd i path) = some X →
        AssetGeometry.composeParents nodes (fuel + path.length) X.m_pParent X.m_transformation
          = AssetGeometry.composeParents nodes fuel p (Node.pathTransformation nodes i path) := by
  induction path with
  | nil =>
    intro p i fuel hch X hX
    obtain ⟨Y, hY, hp⟩ := hch
    simp only [Node.pathEnd] at hX
    rw [hY] at hX
    cases hX
    simp only [Node.pathTransformation, Node.transformationAt_get hY, hp, List.length_nil,
      Nat.add_zero]
  | cons c rest ih =>
    intro p i fuel hch X hX
    obtain ⟨⟨Y, hY, hp⟩, hrest⟩ := hch
    have h1 := ih (some i) c (fuel + 1) hrest X hX
    rw [show fuel + (c :: rest).length = fuel + 1 + rest.length by simp; omega, h1]
    simp only [AssetGeometry.composeParents, hY, hp, Node.pathTransformation,
      Node.transformationAt_get hY]

namespace Node

/-- A hit below the child `c` of the node `pNode`, for the ray in the local
coordinates of `pNode`, is a hit below `pNode` for the ray itself. -/
theorem hitBelow_step (meshes : List Mesh) (nodes : List Node) (fuel : Nat) (p : Option Nat)
    (pNode c : Nat) (node : Node) (hn : nodes.get? pNode = some node) (hp : node.m_pParent = p)
    (hleft : node.m_transformation.m_mInv.matmult node.m_transformation.m_m
      = Matrix3x3.Identity)
    (ray : Ray) (tmin : XFloat) (I : Intersection)
    (h : HitBelow meshes nodes fuel (some pNode) c
      (node.m_transformation.transformRayToLocal ray) tmin I) :
    HitBelow meshes nodes (fuel + 1) p pNode ray tmin I := by
  obtain ⟨path, X, k, mesh, hit, tm, hlen, hch, hX, hk, hm, h1, h2, h3, h4, h5, h6⟩ := h
  refine ⟨c :: path, X, k, mesh, hit, tm, by simp only [List.length_cons]; omega,
    ⟨⟨node, hn, hp⟩, hch⟩, hX, hk, hm, h1, h2, h3, h4, h5, ?_⟩
  rw [Transformation.transformRayToLocal_apply _ _ hleft] at h6
  simp only [pathTransformation, transformationAt_get hn]
  exact h6

theorem intersectOwnMesh_hitBelow (meshes : List Mesh) (nodes : List Node) (fuel : Nat)
    (p : Option Nat) (pNode : Nat) (node : Node) (hn : nodes.get? pNode = some node)
    (hp : node.m_pParent = p) (ray : Ray) (I : Intersection) (tmin tmax : XFloat)
    (st : Mesh.ScanState)
    (h : intersectOwnMesh meshes node (node.m_transformation.transformRayToLocal ray) I tmin
      tmax = some st) :
    (st.1 = 0 → st.2.2 = I) ∧
    (st.2.2.m_vRayOrigin = I.m_vRayOrigin ∧ st.2.2.m_vRayDirection = I.m_vRayDirection) ∧
    (st.1 ≠ 0 → HitBelow meshes nodes (fuel + 1) p pNode ray tmin st.2.2) := by
  unfold intersectOwnMesh at h
  cases hm : node.m_pMesh with
  | none =>
    simp only [hm] at h
    cases h
    exact ⟨fun _ => rfl, ⟨rfl, rfl⟩, fun hne => absurd rfl hne⟩
  | some k =>
    simp only [hm] at h
    cases hg : meshes.get? k with
    | none => simp only [hg] at h; cases h
    | some mesh =>
      simp only [hg] at h
      have hrec := Mesh.intersectRay_recorded mesh
        (node.m_transformation.transformRayToLocal ray) tmin mesh.m_vBbox.length 0
        (by omega) tmax I
      cases hr : (mesh.intersectRay (node.m_transformation.transformRayToLocal ray) I tmin
          tmax 0).1 with
      | true =>
        simp only [hr, if_true] at h
        cases h
        obtain ⟨q, hit, hacc, _, hI⟩ := hrec.2 hr
        refine ⟨fun h0 => by simp at h0, by rw [hI]; exact ⟨rfl, rfl⟩, fun _ => ?_⟩
        refine ⟨[], node, k, mesh, hit, tmax, by simp, ⟨node, hn, hp⟩, hn, hm, hg, rfl,
          by rw [hI]; rfl, by rw [hI]; rfl, by rw [hI]; rfl, by rw [hI]; rfl, ?_⟩
        simp only [pathTransformation, transformationAt_get hn]
        rw [hI]
        exact hacc
      | false =>
        simp only [hr, Bool.false_eq_true, if_false] at h
        cases h
        obtain ⟨_, hI⟩ := hrec.1 hr
        exact ⟨fun _ => hI, by rw [hI]; exact ⟨rfl, rfl⟩, fun hne => absurd rfl hne⟩

theorem childrenLoop_inv
    (call : Nat → Intersection → XFloat → Option (Bool × XFloat × Intersection))
    (H F : Intersection → Prop) (cs : List Nat)
    (hcall : ∀ c ∈ cs, ∀ I t r, call c I t = some r →
      (r.1 = false → r.2.2 = I) ∧ (F I → F r.2.2) ∧ (r.1 = true → H r.2.2)) :
    ∀ (st st' : Mesh.ScanState), childrenLoop call cs st = some st' →
      (st'.1 = 0 → st.1 = 0 ∧ st'.2.2 = st.2.2) ∧ (F st.2.2 → F st'.2.2) ∧
      (st'.1 ≠ 0 → (st.1 ≠ 0 → H st.2.2) → H st'.2.2) := by
  induction cs with
  | nil =>
    intro st st' h
    simp only [childrenLoop] at h
    cases h
    exact ⟨fun h0 => ⟨h0, rfl⟩, fun hF => hF, fun hne hH => hH hne⟩
  | cons c rest ih =>
    intro st st' h
    simp only [childrenLoop] at h
    cases hc : call c st.2.2 st.2.1 with
    | none => simp only [hc] at h; cases h
    | some r =>
      simp only [hc] at h
      obtain ⟨hf, hF, hH⟩ := hcall c (List.mem_cons_self _ _) _ _ r hc
      obtain ⟨i1, i2, i3⟩ := ih (fun c' hc' => hcall c' (List.mem_cons_of_mem _ hc')) _ st' h
      refine ⟨?_, fun h0 => i2 (hF h0), ?_⟩
      · intro h0
        obtain ⟨a, b⟩ := i1 h0
        simp only at a b
        cases hr : r.1 with
        | true => simp [hr] at a
        | false =>
          simp only [hr, Bool.false_eq_true, if_false, Nat.add_zero] at a
          exact ⟨a, by rw [b, hf hr]⟩
      · intro hne hst
        apply i3 hne
        intro hne1
        simp only at hne1 ⊢
        cases hr : r.1 with
        | true => exact hH hr
        | false =>
          simp only [hr, Bool.false_eq_true, if_false, Nat.add_zero] at hne1
          rw [hf hr]
          exact hst hne1

/-- The record that `Node.intersectRay` returns: unchanged with a false flag,
always with the ray snapshot it started with, and with a true flag a hit
below the start node. -/
theorem intersectRay_hitBelow (meshes : List Mesh) (nodes : List Node)
    (hwf : ∀ i X, nodes.get? i = some X →
      (∀ c ∈ X.m_pChildren, ∃ C, nodes.get? c = some C ∧ C.m_pParent = some i) ∧
      X.m_transformation.m_mInv.matmult X.m_transformation.m_m = Matrix3x3.Identity) :
    ∀ (fuel pNode : Nat) (p : Option Nat) (ray : Ray) (I : Intersection) (tmin tmax : XFloat)
      (r : Bool × XFloat × Intersection),
      (∃ X, nodes.get? pNode = some X ∧ X.m_pParent = p) →
      intersectRay meshes nodes fuel pNode ray I tmin tmax = some r →
      (r.1 = false → r.2.2 = I) ∧
      (r.2.2.m_vRayOrigin = I.m_vRayOrigin ∧ r.2.2.m_vRayDirection = I.m_vRayDirection) ∧
      (r.1 = true → HitBelow meshes nodes fuel p pNode ray tmin r.2.2) := by
  intro fuel
  induction fuel with
  | zero => intro pNode p ray I tmin tmax r _ h; simp only [intersectRay] at h; cases h
  | succ fuel ih =>
    intro pNode p ray I tmin tmax r hp h
    obtain ⟨node, hg, hpar⟩ := hp
    obtain ⟨hch, hleft⟩ := hwf pNode node hg
    simp only [intersectRay, hg] at h
    cases ho : intersectOwnMesh meshes node (node.m_transformation.transformRayToLocal ray) I
        tmin tmax with
    | none => simp only [ho] at h; cases h
    | some st0 =>
      simp only [ho] at h
      cases hl : childrenLoop
          (fun pChildNode I t => intersectRay meshes nodes fuel pChildNode
            (node.m_transformation.transformRayToLocal ray) I tmin t)
          node.m_pChildren st0 with
      | none => simp only [hl] at h; cases h
      | some st =>
        simp only [hl] at h
        cases h
        obtain ⟨o1, o2, o3⟩ := intersectOwnMesh_hitBelow meshes nodes fuel p pNode node hg hpar
          ray I tmin tmax st0 ho
        obtain ⟨l1, l2, l3⟩ := childrenLoop_inv _
          (HitBelow meshes nodes (fuel + 1) p pNode ray tmin)
          (fun I' => I'.m_vRayOrigin = I.m_vRayOrigin ∧ I'.m_vRayDirection = I.m_vRayDirection)
          node.m_pChildren
          (fun c hc I' t r' hr' => by
            obtain ⟨a, b, d⟩ := ih c (some pNode) _ I' tmin t r' (hch c hc) hr'
            refine ⟨a, fun hF => ⟨b.1.trans hF.1, b.2.trans hF.2⟩, fun ht => ?_⟩
            exact hitBelow_step meshes nodes fuel p pNode c node hg hpar hleft ray tmin _ (d ht))
          st0 st hl
        refine ⟨?_, l2 o2, ?_⟩
        · intro hf
          have h0 : st.1 = 0 := by simpa using hf
          obtain ⟨a, b⟩ := l1 h0
          simp only
          rw [b, o1 a]
        · intro ht
          have hne : st.1 ≠ 0 := by simpa using ht
          exact l3 hne o3

end Node

namespace AssetGeometry

theorem composeParents_none (nodes : List Node) (fuel : Nat) (T : Transformation) :
    composeParents nodes fuel none T = some T := by
  cases fuel <;> rfl

/-- The loop over the scene nodes of a well-formed asset returns; a false
flag at the end means that the flag was false at the start and the record is
unchanged, the ray snapshot of the record is kept, and a true flag at the end
comes with a record that holds a hit below a scene node if the record at the
start did when the flag at the start was true. -/
theorem intersectSceneNodes_inv (g : AssetGeometry) (rank : Nat → Nat) (fuel : Nat)
    (hwf : g.WellFormed rank fuel) (ray : Ray) (tmin : XFloat) (l : List Nat)
    (hl : ∀ s ∈ l, s ∈ g.m_viSceneNodes) :
    ∀ (st : Bool × XFloat × Intersection),
      ∃ st', intersectSceneNodes g fuel ray tmin l st = some st' ∧
        (st'.1 = false → st.1 = false ∧ st'.2.2 = st.2.2) ∧
        (st'.2.2.m_vRayOrigin = st.2.2.m_vRayOrigin ∧
          st'.2.2.m_vRayDirection = st.2.2.m_vRayDirection) ∧
        (st'.1 = true →
          (st.1 = true → ∃ root ∈ g.m_viSceneNodes,
            Node.HitBelow g.m_vpMeshes g.m_vpNodes fuel none root ray tmin st.2.2) →
          ∃ root ∈ g.m_viSceneNodes,
            Node.HitBelow g.m_vpMeshes g.m_vpNodes fuel none root ray tmin st'.2.2) := by
  induction l with
  | nil =>
    intro st
    exact ⟨st, rfl, fun h => ⟨h, rfl⟩, ⟨rfl, rfl⟩, fun h hH => hH h⟩
  | cons s rest ih =>
    intro st
    obtain ⟨hrank, X, hX, hroot⟩ := hwf.2 s (hl s (List.mem_cons_self _ _))
    have hlt : s < g.m_vpNodes.length := by
      rcases Nat.lt_or_ge s g.m_vpNodes.length with h | h
      · exact h
      · rw [List.get?_eq_none.2 h] at hX; cases hX
    obtain ⟨r, ev, _, hP, _, _⟩ := Node.intersectRayTraced_spec g.m_vpMeshes g.m_vpNodes rank
      (fun i Y hY => ⟨fun c hc => (by
          obtain ⟨hr, C, hC, _⟩ := (hwf.1 i Y hY).2.1 c hc
          refine ⟨?_, hr⟩
          rcases Nat.lt_or_ge c g.m_vpNodes.length with h | h
          · exact h
          · rw [List.get?_eq_none.2 h] at hC; cases hC),
        (hwf.1 i Y hY).2.2.1⟩)
      fuel s hlt hrank ray st.2.2 tmin st.2.1
    obtain ⟨a, b, d⟩ := Node.intersectRay_hitBelow g.m_vpMeshes g.m_vpNodes
      (fun i Y hY => ⟨fun c hc => ((hwf.1 i Y hY).2.1 c hc).2, (hwf.1 i Y hY).2.2.2.1⟩)
      fuel s none ray st.2.2 tmin st.2.1 r ⟨X, hX, hroot⟩ hP
    obtain ⟨st', h1, h2, h3, h4⟩ := ih (fun s' hs' => hl s' (List.mem_cons_of_mem _ hs'))
      (st.1 || r.1, r.2.1, r.2.2)
    refine ⟨st', by simp only [intersectSceneNodes, hP]; exact h1, ?_, ?_, ?_⟩
    · intro hf
      obtain ⟨x, y⟩ := h2 hf
      simp only [Bool.or_eq_false_iff] at x y
      exact ⟨x.1, by rw [y, a x.2]⟩
    · exact ⟨h3.1.trans b.1, h3.2.trans b.2⟩
    · intro ht hH
      apply h4 ht
      intro hor
      simp only at hor ⊢
      cases hr : r.1 with
      | true => exact ⟨s, hl s (List.mem_cons_self _ _), d hr⟩
      | false =>
        rw [hr, Bool.or_false] at hor
        rw [a hr]
        exact hH hor

/-- Result of `AssetGeometry::intersectRay` on a well-formed asset: it
returns; with a false flag the record is unchanged; with a true flag the
stored transformation is the one composed along the parent chain from a scene
node to the recorded node, and the recorded triangle is accepted with the
recorded `t`, `u`, `v` for the ray transformed by it to local coordinates. -/
theorem intersectRay_spec (g : AssetGeometry) (rank : Nat → Nat) (fuel : Nat)
    (hwf : g.WellFormed rank fuel) (ray : Ray) (I : Intersection) (tmin tmax : XFloat) :
    ∃ r, g.intersectRay fuel ray I tmin tmax = some r ∧
      (r.1 = false → r.2 = I) ∧
      (r.2.m_vRayOrigin = I.m_vRayOrigin ∧ r.2.m_vRayDirection = I.m_vRayDirection) ∧
      (r.1 = true → ∃ (root : Nat) (path : List Nat) (mesh : Mesh) (h : TriangleHit)
          (tm : XFloat),
        root ∈ g.m_viSceneNodes ∧ Node.IsParentChain g.m_vpNodes none root path ∧
        Node.pathEnd root path = r.2.m_uNodeNumber ∧
        r.2.m_transformation = Node.pathTransformation g.m_vpNodes root path ∧
        r.2.m_pMesh = some mesh ∧ r.2.m_t = some h.t ∧ r.2.m_u = some h.u ∧
        r.2.m_v = some h.v ∧
        mesh.triangleHit ((Node.pathTransformation g.m_vpNodes root path).transformRayToLocal
          ray) r.2.m_uTriangleIndex tmin tm = some h) := by
  obtain ⟨st, hs, h1, h2, h3⟩ := intersectSceneNodes_inv g rank fuel hwf ray tmin
    g.m_viSceneNodes (fun s hs => hs) (false, tmax, I)
  cases hflag : st.1 with
  | false =>
    refine ⟨(false, st.2.2), by simp only [intersectRay, hs, hflag]; rfl, fun _ => (h1 hflag).2,
      h2, fun h => by simp at h⟩
  | true =>
    obtain ⟨root, hroot, path, X, k, mesh, hit, tm, hlen, hch, hX, hk, hm, e1, e2, e3, e4, e5,
      e6⟩ := h3 hflag (fun h => by simp at h)
    have hnum : X.m_uNodeNumber = Node.pathEnd root path := (hwf.1 _ X hX).1
    have hget : g.m_vpNodes.get? st.2.2.m_uNodeNumber = some X := by rw [e1, hnum]; exact hX
    have hcomp : composeParents g.m_vpNodes fuel X.m_pParent X.m_transformation
        = some (Node.pathTransformation g.m_vpNodes root path) := by
      have := composeParents_chain g.m_vpNodes path none root (fuel - path.length) hch X hX
      rw [show fuel - path.length + path.length = fuel by omega] at this
      rw [this, composeParents_none]
    refine ⟨(true, st.2.2.setTransformation (Node.pathTransformation g.m_vpNodes root path)),
      by simp only [intersectRay, hs, hflag, hget, hcomp]; rfl, fun h => by simp at h, h2,
      fun _ => ?_⟩
    exact ⟨root, path, mesh, hit, tm, hroot, hch, by rw [← hnum, ← e1]; rfl, rfl, e2, e3, e4,
      e5, e6⟩

end AssetGeometry

/-- C7: for an instance whose transformation and node transformations have
correct cached inverses, whose scene graph satisfies the loader invariants
(`WellFormed`), and a record that holds the snapshot of the incident ray:
`AssetInstance::intersectRay` returns; when it returns true, the stored
transformation is `T_instance.apply(T_root.apply(... T_hitNode))` along the
parent chain from a scene node to the recorded node, its `transformPointToWorld`
maps the point `(1-u-v)*V0 + u*V1 + v*V2` of the recorded triangle to the
incident ray's `origin + t*direction`, which is what `getIntersectionPoint`
returns; when it returns false, the record and so its transformation are
unchanged. -/
theorem AssetInstance_intersectRay_transformation (a : AssetInstance) (rank : Nat → Nat)
    (fuel : Nat) (hwf : a.m_pAssetGeometry.WellFormed rank fuel)
    (hT : a.m_transformation.InverseCorrect) (incidentRay : Ray) (I : Intersection)
    (hIo : I.m_vRayOrigin = incidentRay.m_vOrigin)
    (hId : I.m_vRayDirection = incidentRay.m_vDirection) (tmin tmax : XFloat) :
    ∃ r, a.intersectRay fuel incidentRay I tmin tmax = some r ∧
      (r.1 = false → r.2 = I ∧ r.2.m_transformation = I.m_transformation) ∧
      (r.1 = true → ∃ (root : Nat) (path : List Nat) (mesh : Mesh) (t u v : ℚ),
        root ∈ a.m_pAssetGeometry.m_viSceneNodes ∧
        Node.IsParentChain a.m_pAssetGeometry.m_vpNodes none root path ∧
        Node.pathEnd root path = r.2.m_uNodeNumber ∧
        r.2.m_transformation = a.m_transformation.apply
          (Node.pathTransformation a.m_pAssetGeometry.m_vpNodes root path) ∧
        r.2.m_pMesh = some mesh ∧ r.2.m_t = some t ∧ r.2.m_u = some u ∧ r.2.m_v = some v ∧
        r.2.m_transformation.transformPointToWorld (mesh.hitPoint r.2.m_uTriangleIndex u v)
          = incidentRay.pointAt t ∧
        r.2.getIntersectionPoint = some (incidentRay.pointAt t)) := by
  obtain ⟨r, hr, h1, h2, h3⟩ := AssetGeometry.intersectRay_spec a.m_pAssetGeometry rank fuel hwf
    (a.m_transformation.transformRayToLocal incidentRay) I tmin tmax
  cases hflag : r.1 with
  | false =>
    refine ⟨(false, r.2), by simp only [AssetInstance.intersectRay, hr, hflag]; rfl,
      fun _ => ⟨h1 hflag, by rw [h1 hflag]⟩, fun h => by simp at h⟩
  | true =>
    obtain ⟨root, path, mesh, hit, tm, hroot, hch, hend, htr, e2, e3, e4, e5, e6⟩ := h3 hflag
    refine ⟨(true, r.2.setTransformation (a.m_transformation.apply r.2.m_transformation)),
      by simp only [AssetInstance.intersectRay, hr, hflag]; rfl, fun h => by simp at h,
      fun _ => ?_⟩
    have hW := Node.pathTransformation_inverseCorrect a.m_pAssetGeometry.m_vpNodes
      (fun i X hX => (hwf.1 i X hX).2.2.2) path root
    rw [Transformation.transformRayToLocal_apply _ _ hT.1] at e6
    have hpt := Mesh.triangleHit_point mesh _ _ tmin tm hit e6
    refine ⟨root, path, mesh, hit.t, hit.u, hit.v, hroot, hch, hend, ?_, e2, e3, e4, e5, ?_, ?_⟩
    · show a.m_transformation.apply r.2.m_transformation = _
      rw [htr]
    · show (a.m_transformation.apply r.2.m_transformation).transformPointToWorld
        (mesh.hitPoint r.2.m_uTriangleIndex hit.u hit.v) = _
      rw [htr, hpt]
      exact Transformation.toWorld_pointAt _ (Transformation.inverseCorrect_apply hT hW).2 _ _
    · show r.2.m_t.map (fun t => r.2.m_vRayOrigin.add (Vector3.smul t r.2.m_vRayDirection)) = _
      rw [e3, h2.1, h2.2, hIo, hId]
      rfl


theorem Transformation.translation_inverseCorrect (d : Vector3) :
    (Transformation.Translation d).InverseCorrect := by
  simp [Transformation.InverseCorrect, Transformation.Translation, Matrix3x3.matmult_Identity]

theorem twoLevelAsset_wellFormed (Tr Tc : Transformation) (mesh : Mesh)
    (hTr : Tr.InverseCorrect) (hTc : Tc.InverseCorrect) :
    (twoLevelAsset Tr Tc mesh).WellFormed (fun i => 1 - i) 2 := by
  refine ⟨?_, ?_⟩
  · intro i X hX
    rcases i with _ | _ | i
    · simp only [twoLevelAsset, List.get?_cons_zero, Option.some.injEq] at hX
      subst hX
      refine ⟨rfl, ?_, by simp, hTr⟩
      intro c hc
      simp only [List.mem_singleton] at hc
      subst hc
      exact ⟨by simp, _, rfl, rfl⟩
    · simp only [twoLevelAsset, List.get?_cons_succ, List.get?_cons_zero,
        Option.some.injEq] at hX
      subst hX
      exact ⟨rfl, by simp, by simp [twoLevelAsset], hTc⟩
    · simp [twoLevelAsset] at hX
  · intro s hs
    simp only [twoLevelAsset, List.mem_singleton] at hs
    subst hs
    exact ⟨by simp, _, rfl, rfl⟩

theorem exampleInstance_hit :
    ∃ r, exampleInstance.intersectRay 2 exampleInstanceRay
        (Intersection.ofRay exampleInstanceRay) (XFloat.fin 0) XFloat.pinf = some r ∧
      r.1 = true := by
  have h : (twoLevelAsset (Transformation.Translation ⟨1, 0, 0⟩) Transformation.Identity
      (exampleMesh8.buildBVH exampleSort)).intersectRay 2
      ((Transformation.Translation ⟨0, 0, 1⟩).transformRayToLocal exampleInstanceRay)
      (Intersection.ofRay exampleInstanceRay) (XFloat.fin 0) XFloat.pinf = _ :=
    AssetGeometry.sceneIntersectRay_twoLevel _ _ _ 0 _ _ _ _
  have hflag : ((exampleMesh8.buildBVH exampleSort).intersectRay
      (Transformation.Identity.transformRayToLocal
        ((Transformation.Translation ⟨1, 0, 0⟩).transformRayToLocal
          ((Transformation.Translation ⟨0, 0, 1⟩).transformRayToLocal exampleInstanceRay)))
      (Intersection.ofRay exampleInstanceRay) (XFloat.fin 0) XFloat.pinf 0).1 = true := by
    rw [Mesh.exampleMesh8_flag
      (Transformation.Identity.transformRayToLocal
        ((Transformation.Translation ⟨1, 0, 0⟩).transformRayToLocal
          ((Transformation.Translation ⟨0, 0, 1⟩).transformRayToLocal exampleInstanceRay)))
      (Ray.setDirection_consistent _ _)]
    simp only [Transformation.transformRayToLocal_eq]
    norm_num [intersectRayTriangle, exampleInstanceRay, Ray.mk3, Ray.setOrigin,
      Ray.setDirection, Transformation.Identity, Transformation.Translation,
      Transformation.transformPointToLocal, Transformation.transformVectorToLocal,
      Matrix3x3.Identity, Matrix3x3.apply, Vector3.sub, Vector3.cross, Vector3.dot,
      XFloat.lt, Ray.default]
  simp only [hflag, if_true] at h
  obtain ⟨Y, hY⟩ : ∃ Y, (twoLevelAsset (Transformation.Translation ⟨1, 0, 0⟩)
      Transformation.Identity (exampleMesh8.buildBVH exampleSort)).intersectRay 2
      ((Transformation.Translation ⟨0, 0, 1⟩).transformRayToLocal exampleInstanceRay)
      (Intersection.ofRay exampleInstanceRay) (XFloat.fin 0) XFloat.pinf = some (true, Y) :=
    ⟨_, h⟩
  refine ⟨(true, Y.setTransformation
    ((Transformation.Translation ⟨0, 0, 1⟩).apply Y.m_transformation)), ?_, rfl⟩
  simp only [AssetInstance.intersectRay, exampleInstance, hY, if_true]

/-- Witness for C7: the example instance and a ray that meets it. -/
theorem AssetInstance_intersectRay_transformation_witness :
    ∃ r, exampleInstance.intersectRay 2 exampleInstanceRay
        (Intersection.ofRay exampleInstanceRay) (XFloat.fin 0) XFloat.pinf = some r ∧
      r.1 = true ∧
      ∃ (root : Nat) (path : List Nat) (mesh : Mesh) (t u v : ℚ),
        root ∈ exampleInstance.m_pAssetGeometry.m_viSceneNodes ∧
        Node.IsParentChain exampleInstance.m_pAssetGeometry.m_vpNodes none root path ∧
        Node.pathEnd root path = r.2.m_uNodeNumber ∧
        r.2.m_transformation = exampleInstance.m_transformation.apply
          (Node.pathTransformation exampleInstance.m_pAssetGeometry.m_vpNodes root path) ∧
        r.2.m_pMesh = some mesh ∧ r.2.m_t = some t ∧ r.2.m_u = some u ∧ r.2.m_v = some v ∧
        r.2.m_transformation.transformPointToWorld (mesh.hitPoint r.2.m_uTriangleIndex u v)
          = exampleInstanceRay.pointAt t ∧
        r.2.getIntersectionPoint = some (exampleInstanceRay.pointAt t) := by
  obtain ⟨r, hr, _, h3⟩ := AssetInstance_intersectRay_transformation exampleInstance
    (fun i => 1 - i) 2
    (twoLevelAsset_wellFormed _ _ _ (Transformation.translation_inverseCorrect _)
      Transformation.identity_inverseCorrect)
    (Transformation.translation_inverseCorrect _) exampleInstanceRay
    (Intersection.ofRay exampleInstanceRay) rfl rfl (XFloat.fin 0) XFloat.pinf
  obtain ⟨r', hr', ht⟩ := exampleInstance_hit
  rw [hr] at hr'
  cases hr'
  exact ⟨r, hr, ht, h3 ht⟩

/-! ## Calling `buildBVH` twice -/

/-- Entry `c*k + j` of the concatenation of blocks of `c` entries is entry `j`
of block `k`. -/
theorem getElem?_flatMap_block {α β : Type} (g : α → List β) (c : Nat)
    (hc : ∀ a, (g a).length = c) (l : List α) :
    ∀ (k j : Nat), j < c → (l.flatMap g)[c * k + j]? = (l[k]?).bind (fun a => (g a)[j]?) := by
  induction l with
  | nil => intro k j _; simp
  | cons a t ih =>
    intro k j hj
    rw [List.flatMap_cons]
    cases k with
    | zero =>
      simp only [Nat.mul_zero, Nat.zero_add, List.getElem?_cons_zero, Option.some_bind]
      rw [List.getElem?_append_left (by rw [hc]; exact hj)]
    | succ k =>
      rw [List.getElem?_append_right (by rw [hc, Nat.mul_succ]; omega)]
      rw [hc, show c * (k + 1) + j - c = c * k + j by rw [Nat.mul_succ]; omega]
      simp only [List.getElem?_cons_succ]
      exact ih k j hj

namespace Mesh

theorem exampleMesh32_buffer (k j : Nat) (hk : k < 32) (hj : j < 9) :
    exampleMesh32.m_VertexBuffer.getD (9 * k + j) 0
      = ([62 - 2 * (k : ℚ), 0, 0, 63 - 2 * (k : ℚ), 0, 0, 62 - 2 * (k : ℚ), 1, 0] : List ℚ).getD
          j 0 := by
  have h := getElem?_flatMap_block
    (fun k : Nat => [62 - 2 * (k : ℚ), 0, 0, 63 - 2 * (k : ℚ), 0, 0, 62 - 2 * (k : ℚ), 1, 0])
    9 (fun _ => rfl) (List.range 32) k j hj
  rw [List.getElem?_range hk] at h
  simp only [Option.some_bind] at h
  simp only [List.getD_eq_getElem?_getD, exampleMesh32, h]

theorem exampleMesh32_vertex (bs : List BBox) (k : Nat) (hk : k < 32) :
    (exampleMesh32With bs).vertex (3 * k) = ⟨62 - 2 * (k : ℚ), 0, 0⟩ ∧
    (exampleMesh32With bs).vertex (3 * k + 1) = ⟨63 - 2 * (k : ℚ), 0, 0⟩ ∧
    (exampleMesh32With bs).vertex (3 * k + 2) = ⟨62 - 2 * (k : ℚ), 1, 0⟩ := by
  have e := fun j hj => exampleMesh32_buffer k j hk hj
  have hb : (exampleMesh32With bs).m_VertexBuffer = exampleMesh32.m_VertexBuffer := rfl
  refine ⟨?_, ?_, ?_⟩
  · simp only [vertex, hb]
    rw [show 3 * (3 * k) = 9 * k + 0 by omega, show 9 * k + 0 + 1 = 9 * k + 1 by omega,
      show 9 * k + 0 + 2 = 9 * k + 2 by omega, e 0 (by omega), e 1 (by omega), e 2 (by omega)]
    rfl
  · simp only [vertex, hb]
    rw [show 3 * (3 * k + 1) = 9 * k + 3 by omega, show 9 * k + 3 + 1 = 9 * k + 4 by omega,
      show 9 * k + 3 + 2 = 9 * k + 5 by omega, e 3 (by omega), e 4 (by omega), e 5 (by omega)]
    rfl
  · simp only [vertex, hb]
    rw [show 3 * (3 * k + 2) = 9 * k + 6 by omega, show 9 * k + 6 + 1 = 9 * k + 7 by omega,
      show 9 * k + 6 + 2 = 9 * k + 8 by omega, e 6 (by omega), e 7 (by omega), e 8 (by omega)]
    rfl

theorem exampleMesh32_index (i : Nat) (hi : i < 96) :
    exampleMesh32.m_IndexBuffer.getD i 0 = i := by
  simp [exampleMesh32, List.getD_eq_getElem?_getD, List.getElem?_range hi]

theorem minQ_fin (x m : ℚ) : XFloat.minQ x (XFloat.fin m) = XFloat.fin (min x m) := by
  simp only [XFloat.minQ, XFloat.lt, decide_eq_true_eq]
  split_ifs with h
  · rw [min_eq_right (le_of_lt h)]
  · rw [min_eq_left (not_lt.1 h)]

theorem maxQ_fin (x m : ℚ) : XFloat.maxQ x (XFloat.fin m) = XFloat.fin (max x m) := by
  simp only [XFloat.maxQ, XFloat.lt, decide_eq_true_eq]
  split_ifs with h
  · rw [max_eq_right (le_of_lt h)]
  · rw [max_eq_left (not_lt.1 h)]

theorem minQ_three (a m : ℚ) (h : a ≤ m) :
    XFloat.minQ a (XFloat.minQ (a + 1) (XFloat.minQ a (XFloat.fin m))) = XFloat.fin a := by
  rw [minQ_fin, min_eq_left h, minQ_fin, min_eq_right (by linarith), minQ_fin, min_self]

theorem maxQ_three (a m : ℚ) (h : a + 1 ≤ m) :
    XFloat.maxQ a (XFloat.maxQ (a + 1) (XFloat.maxQ a (XFloat.fin m))) = XFloat.fin m := by
  rw [maxQ_fin, max_eq_right (by linarith), maxQ_fin, max_eq_right h, maxQ_fin,
    max_eq_right (by linarith)]

theorem foldl_range_three {β : Type} (f : β → Nat → β) (a : β) (n : Nat) :
    (List.range (3 * (n + 1))).foldl f a
      = f (f (f ((List.range (3 * n)).foldl f a) (3 * n)) (3 * n + 1)) (3 * n + 2) := by
  rw [show 3 * (n + 1) = 3 * n + 1 + 1 + 1 by omega, List.range_succ, List.range_succ,
    List.range_succ]
  simp only [List.foldl_append, List.foldl_cons, List.foldl_nil]

/-- The three passes of the box loop for triangle `k` of the row. -/
theorem exampleMesh32_fold3 (bs : List BBox) (L n : Nat) (hk : L + n < 32)
    (acc : XVector3 × XVector3) :
    boundsStep (exampleMesh32With bs) L
      (boundsStep (exampleMesh32With bs) L
        (boundsStep (exampleMesh32With bs) L acc (3 * n)) (3 * n + 1)) (3 * n + 2)
      = (⟨XFloat.minQ (62 - 2 * ((L + n : Nat) : ℚ)) (XFloat.minQ (63 - 2 * ((L + n : Nat) : ℚ))
            (XFloat.minQ (62 - 2 * ((L + n : Nat) : ℚ)) acc.1.x)),
          XFloat.minQ 1 (XFloat.minQ 0 (XFloat.minQ 0 acc.1.y)),
          XFloat.minQ 0 (XFloat.minQ 0 (XFloat.minQ 0 acc.1.z))⟩,
         ⟨XFloat.maxQ (62 - 2 * ((L + n : Nat) : ℚ)) (XFloat.maxQ (63 - 2 * ((L + n : Nat) : ℚ))
            (XFloat.maxQ (62 - 2 * ((L + n : Nat) : ℚ)) acc.2.x)),
          XFloat.maxQ 1 (XFloat.maxQ 0 (XFloat.maxQ 0 acc.2.y)),
          XFloat.maxQ 0 (XFloat.maxQ 0 (XFloat.maxQ 0 acc.2.z))⟩) := by
  obtain ⟨v0, v1, v2⟩ := exampleMesh32_vertex bs (L + n) hk
  have hib : (exampleMesh32With bs).m_IndexBuffer = exampleMesh32.m_IndexBuffer := rfl
  have i0 : (exampleMesh32With bs).m_IndexBuffer.getD (3 * L + 3 * n) 0 = 3 * (L + n) := by
    rw [hib, exampleMesh32_index _ (by omega)]; omega
  have i1 : (exampleMesh32With bs).m_IndexBuffer.getD (3 * L + (3 * n + 1)) 0
      = 3 * (L + n) + 1 := by
    rw [hib, exampleMesh32_index _ (by omega)]; omega
  have i2 : (exampleMesh32With bs).m_IndexBuffer.getD (3 * L + (3 * n + 2)) 0
      = 3 * (L + n) + 2 := by
    rw [hib, exampleMesh32_index _ (by omega)]; omega
  simp only [boundsStep, i0, i1, i2, v0, v1, v2]

theorem exampleMesh32_bounds (bs : List BBox) (L : Nat) :
    ∀ n, L + n < 32 → (exampleMesh32With bs).rangeBounds L (n + 1)
      = (⟨XFloat.fin (62 - 2 * ((L + n : Nat) : ℚ)), XFloat.fin 0, XFloat.fin 0⟩,
         ⟨XFloat.fin (63 - 2 * (L : ℚ)), XFloat.fin 1, XFloat.fin 0⟩) := by
  intro n
  induction n with
  | zero =>
    intro h
    unfold rangeBounds
    rw [foldl_range_three, exampleMesh32_fold3 bs L 0 h]
    simp only [Nat.mul_zero, List.range_zero, List.foldl_nil, Nat.add_zero]
    norm_num [XFloat.minQ, XFloat.maxQ, XFloat.lt]
  | succ n ih =>
    intro h
    have ihn := ih (by omega)
    unfold rangeBounds at ihn ⊢
    rw [foldl_range_three, ihn, exampleMesh32_fold3 bs L (n + 1) h]
    have hn : (0 : ℚ) ≤ (n : ℚ) := Nat.cast_nonneg n
    have e : (63 : ℚ) - 2 * ((L + (n + 1) : Nat) : ℚ) = 62 - 2 * ((L + (n + 1) : Nat) : ℚ) + 1 := by
      ring
    simp only [e]
    rw [minQ_three _ _ (by push_cast; linarith), maxQ_three _ _ (by push_cast; linarith)]
    norm_num [XFloat.minQ, XFloat.maxQ, XFloat.lt]

theorem splitAxis_lt (vMin vMax : XVector3) : splitAxis vMin vMax < 3 := by
  unfold splitAxis
  simp only
  split_ifs <;> omega

theorem length_rangeTriples (m : Mesh) (l n : Nat) : (m.rangeTriples l n).length = n := by
  simp [rangeTriples]

/-- Writing back the triples of a range unchanged leaves the index buffer as
it is. -/
theorem splice_rangeTriples (m : Mesh) (l n : Nat)
    (h : 3 * l + 3 * n ≤ m.m_IndexBuffer.length) :
    m.m_IndexBuffer.take (3 * l) ++ flattenTriples (m.rangeTriples l n)
      ++ m.m_IndexBuffer.drop (3 * l + 3 * n) = m.m_IndexBuffer := by
  apply List.ext_getElem?
  intro q
  rw [getElem?_splice _ _ l n (length_rangeTriples m l n) h]
  split_ifs with h1 h2
  · rfl
  · have hs : (m.rangeTriples l n)[(q - 3 * l) / 3]? = some (m.indexTriple (l + (q - 3 * l) / 3)) := by
      simp only [rangeTriples, List.getElem?_map]
      rw [List.getElem?_range (by omega)]
      rfl
    obtain ⟨f0, f1, f2⟩ := getElem?_flattenTriples _ _ _ hs
    rw [indexTriple_eq] at f0 f1 f2
    simp only at f0 f1 f2
    have hq : q - 3 * l = 3 * ((q - 3 * l) / 3) + (q - 3 * l) % 3 := (Nat.div_add_mod _ 3).symm
    have hlt : (q - 3 * l) % 3 < 3 := Nat.mod_lt _ (by omega)
    have hget : ∀ i, i < m.m_IndexBuffer.length →
        some ((m.m_IndexBuffer[i]?).getD 0) = m.m_IndexBuffer[i]? := by
      intro i hi
      rw [List.getElem?_eq_getElem hi]
      rfl
    rcases Nat.lt_or_ge ((q - 3 * l) % 3) 1 with c0 | c0
    · have e : q - 3 * l = 3 * ((q - 3 * l) / 3) := by omega
      rw [e, f0, hget _ (by omega)]
      congr 1
      omega
    · rcases Nat.lt_or_ge ((q - 3 * l) % 3) 2 with c1 | c1
      · have e : q - 3 * l = 3 * ((q - 3 * l) / 3) + 1 := by omega
        rw [e, f1, hget _ (by omega)]
        congr 1
        omega
      · have e : q - 3 * l = 3 * ((q - 3 * l) / 3) + 2 := by omega
        rw [e, f2, hget _ (by omega)]
        congr 1
        omega
  · rfl

theorem exampleMesh32_indexTriple (bs : List BBox) (p : Nat) (hp : p < 32) :
    (exampleMesh32With bs).indexTriple p = (3 * p, 3 * p + 1, 3 * p + 2) := by
  have hib : (exampleMesh32With bs).m_IndexBuffer = exampleMesh32.m_IndexBuffer := rfl
  simp only [indexTriple, hib, Nat.add_zero]
  rw [exampleMesh32_index _ (by omega), exampleMesh32_index _ (by omega),
    exampleMesh32_index _ (by omega)]

/-- The key of `compareFunction` does not grow along the row, on every axis. -/
theorem exampleMesh32_compare (index p q : Nat) (hi : index < 3) (hpq : p < q) (hq : q < 32) :
    compareFunction exampleMesh32.m_VertexBuffer index (3 * p, 3 * p + 1, 3 * p + 2)
      (3 * q, 3 * q + 1, 3 * q + 2) ≤ 0 := by
  have hp' : (p : ℚ) < (q : ℚ) := by exact_mod_cast hpq
  simp only [compareFunction]
  rw [show 3 * (3 * p) + index = 9 * p + index by omega,
    show 3 * (3 * p + 1) + index = 9 * p + (3 + index) by omega,
    show 3 * (3 * q) + index = 9 * q + index by omega,
    show 3 * (3 * q + 1) + index = 9 * q + (3 + index) by omega,
    exampleMesh32_buffer p index (by omega) (by omega),
    exampleMesh32_buffer p (3 + index) (by omega) (by omega),
    exampleMesh32_buffer q index (by omega) (by omega),
    exampleMesh32_buffer q (3 + index) (by omega) (by omega)]
  rw [if_neg]
  interval_cases index <;> first | (simp; done) | (simp; linarith)

/-- Sorting a range of the row with the insertion sort returns it unchanged. -/
theorem exampleMesh32_sort (bs : List BBox) (l n index : Nat) (h : l + n ≤ 32)
    (hi : index < 3) :
    exampleSort ((exampleMesh32With bs).rangeTriples l n)
      (compareFunction (exampleMesh32With bs).m_VertexBuffer index)
      = (exampleMesh32With bs).rangeTriples l n := by
  apply List.Sorted.insertionSort_eq
  unfold List.Sorted rangeTriples
  rw [List.pairwise_map]
  refine (List.pairwise_lt_range n).imp_of_mem ?_
  intro i j hi' hj' hij
  rw [List.mem_range] at hi' hj'
  rw [exampleMesh32_indexTriple bs _ (by omega), exampleMesh32_indexTriple bs _ (by omega)]
  exact exampleMesh32_compare index (l + i) (l + j) hi (by omega) (by omega)

theorem exampleMesh32_step (bs : List BBox) (u : Nat) :
    buildBVHStep exampleSort (exampleMesh32With bs) u
      = exampleMesh32With (bs ++
          [⟨(exampleMesh32.rangeBounds (treeRange 32 u).1
              ((treeRange 32 u).2 + 1 - (treeRange 32 u).1)).1,
            (exampleMesh32.rangeBounds (treeRange 32 u).1
              ((treeRange 32 u).2 + 1 - (treeRange 32 u).1)).2⟩]) := by
  have hN : (exampleMesh32With bs).m_IndexBuffer.length / 3 = 32 := by
    simp [exampleMesh32With, exampleMesh32]
  have hlen : (exampleMesh32With bs).m_IndexBuffer.length = 96 := by
    simp [exampleMesh32With, exampleMesh32]
  have hb := treeRange_bounds 32 u (by omega)
  have hsort := exampleMesh32_sort bs (treeRange 32 u).1
    ((treeRange 32 u).2 + 1 - (treeRange 32 u).1)
    (splitAxis ((exampleMesh32With bs).rangeBounds (treeRange 32 u).1
      ((treeRange 32 u).2 + 1 - (treeRange 32 u).1)).1
      ((exampleMesh32With bs).rangeBounds (treeRange 32 u).1
      ((treeRange 32 u).2 + 1 - (treeRange 32 u).1)).2) (by omega) (splitAxis_lt _ _)
  have hsplice := splice_rangeTriples (exampleMesh32With bs) (treeRange 32 u).1
    ((treeRange 32 u).2 + 1 - (treeRange 32 u).1) (by rw [hlen]; omega)
  simp only [buildBVHStep, binaryTreeBoundaries_eq, hN, hsort, hsplice]
  rfl

theorem exampleMesh32_loop (K : Nat) (hK : K ≤ 7) : ∀ (bs : List BBox),
    (List.range K).foldl (buildBVHStep exampleSort) (exampleMesh32With bs)
      = exampleMesh32With (bs ++ exampleBoxes32.take K) := by
  induction K with
  | zero => intro bs; simp
  | succ K ih =>
    intro bs
    rw [List.range_succ, List.foldl_append, ih (by omega)]
    simp only [List.foldl_cons, List.foldl_nil, exampleMesh32_step]
    congr 1
    rw [List.append_assoc]
    congr 1
    have hK' : K < 7 := by omega
    interval_cases K <;> rfl

/-- The result of `buildBVH` on the row of 32 triangles carrying the boxes `bs`:
seven more boxes, the index buffer as before. -/
theorem exampleMesh32_build (bs : List BBox) :
    (exampleMesh32With bs).buildBVH exampleSort = exampleMesh32With (bs ++ exampleBoxes32) := by
  have hN : (exampleMesh32With bs).m_IndexBuffer.length / 3 = 32 := by
    simp [exampleMesh32With, exampleMesh32]
  have h7 : (1 <<< bvhLevels 32) - 1 = 7 := by simp [bvhLevels, Nat.log2]
  rw [buildBVH_eq_foldl, hN, h7, exampleMesh32_loop 7 (Nat.le_refl _)]
  rfl

theorem treeRange32_two : treeRange 32 2 = (16, 31) := by
  simp [treeRange, Nat.log2, binaryTreeStep, List.range_succ]

theorem treeRange32_three : treeRange 32 3 = (0, 7) := by
  have h1 : 4 &&& 2 = 0 := by decide
  have h2 : 4 &&& 1 = 0 := by decide
  simp [treeRange, Nat.log2, binaryTreeStep, List.range_succ, h1, h2]

theorem exampleBoxes32_two :
    exampleBoxes32.getD 2 BBox.default
      = ⟨⟨XFloat.fin 0, XFloat.fin 0, XFloat.fin 0⟩, ⟨XFloat.fin 31, XFloat.fin 1, XFloat.fin 0⟩⟩ := by
  have h := exampleMesh32_bounds [] 16 15 (by omega)
  have e : exampleBoxes32.getD 2 BBox.default
      = ⟨(exampleMesh32.rangeBounds (treeRange 32 2).1
          ((treeRange 32 2).2 + 1 - (treeRange 32 2).1)).1,
         (exampleMesh32.rangeBounds (treeRange 32 2).1
          ((treeRange 32 2).2 + 1 - (treeRange 32 2).1)).2⟩ := rfl
  rw [e, treeRange32_two]
  have h' : exampleMesh32.rangeBounds 16 (15 + 1) = _ := h
  simp only [show 31 + 1 - 16 = 15 + 1 from rfl, h']
  norm_num

theorem exampleBoxes32_three :
    exampleBoxes32.getD 3 BBox.default
      = ⟨⟨XFloat.fin 48, XFloat.fin 0, XFloat.fin 0⟩, ⟨XFloat.fin 63, XFloat.fin 1, XFloat.fin 0⟩⟩ := by
  have h := exampleMesh32_bounds [] 0 7 (by omega)
  have e : exampleBoxes32.getD 3 BBox.default
      = ⟨(exampleMesh32.rangeBounds (treeRange 32 3).1
          ((treeRange 32 3).2 + 1 - (treeRange 32 3).1)).1,
         (exampleMesh32.rangeBounds (treeRange 32 3).1
          ((treeRange 32 3).2 + 1 - (treeRange 32 3).1)).2⟩ := rfl
  rw [e, treeRange32_three]
  have h' : exampleMesh32.rangeBounds 0 (7 + 1) = _ := h
  simp only [show 7 + 1 - 0 = 7 + 1 from rfl, h']
  norm_num

theorem intersectRay_box_miss (mesh : Mesh) (ray : Ray) (I : Intersection) (tmin tmax : XFloat)
    (u : Nat) (hne : mesh.m_vBbox.isEmpty = false)
    (h : (mesh.m_vBbox.getD u BBox.default).intersectRay ray tmin tmax = false) :
    mesh.intersectRay ray I tmin tmax u = (false, tmax, I) := by
  rw [intersectRay_unfold mesh ray I tmin tmax u hne, if_pos h]

theorem intersectRay_children_miss (mesh : Mesh) (ray : Ray) (I : Intersection)
    (tmin tmax : XFloat) (u : Nat) (hne : mesh.m_vBbox.isEmpty = false)
    (hin : 2 * u + 2 < mesh.m_vBbox.length)
    (hl : mesh.intersectRay ray I tmin tmax (2 * u + 1) = (false, tmax, I))
    (hr : mesh.intersectRay ray I tmin tmax (2 * u + 2) = (false, tmax, I)) :
    mesh.intersectRay ray I tmin tmax u = (false, tmax, I) := by
  rw [intersectRay_unfold mesh ray I tmin tmax u hne]
  split_ifs with h1 h2
  · rfl
  · omega
  · simp only [hl, hr, Bool.or_self]

theorem exampleBox32_two_miss :
    (exampleBoxes32.getD 2 BBox.default).intersectRay exampleRay32 (XFloat.fin 0) XFloat.pinf
      = false := by
  rw [exampleBoxes32_two]
  norm_num [BBox.intersectRay, BBox.intersectRayAxis, exampleRay32, Ray.mk3, Ray.setOrigin,
    Ray.setDirection, Ray.default, Ray.posneg, BBox.m_pp, XVector3.get, Vector3.get,
    XFloat.subQ, XFloat.mul, XFloat.mulInf, XFloat.recip, XFloat.lt]

theorem exampleBox32_three_miss :
    (exampleBoxes32.getD 3 BBox.default).intersectRay exampleRay32 (XFloat.fin 0) XFloat.pinf
      = false := by
  rw [exampleBoxes32_three]
  norm_num [BBox.intersectRay, BBox.intersectRayAxis, exampleRay32, Ray.mk3, Ray.setOrigin,
    Ray.setDirection, Ray.default, Ray.posneg, BBox.m_pp, XVector3.get, Vector3.get,
    XFloat.subQ, XFloat.mul, XFloat.mulInf, XFloat.recip, XFloat.lt]

theorem exampleMesh32_hit (bs : List BBox) :
    (exampleMesh32With bs).triangleHit exampleRay32 8 (XFloat.fin 0) XFloat.pinf
      = some ⟨1, 1, 1/4, 1/4⟩ := by
  obtain ⟨v0, v1, v2⟩ := exampleMesh32_vertex bs 8 (by omega)
  have hib : (exampleMesh32With bs).m_IndexBuffer = exampleMesh32.m_IndexBuffer := rfl
  simp only [triangleHit, getVerticesOfTriangle, hib]
  rw [exampleMesh32_index _ (by omega), exampleMesh32_index _ (by omega),
    exampleMesh32_index _ (by omega)]
  rw [show 3 * 8 + 0 = 3 * 8 from rfl, v0, v1, v2]
  norm_num [exampleRay32, Ray.mk3, Ray.setOrigin, Ray.setDirection, Ray.default,
    intersectRayTriangle, Vector3.sub, Vector3.cross, Vector3.dot, XFloat.lt]

end Mesh

/-- C11, evaluated on a row of 32 triangles with the insertion sort as sorting
routine and the ray from `(46 + 1/4, 1/4, 1)` along `-z`: after one call of
`buildBVH` the query `Mesh::intersectRay` from position 0 reports the hit, after
a second call of `buildBVH` it reports no hit, and the second call has doubled
the number of stored boxes. -/
theorem Mesh_buildBVH_twice_miss :
    ((exampleMesh32.buildBVH exampleSort).intersectRay exampleRay32
      (Intersection.ofRay exampleRay32) (XFloat.fin 0) XFloat.pinf 0).1 = true ∧
    (((exampleMesh32.buildBVH exampleSort).buildBVH exampleSort).intersectRay exampleRay32
      (Intersection.ofRay exampleRay32) (XFloat.fin 0) XFloat.pinf 0).1 = false ∧
    (exampleMesh32.buildBVH exampleSort).m_vBbox.length = 7 ∧
    ((exampleMesh32.buildBVH exampleSort).buildBVH exampleSort).m_vBbox.length = 14 := by
  have e1 : exampleMesh32.buildBVH exampleSort = exampleMesh32With exampleBoxes32 :=
    Mesh.exampleMesh32_build []
  have e2 : (exampleMesh32.buildBVH exampleSort).buildBVH exampleSort
      = exampleMesh32With (exampleBoxes32 ++ exampleBoxes32) := by
    rw [e1, Mesh.exampleMesh32_build]
  have hray : exampleRay32.Consistent := Ray.setDirection_consistent _ _
  refine ⟨?_, ?_, by rw [e1]; rfl, by rw [e2]; rfl⟩
  · have hbox : (exampleMesh32.buildBVH exampleSort).m_vBbox ≠ [] := by
      rw [e1]; exact List.cons_ne_nil _ _
    obtain ⟨hN, hlen, hv, hcov⟩ :=
      Mesh.buildBVH_boxes_cover exampleSort exampleSort_perm exampleMesh32 rfl hbox
    have hq := Mesh.intersectRay_closest _ exampleRay32 hray (XFloat.fin 0) hcov _ 0
      (Nat.le_refl _) (List.length_pos.2 hbox) XFloat.pinf (Intersection.ofRay exampleRay32)
    by_contra hne
    have hfl := (hq.1 (by simpa using hne)).2.2 8 (by
      rw [Mesh.treeRange_zero, hlen]
      simp [exampleMesh32])
    rw [e1, Mesh.exampleMesh32_hit] at hfl
    cases hfl
  · rw [e2]
    have hne : (exampleMesh32With (exampleBoxes32 ++ exampleBoxes32)).m_vBbox.isEmpty = false :=
      rfl
    have hlen : (exampleMesh32With (exampleBoxes32 ++ exampleBoxes32)).m_vBbox.length = 14 := rfl
    have b2 : (exampleMesh32With (exampleBoxes32 ++ exampleBoxes32)).m_vBbox.getD 2 BBox.default
        = exampleBoxes32.getD 2 BBox.default := rfl
    have b3 : (exampleMesh32With (exampleBoxes32 ++ exampleBoxes32)).m_vBbox.getD 3 BBox.default
        = exampleBoxes32.getD 3 BBox.default := rfl
    have b9 : (exampleMesh32With (exampleBoxes32 ++ exampleBoxes32)).m_vBbox.getD 9 BBox.default
        = exampleBoxes32.getD 2 BBox.default := rfl
    have b10 : (exampleMesh32With (exampleBoxes32 ++ exampleBoxes32)).m_vBbox.getD 10
        BBox.default = exampleBoxes32.getD 3 BBox.default := rfl
    have n2 := Mesh.intersectRay_box_miss _ exampleRay32 (Intersection.ofRay exampleRay32)
      (XFloat.fin 0) XFloat.pinf 2 hne (by rw [b2]; exact Mesh.exampleBox32_two_miss)
    have n3 := Mesh.intersectRay_box_miss _ exampleRay32 (Intersection.ofRay exampleRay32)
      (XFloat.fin 0) XFloat.pinf 3 hne (by rw [b3]; exact Mesh.exampleBox32_three_miss)
    have n9 := Mesh.intersectRay_box_miss _ exampleRay32 (Intersection.ofRay exampleRay32)
      (XFloat.fin 0) XFloat.pinf 9 hne (by rw [b9]; exact Mesh.exampleBox32_two_miss)
    have n10 := Mesh.intersectRay_box_miss _ exampleRay32 (Intersection.ofRay exampleRay32)
      (XFloat.fin 0) XFloat.pinf 10 hne (by rw [b10]; exact Mesh.exampleBox32_three_miss)
    have n4 := Mesh.intersectRay_children_miss _ exampleRay32 (Intersection.ofRay exampleRay32)
      (XFloat.fin 0) XFloat.pinf 4 hne (by rw [hlen]; omega) n9 n10
    have n1 := Mesh.intersectRay_children_miss _ exampleRay32 (Intersection.ofRay exampleRay32)
      (XFloat.fin 0) XFloat.pinf 1 hne (by rw [hlen]; omega) n3 n4
    have n0 := Mesh.intersectRay_children_miss _ exampleRay32 (Intersection.ofRay exampleRay32)
      (XFloat.fin 0) XFloat.pinf 0 hne (by rw [hlen]; omega) n1 n2
    rw [n0]

theorem exampleSqrt_one : exampleSqrt 1 = 1 := by
  simp [exampleSqrt]

theorem exampleSqrt_four : exampleSqrt 4 = 2 := by
  have h : Nat.sqrt 4 = 2 := Nat.sqrt_eq 2
  have h4 : ((4 : ℚ)).num.toNat = 4 := rfl
  have hd : ((4 : ℚ)).den = 1 := rfl
  simp [exampleSqrt, h4, hd, h]

/-- Claim C17: at normal incidence (cosine of the incidence angle 1) and for a
purely real relative refractive index `n > 0`, `fresnelReflection` yields
`fTermP = fTermS = ((n-1)/(n+1))^2`, for every library whose complex square
root of `n*n` is `n`. -/
theorem fresnelReflection_normal_incidence (L : Libm) (n : ℚ) (hn : 0 < n)
    (hsqrt : L.csqrt ⟨n * n, 0⟩ = ⟨n, 0⟩) :
    fresnelReflection L ⟨n, 0⟩ 1 = (((n - 1) / (n + 1)) ^ 2, ((n - 1) / (n + 1)) ^ 2) := by
  have h1 : n + 1 ≠ 0 := by positivity
  have h2 : n * n + n ≠ 0 := by positivity
  have h3 : n ≠ 0 := hn.ne'
  have hz : (⟨n * n - 0 * 0 - (1 - 1 * 1), n * 0 + 0 * n⟩ : Complex) = ⟨n * n, 0⟩ := by
    congr 1 <;> ring
  simp only [fresnelReflection, Complex.mul, Complex.subReal, Complex.mulReal, Complex.sub,
    Complex.add, Complex.div, Complex.conj, Complex.realSub, Complex.realAdd, hz, hsqrt]
  refine Prod.ext ?_ ?_
  · simp only
    field_simp
    ring
  · simp only
    field_simp
    ring

theorem fresnelReflection_normal_incidence_witness :
    fresnelReflection exampleLibm ⟨2, 0⟩ 1 = (((2 - 1) / (2 + 1)) ^ 2, ((2 - 1) / (2 + 1)) ^ 2) :=
  fresnelReflection_normal_incidence exampleLibm 2 (by norm_num)
    (by
      have h : (2 : ℚ) * 2 = 4 := by norm_num
      simp only [exampleLibm, h, exampleSqrt_four])

namespace Camera

theorem sampleStep_spec (L : Libm) (c : Camera) (id : Nat) (st : RayLoop) (k : Nat)
    (hid : st.ray_local.m_uId = id) :
    ∃ r, (sampleStep L c id st k).primaryRays = st.primaryRays ++ [r] ∧ r.m_uId = id ∧
      r.getDataRGBUnpolarized = Except.ok (some st.heap.length) ∧
      (sampleStep L c id st k).heap = st.heap ++ [some ⟨1, 1, 1⟩] ∧
      (sampleStep L c id st k).ray_local.m_uId = id := by
  unfold sampleStep
  by_cases h0 : c.m_fLensRadius = 0
  · simp only [h0, if_true]
    exact ⟨_, rfl, hid, rfl, rfl, hid⟩
  · simp only [h0, if_false]
    exact ⟨_, rfl, rfl, rfl, rfl, rfl⟩

theorem sampleStep_batch (L : Libm) (c : Camera) (id : Nat) (heap0 : Heap) (ids : List Nat)
    (st : RayLoop) (k : Nat) (hb : Batch heap0 ids st) (hid : st.ray_local.m_uId = id) :
    Batch heap0 (ids ++ [id]) (sampleStep L c id st k) ∧
      (sampleStep L c id st k).ray_local.m_uId = id := by
  obtain ⟨r, h1, h2, h3, h4, h5⟩ := sampleStep_spec L c id st k hid
  obtain ⟨b1, b2, b3⟩ := hb
  refine ⟨⟨?_, ?_, ?_⟩, h5⟩
  · rw [h1, List.map_append, b1, List.map_singleton, h2]
  · rw [h1, List.map_append, b2, List.map_singleton, h3, b3]
    simp [List.range_succ]
  · rw [h4, b3]
    simp [List.replicate_succ']

theorem sampleLoop_batch (L : Libm) (c : Camera) (id : Nat) (heap0 : Heap) :
    ∀ (n : Nat) (ids : List Nat) (st : RayLoop), Batch heap0 ids st → st.ray_local.m_uId = id →
      Batch heap0 (ids ++ List.replicate n id) ((List.range n).foldl (sampleStep L c id) st) ∧
      ((List.range n).foldl (sampleStep L c id) st).ray_local.m_uId = id := by
  intro n
  induction n with
  | zero => intro ids st hb hid; simpa using ⟨hb, hid⟩
  | succ n ih =>
    intro ids st hb hid
    obtain ⟨h1, h2⟩ := ih ids st hb hid
    rw [List.range_succ, List.foldl_append]
    simp only [List.foldl_cons, List.foldl_nil]
    have := sampleStep_batch L c id heap0 _ _ n h1 h2
    rw [List.replicate_succ', ← List.append_assoc]
    exact this

theorem pixelStep_batch (L : Libm) (c : Camera) (origin dw dh : Vector3) (j : Nat)
    (heap0 : Heap) (ids : List Nat) (st : RayLoop) (i : Nat) (hb : Batch heap0 ids st) :
    Batch heap0 (ids ++ List.replicate c.m_iSamples.toNat (j * c.m_uWres + i))
      (pixelStep L c origin dw dh j st i) := by
  exact (sampleLoop_batch L c (j * c.m_uWres + i) heap0 c.m_iSamples.toNat ids
    ⟨st.primaryRays, st.heap, st.rng, Ray.mk3 (j * c.m_uWres + i) ⟨0, 0, 0⟩
        (((⟨0, 0, 0⟩ : Vector3).sub
          ((origin.add (Vector3.smul (i : ℚ) dw)).add (Vector3.smul (j : ℚ) dh))).normalize L)⟩
    hb rfl).1

/-- A loop whose passes append to the list of ids keeps the batch
predicate. -/
theorem foldl_batch {α : Type} (heap0 : Heap) (f : RayLoop → α → RayLoop) (g : α → List Nat)
    (hf : ∀ ids st a, Batch heap0 ids st → Batch heap0 (ids ++ g a) (f st a)) :
    ∀ (l : List α) (ids : List Nat) (st : RayLoop), Batch heap0 ids st →
      Batch heap0 (ids ++ l.flatMap g) (l.foldl f st) := by
  intro l
  induction l with
  | nil => intro ids st hb; simpa using hb
  | cons a t ih =>
    intro ids st hb
    rw [List.foldl_cons, List.flatMap_cons, ← List.append_assoc]
    exact ih _ _ (hf ids st a hb)

theorem rowStep_batch (L : Libm) (c : Camera) (origin dw dh : Vector3) (heap0 : Heap)
    (ids : List Nat) (st : RayLoop) (j : Nat) (hb : Batch heap0 ids st) :
    Batch heap0
      (ids ++ (List.range c.m_uWres).flatMap
        (fun i => List.replicate c.m_iSamples.toNat (j * c.m_uWres + i)))
      (rowStep L c origin dw dh st j) := by
  unfold rowStep
  exact foldl_batch heap0 _ _ (fun ids st i hb => pixelStep_batch L c origin dw dh j heap0 ids st i hb)
    _ ids st hb

theorem rows_batch (L : Libm) (c : Camera) (origin dw dh : Vector3) (heap : Heap) (rng : Nat) :
    Batch heap (batchIds c.m_uWres c.m_uHres c.m_iSamples.toNat)
      ((List.range c.m_uHres).foldl (rowStep L c origin dw dh)
        { primaryRays := [], heap := heap, rng := rng, ray_local := Ray.default }) := by
  have h0 : Batch heap [] { primaryRays := [], heap := heap, rng := rng, ray_local := Ray.default } :=
    ⟨rfl, rfl, by simp⟩
  have := foldl_batch heap (rowStep L c origin dw dh)
    (fun j => (List.range c.m_uWres).flatMap
      (fun i => List.replicate c.m_iSamples.toNat (j * c.m_uWres + i)))
    (fun ids st j hb => rowStep_batch L c origin dw dh heap ids st j hb)
    (List.range c.m_uHres) [] _ h0
  rw [List.nil_append] at this
  exact this

/-- The first call of `getPrimaryRays`: the rays have the ids of `batchIds`,
ray number `k` carries the pointer to the new spectrum number `k`, the new
spectra are `(1,1,1)`, and the camera is marked as done. -/
theorem getPrimaryRays_first (L : Libm) (c : Camera) (heap : Heap) (rng : Nat)
    (hdone : c.m_bDone = false) :
    (c.getPrimaryRays L heap rng).1.map (fun r => r.m_uId)
      = batchIds c.m_uWres c.m_uHres c.m_iSamples.toNat ∧
    (c.getPrimaryRays L heap rng).1.map (fun r => r.getDataRGBUnpolarized)
      = (List.range (batchIds c.m_uWres c.m_uHres c.m_iSamples.toNat).length).map
          (fun k => Except.ok (some (heap.length + k))) ∧
    (c.getPrimaryRays L heap rng).2.2.1
      = heap ++ List.replicate (batchIds c.m_uWres c.m_uHres c.m_iSamples.toNat).length
          (some ⟨1, 1, 1⟩) ∧
    (c.getPrimaryRays L heap rng).2.1 = { c with m_bDone := true } := by
  have h := rows_batch L c (⟨-(2 * (c.m_fFocalLength * c.m_fFocalDist
      / (c.m_fFocalLength + c.m_fFocalDist)) * L.tan (c.m_fYFieldOfView * M_PI / 180 / 2)
      * c.m_fAspectRatio) / 2, -(2 * (c.m_fFocalLength * c.m_fFocalDist
      / (c.m_fFocalLength + c.m_fFocalDist)) * L.tan (c.m_fYFieldOfView * M_PI / 180 / 2)) / 2,
      c.m_fFocalLength⟩)
    (Vector3.smul (1 / (((c.m_uWres + 2 ^ 32 - 1) % 2 ^ 32 : Nat) : ℚ))
      (Vector3.smul (2 * (c.m_fFocalLength * c.m_fFocalDist
      / (c.m_fFocalLength + c.m_fFocalDist)) * L.tan (c.m_fYFieldOfView * M_PI / 180 / 2)
      * c.m_fAspectRatio) (((⟨0, 0, -1⟩ : Vector3).cross ⟨0, 1, 0⟩).normalize L)))
    (Vector3.smul (1 / (((c.m_uHres + 2 ^ 32 - 1) % 2 ^ 32 : Nat) : ℚ))
      (Vector3.smul (2 * (c.m_fFocalLength * c.m_fFocalDist
      / (c.m_fFocalLength + c.m_fFocalDist)) * L.tan (c.m_fYFieldOfView * M_PI / 180 / 2))
      ⟨0, 1, 0⟩)) heap rng
  unfold getPrimaryRays
  simp only [hdone, Bool.false_eq_true, if_false]
  exact ⟨h.1, h.2.1, h.2.2, trivial⟩

theorem batchIds_eq (W H s : Nat) :
    batchIds W H s = (List.range (H * W)).flatMap (fun n => List.replicate s n) := by
  unfold batchIds
  induction H with
  | zero => simp
  | succ H ih =>
    rw [List.range_succ, List.flatMap_append, ih, Nat.succ_mul, List.range_add,
      List.flatMap_append]
    simp [List.flatMap_map, Nat.mul_comm]

theorem length_batchIds (W H s : Nat) : (batchIds W H s).length = W * H * s := by
  rw [batchIds_eq]
  have h : ∀ n : Nat, ((List.range n).flatMap (fun n => List.replicate s n)).length = n * s := by
    intro n
    induction n with
    | zero => simp
    | succ n ih =>
      rw [List.range_succ, List.flatMap_append, List.length_append, ih]
      simp [Nat.succ_mul]
  rw [h, Nat.mul_comm H W]

theorem mk5_buffer_length (pos dir up : Vector3) (wres hres : Nat)
    (h : 3 * wres * hres < 2 ^ 32) : (mk5 pos dir up wres hres).m_pfBuffer.length = 3 * wres * hres := by
  have h' : 3 * wres * hres < 4294967296 := h
  simp [mk5, Nat.mod_eq_of_lt h']

end Camera

/-- Claim C19, evaluated on its two scenarios: after `setLensRadius(0)`
followed by `setNumberOfSamples(k+2)`, and after `setNumberOfSamples(k+2)` on
a freshly constructed camera, the lens radius is 0, `getNumberOfSamples()` is
`k+2` and not 1, and `getPrimaryRays` generates `k+2` rays per pixel. -/
theorem Camera_pinhole_keeps_sample_count (L : Libm) (pos dir up : Vector3) (W H k : Nat)
    (heap : Heap) (rng : Nat) :
    (((Camera.mk5 pos dir up W H).setLensRadius 0).setNumberOfSamples
      ((k : Int) + 2)).getLensRadius = 0 ∧
    (((Camera.mk5 pos dir up W H).setLensRadius 0).setNumberOfSamples
      ((k : Int) + 2)).getNumberOfSamples = (k : Int) + 2 ∧
    ((((Camera.mk5 pos dir up W H).setLensRadius 0).setNumberOfSamples
      ((k : Int) + 2)).getPrimaryRays L heap rng).1.length = W * H * (k + 2) ∧
    ((Camera.mk5 pos dir up W H).setNumberOfSamples ((k : Int) + 2)).getLensRadius = 0 ∧
    ((Camera.mk5 pos dir up W H).setNumberOfSamples ((k : Int) + 2)).getNumberOfSamples
      = (k : Int) + 2 ∧
    (((Camera.mk5 pos dir up W H).setNumberOfSamples
      ((k : Int) + 2)).getPrimaryRays L heap rng).1.length = W * H * (k + 2) := by
  have hk : ((k : Int) + 2).toNat = k + 2 := by omega
  have hlen : ∀ c : Camera, c.m_bDone = false → c.m_uWres = W → c.m_uHres = H →
      c.m_iSamples = (k : Int) + 2 → (c.getPrimaryRays L heap rng).1.length = W * H * (k + 2) := by
    intro c hd hW hH hS
    rw [← List.length_map (c.getPrimaryRays L heap rng).1 (fun r => r.m_uId),
      (Camera.getPrimaryRays_first L c heap rng hd).1, Camera.length_batchIds, hW, hH, hS, hk]
  refine ⟨?_, rfl, hlen _ ?_ ?_ ?_ rfl, rfl, rfl, hlen _ rfl rfl rfl rfl⟩
  · simp [Camera.getLensRadius, Camera.setNumberOfSamples, Camera.setLensRadius]
  · simp [Camera.setNumberOfSamples, Camera.setLensRadius, Camera.mk5]
  · simp [Camera.setNumberOfSamples, Camera.setLensRadius, Camera.mk5]
  · simp [Camera.setNumberOfSamples, Camera.setLensRadius, Camera.mk5]

/-- The result of a normal return of `bounce` of the specular model: no ray
after the early return, else one ray made by `Ray::bounce` at the intersection
point with the payload pointer of the incident ray, the spectrum behind the
pointer being attenuated in place. -/
theorem MaterialModelSpecular.bounce_ok (L : Libm) (M : MaterialModelSpecular)
    (materials : List AssetMaterial) (incidentRay : Ray) (I : Intersection) (heap : Heap)
    (rays : List Ray) (heap' : Heap)
    (h : M.bounce L materials incidentRay I heap = Except.ok (rays, heap')) :
    (rays = [] ∧ heap' = heap ∧ M.m_applyFlippedNormalCorrection = false) ∨
    ∃ vPoint t vReflected a S S',
      I.getIntersectionPoint = some vPoint ∧ I.getSeparation = some t ∧
      incidentRay.getDataRGBUnpolarized = Except.ok (some a) ∧
      heap.read (some a) = Except.ok S ∧
      rays = [((incidentRay.bounce vPoint vReflected t).setDataRGBUnpolarized (some a)).copy] ∧
      heap' = heap.write a S' ∧
      ∃ pIor fTemperature fCos,
        attenuateAll L pIor fTemperature fCos (List.range S.size) S = Except.ok S' := by
  unfold MaterialModelSpecular.bounce at h
  simp only at h
  split at h
  · exact absurd h (by simp)
  · rename_i hinc
    left
    simp only [Except.ok.injEq, Prod.mk.injEq] at h
    refine ⟨h.1.symm, h.2.symm, ?_⟩
    unfold MaterialModelSpecular.incidence at hinc
    cases hM : M.m_applyFlippedNormalCorrection
    · rfl
    · exfalso
      simp only [hM] at hinc
      repeat' (first | (simp at hinc; done) | split at hinc)
  · split at h
    · rename_i vPoint t hP ht
      split at h
      · exact absurd h (by simp)
      · split at h
        · exact absurd h (by simp)
        · split at h
          · exact absurd h (by simp)
          · rename_i pSpectrum hdata
            split at h
            · rename_i _ S a pIor hior hread
              split at h
              · exact absurd h (by simp)
              · rename_i S' hS'
                right
                simp only [Except.ok.injEq, Prod.mk.injEq] at h
                exact ⟨vPoint, t, _, a, S, S', hP, ht, hdata, hread, h.1.symm, h.2.symm, _, _, _, hS'⟩
            · exact absurd h (by simp)
    · exact absurd h (by simp)


theorem exampleSqrt_nine_quarters : exampleSqrt (9 / 4) = 3 / 2 := by
  have h9 : Nat.sqrt 9 = 3 := Nat.sqrt_eq 3
  have h4 : Nat.sqrt 4 = 2 := Nat.sqrt_eq 2
  have hn : ((9 / 4 : ℚ)).num.toNat = 9 := by
    have : ((9 / 4 : ℚ)).num = 9 := by norm_num
    rw [this]; rfl
  have hd : ((9 / 4 : ℚ)).den = 4 := by norm_num
  simp only [exampleSqrt, hn, hd, h9, h4]
  norm_num

theorem exampleLibm_normalize_down :
    (⟨0, 0, -1⟩ : Vector3).normalize exampleLibm = ⟨0, 0, -1⟩ := by
  simp [Vector3.normalize, Vector3.length, Vector3.length2, exampleLibm, exampleSqrt_one]

theorem exampleLibm_normalize_up :
    (⟨0, 0, 1⟩ : Vector3).normalize exampleLibm = ⟨0, 0, 1⟩ := by
  simp [Vector3.normalize, Vector3.length, Vector3.length2, exampleLibm, exampleSqrt_one]

theorem exampleIor_getIor (wl : ℚ) (h1 : 400 / 1000000000 ≤ wl) (h2 : wl ≤ 700 / 1000000000) :
    exampleIor.getIor exampleLibm 300 wl = Except.ok (300, 3/2, 0) := by
  have hs : ∀ I : Interpolation, I.search wl 0 1 = (0, 1) := by
    intro I
    rw [Interpolation.search]
    simp
  have hN : (⟨[(400 / 1000000000, 3/2), (700 / 1000000000, 3/2)],
      e_interpolationType.INTERPOLATION_LINEAR⟩ : Interpolation).get wl = Except.ok (3/2) := by
    have h1' : ¬ wl < 400 / 1000000000 := not_lt.2 h1
    have h2' : ¬ wl > 700 / 1000000000 := not_lt.2 h2
    simp [Interpolation.get, Interpolation.xMin, Interpolation.xMax, Interpolation._get,
      hs, Interpolation.point, h1', h2']
  have hK : (⟨[(400 / 1000000000, 0), (700 / 1000000000, 0)],
      e_interpolationType.INTERPOLATION_LINEAR⟩ : Interpolation).get wl = Except.ok 0 := by
    have h1' : ¬ wl < 400 / 1000000000 := not_lt.2 h1
    have h2' : ¬ wl > 700 / 1000000000 := not_lt.2 h2
    simp [Interpolation.get, Interpolation.xMin, Interpolation.xMax, Interpolation._get,
      hs, Interpolation.point, h1', h2']
  simp only [AssetMaterialIor.getIor, AssetMaterialIor.find_closest, exampleIor]
  simp [hN, hK, h1, h2]

theorem exampleLibm_fresnel :
    fresnelReflection exampleLibm ⟨3/2, 0⟩ 1 = (1/25, 1/25) := by
  have hz : (⟨(3/2 : ℚ) * (3/2) - 0 * 0 - (1 - 1 * 1), (3/2 : ℚ) * 0 + 0 * (3/2)⟩ : Complex)
      = ⟨9/4, 0⟩ := by
    congr 1 <;> norm_num
  simp only [fresnelReflection, Complex.mul, Complex.subReal, Complex.mulReal, Complex.sub,
    Complex.add, Complex.div, Complex.conj, Complex.realSub, Complex.realAdd, hz, exampleLibm,
    exampleSqrt_nine_quarters]
  norm_num

theorem exampleMaterial_attenuate (S : SpectrumRGB) :
    MaterialModelSpecular.attenuateAll exampleLibm exampleIor 300 1 (List.range S.size) S
      = Except.ok ⟨S.m_pfRGB0 / 25, S.m_pfRGB1 / 25, S.m_pfRGB2 / 25⟩ := by
  have h0 := exampleIor_getIor (650 / 1000000000) (by norm_num) (by norm_num)
  have h1 := exampleIor_getIor (510 / 1000000000) (by norm_num) (by norm_num)
  have h2 := exampleIor_getIor (440 / 1000000000) (by norm_num) (by norm_num)
  have hr : List.range S.size = [0, 1, 2] := rfl
  rw [hr]
  simp only [MaterialModelSpecular.attenuateAll, MaterialModelSpecular.attenuate,
    pfRGBWavelengths, List.getD_cons_zero, List.getD_cons_succ, h0, h1, h2,
    exampleLibm_fresnel, SpectrumRGB.value, SpectrumRGB.setValue]
  congr 2 <;> ring



theorem Heap.read_write (heap : Heap) (a : Nat) (S S' : SpectrumRGB)
    (h : heap.read (some a) = Except.ok S) : (heap.write a S').read (some a) = Except.ok S' := by
  have hlt : a < heap.length := by
    by_contra hge
    have : heap[a]? = none := List.getElem?_eq_none (by omega)
    simp [Heap.read, List.get?_eq_getElem?, this] at h
  simp [Heap.read, Heap.write, List.get?_eq_getElem?, hlt]

/-- Evaluation of `bounce` with the example library and material for a ray
along `-z` and a record of a hit on a copy of the example triangle (no vertex
normals, material 0, transformation with the identity as inverse matrix): the
ray is reflected to `+z` and every value of its spectrum is divided by 25. -/
theorem exampleBounce (I : Intersection) (mesh : Mesh) (ray : Ray) (heap : Heap) (a : Nat)
    (S : SpectrumRGB) (t u v : ℚ) (hmesh : I.m_pMesh = some mesh)
    (hv : mesh.getVerticesOfTriangle I.m_uTriangleIndex = (⟨0, 0, 0⟩, ⟨1, 0, 0⟩, ⟨0, 1, 0⟩))
    (hn : mesh.m_NormalBuffer = []) (hmat : mesh.m_pMaterial = some 0)
    (ht : I.m_t = some t) (hu : I.m_u = some u) (hv' : I.m_v = some v)
    (hT : I.m_transformation.m_mInv = Matrix3x3.Identity)
    (hdir : ray.m_vDirection = ⟨0, 0, -1⟩)
    (hdata : ray.getDataRGBUnpolarized = Except.ok (some a))
    (hread : heap.read (some a) = Except.ok S) :
    MaterialModelSpecular.default.bounce exampleLibm [exampleMaterial] ray I heap
      = Except.ok
          ([((ray.bounce (I.m_vRayOrigin.add (Vector3.smul t I.m_vRayDirection)) ⟨0, 0, 1⟩
              t).setDataRGBUnpolarized (some a)).copy],
            heap.write a ⟨S.m_pfRGB0 / 25, S.m_pfRGB1 / 25, S.m_pfRGB2 / 25⟩) := by
  have hflat : mesh.getFlatNormal exampleLibm I.m_uTriangleIndex = ⟨0, 0, 1⟩ := by
    simp only [Mesh.getFlatNormal, hv]
    have : ((⟨1, 0, 0⟩ : Vector3).sub ⟨0, 0, 0⟩).cross ((⟨0, 1, 0⟩ : Vector3).sub ⟨0, 0, 0⟩)
        = ⟨0, 0, 1⟩ := by
      simp [Vector3.sub, Vector3.cross]
    rw [this, exampleLibm_normalize_up]
  have hworld : ∀ w : Vector3, w = ⟨0, 0, 1⟩ →
      I.m_transformation.transformNormalToWorld exampleLibm w = ⟨0, 0, 1⟩ := by
    intro w hw
    subst hw
    simp only [Transformation.transformNormalToWorld, hT]
    have : Matrix3x3.Identity.applyTransposed ⟨0, 0, 1⟩ = (⟨0, 0, 1⟩ : Vector3) := by
      simp [Matrix3x3.applyTransposed, Matrix3x3.Identity]
    rw [this, exampleLibm_normalize_up]
  have hnormal : I.getNormal exampleLibm = Except.ok ⟨0, 0, 1⟩ := by
    simp only [Intersection.getNormal, hmesh, hu, hv', Mesh.getNormal, Mesh.getNormalsOfTriangle,
      hn, List.isEmpty_nil, if_true]
    rw [hworld _ hflat]
  have hinc : MaterialModelSpecular.default.incidence exampleLibm ⟨0, 0, -1⟩ I
      = Except.ok (some (⟨0, 0, 1⟩, 1)) := by
    simp only [MaterialModelSpecular.incidence, hnormal]
    norm_num [Vector3.dot]
  have hrefl : (((⟨0, 0, -1⟩ : Vector3).sub
      (Vector3.smul (2 * (⟨0, 0, 1⟩ : Vector3).dot ⟨0, 0, -1⟩) ⟨0, 0, 1⟩)).normalize exampleLibm)
      = ⟨0, 0, 1⟩ := by
    have : ((⟨0, 0, -1⟩ : Vector3).sub
        (Vector3.smul (2 * (⟨0, 0, 1⟩ : Vector3).dot ⟨0, 0, -1⟩) ⟨0, 0, 1⟩)) = ⟨0, 0, 1⟩ := by
      norm_num [Vector3.sub, Vector3.smul, Vector3.dot]
    rw [this, exampleLibm_normalize_up]
  have hmaterial : I.getMaterial = Except.ok (some 0) := by
    simp only [Intersection.getMaterial, hmesh, hmat]
  simp only [MaterialModelSpecular.bounce, hdir, exampleLibm_normalize_down, hinc, hrefl,
    Intersection.getIntersectionPoint, Intersection.getSeparation, ht, Option.map_some',
    hmaterial, hdata, hread]
  simp only [Option.some_bind, List.get?_cons_zero, exampleMaterial, exampleMaterial_attenuate]

/-- Claim C16: whenever `MaterialModelSpecular::bounce` returns rays, it is
exactly one ray; its origin is the intersection point, its id the id of the
incident ray, its number of bounces one more, its optical path length raised
by the separation `t` of the hit, and its payload pointer the pointer of the
incident ray, behind which the heap now holds the attenuated spectrum. -/
theorem MaterialModelSpecular_bounce_one_ray (L : Libm) (M : MaterialModelSpecular)
    (materials : List AssetMaterial) (incidentRay : Ray) (I : Intersection) (heap : Heap)
    (rays : List Ray) (heap' : Heap)
    (h : M.bounce L materials incidentRay I heap = Except.ok (rays, heap')) (hne : rays ≠ []) :
    ∃ (r : Ray) (vPoint : Vector3) (t : ℚ) (a : Nat) (S S' : SpectrumRGB),
      rays = [r] ∧
      I.getIntersectionPoint = some vPoint ∧ r.m_vOrigin = vPoint ∧
      r.m_uId = incidentRay.m_uId ∧
      r.m_iBounces = incidentRay.m_iBounces + 1 ∧
      I.getSeparation = some t ∧
      r.m_fOpticalPathLength = incidentRay.m_fOpticalPathLength + t ∧
      incidentRay.getDataRGBUnpolarized = Except.ok (some a) ∧
      r.getDataRGBUnpolarized = Except.ok (some a) ∧
      heap.read (some a) = Except.ok S ∧
      heap'.read (some a) = Except.ok S' ∧
      ∃ pIor fTemperature fCos,
        MaterialModelSpecular.attenuateAll L pIor fTemperature fCos (List.range S.size) S
          = Except.ok S' := by
  rcases MaterialModelSpecular.bounce_ok L M materials incidentRay I heap rays heap' h with
    ⟨h0, _, _⟩ | ⟨vPoint, t, vReflected, a, S, S', hP, ht, hdata, hread, hrays, hheap, hatt⟩
  · exact absurd h0 hne
  · refine ⟨_, vPoint, t, a, S, S', hrays, hP, rfl, rfl, rfl, ht, rfl, hdata, rfl, hread, ?_, hatt⟩
    rw [hheap]
    exact Heap.read_write heap a S S' hread

theorem exampleHit_bounce :
    MaterialModelSpecular.default.bounce exampleLibm [exampleMaterial] exampleRayRGB exampleHit
        [some ⟨1, 1, 1⟩]
      = Except.ok
          ([((exampleRayRGB.bounce
              (exampleHit.m_vRayOrigin.add (Vector3.smul 1 exampleHit.m_vRayDirection)) ⟨0, 0, 1⟩
              1).setDataRGBUnpolarized (some 0)).copy],
            Heap.write [some ⟨1, 1, 1⟩] 0 ⟨1 / 25, 1 / 25, 1 / 25⟩) :=
  exampleBounce exampleHit exampleGlass8 exampleRayRGB [some ⟨1, 1, 1⟩] 0 ⟨1, 1, 1⟩ 1 (1/4) (1/4)
    rfl (by simp [Mesh.getVerticesOfTriangle, Mesh.vertex, exampleHit, Intersection.setMesh,
      exampleGlass8, exampleMesh8]) rfl rfl rfl rfl rfl rfl rfl rfl rfl

theorem MaterialModelSpecular_bounce_one_ray_witness :
    ∃ (r : Ray) (vPoint : Vector3) (t : ℚ) (a : Nat) (S S' : SpectrumRGB),
      [((exampleRayRGB.bounce
          (exampleHit.m_vRayOrigin.add (Vector3.smul 1 exampleHit.m_vRayDirection)) ⟨0, 0, 1⟩
          1).setDataRGBUnpolarized (some 0)).copy] = [r] ∧
      exampleHit.getIntersectionPoint = some vPoint ∧ r.m_vOrigin = vPoint ∧
      r.m_uId = exampleRayRGB.m_uId ∧
      r.m_iBounces = exampleRayRGB.m_iBounces + 1 ∧
      exampleHit.getSeparation = some t ∧
      r.m_fOpticalPathLength = exampleRayRGB.m_fOpticalPathLength + t ∧
      exampleRayRGB.getDataRGBUnpolarized = Except.ok (some a) ∧
      r.getDataRGBUnpolarized = Except.ok (some a) ∧
      Heap.read [some ⟨1, 1, 1⟩] (some a) = Except.ok S ∧
      (Heap.write [some ⟨1, 1, 1⟩] 0 ⟨1 / 25, 1 / 25, 1 / 25⟩).read (some a) = Except.ok S' ∧
      ∃ pIor fTemperature fCos,
        MaterialModelSpecular.attenuateAll exampleLibm pIor fTemperature fCos
          (List.range S.size) S = Except.ok S' :=
  MaterialModelSpecular_bounce_one_ray exampleLibm MaterialModelSpecular.default
    [exampleMaterial] exampleRayRGB exampleHit [some ⟨1, 1, 1⟩] _ _ exampleHit_bounce (by simp)

theorem AssetInstance.intersectRay_total (a : AssetInstance) (rank : Nat → Nat) (fuel : Nat)
    (hwf : a.m_pAssetGeometry.WellFormed rank fuel) (ray : Ray) (I : Intersection)
    (tmin tmax : XFloat) : ∃ r, a.intersectRay fuel ray I tmin tmax = some r := by
  obtain ⟨r, hr, _⟩ := AssetGeometry.intersectRay_spec a.m_pAssetGeometry rank fuel hwf
    (a.m_transformation.transformRayToLocal ray) I tmin tmax
  simp only [AssetInstance.intersectRay, hr]
  split_ifs <;> exact ⟨_, rfl⟩

namespace Renderer

theorem radiance_plain {σ : Type} (S : Sensor σ) (w : World σ) (ray : Ray) (I : Intersection)
    (p : Option Nat) (Sp : SpectrumRGB) (hS : S.callSensor w.sensor = false)
    (hdata : ray.getDataRGBUnpolarized = Except.ok p) (hread : w.heap.read p = Except.ok Sp) :
    radiance S w ray I
      = Except.ok (w, ray, I, some ((Sp.m_pfRGB0 + Sp.m_pfRGB1 + Sp.m_pfRGB2) / 3)) := by
  simp [radiance, hS, hdata, hread]

/-- A ray for which `bounce` is not called: `trace` ends in its second branch
when a background is given and the ray caster mode is off, else at once. -/
theorem trace_stop {σ : Type} (R : Renderer) (S : Sensor σ) (sceneFuel fuel : Nat)
    (w : World σ) (ray : Ray) (hit : Bool) (I : Intersection) (p : Option Nat)
    (Sp : SpectrumRGB)
    (hq : R.m_cpAssetInstance.intersectRay sceneFuel ray (Intersection.ofRay ray) (XFloat.fin 0)
      XFloat.pinf = some (hit, I))
    (hS : S.callSensor w.sensor = false)
    (hdata : ray.getDataRGBUnpolarized = Except.ok p) (hread : w.heap.read p = Except.ok Sp)
    (hstop : ¬ (hit = true ∧ ray.m_iBounces < R.m_thbounces ∧
      (Sp.m_pfRGB0 + Sp.m_pfRGB1 + Sp.m_pfRGB2) / 3 > R.m_minradiance)) :
    R.trace S sceneFuel (fuel + 1) w ray
      = match R.m_pBackground with
        | some b => if R.m_raytracer < 1 then some (backgroundBranch S b w ray)
                    else some (w, ray, none)
        | none => some (w, ray, none) := by
  simp only [trace, hq, radiance_plain S w ray I p Sp hS hdata hread, hstop, if_false]

/-- A ray for which `bounce` is not called, in ray caster mode: `trace`
returns at once. -/
theorem trace_stop_raycast {σ : Type} (R : Renderer) (S : Sensor σ) (sceneFuel fuel : Nat)
    (w : World σ) (ray : Ray) (hit : Bool) (I : Intersection) (p : Option Nat)
    (Sp : SpectrumRGB)
    (hq : R.m_cpAssetInstance.intersectRay sceneFuel ray (Intersection.ofRay ray) (XFloat.fin 0)
      XFloat.pinf = some (hit, I))
    (hS : S.callSensor w.sensor = false)
    (hdata : ray.getDataRGBUnpolarized = Except.ok p) (hread : w.heap.read p = Except.ok Sp)
    (hstop : ¬ (hit = true ∧ ray.m_iBounces < R.m_thbounces ∧
      (Sp.m_pfRGB0 + Sp.m_pfRGB1 + Sp.m_pfRGB2) / 3 > R.m_minradiance))
    (hmode : 1 ≤ R.m_raytracer) :
    R.trace S sceneFuel (fuel + 1) w ray = some (w, ray, none) := by
  rw [trace_stop R S sceneFuel fuel w ray hit I p Sp hq hS hdata hread hstop]
  have hm : ¬ R.m_raytracer < 1 := by omega
  cases R.m_pBackground with
  | none => rfl
  | some b => simp only [hm, if_false]

end Renderer

/-- Claim C12, evaluated: with a sensor whose `callSensor()` is false, a
background `b` and the ray caster mode off, a ray that hits geometry but has
reached the maximum number of bounces, or whose mean radiance is not above the
cutoff, is not dropped: `trace` calls `Background::hit` for it and then
`Sensor::reportPrimaryRay` with the ray that the background returns (a fault
of the background ends `trace`). -/
theorem Renderer_trace_stopped_hit_background {σ : Type} (R : Renderer) (S : Sensor σ)
    (sceneFuel fuel : Nat) (w : World σ) (ray : Ray) (b : Background) (p : Option Nat)
    (Sp : SpectrumRGB) (hS : S.callSensor w.sensor = false)
    (hhit : ∃ I, R.m_cpAssetInstance.intersectRay sceneFuel ray (Intersection.ofRay ray)
      (XFloat.fin 0) XFloat.pinf = some (true, I))
    (hdata : ray.getDataRGBUnpolarized = Except.ok p) (hread : w.heap.read p = Except.ok Sp)
    (hstop : R.m_thbounces ≤ ray.m_iBounces ∨
      (Sp.m_pfRGB0 + Sp.m_pfRGB1 + Sp.m_pfRGB2) / 3 ≤ R.m_minradiance)
    (hbg : R.m_pBackground = some b) (hmode : R.m_raytracer < 1) :
    ∃ res, R.trace S sceneFuel (fuel + 1) w ray = some res ∧
      (∃ rest, res.1.log = w.log ++ Call.backgroundHit ray :: rest) ∧
      (∀ ray' heap', b.hit ray w.heap = Except.ok (ray', heap') →
        res.1.log = w.log ++ [Call.backgroundHit ray, Call.reportPrimaryRay ray']) ∧
      (∀ e, b.hit ray w.heap = Except.error e → res.2.2 = some e) := by
  obtain ⟨I, hq⟩ := hhit
  have hno : ¬ (true = true ∧ ray.m_iBounces < R.m_thbounces ∧
      (Sp.m_pfRGB0 + Sp.m_pfRGB1 + Sp.m_pfRGB2) / 3 > R.m_minradiance) := by
    rintro ⟨_, h1, h2⟩
    rcases hstop with h | h
    · omega
    · exact absurd h2 (not_lt.2 h)
  refine ⟨Renderer.backgroundBranch S b w ray, ?_, ?_, ?_, ?_⟩
  · rw [Renderer.trace_stop R S sceneFuel fuel w ray true I p Sp hq hS hdata hread hno, hbg]
    simp [hmode]
  · unfold Renderer.backgroundBranch
    cases hb : b.hit ray w.heap with
    | error e => exact ⟨[], rfl⟩
    | ok rh =>
      obtain ⟨ray', heap'⟩ := rh
      cases hr : S.reportPrimaryRay w.sensor ray' heap' with
      | error e => exact ⟨[Call.reportPrimaryRay ray'], by simp [hr]⟩
      | ok x => exact ⟨[Call.reportPrimaryRay ray'], by simp [hr]⟩
  · intro ray' heap' hb
    unfold Renderer.backgroundBranch
    simp only [hb]
    cases hr : S.reportPrimaryRay w.sensor ray' heap' with
    | error e => simp
    | ok x => simp
  · intro e hb
    unfold Renderer.backgroundBranch
    simp only [hb]

namespace Mesh

theorem buildBVH_keeps
    (sort_r : List IndexTriple → (IndexTriple → IndexTriple → Int) → List IndexTriple)
    (m0 : Mesh) :
    (m0.buildBVH sort_r).m_pMaterial = m0.m_pMaterial ∧
      (m0.buildBVH sort_r).m_NormalBuffer = m0.m_NormalBuffer := by
  rw [buildBVH_eq_foldl]
  generalize (1 <<< bvhLevels (m0.m_IndexBuffer.length / 3)) - 1 = K
  induction K with
  | zero => exact ⟨rfl, rfl⟩
  | succ K ih =>
    rw [List.range_succ, List.foldl_append]
    exact ih

theorem eight_boxes (m0 : Mesh) (h8 : m0.IsEight) :
    (m0.buildBVH exampleSort).m_vBbox ≠ [] := by
  obtain ⟨h0, hi, _⟩ := h8
  have hl : m0.m_IndexBuffer.length = 24 := by rw [hi]; rfl
  have h := Mesh.buildBVH_bbox_length exampleSort exampleSort_perm m0 h0 (by rw [hl]; decide)
  have e : (1 <<< Mesh.bvhLevels (m0.m_IndexBuffer.length / 3)) - 1 = 1 := by
    rw [hl]
    simp [Mesh.bvhLevels, Nat.log2]
  rw [e] at h
  intro hnil
  rw [hnil] at h
  simp at h

theorem eight_vertices (m0 : Mesh) (h8 : m0.IsEight) (p : Nat) (hp : p < 8) :
    (m0.buildBVH exampleSort).getVerticesOfTriangle p = (⟨0, 0, 0⟩, ⟨1, 0, 0⟩, ⟨0, 1, 0⟩) := by
  have hb := eight_boxes m0 h8
  obtain ⟨h0, hi, hvb⟩ := h8
  have hl : m0.m_IndexBuffer.length = 24 := by rw [hi]; rfl
  obtain ⟨hN, hlen, hv, _⟩ := buildBVH_boxes_cover exampleSort exampleSort_perm m0 h0 hb
  obtain ⟨q, hq, heq⟩ := buildBVH_loop_triples exampleSort exampleSort_perm m0 hN
    ((1 <<< bvhLevels (m0.m_IndexBuffer.length / 3)) - 1) p
  rw [← buildBVH_eq_foldl] at heq
  have hq8 : q < 8 := by
    have := hq (by rw [hl]; exact hp)
    rw [hl] at this
    exact this
  have h8' : m0.indexTriple q = (0, 1, 2) := by
    simp only [indexTriple, hi]
    interval_cases q <;> rfl
  rw [h8'] at heq
  have h1 : (m0.buildBVH exampleSort).m_IndexBuffer.getD (3 * p + 0) 0 = 0 :=
    congrArg (fun t => t.1) heq
  have h2 : (m0.buildBVH exampleSort).m_IndexBuffer.getD (3 * p + 1) 0 = 1 :=
    congrArg (fun t => t.2.1) heq
  have h3 : (m0.buildBVH exampleSort).m_IndexBuffer.getD (3 * p + 2) 0 = 2 :=
    congrArg (fun t => t.2.2) heq
  simp only [getVerticesOfTriangle, vertex, h1, h2, h3, hv, hvb]
  simp [exampleMesh8]

/-- The query on a built mesh of eight copies of the example triangle: no hit
when the example triangle rejects the ray, else a hit on one of the copies
with the values of `intersectRayTriangle`. -/
theorem eight_query (m0 : Mesh) (h8 : m0.IsEight) (ray : Ray) (hray : ray.Consistent)
    (I : Intersection) (tmin tmax : XFloat) :
    (intersectRayTriangle ⟨0, 0, 0⟩ ⟨1, 0, 0⟩ ⟨0, 1, 0⟩ ray.m_vOrigin ray.m_vDirection
        tmin tmax true = none →
      (m0.buildBVH exampleSort).intersectRay ray I tmin tmax 0 = (false, tmax, I)) ∧
    (∀ hit, intersectRayTriangle ⟨0, 0, 0⟩ ⟨1, 0, 0⟩ ⟨0, 1, 0⟩ ray.m_vOrigin ray.m_vDirection
        tmin tmax true = some hit →
      ∃ p, p < 8 ∧ (m0.buildBVH exampleSort).intersectRay ray I tmin tmax 0
        = (true, XFloat.fin hit.t, I.setMesh (m0.buildBVH exampleSort) p hit.t hit.u hit.v)) := by
  have hb := eight_boxes m0 h8
  have hl : m0.m_IndexBuffer.length = 24 := by rw [h8.2.1]; rfl
  obtain ⟨hN, hlen, hv, hcov⟩ :=
    buildBVH_boxes_cover exampleSort exampleSort_perm m0 h8.1 hb
  have hpos : 0 < (m0.buildBVH exampleSort).m_vBbox.length := List.length_pos.2 hb
  have hq := intersectRay_closest _ ray hray tmin hcov _ 0 (Nat.le_refl _) hpos tmax I
  rw [treeRange_zero, hlen, hl] at hq
  have htri : ∀ p, p ≤ 7 → (m0.buildBVH exampleSort).triangleHit ray p tmin tmax
      = intersectRayTriangle ⟨0, 0, 0⟩ ⟨1, 0, 0⟩ ⟨0, 1, 0⟩ ray.m_vOrigin ray.m_vDirection
        tmin tmax true := by
    intro p hp
    simp only [triangleHit, eight_vertices m0 h8 p (by omega)]
  obtain ⟨hf, ht⟩ := hq
  generalize (m0.buildBVH exampleSort).intersectRay ray I tmin tmax 0 = res at hf ht
  obtain ⟨flag, tm, rec⟩ := res
  constructor
  · intro hnone
    cases flag with
    | false =>
      obtain ⟨e1, e2, _⟩ := hf rfl
      simp only at e1 e2
      rw [e1, e2]
    | true =>
      obtain ⟨p, h, hS, hacc, _⟩ := ht rfl
      rw [htri p hS.2, hnone] at hacc
      cases hacc
  · intro hit hsome
    cases flag with
    | false =>
      have := (hf rfl).2.2 0 ⟨Nat.le_refl _, by omega⟩
      rw [htri 0 (by omega), hsome] at this
      cases this
    | true =>
      obtain ⟨p, h, hS, hacc, e1, e2, _⟩ := ht rfl
      rw [htri p hS.2, hsome] at hacc
      cases hacc
      simp only at e1 e2
      exact ⟨p, by omega, by rw [e1, e2]⟩

end Mesh

/-- The query on the instance of a built mesh of eight copies of the example
triangle, in terms of `intersectRayTriangle` for the ray in the coordinates
of the mesh. -/
theorem eightInstance_query (m0 : Mesh) (h8 : m0.IsEight) (ray : Ray) (I : Intersection) :
    (intersectRayTriangle ⟨0, 0, 0⟩ ⟨1, 0, 0⟩ ⟨0, 1, 0⟩
        ((ray.m_vOrigin.sub ⟨0, 0, 1⟩).sub ⟨1, 0, 0⟩) ray.m_vDirection
        (XFloat.fin 0) XFloat.pinf true = none →
      (eightInstance m0).intersectRay 2 ray I (XFloat.fin 0) XFloat.pinf = some (false, I)) ∧
    (∀ hit, intersectRayTriangle ⟨0, 0, 0⟩ ⟨1, 0, 0⟩ ⟨0, 1, 0⟩
        ((ray.m_vOrigin.sub ⟨0, 0, 1⟩).sub ⟨1, 0, 0⟩) ray.m_vDirection
        (XFloat.fin 0) XFloat.pinf true = some hit →
      ∃ p T, p < 8 ∧ T.m_mInv = Matrix3x3.Identity ∧
        (eightInstance m0).intersectRay 2 ray I (XFloat.fin 0) XFloat.pinf
          = some (true, (((I.setMesh (m0.buildBVH exampleSort) p hit.t hit.u hit.v).setNodeNumber
              1).setTransformation T))) := by
  have h := AssetGeometry.sceneIntersectRay_twoLevel (Transformation.Translation ⟨1, 0, 0⟩)
    Transformation.Identity (m0.buildBVH exampleSort) 0
    ((Transformation.Translation ⟨0, 0, 1⟩).transformRayToLocal ray) I (XFloat.fin 0) XFloat.pinf
  have hcons : (Transformation.Identity.transformRayToLocal
      ((Transformation.Translation ⟨1, 0, 0⟩).transformRayToLocal
        ((Transformation.Translation ⟨0, 0, 1⟩).transformRayToLocal ray))).Consistent :=
    Ray.setDirection_consistent _ _
  have ho : (Transformation.Identity.transformRayToLocal
      ((Transformation.Translation ⟨1, 0, 0⟩).transformRayToLocal
        ((Transformation.Translation ⟨0, 0, 1⟩).transformRayToLocal ray))).m_vOrigin
      = (ray.m_vOrigin.sub ⟨0, 0, 1⟩).sub ⟨1, 0, 0⟩ := by
    simp [Transformation.transformRayToLocal_eq, Transformation.transformPointToLocal,
      Transformation.Identity, Transformation.Translation, Matrix3x3.Identity, Matrix3x3.apply,
      Vector3.sub]
  have hd : (Transformation.Identity.transformRayToLocal
      ((Transformation.Translation ⟨1, 0, 0⟩).transformRayToLocal
        ((Transformation.Translation ⟨0, 0, 1⟩).transformRayToLocal ray))).m_vDirection
      = ray.m_vDirection := by
    simp [Transformation.transformRayToLocal_eq, Transformation.transformVectorToLocal,
      Transformation.Identity, Transformation.Translation, Matrix3x3.Identity, Matrix3x3.apply]
  obtain ⟨q1, q2⟩ := Mesh.eight_query m0 h8 _ hcons I (XFloat.fin 0) XFloat.pinf
  rw [ho, hd] at q1 q2
  constructor
  · intro hnone
    rw [q1 hnone] at h
    simp only [Bool.false_eq_true, if_false] at h
    simp only [AssetInstance.intersectRay, eightInstance, h, Bool.false_eq_true, if_false]
  · intro hit hsome
    obtain ⟨p, hp, hres⟩ := q2 hit hsome
    rw [hres] at h
    simp only [if_true] at h
    refine ⟨p, (Transformation.Translation ⟨0, 0, 1⟩).apply
      ((Transformation.Translation ⟨1, 0, 0⟩).apply Transformation.Identity), hp, ?_, ?_⟩
    · simp [Transformation.apply, Transformation.Translation, Transformation.Identity,
        Matrix3x3.matmult, Matrix3x3.Identity]
    · simp only [AssetInstance.intersectRay, eightInstance, h, if_true]
      rfl

theorem exampleHitRay_query (m0 : Mesh) (h8 : m0.IsEight) (I : Intersection) :
    ∃ p T, p < 8 ∧ T.m_mInv = Matrix3x3.Identity ∧
      (eightInstance m0).intersectRay 2 exampleHitRay I (XFloat.fin 0) XFloat.pinf
        = some (true, (((I.setMesh (m0.buildBVH exampleSort) p 1 (1/4) (1/4)).setNodeNumber
            1).setTransformation T)) := by
  have h := (eightInstance_query m0 h8 exampleHitRay I).2 ⟨1, 1, 1/4, 1/4⟩
    (by norm_num [intersectRayTriangle, exampleHitRay, Ray.setDataRGBUnpolarized, Ray.mk3,
      Ray.setOrigin, Ray.setDirection, Ray.default, Vector3.sub, Vector3.cross, Vector3.dot,
      XFloat.lt])
  exact h

theorem exampleMissRay_query (m0 : Mesh) (h8 : m0.IsEight) (I : Intersection) :
    (eightInstance m0).intersectRay 2 exampleMissRay I (XFloat.fin 0) XFloat.pinf
      = some (false, I) :=
  (eightInstance_query m0 h8 exampleMissRay I).1
    (by norm_num [intersectRayTriangle, exampleMissRay, Ray.setDataRGBUnpolarized, Ray.mk3,
      Ray.setOrigin, Ray.setDirection, Ray.default, Vector3.sub, Vector3.cross, Vector3.dot,
      XFloat.lt])

theorem exampleGlass8_isEight : exampleGlass8.IsEight := ⟨rfl, rfl, rfl⟩

theorem exampleMesh8_isEight : exampleMesh8.IsEight := ⟨rfl, rfl, rfl⟩

theorem exampleWorld_callSensor :
    (Camera.toSensor exampleLibm).callSensor exampleWorld.sensor = false := rfl

/-- Witness for C12: the example renderer with a background, no bounces
allowed and the ray caster mode off, and the example ray that hits. -/
theorem Renderer_trace_stopped_hit_background_witness :
    ∃ res, ((Renderer.mk3 exampleGlassInstance
        (MaterialModelSpecular.default.toMaterialModel exampleLibm [exampleMaterial])
        (some exampleBackground)).setNumberofAllowedBounces 0).trace
          (Camera.toSensor exampleLibm) 2 1 exampleWorld exampleHitRay = some res ∧
      (∃ rest, res.1.log = exampleWorld.log ++ Call.backgroundHit exampleHitRay :: rest) ∧
      (∀ ray' heap', exampleBackground.hit exampleHitRay exampleWorld.heap
          = Except.ok (ray', heap') →
        res.1.log = exampleWorld.log
          ++ [Call.backgroundHit exampleHitRay, Call.reportPrimaryRay ray']) ∧
      (∀ e, exampleBackground.hit exampleHitRay exampleWorld.heap = Except.error e →
        res.2.2 = some e) :=
  Renderer_trace_stopped_hit_background
    ((Renderer.mk3 exampleGlassInstance
      (MaterialModelSpecular.default.toMaterialModel exampleLibm [exampleMaterial])
      (some exampleBackground)).setNumberofAllowedBounces 0)
    (Camera.toSensor exampleLibm) 2 0 exampleWorld exampleHitRay exampleBackground (some 0)
    ⟨1, 1, 1⟩ rfl
    (by
      obtain ⟨p, T, _, _, h⟩ := exampleHitRay_query exampleGlass8 exampleGlass8_isEight
        (Intersection.ofRay exampleHitRay)
      exact ⟨_, h⟩)
    rfl rfl (Or.inl (by decide)) rfl (by decide)

/-- Counterexample to C14 as stated: in the ray caster configuration of `main`
with the fatal background, `trace` on the example ray that misses all geometry
returns without a fault and without any call. -/
theorem Renderer_raycast_miss_counterexample :
    (Renderer.raycast exampleGlassInstance
      (MaterialModelSpecular.default.toMaterialModel exampleLibm [exampleMaterial])).trace
        (Camera.toSensor exampleLibm) 2 1 exampleWorld exampleMissRay
      = some (exampleWorld, exampleMissRay, none) := by
  rw [Renderer.trace_stop _ _ 2 0 exampleWorld exampleMissRay false
    (Intersection.ofRay exampleMissRay) (some 0) ⟨1, 1, 1⟩
    (exampleMissRay_query exampleGlass8 exampleGlass8_isEight _) rfl rfl rfl (by simp)]
  rfl

/-- Claim C14 as amended: with the fatal background and a sensor whose
`callSensor()` is false, `trace` on a ray that misses all geometry returns
without a fault and without any call when the ray caster mode is on
(`m_raytracer >= 1`, as in the ray caster configuration); only with the ray
caster mode off is `BackgroundFatal::hit` called, and `trace` ends with
`RuntimeError`. -/
theorem Renderer_trace_fatal_background_miss {σ : Type} (R : Renderer) (S : Sensor σ)
    (sceneFuel fuel : Nat) (w : World σ) (ray : Ray) (p : Option Nat) (Sp : SpectrumRGB)
    (hS : S.callSensor w.sensor = false)
    (hmiss : ∃ I, R.m_cpAssetInstance.intersectRay sceneFuel ray (Intersection.ofRay ray)
      (XFloat.fin 0) XFloat.pinf = some (false, I))
    (hdata : ray.getDataRGBUnpolarized = Except.ok p) (hread : w.heap.read p = Except.ok Sp)
    (hbg : R.m_pBackground = some BackgroundFatal) :
    (1 ≤ R.m_raytracer → R.trace S sceneFuel (fuel + 1) w ray = some (w, ray, none)) ∧
    (R.m_raytracer < 1 → R.trace S sceneFuel (fuel + 1) w ray
      = some ({ w with log := w.log ++ [Call.backgroundHit ray] }, ray,
          some Fault.RuntimeError)) := by
  obtain ⟨I, hq⟩ := hmiss
  have h := Renderer.trace_stop R S sceneFuel fuel w ray false I p Sp hq hS hdata hread (by simp)
  rw [hbg] at h
  constructor
  · intro hm
    rw [h]
    simp only [show ¬ R.m_raytracer < 1 by omega, if_false]
  · intro hm
    rw [h]
    simp only [hm, if_true]
    rfl

theorem Renderer_trace_fatal_background_miss_witness :
    ((1 : Int) ≤ (Renderer.mk3 exampleGlassInstance
        (MaterialModelSpecular.default.toMaterialModel exampleLibm [exampleMaterial])
        (some BackgroundFatal)).m_raytracer →
      (Renderer.mk3 exampleGlassInstance
        (MaterialModelSpecular.default.toMaterialModel exampleLibm [exampleMaterial])
        (some BackgroundFatal)).trace
          (Camera.toSensor exampleLibm) 2 1 exampleWorld exampleMissRay
        = some (exampleWorld, exampleMissRay, none)) ∧
    ((Renderer.mk3 exampleGlassInstance
        (MaterialModelSpecular.default.toMaterialModel exampleLibm [exampleMaterial])
        (some BackgroundFatal)).m_raytracer < 1 →
      (Renderer.mk3 exampleGlassInstance
        (MaterialModelSpecular.default.toMaterialModel exampleLibm [exampleMaterial])
        (some BackgroundFatal)).trace
          (Camera.toSensor exampleLibm) 2 1 exampleWorld exampleMissRay
        = some ({ exampleWorld with
            log := exampleWorld.log ++ [Call.backgroundHit exampleMissRay] }, exampleMissRay,
            some Fault.RuntimeError)) :=
  Renderer_trace_fatal_background_miss
    (Renderer.mk3 exampleGlassInstance
      (MaterialModelSpecular.default.toMaterialModel exampleLibm [exampleMaterial])
      (some BackgroundFatal))
    (Camera.toSensor exampleLibm) 2 0 exampleWorld exampleMissRay (some 0) ⟨1, 1, 1⟩ rfl
    ⟨_, exampleMissRay_query exampleGlass8 exampleGlass8_isEight _⟩ rfl rfl rfl

namespace Renderer

/-- The loop over one bounced ray whose `trace` returns without a fault, in ray
caster mode: the ray is reported once. -/
theorem bouncedLoop_single {σ : Type} (R : Renderer) (S : Sensor σ)
    (call : World σ → Ray → Option (TraceResult σ)) (r : Ray) (w w1 : World σ) (r1 : Ray)
    (hcall : call w r = some (w1, r1, none)) (hmode : R.m_raytracer > 0) :
    ∃ out, bouncedLoop R S call [r] w = some out ∧
      out.1.log = w1.log ++ [Call.reportPrimaryRay r1] := by
  simp only [bouncedLoop, hcall, hmode, if_true]
  cases hr : S.reportPrimaryRay w1.sensor r1 w1.heap with
  | error e => exact ⟨_, rfl, rfl⟩
  | ok x => exact ⟨_, rfl, rfl⟩

end Renderer

/-- Claim C13: in the ray caster configuration of `main` with the specular
material model and the camera as sensor, `trace` on a primary ray (no bounces
yet, a readable spectrum with positive mean) makes no call when the ray misses
all geometry, and when the ray hits and `bounce` returns it calls `bounce` and
then `reportPrimaryRay` exactly once, for the bounced ray; a fault of `bounce`
ends `trace` with that fault. -/
theorem Renderer_raycast_reports_once (L : Libm) (materials : List AssetMaterial)
    (inst : AssetInstance) (rank : Nat → Nat) (sceneFuel : Nat)
    (hwf : inst.m_pAssetGeometry.WellFormed rank sceneFuel) (w : World Camera) (ray : Ray)
    (a : Nat) (Sp : SpectrumRGB) (hb : ray.m_iBounces = 0)
    (hdata : ray.getDataRGBUnpolarized = Except.ok (some a))
    (hread : w.heap.read (some a) = Except.ok Sp)
    (hrad : 0 < (Sp.m_pfRGB0 + Sp.m_pfRGB1 + Sp.m_pfRGB2) / 3) :
    ∃ hit I res,
      inst.intersectRay sceneFuel ray (Intersection.ofRay ray) (XFloat.fin 0) XFloat.pinf
        = some (hit, I) ∧
      (Renderer.raycast inst (MaterialModelSpecular.default.toMaterialModel L materials)).trace
        (Camera.toSensor L) sceneFuel 2 w ray = some res ∧
      (hit = false → res.1.log = w.log ∧ res.2.2 = none) ∧
      (hit = true → ∀ rays heap',
        MaterialModelSpecular.default.bounce L materials ray I w.heap = Except.ok (rays, heap') →
        ∃ r', rays = [r'] ∧
          res.1.log = w.log ++ [Call.bounce ray, Call.reportPrimaryRay r']) ∧
      (hit = true → ∀ e,
        MaterialModelSpecular.default.bounce L materials ray I w.heap = Except.error e →
        res.1.log = w.log ++ [Call.bounce ray] ∧ res.2.2 = some e) := by
  obtain ⟨⟨hit, I⟩, hq⟩ := AssetInstance.intersectRay_total inst rank sceneFuel hwf ray
    (Intersection.ofRay ray) (XFloat.fin 0) XFloat.pinf
  have hS : ∀ w' : World Camera, (Camera.toSensor L).callSensor w'.sensor = false := fun _ => rfl
  obtain ⟨R0, hR, hi, hB, hmin, hmode, hmb⟩ : ∃ R0 : Renderer,
      R0 = Renderer.raycast inst (MaterialModelSpecular.default.toMaterialModel L materials) ∧
      R0.m_cpAssetInstance = inst ∧ R0.m_thbounces = 1 ∧ R0.m_minradiance = 0 ∧
      R0.m_raytracer = 1 ∧
      R0.m_pMaterialModel.bounce = MaterialModelSpecular.default.bounce L materials :=
    ⟨_, rfl, rfl, rfl, rfl, rfl, rfl⟩
  rw [← hR]
  have hq' : R0.m_cpAssetInstance.intersectRay sceneFuel ray (Intersection.ofRay ray)
      (XFloat.fin 0) XFloat.pinf = some (hit, I) := by rw [hi]; exact hq
  cases hit with
  | false =>
    refine ⟨false, I, (w, ray, none), hq, ?_, fun _ => ⟨rfl, rfl⟩, (fun h => by cases h),
      (fun h => by cases h)⟩
    exact Renderer.trace_stop_raycast R0 (Camera.toSensor L) sceneFuel 1 w ray false I (some a) Sp
      hq' (hS w) hdata hread (by simp) (by omega)
  | true =>
    have hcond : (true = true ∧ ray.m_iBounces < R0.m_thbounces ∧
        (Sp.m_pfRGB0 + Sp.m_pfRGB1 + Sp.m_pfRGB2) / 3 > R0.m_minradiance) :=
      ⟨rfl, by rw [hb, hB]; exact Int.zero_lt_one, by rw [hmin]; exact hrad⟩
    cases hbres : MaterialModelSpecular.default.bounce L materials ray I w.heap with
    | error e =>
      have hstep : R0.trace (Camera.toSensor L) sceneFuel 2 w ray
          = some ({ w with log := w.log ++ [Call.bounce ray] }, ray, some e) := by
        rw [Renderer.trace]
        simp only [hq', Renderer.radiance_plain (Camera.toSensor L) w ray I (some a) Sp (hS w)
          hdata hread, hcond, and_self, if_true, hmb, hbres]
      exact ⟨true, I, _, hq, hstep, (fun h => by cases h),
        (fun _ rays heap' h => by rw [hbres] at h; cases h),
        (fun _ e' h => by rw [hbres] at h; cases h; exact ⟨rfl, rfl⟩)⟩
    | ok rh =>
      obtain ⟨rays, heap'⟩ := rh
      rcases MaterialModelSpecular.bounce_ok L MaterialModelSpecular.default materials ray I w.heap
        rays heap' hbres with ⟨_, _, hfalse⟩ | ⟨vPoint, t, vReflected, a', S, S', _, _, hdata',
          hread', hrays, hheap, _⟩
      · cases hfalse
      · have ha : a' = a := by
          rw [hdata] at hdata'
          simp only [Except.ok.injEq, Option.some.injEq] at hdata'
          exact hdata'.symm
        subst ha
        subst hrays
        obtain ⟨⟨hit2, I2⟩, hq2⟩ := AssetInstance.intersectRay_total inst rank sceneFuel hwf
          (((ray.bounce vPoint vReflected t).setDataRGBUnpolarized (some a')).copy)
          (Intersection.ofRay (((ray.bounce vPoint vReflected t).setDataRGBUnpolarized
            (some a')).copy)) (XFloat.fin 0) XFloat.pinf
        rw [← hi] at hq2
        have hnested : R0.trace (Camera.toSensor L) sceneFuel 1
            { w with log := w.log ++ [Call.bounce ray], heap := heap' }
            (((ray.bounce vPoint vReflected t).setDataRGBUnpolarized (some a')).copy)
            = some ({ w with log := w.log ++ [Call.bounce ray], heap := heap' },
                (((ray.bounce vPoint vReflected t).setDataRGBUnpolarized (some a')).copy),
                none) :=
          Renderer.trace_stop_raycast R0 (Camera.toSensor L) sceneFuel 0
            { w with log := w.log ++ [Call.bounce ray], heap := heap' }
            (((ray.bounce vPoint vReflected t).setDataRGBUnpolarized (some a')).copy)
            hit2 I2 (some a') S' hq2 rfl rfl
            (by rw [hheap]; exact Heap.read_write w.heap a' S S' hread')
            (by
              rintro ⟨_, h2, _⟩
              have h3 : (((ray.bounce vPoint vReflected t).setDataRGBUnpolarized
                (some a')).copy).m_iBounces = ray.m_iBounces + 1 := rfl
              rw [h3, hb, hB] at h2
              omega)
            (by omega)
        obtain ⟨out, hout, hlog⟩ := Renderer.bouncedLoop_single R0 (Camera.toSensor L)
          (R0.trace (Camera.toSensor L) sceneFuel 1)
          (((ray.bounce vPoint vReflected t).setDataRGBUnpolarized (some a')).copy)
          { w with log := w.log ++ [Call.bounce ray], heap := heap' } _ _ hnested (by omega)
        have hstep : R0.trace (Camera.toSensor L) sceneFuel 2 w ray = some (out.1, ray, out.2) := by
          rw [Renderer.trace]
          simp only [hq', Renderer.radiance_plain (Camera.toSensor L) w ray I (some a') Sp (hS w)
            hdata hread, hcond, and_self, if_true, hmb, hbres, hout]
        refine ⟨true, I, _, hq, hstep, (fun h => by cases h), ?_,
          (fun _ e h => by rw [hbres] at h; cases h)⟩
        intro _ rays2 heap2 h2
        rw [hbres] at h2
        simp only [Except.ok.injEq, Prod.mk.injEq] at h2
        refine ⟨_, h2.1.symm, ?_⟩
        simp only [hlog, List.append_assoc, List.singleton_append]

theorem exampleGlassInstance_wellFormed :
    exampleGlassInstance.m_pAssetGeometry.WellFormed (fun i => 1 - i) 2 :=
  twoLevelAsset_wellFormed _ _ _ (Transformation.translation_inverseCorrect _)
    Transformation.identity_inverseCorrect

/-- Witness for C13: in the ray caster configuration the example ray that hits
the example instance with a material is bounced and reported once. -/
theorem Renderer_raycast_reports_once_witness :
    ∃ res r', (Renderer.raycast exampleGlassInstance
        (MaterialModelSpecular.default.toMaterialModel exampleLibm [exampleMaterial])).trace
          (Camera.toSensor exampleLibm) 2 2 exampleWorld exampleHitRay = some res ∧
      res.1.log = [Call.bounce exampleHitRay, Call.reportPrimaryRay r'] := by
  obtain ⟨hit, I, res, hq, ht, _, h2, _⟩ := Renderer_raycast_reports_once exampleLibm
    [exampleMaterial] exampleGlassInstance (fun i => 1 - i) 2 exampleGlassInstance_wellFormed
    exampleWorld exampleHitRay 0 ⟨1, 1, 1⟩ rfl rfl rfl (by norm_num)
  obtain ⟨p, T, hp, hT, hq2⟩ := exampleHitRay_query exampleGlass8 exampleGlass8_isEight
    (Intersection.ofRay exampleHitRay)
  have hinst : exampleGlassInstance = eightInstance exampleGlass8 := rfl
  rw [hinst, hq2] at hq
  simp only [Option.some.injEq, Prod.mk.injEq] at hq
  obtain ⟨hhit, hI⟩ := hq
  have hbounce := exampleBounce I (exampleGlass8.buildBVH exampleSort) exampleHitRay
    exampleWorld.heap 0 ⟨1, 1, 1⟩ 1 (1/4) (1/4) (by rw [← hI]; rfl)
    (by rw [← hI]; exact Mesh.eight_vertices exampleGlass8 exampleGlass8_isEight p hp)
    ((Mesh.buildBVH_keeps exampleSort exampleGlass8).2.trans rfl)
    ((Mesh.buildBVH_keeps exampleSort exampleGlass8).1.trans rfl)
    (by rw [← hI]; rfl) (by rw [← hI]; rfl) (by rw [← hI]; rfl) (by rw [← hI]; exact hT)
    rfl rfl rfl
  obtain ⟨r', _, hlog⟩ := h2 hhit.symm _ _ hbounce
  exact ⟨res, r', ht, by simpa [exampleWorld] using hlog⟩

namespace Renderer

theorem BouncesBelow_nil (B : Int) : BouncesBelow B [] := by
  intro r h
  cases h

theorem BouncesBelow_append (B : Int) (l1 l2 : List Call) (h1 : BouncesBelow B l1)
    (h2 : BouncesBelow B l2) : BouncesBelow B (l1 ++ l2) := by
  intro r h
  rcases List.mem_append.1 h with h | h
  · exact h1 r h
  · exact h2 r h

theorem BouncesBelow_report (B : Int) (r : Ray) : BouncesBelow B [Call.reportPrimaryRay r] := by
  intro r' h
  simp at h

theorem BouncesBelow_background (B : Int) (r : Ray) : BouncesBelow B [Call.backgroundHit r] := by
  intro r' h
  simp at h

theorem BouncesBelow_hook (B : Int) (r : Ray) : BouncesBelow B [Call.hook r] := by
  intro r' h
  simp at h

theorem BouncesBelow_bounce (B : Int) (r : Ray) (h : r.m_iBounces < B) :
    BouncesBelow B [Call.bounce r] := by
  intro r' h'
  simp only [List.mem_singleton, Call.bounce.injEq] at h'
  rw [h']
  exact h

/-- The first part of `trace` appends no call of `bounce` to the log, and
returns a ray with no fewer bounces when the hook of the sensor does not lower
the number of bounces. -/
theorem radiance_spec {σ : Type} (S : Sensor σ) (B : Int)
    (hhook : ∀ s r I h bCont s' r' I' h',
      S.hook s r I h = Except.ok (bCont, s', r', I', h') → r.m_iBounces ≤ r'.m_iBounces)
    (w : World σ) (ray : Ray) (I : Intersection) :
    (∀ w1 e, radiance S w ray I = Except.error (w1, e) →
      ∃ new, w1.log = w.log ++ new ∧ BouncesBelow B new) ∧
    (∀ w1 r1 I1 t, radiance S w ray I = Except.ok (w1, r1, I1, t) →
      (∃ new, w1.log = w.log ++ new ∧ BouncesBelow B new) ∧ ray.m_iBounces ≤ r1.m_iBounces) := by
  cases hc : S.callSensor w.sensor
  swap
  · cases hh : S.hook w.sensor ray I w.heap with
    | error e =>
      refine ⟨?_, ?_⟩
      · intro w1 e' h
        simp only [radiance, hc, ↓reduceIte, hh, Except.error.injEq, Prod.mk.injEq] at h
        exact ⟨[Call.hook ray], by rw [← h.1], BouncesBelow_hook B ray⟩
      · intro w1 r1 I1 t h
        simp only [radiance, hc, ↓reduceIte, hh] at h
        cases h
    | ok x =>
      obtain ⟨bCont, s', r', I', h'⟩ := x
      have hle := hhook _ _ _ _ _ _ _ _ _ hh
      refine ⟨?_, ?_⟩
      · intro w1 e' h
        simp only [radiance, hc, ↓reduceIte, hh] at h
        split_ifs at h
      · intro w1 r1 I1 t h
        simp only [radiance, hc, ↓reduceIte, hh] at h
        split_ifs at h <;>
        · simp only [Except.ok.injEq, Prod.mk.injEq] at h
          obtain ⟨h1, h2, _, _⟩ := h
          exact ⟨⟨[Call.hook ray], by rw [← h1], BouncesBelow_hook B ray⟩, by rw [← h2]; exact hle⟩
  · cases hd : ray.getDataRGBUnpolarized with
    | error e0 =>
      refine ⟨?_, ?_⟩
      · intro w1 e h
        simp only [radiance, hc, Bool.false_eq_true, ↓reduceIte, hd, Except.error.injEq, Prod.mk.injEq] at h
        exact ⟨[], by rw [← h.1, List.append_nil], BouncesBelow_nil B⟩
      · intro w1 r1 I1 t h
        simp only [radiance, hc, Bool.false_eq_true, ↓reduceIte, hd] at h
        cases h
    | ok p =>
      cases hr : w.heap.read p with
      | error e0 =>
        refine ⟨?_, ?_⟩
        · intro w1 e h
          simp only [radiance, hc, Bool.false_eq_true, ↓reduceIte, hd, hr, Except.error.injEq, Prod.mk.injEq] at h
          exact ⟨[], by rw [← h.1, List.append_nil], BouncesBelow_nil B⟩
        · intro w1 r1 I1 t h
          simp only [radiance, hc, Bool.false_eq_true, ↓reduceIte, hd, hr] at h
          cases h
      | ok Sp =>
        refine ⟨?_, ?_⟩
        · intro w1 e h
          simp only [radiance, hc, Bool.false_eq_true, ↓reduceIte, hd, hr] at h
          cases h
        · intro w1 r1 I1 t h
          simp only [radiance, hc, Bool.false_eq_true, ↓reduceIte, hd, hr, Except.ok.injEq, Prod.mk.injEq] at h
          obtain ⟨h1, h2, _, _⟩ := h
          exact ⟨⟨[], by rw [← h1, List.append_nil], BouncesBelow_nil B⟩, by rw [← h2]⟩

theorem backgroundBranch_spec {σ : Type} (S : Sensor σ) (B : Int) (b : Background)
    (w : World σ) (ray : Ray) :
    ∃ new, (backgroundBranch S b w ray).1.log = w.log ++ new ∧ BouncesBelow B new := by
  unfold backgroundBranch
  cases hb : b.hit ray w.heap with
  | error e => exact ⟨[Call.backgroundHit ray], rfl, BouncesBelow_background B ray⟩
  | ok rh =>
    obtain ⟨ray', heap'⟩ := rh
    have hB : BouncesBelow B ([Call.backgroundHit ray] ++ [Call.reportPrimaryRay ray']) :=
      BouncesBelow_append B _ _ (BouncesBelow_background B ray) (BouncesBelow_report B ray')
    cases hr : S.reportPrimaryRay w.sensor ray' heap' with
    | error e => exact ⟨_, by simp only [hr, List.append_assoc], hB⟩
    | ok x => exact ⟨_, by simp only [hr, List.append_assoc], hB⟩

/-- The loop over the bounced rays returns and appends no call of `bounce` for
a ray with `B` or more bounces when this holds for `call` on every ray of the
list. -/
theorem bouncedLoop_spec {σ : Type} (R : Renderer) (S : Sensor σ) (B : Int)
    (call : World σ → Ray → Option (TraceResult σ)) :
    ∀ (rays : List Ray),
      (∀ r ∈ rays, ∀ w, ∃ res new, call w r = some res ∧ res.1.log = w.log ++ new ∧
        BouncesBelow B new) →
      ∀ w, ∃ out new, bouncedLoop R S call rays w = some out ∧ out.1.log = w.log ++ new ∧
        BouncesBelow B new := by
  intro rays
  induction rays with
  | nil => intro _ w; exact ⟨_, [], rfl, by simp, BouncesBelow_nil B⟩
  | cons r rest ih =>
    intro hcall w
    obtain ⟨res, new, hres, hlog, hB⟩ := hcall r (List.mem_cons_self _ _) w
    obtain ⟨w1, r1, f⟩ := res
    have ih' := ih (fun r' hr' => hcall r' (List.mem_cons_of_mem _ hr'))
    simp only [bouncedLoop, hres]
    cases f with
    | some e => exact ⟨_, new, rfl, hlog, hB⟩
    | none =>
      simp only
      by_cases hm : R.m_raytracer > 0
      · simp only [hm, if_true]
        cases hr : S.reportPrimaryRay w1.sensor r1 w1.heap with
        | error e =>
          refine ⟨_, new ++ [Call.reportPrimaryRay r1], rfl, ?_,
            BouncesBelow_append B _ _ hB (BouncesBelow_report B r1)⟩
          simp only at hlog
          simp only [hlog, List.append_assoc]
        | ok x =>
          obtain ⟨s, r2, heap2⟩ := x
          simp only
          obtain ⟨out, new2, hout, hlog2, hB2⟩ := ih'
            { sensor := s, heap := heap2, rng := w1.rng,
              log := w1.log ++ [Call.reportPrimaryRay r1] }
          refine ⟨out, new ++ [Call.reportPrimaryRay r1] ++ new2, hout, ?_,
            BouncesBelow_append B _ _
              (BouncesBelow_append B _ _ hB (BouncesBelow_report B r1)) hB2⟩
          simp only at hlog
          simp only [hlog2, hlog, List.append_assoc]
      · simp only [hm, if_false]
        obtain ⟨out, new2, hout, hlog2, hB2⟩ := ih' w1
        refine ⟨out, new ++ new2, hout, ?_, BouncesBelow_append B _ _ hB hB2⟩
        simp only at hlog
        simp only [hlog2, hlog, List.append_assoc]

end Renderer

/-- Claim C15: for every maximum number of bounces `B = m_thbounces`, the
specular material model, a well-formed scene graph and a sensor whose hook
does not lower the number of bounces of the ray, `trace` on a ray with `b`
bounces returns with `max(B - b, 0) + 1` as bound on the depth of the nested
calls of `trace`, and every call of `bounce` it makes is for a ray with fewer
than `B` bounces. -/
theorem Renderer_trace_terminates {σ : Type} (L : Libm) (M : MaterialModelSpecular)
    (materials : List AssetMaterial) (R : Renderer) (S : Sensor σ) (rank : Nat → Nat)
    (sceneFuel : Nat)
    (hmodel : R.m_pMaterialModel = M.toMaterialModel L materials)
    (hwf : R.m_cpAssetInstance.m_pAssetGeometry.WellFormed rank sceneFuel)
    (hhook : ∀ s r I h bCont s' r' I' h',
      S.hook s r I h = Except.ok (bCont, s', r', I', h') → r.m_iBounces ≤ r'.m_iBounces)
    (w : World σ) (ray : Ray) :
    ∃ res new,
      R.trace S sceneFuel ((R.m_thbounces - ray.m_iBounces).toNat + 1) w ray = some res ∧
      res.1.log = w.log ++ new ∧
      ∀ r, Call.bounce r ∈ new → r.m_iBounces < R.m_thbounces := by
  have haux : ∀ (n : Nat) (w : World σ) (ray : Ray),
      (R.m_thbounces - ray.m_iBounces).toNat < n →
      ∃ res new, R.trace S sceneFuel n w ray = some res ∧ res.1.log = w.log ++ new ∧
        Renderer.BouncesBelow R.m_thbounces new := by
    intro n
    induction n with
    | zero => intro w ray h; omega
    | succ n ih =>
      intro w ray hn
      obtain ⟨⟨hit, I⟩, hq⟩ := AssetInstance.intersectRay_total R.m_cpAssetInstance rank
        sceneFuel hwf ray (Intersection.ofRay ray) (XFloat.fin 0) XFloat.pinf
      obtain ⟨hrad1, hrad2⟩ := Renderer.radiance_spec S R.m_thbounces hhook w ray I
      rw [Renderer.trace]
      simp only [hq]
      cases hrad : Renderer.radiance S w ray I with
      | error we =>
        obtain ⟨w1, e⟩ := we
        obtain ⟨new, hlog, hB⟩ := hrad1 w1 e hrad
        exact ⟨_, new, rfl, hlog, hB⟩
      | ok x =>
        obtain ⟨w1, r1, I1, t⟩ := x
        obtain ⟨⟨new, hlog, hB⟩, hle⟩ := hrad2 w1 r1 I1 t hrad
        cases t with
        | none => exact ⟨_, new, rfl, hlog, hB⟩
        | some tr =>
          simp only
          by_cases hc : hit = true ∧ r1.m_iBounces < R.m_thbounces ∧ tr > R.m_minradiance
          · rw [if_pos hc]
            have hBb : Renderer.BouncesBelow R.m_thbounces (new ++ [Call.bounce r1]) :=
              Renderer.BouncesBelow_append _ _ _ hB (Renderer.BouncesBelow_bounce _ r1 hc.2.1)
            cases hbr : R.m_pMaterialModel.bounce r1 I1 w1.heap with
            | error e =>
              refine ⟨_, new ++ [Call.bounce r1], rfl, ?_, hBb⟩
              simp only [hlog, List.append_assoc]
            | ok rh =>
              obtain ⟨rays, heap'⟩ := rh
              have hbr' : M.bounce L materials r1 I1 w1.heap = Except.ok (rays, heap') := by
                rw [hmodel] at hbr
                exact hbr
              have hchildren : ∀ r ∈ rays, ∀ w', ∃ res new',
                  R.trace S sceneFuel n w' r = some res ∧ res.1.log = w'.log ++ new' ∧
                  Renderer.BouncesBelow R.m_thbounces new' := by
                intro r hr w'
                rcases MaterialModelSpecular.bounce_ok L M materials r1 I1 w1.heap rays heap' hbr'
                  with ⟨h0, _, _⟩ | ⟨vPoint, t, vReflected, a, Sa, Sa', _, _, _, _, hrays, _, _⟩
                · rw [h0] at hr
                  cases hr
                · rw [hrays, List.mem_singleton] at hr
                  have hb : r.m_iBounces = r1.m_iBounces + 1 := by rw [hr]; rfl
                  exact ih w' r (by rw [hb]; omega)
              obtain ⟨out, new2, hout, hlog2, hB2⟩ := Renderer.bouncedLoop_spec R S R.m_thbounces
                (R.trace S sceneFuel n) rays hchildren
                { w1 with log := w1.log ++ [Call.bounce r1], heap := heap' }
              simp only [hout]
              refine ⟨_, new ++ [Call.bounce r1] ++ new2, rfl, ?_,
                Renderer.BouncesBelow_append _ _ _ hBb hB2⟩
              simp only [hlog2, hlog, List.append_assoc]
          · rw [if_neg hc]
            cases hbg : R.m_pBackground with
            | none => exact ⟨_, new, rfl, hlog, hB⟩
            | some b =>
              simp only
              by_cases hm : R.m_raytracer < 1
              · rw [if_pos hm]
                obtain ⟨new2, hlog2, hB2⟩ := Renderer.backgroundBranch_spec S R.m_thbounces b w1 r1
                refine ⟨_, new ++ new2, rfl, ?_, Renderer.BouncesBelow_append _ _ _ hB hB2⟩
                simp only [hlog2, hlog, List.append_assoc]
              · rw [if_neg hm]
                exact ⟨_, new, rfl, hlog, hB⟩
  exact haux _ w ray (Nat.lt_succ_self _)

/-- Witness for C15: the renderer with its default settings on the example
instance with a material, the camera as sensor. -/
theorem Renderer_trace_terminates_witness :
    ∃ res new,
      (Renderer.mk3 exampleGlassInstance
        (MaterialModelSpecular.default.toMaterialModel exampleLibm [exampleMaterial])
        (some exampleBackground)).trace (Camera.toSensor exampleLibm) 2
        (((Renderer.mk3 exampleGlassInstance
          (MaterialModelSpecular.default.toMaterialModel exampleLibm [exampleMaterial])
          (some exampleBackground)).m_thbounces - exampleHitRay.m_iBounces).toNat + 1)
        exampleWorld exampleHitRay = some res ∧
      res.1.log = exampleWorld.log ++ new ∧
      ∀ r, Call.bounce r ∈ new → r.m_iBounces < (Renderer.mk3 exampleGlassInstance
        (MaterialModelSpecular.default.toMaterialModel exampleLibm [exampleMaterial])
        (some exampleBackground)).m_thbounces :=
  Renderer_trace_terminates exampleLibm MaterialModelSpecular.default [exampleMaterial]
    (Renderer.mk3 exampleGlassInstance
      (MaterialModelSpecular.default.toMaterialModel exampleLibm [exampleMaterial])
      (some exampleBackground))
    (Camera.toSensor exampleLibm) (fun i => 1 - i) 2 rfl exampleGlassInstance_wellFormed
    (fun s r I h bCont s' r' I' h' hh => by
      simp only [Camera.toSensor, Except.ok.injEq, Prod.mk.injEq] at hh
      rw [hh.2.2.1])
    exampleWorld exampleHitRay

namespace Mesh

/-- The boxes after `K` passes of the loop of `buildBVH`: pass `u` has
appended its box, computed on the mesh that the passes before it left. -/
theorem buildBVH_loop_boxes
    (sort_r : List IndexTriple → (IndexTriple → IndexTriple → Int) → List IndexTriple)
    (m : Mesh) (K : Nat) :
    ((List.range K).foldl (buildBVHStep sort_r) m).m_vBbox
      = m.m_vBbox ++ (List.range K).map
          (fun u => stepBox ((List.range u).foldl (buildBVHStep sort_r) m) u) := by
  induction K with
  | zero => simp
  | succ K ih =>
    rw [List.range_succ, List.foldl_append, List.map_append, ← List.append_assoc, ← ih]
    rfl

end Mesh

/-- Claim C29: `buildBVH` on a mesh with `N >= 1` triangles and no boxes
stores exactly `2^L - 1` boxes with `L = max(floor(log2 N) - 2, 0)`
(`Nat.log2 N` is the floor of the logarithm), and box number `u` is the box
that the pass for the tree position `u` computes, the passes running through
the positions in level order `0, 1, 2, ...`. -/
theorem Mesh_buildBVH_box_count
    (sort_r : List IndexTriple → (IndexTriple → IndexTriple → Int) → List IndexTriple)
    (m : Mesh) (h0 : m.m_vBbox = []) (hN : 1 ≤ m.m_IndexBuffer.length / 3) :
    2 ^ Nat.log2 (m.m_IndexBuffer.length / 3) ≤ m.m_IndexBuffer.length / 3 ∧
    m.m_IndexBuffer.length / 3 < 2 ^ (Nat.log2 (m.m_IndexBuffer.length / 3) + 1) ∧
    (m.buildBVH sort_r).m_vBbox.length
      = 2 ^ Int.toNat (max ((Nat.log2 (m.m_IndexBuffer.length / 3) : Int) - 2) 0) - 1 ∧
    ∀ u, u < 2 ^ Int.toNat (max ((Nat.log2 (m.m_IndexBuffer.length / 3) : Int) - 2) 0) - 1 →
      (m.buildBVH sort_r).m_vBbox.getD u BBox.default
        = Mesh.stepBox ((List.range u).foldl (Mesh.buildBVHStep sort_r) m) u := by
  have hL : Int.toNat (max ((Nat.log2 (m.m_IndexBuffer.length / 3) : Int) - 2) 0)
      = Mesh.bvhLevels (m.m_IndexBuffer.length / 3) := by
    unfold Mesh.bvhLevels
    generalize Nat.log2 (m.m_IndexBuffer.length / 3) = c
    by_cases h : c ≤ 2
    · rw [max_eq_right (by omega)]
      simp only [Int.toNat_zero]
      omega
    · rw [max_eq_left (by omega)]
      omega
  have hb := Mesh.buildBVH_loop_boxes sort_r m
    ((1 <<< Mesh.bvhLevels (m.m_IndexBuffer.length / 3)) - 1)
  rw [← Mesh.buildBVH_eq_foldl, h0, List.nil_append] at hb
  refine ⟨Nat.log2_self_le (by omega), Nat.lt_log2_self, ?_, ?_⟩
  · rw [hL, ← Nat.one_shiftLeft, hb, List.length_map, List.length_range]
  · intro u hu
    rw [hL, ← Nat.one_shiftLeft] at hu
    rw [hb, List.getD_eq_getElem?_getD, List.getElem?_map, List.getElem?_range hu]
    rfl

/-- Witness for C29: the example mesh of eight triangles gets one box. -/
theorem Mesh_buildBVH_box_count_witness :
    exampleMesh8.m_vBbox = [] ∧ 1 ≤ exampleMesh8.m_IndexBuffer.length / 3 ∧
    (exampleMesh8.buildBVH exampleSort).m_vBbox.length
      = 2 ^ Int.toNat (max ((Nat.log2 (exampleMesh8.m_IndexBuffer.length / 3) : Int) - 2) 0)
        - 1 :=
  ⟨rfl, by simp [exampleMesh8],
    (Mesh_buildBVH_box_count exampleSort exampleMesh8 rfl (by simp [exampleMesh8])).2.2.1⟩

namespace Mesh

theorem treeRange_first (N k : Nat) : (treeRange N (2 ^ k - 1)).1 = 0 := by
  induction k with
  | zero => simp [treeRange_zero]
  | succ k ih =>
    have hp : 0 < 2 ^ k := Nat.pos_pow_of_pos k (by norm_num)
    have e : 2 ^ (k + 1) - 1 = 2 * (2 ^ k - 1) + 1 := by rw [pow_succ]; omega
    rw [e, treeRange_left]
    exact ih

theorem treeRange_last (N k : Nat) : (treeRange N (2 ^ (k + 1) - 2)).2 = N - 1 := by
  induction k with
  | zero => simp [treeRange_zero]
  | succ k ih =>
    have hp : 2 ≤ 2 ^ (k + 1) := by
      have : 0 < 2 ^ k := Nat.pos_pow_of_pos k (by norm_num)
      rw [pow_succ]; omega
    have e : 2 ^ (k + 1 + 1) - 2 = 2 * (2 ^ (k + 1) - 2) + 2 := by rw [pow_succ]; omega
    rw [e, treeRange_right]
    exact ih

end Mesh

/-- Claim C30: for a mesh with `N >= 1` triangles `binaryTreeBoundaries` gives
position 0 the range `[0, N)`; the children `2i+1` and `2i+2` of a position
`i` with the range `[l, l+s)` get `[l, l+ceil(s/2))` and
`[l+ceil(s/2), l+s)`, of the sizes `ceil(s/2)` and `floor(s/2)`; and in every
level `k` (the positions `2^k - 1` to `2^(k+1) - 2`) the first range starts at
0, the range of a position ends where the range of the next position starts,
and the last range ends at `N`. -/
theorem Mesh_binaryTreeBoundaries_partition (m : Mesh)
    (hN : 1 ≤ m.m_IndexBuffer.length / 3) :
    m.binaryTreeBoundaries 0 = (0, m.m_IndexBuffer.length / 3) ∧
    (∀ i, m.binaryTreeBoundaries (2 * i + 1)
          = ((m.binaryTreeBoundaries i).1, ((m.binaryTreeBoundaries i).2 + 1) / 2) ∧
        m.binaryTreeBoundaries (2 * i + 2)
          = ((m.binaryTreeBoundaries i).1 + ((m.binaryTreeBoundaries i).2 + 1) / 2,
              (m.binaryTreeBoundaries i).2 / 2)) ∧
    (∀ k, (m.binaryTreeBoundaries (2 ^ k - 1)).1 = 0 ∧
      (∀ u, 2 ^ k - 1 ≤ u → u + 1 ≤ 2 ^ (k + 1) - 2 →
        (m.binaryTreeBoundaries (u + 1)).1
          = (m.binaryTreeBoundaries u).1 + (m.binaryTreeBoundaries u).2) ∧
      (m.binaryTreeBoundaries (2 ^ (k + 1) - 2)).1 + (m.binaryTreeBoundaries (2 ^ (k + 1) - 2)).2
        = m.m_IndexBuffer.length / 3) := by
  refine ⟨?_, ?_, ?_⟩
  · rw [Mesh.binaryTreeBoundaries_eq, Mesh.treeRange_zero]
    simp only [Prod.mk.injEq, true_and]
    omega
  · intro i
    have hw := Mesh.treeRange_wf (m.m_IndexBuffer.length / 3) i
    simp only [Mesh.binaryTreeBoundaries_eq, Mesh.treeRange_left, Mesh.treeRange_right,
      Prod.mk.injEq, true_and]
    refine ⟨?_, ?_, ?_⟩ <;> omega
  · intro k
    have hp : 0 < 2 ^ k := Nat.pos_pow_of_pos k (by norm_num)
    refine ⟨?_, ?_, ?_⟩
    · rw [Mesh.binaryTreeBoundaries_eq]
      exact Mesh.treeRange_first _ k
    · intro u h1 h2
      have hlev : Nat.log2 (u + 1) = Nat.log2 (u + 2) := by
        have a1 : k ≤ Nat.log2 (u + 1) := (Nat.le_log2 (by omega)).2 (by omega)
        have a2 : Nat.log2 (u + 1) < k + 1 := (Nat.log2_lt (by omega)).2 (by rw [pow_succ]; rw [pow_succ] at h2; omega)
        have b1 : k ≤ Nat.log2 (u + 2) := (Nat.le_log2 (by omega)).2 (by omega)
        have b2 : Nat.log2 (u + 2) < k + 1 := (Nat.log2_lt (by omega)).2 (by rw [pow_succ]; rw [pow_succ] at h2; omega)
        omega
      have hadj := Mesh.treeRange_adjacent (m.m_IndexBuffer.length / 3) u hlev
      have hw := Mesh.treeRange_wf (m.m_IndexBuffer.length / 3) u
      simp only [Mesh.binaryTreeBoundaries_eq]
      omega
    · have hl := Mesh.treeRange_last (m.m_IndexBuffer.length / 3) k
      have hw := Mesh.treeRange_wf (m.m_IndexBuffer.length / 3) (2 ^ (k + 1) - 2)
      simp only [Mesh.binaryTreeBoundaries_eq]
      omega

/-- Witness for C30: the example mesh of eight triangles. -/
theorem Mesh_binaryTreeBoundaries_partition_witness :
    1 ≤ exampleMesh8.m_IndexBuffer.length / 3 ∧
    exampleMesh8.binaryTreeBoundaries 0 = (0, exampleMesh8.m_IndexBuffer.length / 3) ∧
    exampleMesh8.binaryTreeBoundaries (2 * 0 + 1)
      = ((exampleMesh8.binaryTreeBoundaries 0).1, ((exampleMesh8.binaryTreeBoundaries 0).2 + 1) / 2) :=
  ⟨by simp [exampleMesh8],
    (Mesh_binaryTreeBoundaries_partition exampleMesh8 (by simp [exampleMesh8])).1,
    ((Mesh_binaryTreeBoundaries_partition exampleMesh8 (by simp [exampleMesh8])).2.1 0).1⟩

/-! ## Names of asset types and categories -/

/-- The loop over the copies of the characters returns the string as it came. -/
theorem lowerCopies_eq (s : List Char) : lowerCopies s = s := by
  have h : ∀ (t str : List Char),
      t.foldl (fun (str : List Char) (c : Char) =>
        let _elem : Char := charOfInt (tolower (intOfChar c)); str) str = str := by
    intro t
    induction t with
    | nil => intro str; rfl
    | cons c t ih => intro str; simp [List.foldl_cons]
  exact h s s

/-- The search in the vector of names finds nothing exactly for a string that
is none of the names. -/
theorem findInVector_eq_none (names : List (List Char)) (s : List Char) :
    findInVector names s = none ↔ s ∉ names := by
  unfold findInVector
  rw [List.find?_eq_none]
  constructor
  · intro h hmem
    obtain ⟨i, hi, rfl⟩ := List.getElem_of_mem hmem
    have := h i (List.mem_range.2 hi)
    simp [List.getD_eq_getElem?_getD, List.getElem?_eq_getElem hi] at this
  · intro h i hi
    have hi' := List.mem_range.1 hi
    simp only [decide_eq_true_eq]
    intro heq
    apply h
    rw [heq, List.getD_eq_getElem?_getD, List.getElem?_eq_getElem hi']
    exact List.getElem_mem hi'

/-- The conversion of a type name searches the string as it came. -/
theorem AssetBase.stringToAssetType_eq (s : List Char) :
    AssetBase.stringToAssetType s =
      (match findInVector AssetBase.m_assetTypeString s with
       | some i => Except.ok (e_AssetType.static_cast i)
       | none => Except.error Fault.GltfError) := by
  simp only [AssetBase.stringToAssetType, lowerCopies_eq]

/-- The conversion of a category name searches the string as it came. -/
theorem AssetInfo.stringToAssetCategory_eq (s : List Char) :
    AssetInfo.stringToAssetCategory s =
      (match findInVector AssetInfo.m_assetCategoryString s with
       | some i => Except.ok (e_AssetCategory.static_cast i)
       | none => Except.error Fault.GltfError) := by
  simp only [AssetInfo.stringToAssetCategory, lowerCopies_eq]

/-- C27 (the code is case sensitive): `stringToAssetType` and
`stringToAssetCategory` raise `GltfError` exactly for the strings that are not
literally one of the names of the list; so the lower-case name `geometry` gives
`ASSET_TYPE_GEOMETRY` and `car` gives `ASSET_CATEGORY_CAR`, while their
variants `Geometry`, `MATERIAL_IOR` and `Car` raise `GltfError`. -/
theorem stringToAssetType_case_sensitive :
    (∀ s : List Char, AssetBase.stringToAssetType s = Except.error Fault.GltfError ↔
      s ∉ AssetBase.m_assetTypeString) ∧
    AssetBase.stringToAssetType "geometry".toList = Except.ok e_AssetType.ASSET_TYPE_GEOMETRY ∧
    AssetBase.stringToAssetType "Geometry".toList = Except.error Fault.GltfError ∧
    AssetBase.stringToAssetType "MATERIAL_IOR".toList = Except.error Fault.GltfError ∧
    "Geometry".toList.map (fun c => charOfInt (tolower (intOfChar c))) = "geometry".toList ∧
    "MATERIAL_IOR".toList.map (fun c => charOfInt (tolower (intOfChar c)))
      = "material_ior".toList ∧
    (∀ s : List Char, AssetInfo.stringToAssetCategory s = Except.error Fault.GltfError ↔
      s ∉ AssetInfo.m_assetCategoryString) ∧
    AssetInfo.stringToAssetCategory "car".toList = Except.ok e_AssetCategory.ASSET_CATEGORY_CAR ∧
    AssetInfo.stringToAssetCategory "Car".toList = Except.error Fault.GltfError ∧
    "Car".toList.map (fun c => charOfInt (tolower (intOfChar c))) = "car".toList := by
  refine ⟨?_, ?_, ?_, ?_, by decide, by decide, ?_, ?_, ?_, by decide⟩
  · intro s
    rw [AssetBase.stringToAssetType_eq, ← findInVector_eq_none]
    cases h : findInVector AssetBase.m_assetTypeString s <;> simp
  · rw [AssetBase.stringToAssetType_eq]; rfl
  · rw [AssetBase.stringToAssetType_eq]; rfl
  · rw [AssetBase.stringToAssetType_eq]; rfl
  · intro s
    rw [AssetInfo.stringToAssetCategory_eq, ← findInVector_eq_none]
    cases h : findInVector AssetInfo.m_assetCategoryString s <;> simp
  · rw [AssetInfo.stringToAssetCategory_eq]; rfl
  · rw [AssetInfo.stringToAssetCategory_eq]; rfl

/-! ## Path names -/

/-- A string without the character `c` has no last `c`. -/
theorem StdString.find_last_of_not_mem (s : List Char) (c : Char) (h : c ∉ s) :
    StdString.find_last_of s c = StdString.npos := by
  simp [StdString.find_last_of, h]

/-- A string that starts with another character than `c` has its first such
character at position `0`. -/
theorem StdString.find_first_not_of_cons (a : Char) (t : List Char) (c : Char) (h : a ≠ c) :
    StdString.find_first_not_of (a :: t) c = 0 := by
  have hb : (a != c) = true := by simpa using h
  simp [StdString.find_first_not_of, List.findIdx_cons, hb]

/-- C26 (the extension of a name without a dot): for a path `p` whose final
component `bname` is not empty and holds no `.`, such as `foo` or
`/usr/bin/vim`, `fileextension(p)` returns the whole final component and not
the empty string. -/
theorem fileextension_without_dot (p bname : List Char)
    (hb : utils.path.basename p = Except.ok bname) (hne : bname ≠ [])
    (hlen : bname.length < 2 ^ 64) (hdot : '.' ∉ bname) :
    utils.path.fileextension p = Except.ok bname ∧
    utils.path.fileextension p ≠ Except.ok [] := by
  have hf : utils.path.fileextension p = Except.ok bname := by
    unfold utils.path.fileextension
    rw [hb]
    obtain ⟨a, t, rfl⟩ := List.exists_cons_of_ne_nil hne
    have ha : a ≠ '.' := fun h => hdot (by simp [h])
    simp only [StdString.find_first_not_of_cons a t _ ha, StdString.find_last_of_not_mem _ _ hdot]
    have hn : ¬ (0 ≥ StdString.npos) := by decide
    have hw : (StdString.npos + 1) % 2 ^ 64 = 0 := by decide
    simp only [hn, if_false, hw, StdString.substr]
    have hl : (a :: t).length ≤ StdString.npos := by
      have : StdString.npos = 2 ^ 64 - 1 := rfl
      omega
    simp [List.take_of_length_le hl]
  refine ⟨hf, ?_⟩
  rw [hf]
  intro h
  exact hne (by injection h)

/-- C26 at the names `foo` and `/usr/bin/vim`: `fileextension` returns `foo`
and `vim`. -/
theorem fileextension_without_dot_witness :
    (utils.path.basename "foo".toList = Except.ok "foo".toList ∧
      utils.path.fileextension "foo".toList = Except.ok "foo".toList) ∧
    (utils.path.basename "/usr/bin/vim".toList = Except.ok "vim".toList ∧
      utils.path.fileextension "/usr/bin/vim".toList = Except.ok "vim".toList) :=
  ⟨⟨rfl, (fileextension_without_dot "foo".toList "foo".toList rfl (by decide) (by simp)
      (by decide)).1⟩,
   ⟨rfl, (fileextension_without_dot "/usr/bin/vim".toList "vim".toList rfl (by decide)
      (by simp) (by decide)).1⟩⟩

/-! ## Bounding box of the scene graph -/

/-- In a two-level hierarchy `getBBox` of the root folds the vertices of the
mesh of the child under `Tc.apply(Tr.apply(Identity))`: first the
transformation of the root, then that of the child. -/
theorem Node.getBBoxInto_twoLevel (Tr Tc : Transformation) (mesh : Mesh)
    (acc : XVector3 × XVector3) :
    Node.getBBoxInto (twoLevelAsset Tr Tc mesh).m_vpMeshes (twoLevelAsset Tr Tc mesh).m_vpNodes
        2 0 acc Transformation.Identity
      = some ((List.range mesh.getNumberOfTriangles).foldl
          (Node.bboxTriangle mesh (Tc.apply (Tr.apply Transformation.Identity))) acc) := by
  simp [twoLevelAsset, Node.getBBoxInto, Node.bboxOwnMesh, Node.bboxChildren]

/-- C23 (the order of composition in `getBBox`): in the hierarchy with the
root translated by `(1,0,0)` and the child scaled by `2`, the transformation
that `AssetGeometry::intersectRay` composes for the child sends the vertices of
the triangle to `(1,0,0)`, `(3,0,0)` and `(1,2,0)`, whereas `Node::getBBox` of
the root returns the box from `(2,0,0)` to `(4,2,0)`, which misses the vertex
`(1,0,0)`, and `AssetGeometry::getBBox` returns the box from `(0,0,0)` to
`(4,2,0)`, which is not the minimum box from `(1,0,0)` to `(3,2,0)`. -/
theorem Node_getBBox_composition_order :
    AssetGeometry.composeParents exampleBBoxAsset.m_vpNodes 2 (some 0)
        (Transformation.Scale 2 2 2)
      = some ((Transformation.Translation ⟨1, 0, 0⟩).apply (Transformation.Scale 2 2 2)) ∧
    ((Transformation.Translation ⟨1, 0, 0⟩).apply (Transformation.Scale 2 2 2)).transformPointToWorld
        ⟨0, 0, 0⟩ = ⟨1, 0, 0⟩ ∧
    ((Transformation.Translation ⟨1, 0, 0⟩).apply (Transformation.Scale 2 2 2)).transformPointToWorld
        ⟨1, 0, 0⟩ = ⟨3, 0, 0⟩ ∧
    ((Transformation.Translation ⟨1, 0, 0⟩).apply (Transformation.Scale 2 2 2)).transformPointToWorld
        ⟨0, 1, 0⟩ = ⟨1, 2, 0⟩ ∧
    exampleMesh1.getVerticesOfTriangle 0 = (⟨0, 0, 0⟩, ⟨1, 0, 0⟩, ⟨0, 1, 0⟩) ∧
    Node.getBBox exampleBBoxAsset.m_vpMeshes exampleBBoxAsset.m_vpNodes 2 0
      = some (BBox.ofCorners ⟨2, 0, 0⟩ ⟨4, 2, 0⟩) ∧
    ¬ BBox.CoversPoint (BBox.ofCorners ⟨2, 0, 0⟩ ⟨4, 2, 0⟩) ⟨1, 0, 0⟩ ∧
    AssetGeometry.getBBox exampleBBoxAsset 2 = some (BBox.ofCorners ⟨0, 0, 0⟩ ⟨4, 2, 0⟩) := by
  refine ⟨?_, ?_, ?_, ?_, ?_, ?_, ?_, ?_⟩
  · simp [exampleBBoxAsset, twoLevelAsset, AssetGeometry.composeParents]
  · norm_num [Transformation.apply, Transformation.Translation, Transformation.Scale,
      Transformation.transformPointToWorld, Matrix3x3.Scale, Matrix3x3.transpose,
      Matrix3x3.Identity, Matrix3x3.apply, Matrix3x3.matmult, Vector3.add]
  · norm_num [Transformation.apply, Transformation.Translation, Transformation.Scale,
      Transformation.transformPointToWorld, Matrix3x3.Scale, Matrix3x3.transpose,
      Matrix3x3.Identity, Matrix3x3.apply, Matrix3x3.matmult, Vector3.add]
  · norm_num [Transformation.apply, Transformation.Translation, Transformation.Scale,
      Transformation.transformPointToWorld, Matrix3x3.Scale, Matrix3x3.transpose,
      Matrix3x3.Identity, Matrix3x3.apply, Matrix3x3.matmult, Vector3.add]
  · simp [exampleMesh1, Mesh.getVerticesOfTriangle, Mesh.vertex]
  · norm_num [Node.getBBox, Node.getBBoxInto, Node.bboxOwnMesh, Node.bboxChildren,
      Node.bboxTriangle, Node.bboxVertex, exampleBBoxAsset, twoLevelAsset, exampleMesh1,
      Mesh.getNumberOfTriangles, Mesh.getVerticesOfTriangle, Mesh.vertex, List.range_succ,
      Transformation.apply, Transformation.Translation, Transformation.Scale,
      Transformation.Identity, Transformation.transformPointToWorld, Matrix3x3.Scale,
      Matrix3x3.transpose, Matrix3x3.Identity, Matrix3x3.apply, Matrix3x3.matmult, Vector3.add,
      XFloat.minQ, XFloat.maxQ, XFloat.lt, BBox.ofCorners, XVector3.ofVector3]
  · norm_num [BBox.CoversPoint, BBox.ofCorners, XVector3.ofVector3, XFloat.le]
  · norm_num [AssetGeometry.getBBox, AssetGeometry.getBBoxStep, BBox.surrround, XVector3.get,
      Node.getBBox, Node.getBBoxInto, Node.bboxOwnMesh, Node.bboxChildren,
      Node.bboxTriangle, Node.bboxVertex, exampleBBoxAsset, twoLevelAsset, exampleMesh1,
      Mesh.getNumberOfTriangles, Mesh.getVerticesOfTriangle, Mesh.vertex, List.range_succ,
      Transformation.apply, Transformation.Translation, Transformation.Scale,
      Transformation.Identity, Transformation.transformPointToWorld, Matrix3x3.Scale,
      Matrix3x3.transpose, Matrix3x3.Identity, Matrix3x3.apply, Matrix3x3.matmult, Vector3.add,
      XFloat.minQ, XFloat.maxQ, XFloat.lt, BBox.ofCorners, XVector3.ofVector3]

/-! ## Linear interpolation -/

/-- The data point with a natural number as index. -/
theorem Interpolation.point_natCast (I : Interpolation) (i : Nat) :
    I.point (i : Int) = I.m_data.getD i (0, 0) := by
  simp [Interpolation.point]

/-- In a table sorted by strictly increasing `x` the abscissae grow with the
index. -/
theorem Interpolation.abscissa_lt (I : Interpolation)
    (hs : I.m_data.Pairwise (fun a b => a.1 < b.1)) (i j : Nat) (hij : i < j)
    (hj : j < I.m_data.length) :
    (I.m_data.getD i (0, 0)).1 < (I.m_data.getD j (0, 0)).1 := by
  have hi : i < I.m_data.length := lt_trans hij hj
  rw [List.getD_eq_getElem?_getD, List.getD_eq_getElem?_getD, List.getElem?_eq_getElem hi,
    List.getElem?_eq_getElem hj]
  exact List.pairwise_iff_getElem.1 hs i j hi hj hij

/-- The first abscissa is `xMin`. -/
theorem Interpolation.xMin_eq (I : Interpolation) :
    I.xMin = (I.m_data.getD 0 (0, 0)).1 := by
  unfold Interpolation.xMin
  cases I.m_data <;> rfl

/-- The last abscissa is `xMax`. -/
theorem Interpolation.xMax_eq (I : Interpolation) :
    I.xMax = (I.m_data.getD (I.m_data.length - 1) (0, 0)).1 := by
  unfold Interpolation.xMax
  rw [List.getLastD_eq_getLast?, List.getLast?_eq_getElem?, List.getD_eq_getElem?_getD]

/-- The binary search of `_get` between the indices `l < r` with `x_l ≤ x`
ends at a pair of neighbours `(k, k+1)` inside `[l, r]` with `x_k ≤ x`, and
with `x < x_(k+1)` unless `k + 1 = r`. -/
theorem Interpolation.search_spec (I : Interpolation) (x : ℚ) :
    ∀ (n l r : Nat), r - l ≤ n → l < r → (I.m_data.getD l (0, 0)).1 ≤ x →
      ∃ k : Nat, l ≤ k ∧ k + 1 ≤ r ∧ I.search x (l : Int) (r : Int) = ((k : Int), (k : Int) + 1) ∧
        (I.m_data.getD k (0, 0)).1 ≤ x ∧
        (x < (I.m_data.getD (k + 1) (0, 0)).1 ∨ k + 1 = r) := by
  intro n
  induction n with
  | zero => intro l r h hlr; omega
  | succ n ih =>
    intro l r h hlr hx
    rw [Interpolation.search]
    by_cases hgt : (r : Int) - (l : Int) > 1
    · have hmid : ((l : Int) + (r : Int)) / 2 = (((l + r) / 2 : Nat) : Int) := by
        push_cast; rfl
      simp only [hgt, dif_pos, hmid, Interpolation.point_natCast]
      have h1 : l < (l + r) / 2 := by omega
      have h2 : (l + r) / 2 < r := by omega
      by_cases hc : x < (I.m_data.getD ((l + r) / 2) (0, 0)).1
      · simp only [hc, if_true]
        obtain ⟨k, hk1, hk2, hk3, hk4, hk5⟩ := ih l ((l + r) / 2) (by omega) h1 hx
        refine ⟨k, hk1, by omega, hk3, hk4, ?_⟩
        rcases hk5 with hk5 | hk5
        · exact Or.inl hk5
        · left; rw [hk5]; exact hc
      · simp only [hc, if_false]
        obtain ⟨k, hk1, hk2, hk3, hk4, hk5⟩ :=
          ih ((l + r) / 2) r (by omega) h2 (not_lt.1 hc)
        exact ⟨k, by omega, hk2, hk3, hk4, hk5⟩
    · simp only [hgt, dif_neg, not_false_eq_true]
      have hr : r = l + 1 := by omega
      subst hr
      exact ⟨l, le_refl _, le_refl _, by push_cast; rfl, hx, Or.inr rfl⟩

/-- The value of `_get` for a table of at least two points with linear
interpolation and an argument in the domain: the line through two neighbours
that bracket `x`, found by the binary search. -/
theorem Interpolation._get_linear (I : Interpolation) (x : ℚ) (h2 : 2 ≤ I.m_data.length)
    (hlin : I.m_interpolationType = e_interpolationType.INTERPOLATION_LINEAR)
    (hlo : I.xMin ≤ x) (hhi : x ≤ I.xMax) :
    ∃ k : Nat, k + 1 < I.m_data.length ∧
      (I.m_data.getD k (0, 0)).1 ≤ x ∧ x ≤ (I.m_data.getD (k + 1) (0, 0)).1 ∧
      (x < (I.m_data.getD (k + 1) (0, 0)).1 ∨ k + 1 = I.m_data.length - 1) ∧
      I._get x = (I.m_data.getD k (0, 0)).2 + (x - (I.m_data.getD k (0, 0)).1)
        * ((I.m_data.getD (k + 1) (0, 0)).2 - (I.m_data.getD k (0, 0)).2)
        / ((I.m_data.getD (k + 1) (0, 0)).1 - (I.m_data.getD k (0, 0)).1) := by
  have hne : I.m_data ≠ [] := by
    intro h; rw [h] at h2; simp at h2
  rw [Interpolation.xMin_eq] at hlo
  rw [Interpolation.xMax_eq I] at hhi
  obtain ⟨k, -, hk2, hk3, hk4, hk5⟩ :=
    Interpolation.search_spec I x (I.m_data.length - 1) 0 (I.m_data.length - 1) (by omega)
      (by omega) hlo
  have hcast : ((I.m_data.length : Int) - 1) = ((I.m_data.length - 1 : Nat) : Int) := by
    omega
  refine ⟨k, by omega, hk4, ?_, hk5, ?_⟩
  · rcases hk5 with hk5 | hk5
    · exact le_of_lt hk5
    · rw [hk5]; exact hhi
  · unfold Interpolation._get
    rw [hcast]
    have h0 : ((0 : Nat) : Int) = 0 := rfl
    rw [← h0, hk3, hlin]
    have hk1 : ((k : Int) + 1) = ((k + 1 : Nat) : Int) := by push_cast; rfl
    simp only [hk1, Interpolation.point_natCast]

/-- C22: for an interpolation with at least two points (fewer than `2^31`)
sorted by strictly increasing `x` and with linear interpolation, `get(x)`
raises `ValueError` exactly when `x < xMin()` or `x > xMax()`, which is exactly
when `contains(x)` is false; otherwise it returns the value at `x` of the line
through two adjacent data points `j`, `j+1` with `x_j ≤ x ≤ x_(j+1)`; and
`get(x_j) = y_j` for every data point. -/
theorem Interpolation_get_linear (I : Interpolation) (h2 : 2 ≤ I.m_data.length)
    (hsize : I.m_data.length < 2 ^ 31)
    (hs : I.m_data.Pairwise (fun a b => a.1 < b.1))
    (hlin : I.m_interpolationType = e_interpolationType.INTERPOLATION_LINEAR) :
    (∀ x : ℚ, I.get x = Except.error Fault.ValueError ↔ (x < I.xMin ∨ x > I.xMax)) ∧
    (∀ x : ℚ, (x < I.xMin ∨ x > I.xMax) ↔ I.contains x = false) ∧
    (∀ x : ℚ, ¬ (x < I.xMin ∨ x > I.xMax) →
      ∃ j : Nat, j + 1 < I.m_data.length ∧
        (I.m_data.getD j (0, 0)).1 ≤ x ∧ x ≤ (I.m_data.getD (j + 1) (0, 0)).1 ∧
        I.get x = Except.ok ((I.m_data.getD j (0, 0)).2 + (x - (I.m_data.getD j (0, 0)).1)
          * ((I.m_data.getD (j + 1) (0, 0)).2 - (I.m_data.getD j (0, 0)).2)
          / ((I.m_data.getD (j + 1) (0, 0)).1 - (I.m_data.getD j (0, 0)).1))) ∧
    (∀ j : Nat, j < I.m_data.length →
      I.get (I.m_data.getD j (0, 0)).1 = Except.ok (I.m_data.getD j (0, 0)).2) := by
  have hne : I.m_data ≠ [] := by
    intro h; rw [h] at h2; simp at h2
  have hl0 : ¬ I.m_data.length = 0 := by omega
  have hl1 : ¬ I.m_data.length = 1 := by omega
  have hget : ∀ x : ℚ, ¬ (x < I.xMin ∨ x > I.xMax) → I.get x = Except.ok (I._get x) := by
    intro x hx
    rw [not_or] at hx
    simp [Interpolation.get, hl0, hl1, hx.1, hx.2]
  refine ⟨?_, ?_, ?_, ?_⟩
  · intro x
    constructor
    · intro h
      by_contra hx
      rw [hget x hx] at h
      cases h
    · intro hx
      unfold Interpolation.get
      simp only [hl0, hl1, if_false, false_and]
      rcases hx with hx | hx
      · simp [hx]
      · by_cases hx1 : x < I.xMin
        · simp [hx1]
        · simp [hx1, hx]
  · intro x
    by_cases h1 : x < I.xMin <;> by_cases h2 : x > I.xMax <;>
      simp [Interpolation.contains, hl0, h1, h2]
  · intro x hx
    rw [hget x hx]
    rw [not_or, not_lt, not_lt] at hx
    obtain ⟨k, hk1, hk2, hk3, -, hk5⟩ := Interpolation._get_linear I x h2 hlin hx.1 hx.2
    exact ⟨k, hk1, hk2, hk3, by rw [hk5]⟩
  · intro j hj
    have hmono := Interpolation.abscissa_lt I hs
    have hlo : I.xMin ≤ (I.m_data.getD j (0, 0)).1 := by
      rw [Interpolation.xMin_eq]
      rcases Nat.eq_zero_or_pos j with h0 | h0
      · rw [h0]
      · exact le_of_lt (hmono 0 j h0 hj)
    have hhi : (I.m_data.getD j (0, 0)).1 ≤ I.xMax := by
      rw [Interpolation.xMax_eq I]
      rcases Nat.lt_or_ge j (I.m_data.length - 1) with h0 | h0
      · exact le_of_lt (hmono j _ h0 (by omega))
      · have : j = I.m_data.length - 1 := by omega
        rw [← this]
    rw [hget _ (by rw [not_or, not_lt, not_lt]; exact ⟨hlo, hhi⟩)]
    obtain ⟨k, hk1, hk2, hk3, hk4, hk5⟩ :=
      Interpolation._get_linear I (I.m_data.getD j (0, 0)).1 h2 hlin hlo hhi
    rw [hk5]
    congr 1
    have hkj : k ≤ j := by
      by_contra hc
      exact absurd (hmono j k (by omega) (by omega)) (not_lt.2 hk2)
    have hd : (I.m_data.getD (k + 1) (0, 0)).1 - (I.m_data.getD k (0, 0)).1 ≠ 0 :=
      sub_ne_zero.2 (ne_of_gt (hmono k (k + 1) (by omega) hk1))
    have hjk : j = k ∨ j = k + 1 := by
      rcases hk4 with hk4 | hk4
      · left
        by_contra hc
        rcases Nat.lt_or_ge (k + 1) j with h | h
        · exact absurd (hmono (k + 1) j h hj) (not_lt.2 (le_of_lt hk4))
        · have hj1 : j = k + 1 := by omega
          rw [hj1] at hk4
          exact absurd hk4 (lt_irrefl _)
      · omega
    rcases hjk with rfl | rfl
    · simp
    · rw [mul_div_cancel_left₀ _ hd]
      ring

/-- C22 at the table `(0,0) (1,2) (3,6)`: the hypotheses hold, and the value
at the data point `x = 1` is `2`. -/
theorem Interpolation_get_linear_witness :
    (2 ≤ (⟨[(0, 0), (1, 2), (3, 6)], e_interpolationType.INTERPOLATION_LINEAR⟩ :
        Interpolation).m_data.length ∧
      (⟨[(0, 0), (1, 2), (3, 6)], e_interpolationType.INTERPOLATION_LINEAR⟩ :
        Interpolation).m_data.Pairwise (fun a b => a.1 < b.1)) ∧
    (⟨[(0, 0), (1, 2), (3, 6)], e_interpolationType.INTERPOLATION_LINEAR⟩ :
        Interpolation).get 1 = Except.ok 2 :=
  ⟨⟨by decide, by simp⟩,
    (Interpolation_get_linear ⟨[(0, 0), (1, 2), (3, 6)], e_interpolationType.INTERPOLATION_LINEAR⟩
      (by decide) (by simp) (by simp) rfl).2.2.2 1 (by decide)⟩

/-! ## Index of refraction: selection of the data set and the ranges -/

/-- The guards of `Interpolation::get` pass exactly when `get` returns the
value of `_get`; otherwise `get` raises `ValueError`. -/
theorem Interpolation.get_of_covers (I : Interpolation) (x : ℚ) :
    (I.Covers x → I.get x = Except.ok (I._get x)) ∧
    (¬ I.Covers x → I.get x = Except.error Fault.ValueError) := by
  unfold Interpolation.Covers Interpolation.get
  constructor
  · rintro ⟨h0, h1, h2, h3⟩
    simp [h0, h1, not_lt.2 h2, not_lt.2 h3]
  · intro h
    by_cases h0 : I.m_data.length = 0
    · simp [h0]
    · by_cases h1 : (I.m_data.length = 1
          ∧ I.m_interpolationType = e_interpolationType.INTERPOLATION_LINEAR)
      · simp only [h0, h1, if_false]
        simp
      · by_cases h2 : x < I.xMin
        · simp only [h0, h1, h2, if_false, if_true]
        · by_cases h3 : x > I.xMax
          · simp only [h0, h1, h2, h3, if_false, if_true]
          · exact absurd ⟨h0, h1, not_lt.1 h2, not_lt.1 h3⟩ h

/-- The loop of `find_closest` over the entries `1 .. k`: the state is the
first index in `0 .. k` that minimises the distance of the temperature to
`fTemp`, with that distance. -/
theorem AssetMaterialIor.closest_loop (m : AssetMaterialIor) (fTemp : ℚ) (k : Nat) :
    ∃ i : Nat, i ≤ k ∧
      ((List.range k).map (· + 1)).foldl (m.closestStep fTemp)
        (0, |(m.m_iorData.getD 0 ior_data_t.default).fTemperature - fTemp|)
        = (i, |(m.m_iorData.getD i ior_data_t.default).fTemperature - fTemp|) ∧
      (∀ j : Nat, j ≤ k → |(m.m_iorData.getD i ior_data_t.default).fTemperature - fTemp|
        ≤ |(m.m_iorData.getD j ior_data_t.default).fTemperature - fTemp|) ∧
      (∀ j : Nat, j < i → |(m.m_iorData.getD i ior_data_t.default).fTemperature - fTemp|
        < |(m.m_iorData.getD j ior_data_t.default).fTemperature - fTemp|) := by
  induction k with
  | zero =>
    refine ⟨0, le_refl _, rfl, ?_, ?_⟩
    · intro j hj
      have : j = 0 := by omega
      rw [this]
    · intro j hj
      omega
  | succ k ih =>
    obtain ⟨i, hik, hfold, hmin, hfirst⟩ := ih
    rw [List.range_succ, List.map_append, List.foldl_append, hfold]
    simp only [List.map_cons, List.map_nil, List.foldl_cons, List.foldl_nil,
      AssetMaterialIor.closestStep]
    by_cases hlt : |(m.m_iorData.getD (k + 1) ior_data_t.default).fTemperature - fTemp|
        < |(m.m_iorData.getD i ior_data_t.default).fTemperature - fTemp|
    · simp only [hlt, if_true]
      refine ⟨k + 1, le_refl _, rfl, ?_, ?_⟩
      · intro j hj
        rcases Nat.lt_or_ge j (k + 1) with h | h
        · exact le_trans (le_of_lt hlt) (hmin j (by omega))
        · have : j = k + 1 := by omega
          rw [this]
      · intro j hj
        exact lt_of_lt_of_le hlt (hmin j (by omega))
    · simp only [hlt, if_false]
      refine ⟨i, by omega, rfl, ?_, hfirst⟩
      intro j hj
      rcases Nat.lt_or_ge j (k + 1) with h | h
      · exact hmin j (by omega)
      · have : j = k + 1 := by omega
        rw [this]
        exact not_lt.1 hlt

/-- For data with at least one entry `find_closest` returns the first index
that minimises the distance of the temperature to `fTemp`. -/
theorem AssetMaterialIor.find_closest_spec (m : AssetMaterialIor) (fTemp : ℚ)
    (hne : m.m_iorData ≠ []) :
    ∃ i : Nat, m.find_closest fTemp = Except.ok i ∧ i < m.m_iorData.length ∧
      (∀ j : Nat, j < m.m_iorData.length →
        |(m.m_iorData.getD i ior_data_t.default).fTemperature - fTemp|
          ≤ |(m.m_iorData.getD j ior_data_t.default).fTemperature - fTemp|) ∧
      (∀ j : Nat, j < i → |(m.m_iorData.getD i ior_data_t.default).fTemperature - fTemp|
        < |(m.m_iorData.getD j ior_data_t.default).fTemperature - fTemp|) := by
  obtain ⟨i, hik, hfold, hmin, hfirst⟩ :=
    AssetMaterialIor.closest_loop m fTemp (m.m_iorData.length - 1)
  have hpos : 0 < m.m_iorData.length := List.length_pos.2 hne
  refine ⟨i, ?_, by omega, fun j hj => hmin j (by omega), hfirst⟩
  unfold AssetMaterialIor.find_closest
  cases hd : m.m_iorData with
  | nil => exact absurd hd hne
  | cons d0 rest =>
    have h0 : (m.m_iorData.getD 0 ior_data_t.default) = d0 := by rw [hd]; rfl
    rw [h0] at hfold
    simp only at hfold ⊢
    rw [← hd, hfold]

/-- C21, amended: for data with at least one entry, `find_closest` returns the
first index `i` that minimises `|temperature_i - T|`; `getIor(T, wl)` raises
`RuntimeError` if and only if `wl` lies outside both the tabulated range
`[fIorMin, fIorMax]` and the oscillator range `[fLOMin, fLOMax]` of the data
set `i`; for `wl` inside the tabulated range it returns the temperature of the
data set with the two values of the tables when the guards of
`Interpolation::get` pass for both tables, and raises `ValueError` when they
do not; for `wl` outside the tabulated range and inside the oscillator range
it succeeds and returns the temperature of the data set. -/
theorem AssetMaterialIor_getIor_ranges (L : Libm) (m : AssetMaterialIor) (fTemp wl : ℚ)
    (hne : m.m_iorData ≠ []) :
    ∃ i : Nat, m.find_closest fTemp = Except.ok i ∧ i < m.m_iorData.length ∧
      (∀ j : Nat, j < m.m_iorData.length →
        |(m.m_iorData.getD i ior_data_t.default).fTemperature - fTemp|
          ≤ |(m.m_iorData.getD j ior_data_t.default).fTemperature - fTemp|) ∧
      (∀ j : Nat, j < i → |(m.m_iorData.getD i ior_data_t.default).fTemperature - fTemp|
        < |(m.m_iorData.getD j ior_data_t.default).fTemperature - fTemp|) ∧
      (m.getIor L fTemp wl = Except.error Fault.RuntimeError ↔
        (¬ ((m.m_iorData.getD i ior_data_t.default).fIorMin ≤ wl
            ∧ wl ≤ (m.m_iorData.getD i ior_data_t.default).fIorMax) ∧
         ¬ ((m.m_iorData.getD i ior_data_t.default).fLOMin ≤ wl
            ∧ wl ≤ (m.m_iorData.getD i ior_data_t.default).fLOMax))) ∧
      (((m.m_iorData.getD i ior_data_t.default).fIorMin ≤ wl
          ∧ wl ≤ (m.m_iorData.getD i ior_data_t.default).fIorMax) →
        ((m.m_iorData.getD i ior_data_t.default).interpolationN.Covers wl ∧
            (m.m_iorData.getD i ior_data_t.default).interpolationK.Covers wl →
          m.getIor L fTemp wl = Except.ok ((m.m_iorData.getD i ior_data_t.default).fTemperature,
            (m.m_iorData.getD i ior_data_t.default).interpolationN._get wl,
            (m.m_iorData.getD i ior_data_t.default).interpolationK._get wl)) ∧
        (¬ ((m.m_iorData.getD i ior_data_t.default).interpolationN.Covers wl ∧
            (m.m_iorData.getD i ior_data_t.default).interpolationK.Covers wl) →
          m.getIor L fTemp wl = Except.error Fault.ValueError)) ∧
      (¬ ((m.m_iorData.getD i ior_data_t.default).fIorMin ≤ wl
          ∧ wl ≤ (m.m_iorData.getD i ior_data_t.default).fIorMax) →
        ((m.m_iorData.getD i ior_data_t.default).fLOMin ≤ wl
          ∧ wl ≤ (m.m_iorData.getD i ior_data_t.default).fLOMax) →
        ∃ n k : ℚ, m.getIor L fTemp wl
          = Except.ok ((m.m_iorData.getD i ior_data_t.default).fTemperature, n, k)) := by
  obtain ⟨i, hfind, hi, hmin, hfirst⟩ := AssetMaterialIor.find_closest_spec m fTemp hne
  refine ⟨i, hfind, hi, hmin, hfirst, ?_⟩
  obtain ⟨data, hdata⟩ : ∃ data, data = m.m_iorData.getD i ior_data_t.default := ⟨_, rfl⟩
  rw [← hdata]
  have hN := Interpolation.get_of_covers data.interpolationN wl
  have hK := Interpolation.get_of_covers data.interpolationK wl
  unfold AssetMaterialIor.getIor
  rw [hfind]
  simp only [← hdata]
  by_cases htab : data.fIorMin ≤ wl ∧ wl ≤ data.fIorMax
  · simp only [htab, and_self, if_true, not_true_eq_false, false_and, iff_false, true_implies,
      not_false_eq_true, false_implies, and_true]
    by_cases hcN : data.interpolationN.Covers wl
    · by_cases hcK : data.interpolationK.Covers wl
      · rw [hN.1 hcN, hK.1 hcK]
        simp [hcN, hcK]
      · rw [hN.1 hcN, hK.2 hcK]
        simp [hcN, hcK]
    · rw [hN.2 hcN]
      simp [hcN]
  · by_cases hlo : data.fLOMin ≤ wl ∧ wl ≤ data.fLOMax
    · simp only [htab, hlo, if_false, and_self, if_true, not_true_eq_false, and_false,
        not_false_eq_true, false_implies, true_implies, true_and, and_true]
      exact ⟨by simp, _, _, rfl⟩
    · simp only [htab, hlo, if_false, not_false_eq_true, and_self, false_implies, true_implies,
        and_true]

/-- Witness for C21: the example data with the tables from 400 nm to 700 nm. -/
theorem AssetMaterialIor_getIor_ranges_witness :
    exampleIor.m_iorData ≠ [] ∧
    ∃ i : Nat, exampleIor.find_closest 300 = Except.ok i ∧ i < exampleIor.m_iorData.length :=
  ⟨by simp [exampleIor],
    (AssetMaterialIor_getIor_ranges exampleLibm exampleIor 300 (500 / 1000000000)
      (by simp [exampleIor])).imp (fun _ h => ⟨h.1, h.2.1⟩)⟩

/-- C21, counterexample: with the tables of a single point at 500 nm the
wavelength 500 nm lies inside the tabulated range of the selected data set,
and `getIor` raises `ValueError`: it neither succeeds nor raises
`RuntimeError`. -/
theorem AssetMaterialIor_getIor_onePoint_counterexample :
    onePointIor.find_closest 300 = Except.ok 0 ∧
    (onePointIor.m_iorData.getD 0 ior_data_t.default).fIorMin ≤ 500 / 1000000000 ∧
    (500 / 1000000000 : ℚ) ≤ (onePointIor.m_iorData.getD 0 ior_data_t.default).fIorMax ∧
    onePointIor.getIor exampleLibm 300 (500 / 1000000000) = Except.error Fault.ValueError := by
  refine ⟨?_, ?_, ?_, ?_⟩
  · simp [onePointIor, AssetMaterialIor.find_closest]
  · norm_num [onePointIor]
  · norm_num [onePointIor]
  · norm_num [onePointIor, AssetMaterialIor.getIor, AssetMaterialIor.find_closest,
      Interpolation.get]

/-! ## Splitting of strings -/

/-- Skipped characters are not searched: after the `x.length` characters of
`x` the count goes on in the rest. -/
theorem StdString.occurrences_skip (d x b : List Char) :
    StdString.occurrences d (x ++ b) x.length = StdString.occurrences d b 0 := by
  induction x with
  | nil =>
    cases b <;> simp [StdString.occurrences]
  | cons c x ih => simpa [StdString.occurrences] using ih

/-- The search of a non-empty `d` from position `pos` in the rest `t`: either
nothing is found and `t` has no occurrence, or `t = a ++ d ++ b` with the
result `pos + a.length`, and `t` has one occurrence more than `b`. -/
theorem StdString.findFrom_spec (d : List Char) (hd : d ≠ []) :
    ∀ (t : List Char) (pos : Nat),
      (StdString.findFrom d t pos = StdString.npos ∧ StdString.occurrences d t 0 = 0) ∨
      (∃ a b : List Char, t = a ++ d ++ b ∧ StdString.findFrom d t pos = pos + a.length ∧
        StdString.occurrences d t 0 = 1 + StdString.occurrences d b 0) := by
  intro t
  induction t with
  | nil =>
    intro pos
    left
    simp [StdString.findFrom, StdString.occurrences, hd]
  | cons c t ih =>
    intro pos
    by_cases hp : d.isPrefixOf (c :: t) = true
    · right
      obtain ⟨b, hb⟩ := List.isPrefixOf_iff_prefix.1 hp
      refine ⟨[], b, by simpa using hb.symm, by simp [StdString.findFrom, hp], ?_⟩
      obtain ⟨c', d', rfl⟩ := List.exists_cons_of_ne_nil hd
      simp only [List.cons_append, List.cons.injEq] at hb
      obtain ⟨rfl, rfl⟩ := hb
      simp only [StdString.occurrences, hp, if_true, List.length_cons, Nat.add_sub_cancel]
      rw [StdString.occurrences_skip]
    · rcases ih (pos + 1) with ⟨h1, h2⟩ | ⟨a, b, h1, h2, h3⟩
      · left
        simp [StdString.findFrom, StdString.occurrences, hp, h1, h2]
      · right
        refine ⟨c :: a, b, by simp [h1], ?_, ?_⟩
        · simp [StdString.findFrom, hp, h2]; omega
        · simp [StdString.occurrences, hp, h3]

/-- Pieces joined with the delimiter: one piece in front of others. -/
theorem StdString.intercalate_cons (d a : List Char) (ps : List (List Char)) (h : ps ≠ []) :
    List.intercalate d (a :: ps) = a ++ d ++ List.intercalate d ps := by
  obtain ⟨p, ps', rfl⟩ := List.exists_cons_of_ne_nil h
  simp [List.intercalate, List.intersperse]

/-- The last of the pieces is what is left of the joined string after the
pieces before it, each with its delimiter. -/
theorem StdString.intercalate_drop (d : List Char) :
    ∀ (ps : List (List Char)) (last : List Char), ps.getLast? = some last →
      (List.intercalate d ps).drop ((ps.dropLast.map (fun p => p.length + d.length)).sum)
        = last := by
  intro ps
  induction ps with
  | nil => intro last h; simp at h
  | cons a ps ih =>
    intro last h
    cases ps with
    | nil =>
      simp only [List.getLast?_singleton, Option.some.injEq] at h
      simp [List.intercalate, h]
    | cons p ps' =>
      rw [List.getLast?_cons_cons] at h
      rw [StdString.intercalate_cons d a (p :: ps') (by simp), List.dropLast_cons₂,
        List.map_cons, List.sum_cons, List.append_assoc]
      have h3 : a.length + d.length
          + ((p :: ps').dropLast.map (fun p => p.length + d.length)).sum
          = a.length + (d.length
            + ((p :: ps').dropLast.map (fun p => p.length + d.length)).sum) := by omega
      rw [h3, List.drop_append, List.drop_append]
      exact ih last h

/-- The loop of `split` from the pass `i` at `pos_start`, with enough fuel for
the rest of the string: it appends to the tokens the pieces `ps` of the rest
of `s` from `pos_start` on. -/
theorem utils.string.splitLoop_spec (s d : List Char) (m : Int) (hd : d ≠ [])
    (hlen : s.length < 2 ^ 31) :
    ∀ (fuel : Nat) (i : Int) (pos : Nat) (output : List (List Char)),
      pos ≤ s.length → s.length - pos + 1 ≤ fuel →
      ∃ (ps : List (List Char)) (last : List Char),
        utils.string.splitLoop s d m fuel i pos output = some (Except.ok (output ++ ps)) ∧
        ps.getLast? = some last ∧
        List.intercalate d ps = s.drop pos ∧
        (m < i → ps.length = StdString.occurrences d (s.drop pos) 0 + 1) ∧
        (i ≤ m → ps.length = min (m - i).toNat (StdString.occurrences d (s.drop pos) 0) + 1) ∧
        StdString.occurrences d last 0
          = StdString.occurrences d (s.drop pos) 0 - (ps.length - 1) := by
  have hnpos : StdString.npos = 2 ^ 64 - 1 := rfl
  -- the pass that takes the whole rest
  have hrest : ∀ pos : Nat, pos ≤ s.length →
      StdString.substr s pos ((StdString.npos + 2 ^ 64 - pos) % 2 ^ 64) = Except.ok (s.drop pos) := by
    intro pos hpos
    have hle : (s.drop pos).length ≤ (StdString.npos + 2 ^ 64 - pos) % 2 ^ 64 := by
      rw [List.length_drop, hnpos]
      omega
    simp only [StdString.substr, gt_iff_lt, not_lt.2 hpos, if_false]
    rw [List.take_of_length_le hle]
  intro fuel
  induction fuel with
  | zero => intro i pos output hpos hfuel; omega
  | succ fuel ih =>
    intro i pos output hpos hfuel
    rw [utils.string.splitLoop]
    by_cases him : i = m
    · simp only [him, if_true, hrest pos hpos]
      refine ⟨[s.drop pos], s.drop pos, rfl, rfl, by simp [List.intercalate], ?_, ?_, by simp⟩
      · intro h; omega
      · intro _; simp
    · simp only [him, if_false]
      have hfind : StdString.find s d pos = StdString.findFrom d (s.drop pos) pos := by
        simp [StdString.find, not_lt.2 hpos]
      rcases StdString.findFrom_spec d hd (s.drop pos) pos with ⟨h1, h2⟩ | ⟨a, b, h1, h2, h3⟩
      · rw [hfind, h1, hrest pos hpos]
        simp only [if_true]
        refine ⟨[s.drop pos], s.drop pos, rfl, rfl, by simp [List.intercalate], ?_, ?_, by simp⟩
        · intro _; rw [h2]; rfl
        · intro _; rw [h2]; simp
      · have hla : pos + a.length + d.length + b.length = s.length := by
          have := congrArg List.length h1
          simp only [List.length_drop, List.length_append] at this
          omega
        have hdpos : 0 < d.length := List.length_pos.2 hd
        rw [hfind, h2]
        have hcount : (pos + a.length + 2 ^ 64 - pos) % 2 ^ 64 = a.length := by omega
        have htoken : StdString.substr s pos a.length = Except.ok a := by
          simp [StdString.substr, not_lt.2 hpos, h1]
        have hne : ¬ pos + a.length = StdString.npos := by rw [hnpos]; omega
        have hnext : (pos + a.length + d.length) % 2 ^ 64 = pos + a.length + d.length := by
          omega
        rw [hcount, htoken]
        simp only [hne, if_false, hnext]
        have hdrop : s.drop (pos + a.length + d.length) = b := by
          have : s.drop (pos + a.length + d.length)
              = (s.drop pos).drop (a.length + d.length) := by
            rw [List.drop_drop]; congr 1; omega
          rw [this, h1, List.append_assoc, List.drop_append, List.drop_left]
        obtain ⟨ps, last, hp1, hp2, hp3, hp4, hp5, hp6⟩ :=
          ih (i + 1) (pos + a.length + d.length) (output ++ [a]) (by omega) (by omega)
        rw [hdrop] at hp3 hp4 hp5 hp6
        have hpsne : ps ≠ [] := by
          intro h; rw [h] at hp2; simp at hp2
        refine ⟨a :: ps, last, ?_, ?_, ?_, ?_, ?_, ?_⟩
        · rw [hp1]; simp
        · obtain ⟨p, ps', rfl⟩ := List.exists_cons_of_ne_nil hpsne
          rw [List.getLast?_cons_cons, hp2]
        · rw [StdString.intercalate_cons d a ps hpsne, hp3, h1]
        · intro h
          rw [List.length_cons, hp4 (by omega), h3]
          omega
        · intro h
          rw [List.length_cons, hp5 (by omega), h3]
          omega
        · rw [hp6, h3, List.length_cons]
          have : 1 ≤ ps.length := List.length_pos.2 hpsne
          omega

/-- C25: for a string `s` shorter than `2^31`, a non-empty delimiter `d` and
any `maxsplit` value `m`, `split(s, d, m)` returns pieces that joined with `d`
give back `s`; for a negative `m` (so for `m = -1`) their number is one more
than the number of non-overlapping left-to-right occurrences of `d` in `s`;
for `m ≥ 0` there are at most `m + 1` pieces, namely one more than the smaller
of `m` and the number of occurrences, and the last piece is the rest of `s`,
which keeps the occurrences that were not split; for an empty delimiter the
result is the empty vector. -/
theorem utils_string_split_pieces (s d : List Char) (m : Int) (fuel : Nat) (hd : d ≠ [])
    (hlen : s.length < 2 ^ 31) (hfuel : s.length + 1 ≤ fuel) :
    (∃ (ps : List (List Char)) (last : List Char),
      utils.string.split s d m fuel = some (Except.ok ps) ∧
      List.intercalate d ps = s ∧
      (m < 0 → ps.length = StdString.occurrences d s 0 + 1) ∧
      (0 ≤ m → ps.length ≤ m.toNat + 1 ∧
        ps.length = min m.toNat (StdString.occurrences d s 0) + 1) ∧
      ps.getLast? = some last ∧
      last = s.drop ((ps.dropLast.map (fun p => p.length + d.length)).sum) ∧
      StdString.occurrences d last 0 = StdString.occurrences d s 0 - (ps.length - 1)) ∧
    utils.string.split s [] m fuel = some (Except.ok []) := by
  refine ⟨?_, by simp [utils.string.split]⟩
  obtain ⟨ps, last, h1, h2, h3, h4, h5, h6⟩ :=
    utils.string.splitLoop_spec s d m hd hlen fuel 0 0 [] (Nat.zero_le _) (by omega)
  simp only [List.drop_zero, List.nil_append, sub_zero] at h1 h3 h4 h5 h6
  refine ⟨ps, last, by simp [utils.string.split, hd, h1], h3, h4, ?_, h2, ?_, h6⟩
  · intro hm
    have := h5 hm
    omega
  · have := StdString.intercalate_drop d ps last h2
    rw [h3] at this
    exact this.symm

/-- C25 at `split("a,b,c,d,e,f", ",", 2)`: the pieces are `a`, `b` and
`c,d,e,f`. -/
theorem utils_string_split_pieces_witness :
    (",".toList ≠ [] ∧ "a,b,c,d,e,f".toList.length + 1 ≤ 12) ∧
    ∃ (ps : List (List Char)) (last : List Char),
      utils.string.split "a,b,c,d,e,f".toList ",".toList 2 12 = some (Except.ok ps) ∧
      List.intercalate ",".toList ps = "a,b,c,d,e,f".toList ∧
      (0 ≤ (2 : Int) → ps.length ≤ (2 : Int).toNat + 1 ∧
        ps.length = min (2 : Int).toNat (StdString.occurrences ",".toList "a,b,c,d,e,f".toList 0)
          + 1) ∧
      ps.getLast? = some last :=
  ⟨⟨by decide, by decide⟩,
    (utils_string_split_pieces "a,b,c,d,e,f".toList ",".toList 2 12 (by decide) (by simp)
      (by decide)).1.imp
      (fun _ h => h.imp (fun _ h => ⟨h.1, h.2.1, h.2.2.2.1, h.2.2.2.2.1⟩))⟩

/-- The example of the unit test: `split("a,b,c,d,e,f", ",", 2)`. -/
theorem utils.string.split_example :
    utils.string.split "a,b,c,d,e,f".toList ",".toList 2 12
      = some (Except.ok ["a".toList, "b".toList, "c,d,e,f".toList]) ∧
    utils.string.split "a,b,c".toList ",".toList (-1) 6
      = some (Except.ok ["a".toList, "b".toList, "c".toList]) ∧
    utils.string.split [] ",".toList (-1) 1 = some (Except.ok [[]]) := by
  refine ⟨?_, ?_, ?_⟩ <;> rfl

/-! ## Uuid: string and back -/

/-- The characters of the digits `0..15`: the digit is read back, the
character is no dash and is one of `0123456789abcdef`. -/
theorem Uuid.hex_digit (x : Nat) (hx : x < 16) :
    Uuid.hex2int (intOfChar (charOfInt (Uuid.int2hex (x : Int)))) = (x : Int) ∧
    charOfInt (Uuid.int2hex (x : Int)) ≠ '-' ∧
    charOfInt (Uuid.int2hex (x : Int)) ∈ "0123456789abcdef".toList := by
  interval_cases x <;> decide

/-- A digit of the uuid is a number below 16. -/
theorem Uuid.digit_lt (u : Uuid) (i : Nat) : ∃ x : Nat, x < 16 ∧ u.digit i = (x : Int) := by
  unfold Uuid.digit
  have h15 : (0xf : Nat) = 2 ^ 4 - 1 := by norm_num
  by_cases h : i < 16
  · refine ⟨(u.m_u64UuidHi >>> (60 - 4 * i)) &&& 0xf, ?_, by simp [h]⟩
    rw [h15, Nat.and_pow_two_sub_one_eq_mod]
    exact Nat.mod_lt _ (by norm_num)
  · refine ⟨(u.m_u64UuidLo >>> (124 - 4 * i)) &&& 0xf, ?_, by simp [h]⟩
    rw [h15, Nat.and_pow_two_sub_one_eq_mod]
    exact Nat.mod_lt _ (by norm_num)

/-- Adding the digit at bit `k` of `h` to the digits above it, already in
place, puts the digits from bit `k` on in place. -/
theorem Uuid.accumulate (h k : Nat) (hk : k + 4 ≤ 64) :
    (h / 2 ^ (k + 4) * 2 ^ (k + 4)) ||| ((((h >>> k) &&& 0xf) <<< k) % 2 ^ 64)
      = h / 2 ^ k * 2 ^ k := by
  have h15 : (0xf : Nat) = 2 ^ 4 - 1 := by norm_num
  rw [h15, Nat.and_pow_two_sub_one_eq_mod, Nat.shiftRight_eq_div_pow, Nat.shiftLeft_eq]
  have hlt : h / 2 ^ k % 2 ^ 4 * 2 ^ k < 2 ^ (k + 4) := by
    rw [pow_add, mul_comm (2 ^ k)]
    exact Nat.mul_lt_mul_of_pos_right (Nat.mod_lt _ (by norm_num)) (by positivity)
  have hle : 2 ^ (k + 4) ≤ 2 ^ 64 := Nat.pow_le_pow_right (by norm_num) hk
  rw [Nat.mod_eq_of_lt (lt_of_lt_of_le hlt hle), mul_comm (h / 2 ^ (k + 4)),
    ← Nat.mul_add_lt_is_or hlt]
  have hdiv : h / 2 ^ (k + 4) = h / 2 ^ k / 2 ^ 4 := by
    rw [Nat.div_div_eq_div_mul, pow_add]
  rw [hdiv, pow_add]
  have := Nat.div_add_mod (h / 2 ^ k) (2 ^ 4)
  calc 2 ^ k * 2 ^ 4 * (h / 2 ^ k / 2 ^ 4) + h / 2 ^ k % 2 ^ 4 * 2 ^ k
      = (2 ^ 4 * (h / 2 ^ k / 2 ^ 4) + h / 2 ^ k % 2 ^ 4) * 2 ^ k := by ring
    _ = h / 2 ^ k * 2 ^ k := by rw [this]

/-- One pass of the loop of the string constructor over the character of the
digit `j` of the upper half. -/
theorem Uuid.loop_step_hi (u : Uuid) (j : Nat) (hj : j < 16) (rest : List Char)
    (lo : Nat) :
    Uuid.ofStringLoop (charOfInt (Uuid.int2hex (u.digit j)) :: rest) j lo
        (u.m_u64UuidHi / 2 ^ (64 - 4 * j) * 2 ^ (64 - 4 * j))
      = Uuid.ofStringLoop rest (j + 1) lo
        (u.m_u64UuidHi / 2 ^ (64 - 4 * (j + 1)) * 2 ^ (64 - 4 * (j + 1))) := by
  have h15 : (0xf : Nat) = 2 ^ 4 - 1 := by norm_num
  have hd : u.digit j = (((u.m_u64UuidHi >>> (60 - 4 * j)) &&& 0xf : Nat) : Int) := by
    simp [Uuid.digit, hj]
  have hx : (u.m_u64UuidHi >>> (60 - 4 * j)) &&& 0xf < 16 := by
    rw [h15, Nat.and_pow_two_sub_one_eq_mod]
    exact Nat.mod_lt _ (by norm_num)
  obtain ⟨h1, h2, -⟩ := Uuid.hex_digit _ hx
  rw [Uuid.ofStringLoop, hd]
  have hj32 : j < 32 := by omega
  have hneg : ¬ ((((u.m_u64UuidHi >>> (60 - 4 * j)) &&& 0xf : Nat) : Int) < 0) := by omega
  simp only [hj32, if_true, h2, if_false, h1, hj, hneg, Int.toNat_ofNat]
  congr 1
  have e1 : 64 - 4 * j = (60 - 4 * j) + 4 := by omega
  have e2 : 64 - 4 * (j + 1) = 60 - 4 * j := by omega
  have e3 : 4 * (15 - j) = 60 - 4 * j := by omega
  rw [e1, e2, e3]
  exact Uuid.accumulate u.m_u64UuidHi (60 - 4 * j) (by omega)

/-- One pass of the loop of the string constructor over the character of the
digit `j` of the lower half. -/
theorem Uuid.loop_step_lo (u : Uuid) (j : Nat) (hj : 16 ≤ j) (hj32 : j < 32) (rest : List Char)
    (hi : Nat) :
    Uuid.ofStringLoop (charOfInt (Uuid.int2hex (u.digit j)) :: rest) j
        (u.m_u64UuidLo / 2 ^ (128 - 4 * j) * 2 ^ (128 - 4 * j)) hi
      = Uuid.ofStringLoop rest (j + 1)
        (u.m_u64UuidLo / 2 ^ (128 - 4 * (j + 1)) * 2 ^ (128 - 4 * (j + 1))) hi := by
  have h15 : (0xf : Nat) = 2 ^ 4 - 1 := by norm_num
  have hj16 : ¬ j < 16 := by omega
  have hd : u.digit j = (((u.m_u64UuidLo >>> (124 - 4 * j)) &&& 0xf : Nat) : Int) := by
    simp [Uuid.digit, hj16]
  have hx : (u.m_u64UuidLo >>> (124 - 4 * j)) &&& 0xf < 16 := by
    rw [h15, Nat.and_pow_two_sub_one_eq_mod]
    exact Nat.mod_lt _ (by norm_num)
  obtain ⟨h1, h2, -⟩ := Uuid.hex_digit _ hx
  rw [Uuid.ofStringLoop, hd]
  have hneg : ¬ ((((u.m_u64UuidLo >>> (124 - 4 * j)) &&& 0xf : Nat) : Int) < 0) := by omega
  simp only [hj32, if_true, h2, if_false, h1, hj16, hneg, Int.toNat_ofNat]
  congr 1
  have e1 : 128 - 4 * j = (124 - 4 * j) + 4 := by omega
  have e2 : 128 - 4 * (j + 1) = 124 - 4 * j := by omega
  have e3 : 4 * (31 - j) = 124 - 4 * j := by omega
  rw [e1, e2, e3]
  exact Uuid.accumulate u.m_u64UuidLo (124 - 4 * j) (by omega)

/-- The loop of the string constructor over the characters of the digits
`j .. j+n-1` of the upper half. -/
theorem Uuid.loop_hi (u : Uuid) (lo : Nat) (rest : List Char) :
    ∀ (n j : Nat), j + n ≤ 16 →
      Uuid.ofStringLoop
          ((List.range' j n).map (fun i => charOfInt (Uuid.int2hex (u.digit i))) ++ rest) j lo
          (u.m_u64UuidHi / 2 ^ (64 - 4 * j) * 2 ^ (64 - 4 * j))
        = Uuid.ofStringLoop rest (j + n) lo
          (u.m_u64UuidHi / 2 ^ (64 - 4 * (j + n)) * 2 ^ (64 - 4 * (j + n))) := by
  intro n
  induction n with
  | zero => intro j _; rfl
  | succ n ih =>
    intro j hj
    rw [List.range'_succ, List.map_cons, List.cons_append, Uuid.loop_step_hi u j (by omega),
      ih (j + 1) (by omega)]
    have : j + 1 + n = j + (n + 1) := by omega
    rw [this]

/-- The loop of the string constructor over the characters of the digits
`j .. j+n-1` of the lower half. -/
theorem Uuid.loop_lo (u : Uuid) (hi : Nat) (rest : List Char) :
    ∀ (n j : Nat), 16 ≤ j → j + n ≤ 32 →
      Uuid.ofStringLoop
          ((List.range' j n).map (fun i => charOfInt (Uuid.int2hex (u.digit i))) ++ rest) j
          (u.m_u64UuidLo / 2 ^ (128 - 4 * j) * 2 ^ (128 - 4 * j)) hi
        = Uuid.ofStringLoop rest (j + n)
          (u.m_u64UuidLo / 2 ^ (128 - 4 * (j + n)) * 2 ^ (128 - 4 * (j + n))) hi := by
  intro n
  induction n with
  | zero => intro j _ _; rfl
  | succ n ih =>
    intro j hj hjn
    rw [List.range'_succ, List.map_cons, List.cons_append,
      Uuid.loop_step_lo u j hj (by omega), ih (j + 1) (by omega) (by omega)]
    have : j + 1 + n = j + (n + 1) := by omega
    rw [this]

/-- The string of a uuid: the characters of the digits in the groups of
8, 4, 4, 4 and 12 with dashes between them. -/
theorem Uuid.toString_eq (u : Uuid) :
    u.toString =
      (List.range' 0 8).map (fun i => charOfInt (Uuid.int2hex (u.digit i))) ++ '-' ::
      ((List.range' 8 4).map (fun i => charOfInt (Uuid.int2hex (u.digit i))) ++ '-' ::
      ((List.range' 12 4).map (fun i => charOfInt (Uuid.int2hex (u.digit i))) ++ '-' ::
      ((List.range' 16 4).map (fun i => charOfInt (Uuid.int2hex (u.digit i))) ++ '-' ::
      ((List.range' 20 12).map (fun i => charOfInt (Uuid.int2hex (u.digit i))) ++ [])))) := by
  unfold Uuid.toString
  simp only [List.range_succ, List.range_zero, List.nil_append, List.foldl_append,
    List.foldl_cons, List.foldl_nil, List.append_assoc, List.singleton_append]
  simp [Uuid.toStringStep, List.range']

/-- A dash is skipped by the loop of the string constructor. -/
theorem Uuid.loop_dash (rest : List Char) (j lo hi : Nat) (hj : j < 32) :
    Uuid.ofStringLoop ('-' :: rest) j lo hi = Uuid.ofStringLoop rest j lo hi := by
  rw [Uuid.ofStringLoop]
  simp [hj]

/-- The loop over a group of digits of the upper half, with the values of
the upper half before and after the group named `a` and `b`. -/
theorem Uuid.loop_hi_group (u : Uuid) (lo : Nat) (rest : List Char) (n j j' a b : Nat)
    (hjn : j + n ≤ 16) (hj' : j' = j + n)
    (ha : a = u.m_u64UuidHi / 2 ^ (64 - 4 * j) * 2 ^ (64 - 4 * j))
    (hb : b = u.m_u64UuidHi / 2 ^ (64 - 4 * (j + n)) * 2 ^ (64 - 4 * (j + n))) :
    Uuid.ofStringLoop
        ((List.range' j n).map (fun i => charOfInt (Uuid.int2hex (u.digit i))) ++ rest) j lo a
      = Uuid.ofStringLoop rest j' lo b := by
  subst ha hb hj'
  exact Uuid.loop_hi u lo rest n j hjn

/-- The loop over a group of digits of the lower half, with the values of
the lower half before and after the group named `a` and `b`. -/
theorem Uuid.loop_lo_group (u : Uuid) (hi : Nat) (rest : List Char) (n j j' a b : Nat)
    (hj : 16 ≤ j) (hjn : j + n ≤ 32) (hj' : j' = j + n)
    (ha : a = u.m_u64UuidLo / 2 ^ (128 - 4 * j) * 2 ^ (128 - 4 * j))
    (hb : b = u.m_u64UuidLo / 2 ^ (128 - 4 * (j + n)) * 2 ^ (128 - 4 * (j + n))) :
    Uuid.ofStringLoop
        ((List.range' j n).map (fun i => charOfInt (Uuid.int2hex (u.digit i))) ++ rest) j a hi
      = Uuid.ofStringLoop rest j' b hi := by
  subst ha hb hj'
  exact Uuid.loop_lo u hi rest n j hj hjn

/-- The loop of the string constructor over the string of a uuid ends with
32 digits read and the two halves of the uuid. -/
theorem Uuid.loop_toString (lo hi : Nat) (hlo : lo < 2 ^ 64) (hhi : hi < 2 ^ 64) :
    Uuid.ofStringLoop (Uuid.toString ⟨lo, hi⟩) 0 0 0 = Except.ok (32, lo, hi) := by
  have hhi0 : hi / 18446744073709551616 = 0 := Nat.div_eq_of_lt hhi
  have hlo0 : lo / 18446744073709551616 = 0 := Nat.div_eq_of_lt hlo
  rw [Uuid.toString_eq,
    Uuid.loop_hi_group ⟨lo, hi⟩ 0 _ 8 0 8 0 (hi / 2 ^ 32 * 2 ^ 32) (by omega) rfl
      (by simp [hhi0]) (by simp),
    Uuid.loop_dash _ _ _ _ (by omega),
    Uuid.loop_hi_group ⟨lo, hi⟩ 0 _ 4 8 12 (hi / 2 ^ 32 * 2 ^ 32) (hi / 2 ^ 16 * 2 ^ 16)
      (by omega) rfl (by simp) (by simp),
    Uuid.loop_dash _ _ _ _ (by omega),
    Uuid.loop_hi_group ⟨lo, hi⟩ 0 _ 4 12 16 (hi / 2 ^ 16 * 2 ^ 16) hi
      (by omega) rfl (by simp) (by simp),
    Uuid.loop_dash _ _ _ _ (by omega),
    Uuid.loop_lo_group ⟨lo, hi⟩ hi _ 4 16 20 0 (lo / 2 ^ 48 * 2 ^ 48) (by omega) (by omega) rfl
      (by simp [hlo0]) (by simp),
    Uuid.loop_dash _ _ _ _ (by omega),
    Uuid.loop_lo_group ⟨lo, hi⟩ hi _ 12 20 32 (lo / 2 ^ 48 * 2 ^ 48) lo (by omega) (by omega) rfl
      (by simp) (by simp)]
  rfl

/-- The string of a uuid is read back as the uuid. -/
theorem Uuid.ofString_toString (lo hi : Nat) (hlo : lo < 2 ^ 64) (hhi : hi < 2 ^ 64) :
    Uuid.ofString (Uuid.toString ⟨lo, hi⟩) = Except.ok ⟨lo, hi⟩ := by
  unfold Uuid.ofString
  rw [Uuid.loop_toString lo hi hlo hhi]
  simp

/-- The character of a digit of the uuid is one of `0123456789abcdef`. -/
theorem Uuid.digit_char_mem (u : Uuid) (i : Nat) :
    charOfInt (Uuid.int2hex (u.digit i)) ∈ "0123456789abcdef".toList := by
  obtain ⟨x, hx, hd⟩ := Uuid.digit_lt u i
  rw [hd]
  exact (Uuid.hex_digit x hx).2.2

/-- The layout of the string of a uuid: 36 characters, dashes at the
positions 8, 13, 18 and 23, hexadecimal digits in lower case elsewhere. -/
theorem Uuid.toString_layout (u : Uuid) :
    u.toString.length = 36 ∧
    ∀ i : Nat, i < 36 →
      (i ∈ [8, 13, 18, 23] → u.toString.getD i ' ' = '-') ∧
      (i ∉ [8, 13, 18, 23] → u.toString.getD i ' ' ∈ "0123456789abcdef".toList) := by
  have hm := Uuid.digit_char_mem u
  simp only [String.toList, List.mem_cons, List.mem_singleton, List.not_mem_nil, or_false]
    at hm ⊢
  rw [Uuid.toString_eq]
  refine ⟨by simp, ?_⟩
  intro i hi
  simp only [List.range', List.map_cons, List.map_nil, List.cons_append, List.nil_append,
    List.append_nil]
  interval_cases i <;> simp [hm]

/-- With 32 digits read the loop of the string constructor stops. -/
theorem Uuid.loop_done (s : List Char) (j lo hi : Nat) (hj : 32 ≤ j) :
    Uuid.ofStringLoop s j lo hi = Except.ok (j, lo, hi) := by
  cases s with
  | nil => rfl
  | cons c t =>
    rw [Uuid.ofStringLoop]
    simp [not_lt.2 hj]

/-- The loop of the string constructor does not see the dashes. -/
theorem Uuid.loop_filter (s : List Char) :
    ∀ (j lo hi : Nat), Uuid.ofStringLoop (s.filter (fun c => c != '-')) j lo hi
      = Uuid.ofStringLoop s j lo hi := by
  induction s with
  | nil => intro j lo hi; rfl
  | cons c t ih =>
    intro j lo hi
    by_cases hj : j < 32
    · by_cases hc : c = '-'
      · subst hc
        rw [Uuid.loop_dash _ _ _ _ hj]
        simpa using ih j lo hi
      · have hb : (c != '-') = true := by simpa using hc
        have hf : (c :: t).filter (fun c => c != '-') = c :: t.filter (fun c => c != '-') := by
          simp [List.filter_cons, hb]
        rw [hf, Uuid.ofStringLoop, Uuid.ofStringLoop]
        simp only [hj, if_true, hc, if_false, ih]
    · rw [Uuid.loop_done _ _ _ _ (not_lt.1 hj), Uuid.loop_done _ _ _ _ (not_lt.1 hj)]

/-- The loop of the string constructor over a string followed by another. -/
theorem Uuid.loop_append (e : List Char) (s : List Char) :
    ∀ (j lo hi : Nat), Uuid.ofStringLoop (s ++ e) j lo hi =
      (match Uuid.ofStringLoop s j lo hi with
       | Except.error x => Except.error x
       | Except.ok st => Uuid.ofStringLoop e st.1 st.2.1 st.2.2) := by
  induction s with
  | nil => intro j lo hi; simp [Uuid.ofStringLoop]
  | cons c t ih =>
    intro j lo hi
    by_cases hj : j < 32
    · rw [List.cons_append, Uuid.ofStringLoop, Uuid.ofStringLoop]
      simp only [hj, if_true]
      by_cases hc : c = '-'
      · simp only [hc, if_true, ih]
      · simp only [hc, if_false]
        by_cases hneg : Uuid.hex2int (intOfChar c) < 0
        · simp only [hneg, if_true]
        · simp only [hneg, if_false]
          by_cases h16 : j < 16
          · simp only [h16, if_true, ih]
          · simp only [h16, if_false, ih]
    · rw [Uuid.loop_done _ _ _ _ (not_lt.1 hj), Uuid.loop_done _ _ _ _ (not_lt.1 hj)]
      show Except.ok (j, lo, hi) = Uuid.ofStringLoop e j lo hi
      rw [Uuid.loop_done _ _ _ _ (not_lt.1 hj)]

/-- The code `45` is that of the dash only. -/
theorem Uuid.intOfChar_eq_dash (b : Char) : intOfChar b = 45 ↔ b = '-' := by
  constructor
  · intro h
    have h1 : b.toNat = 45 := by
      unfold intOfChar at h
      exact_mod_cast h
    have h2 := Char.ofNat_toNat b
    rw [h1] at h2
    exact h2.symm
  · intro h
    subst h
    rfl

/-- Characters that are equal up to the case are dashes together and have
the same value as hexadecimal digits. -/
theorem Uuid.SameLetter.spec (a b : Char) (h : Uuid.SameLetter a b) :
    (a = '-' ↔ b = '-') ∧ Uuid.hex2int (intOfChar a) = Uuid.hex2int (intOfChar b) := by
  unfold Uuid.SameLetter at h
  constructor
  · rw [← Uuid.intOfChar_eq_dash a, ← Uuid.intOfChar_eq_dash b]
    unfold toupper at h
    split_ifs at h <;> omega
  · unfold Uuid.hex2int
    simp only [h]

/-- The loop of the string constructor does not see the case of letters. -/
theorem Uuid.loop_sameLetter (s s' : List Char) (h : List.Forall₂ Uuid.SameLetter s s') :
    ∀ (j lo hi : Nat), Uuid.ofStringLoop s j lo hi = Uuid.ofStringLoop s' j lo hi := by
  induction h with
  | nil => intro j lo hi; rfl
  | cons hab _ ih =>
    intro j lo hi
    obtain ⟨h1, h2⟩ := Uuid.SameLetter.spec _ _ hab
    rw [Uuid.ofStringLoop, Uuid.ofStringLoop]
    simp only [h1, h2, ih]

/-- The loop of the string constructor over a string without dashes: a
character that is no hexadecimal digit among the first `32 - j` raises
`ValueError`; without one the loop ends with the smaller of `32` and
`j + length` digits read. -/
theorem Uuid.loop_digits (t : List Char) :
    ∀ (j lo hi : Nat), (∀ c ∈ t, c ≠ '-') → j ≤ 32 →
      ((∃ c ∈ t.take (32 - j), Uuid.hex2int (intOfChar c) < 0) →
        Uuid.ofStringLoop t j lo hi = Except.error Fault.ValueError) ∧
      ((∀ c ∈ t.take (32 - j), 0 ≤ Uuid.hex2int (intOfChar c)) →
        ∃ lo' hi' : Nat,
          Uuid.ofStringLoop t j lo hi = Except.ok (min 32 (j + t.length), lo', hi')) := by
  induction t with
  | nil =>
    intro j lo hi _ hj
    refine ⟨by simp, fun _ => ⟨lo, hi, ?_⟩⟩
    simp [Uuid.ofStringLoop, hj]
  | cons c t ih =>
    intro j lo hi hdash hj
    have hc : c ≠ '-' := hdash c (by simp)
    have ht : ∀ x ∈ t, x ≠ '-' := fun x hx => hdash x (by simp [hx])
    rcases Nat.lt_or_ge j 32 with hlt | hge
    · have htake : (c :: t).take (32 - j) = c :: t.take (32 - (j + 1)) := by
        have : 32 - j = (32 - (j + 1)) + 1 := by omega
        rw [this, List.take_succ_cons]
      rw [htake, Uuid.ofStringLoop]
      simp only [hlt, if_true, hc, if_false]
      by_cases hneg : Uuid.hex2int (intOfChar c) < 0
      · simp only [hneg, if_true]
        refine ⟨fun _ => trivial, fun h => ?_⟩
        have := h c (by simp)
        omega
      · simp only [hneg, if_false]
        have hlen : min 32 (j + (c :: t).length) = min 32 (j + 1 + t.length) := by
          simp only [List.length_cons]; congr 1; omega
        rw [hlen]
        by_cases h16 : j < 16
        · simp only [h16, if_true]
          obtain ⟨i1, i2⟩ := ih (j + 1) lo
            (hi ||| ((Uuid.hex2int (intOfChar c)).toNat <<< (4 * (15 - j))) % 2 ^ 64) ht
            (by omega)
          refine ⟨fun h => i1 ?_, fun h => i2 ?_⟩
          · obtain ⟨x, hx, hxn⟩ := h
            rcases List.mem_cons.1 hx with rfl | hx
            · exact absurd hxn hneg
            · exact ⟨x, hx, hxn⟩
          · intro x hx
            exact h x (List.mem_cons_of_mem _ hx)
        · simp only [h16, if_false]
          obtain ⟨i1, i2⟩ := ih (j + 1)
            (lo ||| ((Uuid.hex2int (intOfChar c)).toNat <<< (4 * (31 - j))) % 2 ^ 64) hi ht
            (by omega)
          refine ⟨fun h => i1 ?_, fun h => i2 ?_⟩
          · obtain ⟨x, hx, hxn⟩ := h
            rcases List.mem_cons.1 hx with rfl | hx
            · exact absurd hxn hneg
            · exact ⟨x, hx, hxn⟩
          · intro x hx
            exact h x (List.mem_cons_of_mem _ hx)
    · have hj32 : j = 32 := by omega
      subst hj32
      rw [Uuid.loop_done _ _ _ _ (le_refl _)]
      refine ⟨by simp, fun _ => ⟨lo, hi, ?_⟩⟩
      simp

/-- The string constructor raises `ValueError` exactly when, dashes apart, a
character that is no hexadecimal digit is among the first 32 characters or
there are fewer than 32 characters; it returns a uuid otherwise. -/
theorem Uuid.ofString_error (s : List Char) :
    (Uuid.ofString s = Except.error Fault.ValueError ↔
      ((∃ c ∈ (s.filter (fun c => c != '-')).take 32, Uuid.hex2int (intOfChar c) < 0) ∨
        (s.filter (fun c => c != '-')).length < 32)) ∧
    (Uuid.ofString s ≠ Except.error Fault.ValueError → ∃ u : Uuid, Uuid.ofString s = Except.ok u) := by
  have hfil : ∀ c ∈ s.filter (fun c => c != '-'), c ≠ '-' := by
    intro c hc
    have := (List.mem_filter.1 hc).2
    simpa using this
  obtain ⟨i1, i2⟩ := Uuid.loop_digits (s.filter (fun c => c != '-')) 0 0 0 hfil (by omega)
  rw [Uuid.loop_filter] at i1 i2
  simp only [Nat.sub_zero, Nat.zero_add] at i1 i2
  by_cases hbad : ∃ c ∈ (s.filter (fun c => c != '-')).take 32, Uuid.hex2int (intOfChar c) < 0
  · have he : Uuid.ofString s = Except.error Fault.ValueError := by
      unfold Uuid.ofString
      rw [i1 hbad]
    exact ⟨⟨fun _ => Or.inl hbad, fun _ => he⟩, fun h => absurd he h⟩
  · obtain ⟨lo', hi', hok⟩ := i2 (by
      intro c hc
      by_contra hn
      exact hbad ⟨c, hc, not_le.1 hn⟩)
    by_cases hshort : (s.filter (fun c => c != '-')).length < 32
    · have he : Uuid.ofString s = Except.error Fault.ValueError := by
        unfold Uuid.ofString
        rw [hok]
        have : min 32 (s.filter (fun c => c != '-')).length ≠ 32 := by omega
        simp [this]
      exact ⟨⟨fun _ => Or.inr hshort, fun _ => he⟩, fun h => absurd he h⟩
    · have he : Uuid.ofString s = Except.ok ⟨lo', hi'⟩ := by
        unfold Uuid.ofString
        rw [hok]
        have : min 32 (s.filter (fun c => c != '-')).length = 32 := by omega
        simp [this]
      refine ⟨⟨fun h => ?_, fun h => ?_⟩, fun _ => ⟨_, he⟩⟩
      · rw [he] at h; cases h
      · rcases h with h | h
        · exact absurd h hbad
        · exact absurd h hshort

/-- A string that gives a uuid gives the same uuid with characters
appended. -/
theorem Uuid.ofString_append (s e : List Char) (u : Uuid)
    (h : Uuid.ofString s = Except.ok u) : Uuid.ofString (s ++ e) = Except.ok u := by
  unfold Uuid.ofString at h ⊢
  rw [Uuid.loop_append]
  cases hl : Uuid.ofStringLoop s 0 0 0 with
  | error x => rw [hl] at h; cases h
  | ok st =>
    rw [hl] at h
    simp only at h ⊢
    by_cases h32 : st.1 = 32
    · rw [Uuid.loop_done _ _ _ _ (by omega)]
      simp only [h32, ne_eq, not_true_eq_false, if_false] at h ⊢
      exact h
    · simp [h32] at h

/-- C24: for all 64-bit values `lo` and `hi` the string of the uuid is read
back as the same uuid; the string has 36 characters, dashes at the positions
8, 13, 18 and 23 and lower-case hexadecimal digits elsewhere (the layout
8-4-4-4-12); the string constructor gives the same result when letters change
case, when the dashes are removed, and when characters are appended to a
string that gives a uuid; and it raises `ValueError` exactly when, dashes
apart, one of the first 32 characters is no hexadecimal digit or fewer than 32
characters are present, returning a uuid otherwise. -/
theorem Uuid_string_roundtrip (lo hi : Nat) (hlo : lo < 2 ^ 64) (hhi : hi < 2 ^ 64) :
    Uuid.ofString (Uuid.toString ⟨lo, hi⟩) = Except.ok ⟨lo, hi⟩ ∧
    (Uuid.toString ⟨lo, hi⟩).length = 36 ∧
    (∀ i : Nat, i < 36 →
      (i ∈ [8, 13, 18, 23] → (Uuid.toString ⟨lo, hi⟩).getD i ' ' = '-') ∧
      (i ∉ [8, 13, 18, 23] →
        (Uuid.toString ⟨lo, hi⟩).getD i ' ' ∈ "0123456789abcdef".toList)) ∧
    (∀ s s' : List Char, List.Forall₂ Uuid.SameLetter s s' →
      Uuid.ofString s' = Uuid.ofString s) ∧
    (∀ s : List Char, Uuid.ofString (s.filter (fun c => c != '-')) = Uuid.ofString s) ∧
    (∀ (s e : List Char) (u : Uuid), Uuid.ofString s = Except.ok u →
      Uuid.ofString (s ++ e) = Except.ok u) ∧
    (∀ s : List Char,
      (Uuid.ofString s = Except.error Fault.ValueError ↔
        ((∃ c ∈ (s.filter (fun c => c != '-')).take 32, Uuid.hex2int (intOfChar c) < 0) ∨
          (s.filter (fun c => c != '-')).length < 32)) ∧
      (Uuid.ofString s ≠ Except.error Fault.ValueError →
        ∃ u : Uuid, Uuid.ofString s = Except.ok u)) := by
  refine ⟨Uuid.ofString_toString lo hi hlo hhi, (Uuid.toString_layout ⟨lo, hi⟩).1,
    (Uuid.toString_layout ⟨lo, hi⟩).2, ?_, ?_, Uuid.ofString_append, Uuid.ofString_error⟩
  · intro s s' h
    unfold Uuid.ofString
    rw [Uuid.loop_sameLetter s s' h]
  · intro s
    unfold Uuid.ofString
    rw [Uuid.loop_filter]

/-- C24 at the uuid `fd6fa828-d4aa-448a-910f-c497086d5492`. -/
theorem Uuid_string_roundtrip_witness :
    ((0x910fc497086d5492 : Nat) < 2 ^ 64 ∧ (0xfd6fa828d4aa448a : Nat) < 2 ^ 64) ∧
    Uuid.ofString (Uuid.toString ⟨0x910fc497086d5492, 0xfd6fa828d4aa448a⟩)
      = Except.ok ⟨0x910fc497086d5492, 0xfd6fa828d4aa448a⟩ :=
  ⟨⟨by norm_num, by norm_num⟩,
    (Uuid_string_roundtrip 0x910fc497086d5492 0xfd6fa828d4aa448a (by norm_num)
      (by norm_num)).1⟩

set_option maxRecDepth 20000 in
/-- The examples of the documentation of the string constructor. -/
theorem Uuid.documented_examples :
    Uuid.toString ⟨0x910fc497086d5492, 0xfd6fa828d4aa448a⟩
      = "fd6fa828-d4aa-448a-910f-c497086d5492".toList ∧
    Uuid.ofString "fD6fA828-d4AA-448a-910f-c497086D5492".toList
      = Except.ok ⟨0x910fc497086d5492, 0xfd6fa828d4aa448a⟩ ∧
    Uuid.ofString "fd6fa828d4aa448a910fc497086d5492".toList
      = Except.ok ⟨0x910fc497086d5492, 0xfd6fa828d4aa448a⟩ ∧
    Uuid.ofString "fd6fa828-d4aa-448a-910f-c497086d5492FOOBAR".toList
      = Except.ok ⟨0x910fc497086d5492, 0xfd6fa828d4aa448a⟩ ∧
    Uuid.ofString "fd6fa828-d4aa-448a-910f-c497086d549".toList
      = Except.error Fault.ValueError ∧
    Uuid.ofString "fd6fa828-d4aa-448a-910f-c497086d549X".toList
      = Except.error Fault.ValueError := by
  refine ⟨by decide, ?_, ?_, ?_, ?_, ?_⟩ <;> rfl

/-! ## Path names: directory and final component -/

/-- The first occurrence of a character that the list holds. -/
theorem StdString.indexOf_spec (c : Char) :
    ∀ l : List Char, c ∈ l →
      ∃ x y : List Char, l = x ++ c :: y ∧ c ∉ x ∧ l.indexOf c = x.length := by
  intro l
  induction l with
  | nil => intro h; simp at h
  | cons d l ih =>
    intro h
    by_cases hd : d = c
    · subst hd
      exact ⟨[], l, rfl, by simp, by simp⟩
    · have hl : c ∈ l := by
        rcases List.mem_cons.1 h with h | h
        · exact absurd h.symm hd
        · exact h
      obtain ⟨x, y, h1, h2, h3⟩ := ih hl
      refine ⟨d :: x, y, by simp [h1], ?_, ?_⟩
      · simp only [List.mem_cons, not_or]
        exact ⟨fun h => hd h.symm, h2⟩
      · rw [List.indexOf_cons_ne _ hd, h3]
        rfl

/-- The call `s.find_last_of(c)` for a string that holds `c`: the string splits
at the result into a front part, the character `c`, and a rest without `c`. -/
theorem StdString.find_last_of_spec (s : List Char) (c : Char) (h : c ∈ s) :
    ∃ a b : List Char, s = a ++ c :: b ∧ c ∉ b ∧ StdString.find_last_of s c = a.length := by
  obtain ⟨x, y, h1, h2, h3⟩ := StdString.indexOf_spec c s.reverse (List.mem_reverse.2 h)
  have hs : s = y.reverse ++ c :: x.reverse := by
    have := congrArg List.reverse h1
    simpa using this
  refine ⟨y.reverse, x.reverse, hs, by simpa using h2, ?_⟩
  unfold StdString.find_last_of
  rw [if_pos h, h3]
  have hl : s.length = y.length + 1 + x.length := by
    rw [hs]; simp; omega
  rw [hl, List.length_reverse]
  omega

/-- The directory and the final component of a path with a separator: joined
by the separator they give the path, and the final component holds no
separator. A path without separator is its own final component. -/
theorem utils.path.dirname_basename (p : List Char) (hlen : p.length < 2 ^ 64) :
    (utils.path.separator ∈ p →
      ∃ d b : List Char, utils.path.dirname p = Except.ok d ∧
        utils.path.basename p = Except.ok b ∧
        d ++ utils.path.separator :: b = p ∧ utils.path.separator ∉ b) ∧
    (utils.path.separator ∉ p → utils.path.basename p = Except.ok p) := by
  have hnpos : StdString.npos = 2 ^ 64 - 1 := rfl
  constructor
  · intro h
    obtain ⟨a, b, h1, h2, h3⟩ := StdString.find_last_of_spec p _ h
    have hl : p.length = a.length + 1 + b.length := by
      rw [h1]; simp; omega
    refine ⟨a, b, ?_, ?_, h1.symm, h2⟩
    · unfold utils.path.dirname
      simp only [h3, StdString.substr, gt_iff_lt, Nat.not_lt_zero, if_false, List.drop_zero]
      rw [h1, List.take_left]
    · unfold utils.path.basename
      have hne : ¬ a.length = StdString.npos := by rw [hnpos]; omega
      have hw : (a.length + 1) % 2 ^ 64 = a.length + 1 := by omega
      have hle : ¬ p.length < a.length + 1 := by omega
      simp only [h3, hne, if_false, hw, StdString.substr, gt_iff_lt, hle]
      have hd : p.drop (a.length + 1) = b := by
        rw [h1, List.drop_append]
        rfl
      rw [hd, List.take_of_length_le (by rw [hnpos]; omega)]
  · intro h
    simp [utils.path.basename, StdString.find_last_of, h]

/-- The position of a character behind a front part without it. -/
theorem StdString.indexOf_append (c : Char) (y : List Char) :
    ∀ x : List Char, c ∉ x → (x ++ c :: y).indexOf c = x.length := by
  intro x
  induction x with
  | nil => intro _; simp
  | cons d x ih =>
    intro h
    simp only [List.mem_cons, not_or] at h
    rw [List.cons_append, List.indexOf_cons_ne _ (fun e => h.1 e.symm), ih h.2]
    rfl

/-- The call `find_last_of(c)` on a string with `c` in front of a rest
without `c`. -/
theorem StdString.find_last_of_eq (a b : List Char) (c : Char) (h : c ∉ b) :
    StdString.find_last_of (a ++ c :: b) c = a.length := by
  unfold StdString.find_last_of
  have hr : (a ++ c :: b).reverse = b.reverse ++ c :: a.reverse := by simp
  rw [if_pos (by simp), hr, StdString.indexOf_append c _ _ (by simpa using h)]
  simp

/-- The call `find_first_not_of(c)` on a string that starts with copies of
`c` only up to and including position `a.length`: the result is beyond that
position. -/
theorem StdString.find_first_not_of_leading (c : Char) (b : List Char) :
    ∀ a : List Char, (∀ x ∈ a, x = c) → (a ++ c :: b).length < 2 ^ 64 →
      a.length ≤ StdString.find_first_not_of (a ++ c :: b) c := by
  intro a ha hlen
  have hidx : ∀ a : List Char, (∀ x ∈ a, x = c) →
      a.length + 1 ≤ (a ++ c :: b).findIdx (fun x => x != c) := by
    intro a
    induction a with
    | nil => intro _; simp [List.findIdx_cons]
    | cons d a ih =>
      intro h
      have hd : d = c := h d (by simp)
      have := ih (fun x hx => h x (by simp [hx]))
      subst hd
      simp only [List.cons_append, List.findIdx_cons, bne_self_eq_false, cond_false,
        List.length_cons]
      omega
  unfold StdString.find_first_not_of
  have := hidx a ha
  split_ifs
  · omega
  · have : StdString.npos = 2 ^ 64 - 1 := rfl
    simp only [List.length_append, List.length_cons] at hlen
    omega

/-- The call `find_first_not_of(c)` on a string with another character than
`c` in the front part `a`: the result is a position inside `a`. -/
theorem StdString.find_first_not_of_inside (c : Char) (rest : List Char) :
    ∀ a : List Char, (∃ x ∈ a, x ≠ c) →
      StdString.find_first_not_of (a ++ rest) c < a.length := by
  intro a ha
  have hidx : ∀ a : List Char, (∃ x ∈ a, x ≠ c) →
      (a ++ rest).findIdx (fun x => x != c) < a.length := by
    intro a
    induction a with
    | nil => intro h; simp at h
    | cons d a ih =>
      intro h
      by_cases hd : d = c
      · obtain ⟨x, hx, hxc⟩ := h
        have hx' : x ∈ a := by
          rcases List.mem_cons.1 hx with e | e
          · exact absurd (e.trans hd) hxc
          · exact e
        have := ih ⟨x, hx', hxc⟩
        subst hd
        simp only [List.cons_append, List.findIdx_cons, bne_self_eq_false, cond_false,
          List.length_cons]
        omega
      · have hb : (d != c) = true := by simpa using hd
        simp [List.findIdx_cons, hb]
  unfold StdString.find_first_not_of
  have := hidx a ha
  have hl : (a ++ rest).length = a.length + rest.length := List.length_append _ _
  rw [if_pos (by omega)]
  exact this

/-- The extension of a file name whose final component `bname` has its last
`.` in front of `b`: the extension is `b` when a character other than `.`
stands before that dot, and it is empty when only dots do. -/
theorem utils.path.fileextension_spec (p bname a b : List Char) (hlen : bname.length < 2 ^ 64)
    (hb : utils.path.basename p = Except.ok bname) (hsplit : bname = a ++ '.' :: b)
    (hlast : '.' ∉ b) :
    ((∃ x ∈ a, x ≠ '.') → utils.path.fileextension p = Except.ok b) ∧
    ((∀ x ∈ a, x = '.') → utils.path.fileextension p = Except.ok []) := by
  have hnpos : StdString.npos = 2 ^ 64 - 1 := rfl
  have hpos : StdString.find_last_of bname '.' = a.length := by
    rw [hsplit]; exact StdString.find_last_of_eq a b '.' hlast
  have hl : bname.length = a.length + 1 + b.length := by
    rw [hsplit]; simp; omega
  unfold utils.path.fileextension
  rw [hb]
  simp only [hpos]
  constructor
  · intro h
    have hstart := StdString.find_first_not_of_inside '.' ('.' :: b) a h
    rw [← hsplit] at hstart
    have hw : (a.length + 1) % 2 ^ 64 = a.length + 1 := by omega
    have hle : ¬ bname.length < a.length + 1 := by omega
    simp only [ge_iff_le, not_le.2 hstart, if_false, hw, StdString.substr, gt_iff_lt, hle]
    have hd : bname.drop (a.length + 1) = b := by
      rw [hsplit, List.drop_append]
      rfl
    rw [hd, List.take_of_length_le (by rw [hnpos]; omega)]
  · intro h
    have hstart := StdString.find_first_not_of_leading '.' b a h (by rw [← hsplit]; exact hlen)
    rw [← hsplit] at hstart
    simp only [ge_iff_le, hstart, if_true]

/-- The examples of the unit tests of `basename`, `fileextension` and
`dirname`. -/
theorem utils.path.unit_tests :
    utils.path.basename [] = Except.ok [] ∧
    utils.path.basename "/usr/bin/vim".toList = Except.ok "vim".toList ∧
    utils.path.basename ".foo".toList = Except.ok ".foo".toList ∧
    utils.path.fileextension [] = Except.ok [] ∧
    utils.path.fileextension "foo.bin".toList = Except.ok "bin".toList ∧
    utils.path.fileextension ".foo.bin".toList = Except.ok "bin".toList ∧
    utils.path.fileextension ".foo".toList = Except.ok [] ∧
    utils.path.dirname "/foo/".toList = Except.ok "/foo".toList ∧
    utils.path.dirname "/usr/bin/vim".toList = Except.ok "/usr/bin".toList := by
  refine ⟨?_, ?_, ?_, ?_, ?_, ?_, ?_, ?_, ?_⟩ <;> rfl

/-! ## Inverse of a matrix, change of frame of a ray, boxes after `buildBVH` -/

/-- The result of `invert` is the matrix of the entries `n[i]`, each divided
by the value `determinant`. -/
theorem Matrix3x3.invert_eq_cofactors (m : Matrix3x3) :
    m.invert = ⟨m.cofactors.m0 / m.invertDeterminant, m.cofactors.m1 / m.invertDeterminant,
      m.cofactors.m2 / m.invertDeterminant, m.cofactors.m3 / m.invertDeterminant,
      m.cofactors.m4 / m.invertDeterminant, m.cofactors.m5 / m.invertDeterminant,
      m.cofactors.m6 / m.invertDeterminant, m.cofactors.m7 / m.invertDeterminant,
      m.cofactors.m8 / m.invertDeterminant⟩ := rfl

/-- C38: for every 3x3 matrix `M` with non-zero determinant `M.invert()` is
the two-sided inverse of `M`, `M.invert().matmult(M) = M.matmult(M.invert())
= Identity`, and the value `determinant` by which `invert` divides the entries
equals `M.det()`. -/
theorem Matrix3x3_invert_two_sided (M : Matrix3x3) (hdet : M.det ≠ 0) :
    M.invert.matmult M = Matrix3x3.Identity ∧
    M.matmult M.invert = Matrix3x3.Identity ∧
    M.invertDeterminant = M.det ∧
    M.invert = ⟨M.cofactors.m0 / M.det, M.cofactors.m1 / M.det, M.cofactors.m2 / M.det,
      M.cofactors.m3 / M.det, M.cofactors.m4 / M.det, M.cofactors.m5 / M.det,
      M.cofactors.m6 / M.det, M.cofactors.m7 / M.det, M.cofactors.m8 / M.det⟩ := by
  have hd : M.invertDeterminant = M.det := by
    simp only [Matrix3x3.invertDeterminant, Matrix3x3.cofactors, Matrix3x3.det]
  refine ⟨Matrix3x3.invert_matmult M hdet, Matrix3x3.matmult_invert M hdet, hd, ?_⟩
  rw [Matrix3x3.invert_eq_cofactors, hd]

/-- C38 at the matrix with the rows `(2,1,0)`, `(0,1,0)`, `(0,0,4)`. -/
theorem Matrix3x3_invert_two_sided_witness :
    (⟨2, 1, 0, 0, 1, 0, 0, 0, 4⟩ : Matrix3x3).det ≠ 0 ∧
    (⟨2, 1, 0, 0, 1, 0, 0, 0, 4⟩ : Matrix3x3).invert.matmult ⟨2, 1, 0, 0, 1, 0, 0, 0, 4⟩
      = Matrix3x3.Identity ∧
    (⟨2, 1, 0, 0, 1, 0, 0, 0, 4⟩ : Matrix3x3).matmult
      (⟨2, 1, 0, 0, 1, 0, 0, 0, 4⟩ : Matrix3x3).invert = Matrix3x3.Identity :=
  ⟨by norm_num [Matrix3x3.det],
    (Matrix3x3_invert_two_sided ⟨2, 1, 0, 0, 1, 0, 0, 0, 4⟩ (by norm_num [Matrix3x3.det])).1,
    (Matrix3x3_invert_two_sided ⟨2, 1, 0, 0, 1, 0, 0, 0, 4⟩ (by norm_num [Matrix3x3.det])).2.1⟩

/-- C33: for every transformation `T`, ray `r` and parameter `t`, the point
at `t` of the ray taken to the local frame is the point at `t` of the ray,
taken to the local frame; the direction of the local ray is the transformed
direction as it is (not normalised), and the id, the bounce counter, the
optical path length and the payload (type and pointer) of the ray are
unchanged. -/
theorem Transformation_transformRayToLocal_keeps_parameter (T : Transformation) (r : Ray)
    (t : ℚ) :
    (T.transformRayToLocal r).pointAt t = T.transformPointToLocal (r.pointAt t) ∧
    (T.transformRayToLocal r).m_vDirection = T.m_mInv.apply r.m_vDirection ∧
    (T.transformRayToLocal r).m_uId = r.m_uId ∧
    (T.transformRayToLocal r).m_iBounces = r.m_iBounces ∧
    (T.transformRayToLocal r).m_fOpticalPathLength = r.m_fOpticalPathLength ∧
    (T.transformRayToLocal r).m_eType = r.m_eType ∧
    (T.transformRayToLocal r).m_pType = r.m_pType := by
  rw [Transformation.transformRayToLocal_eq]
  refine ⟨?_, rfl, rfl, rfl, rfl, rfl, rfl⟩
  simp only [Ray.pointAt, Transformation.transformPointToLocal,
    Transformation.transformVectorToLocal, Matrix3x3.apply, Vector3.add, Vector3.sub,
    Vector3.smul, Vector3.mk.injEq]
  refine ⟨?_, ?_, ?_⟩ <;> ring

/-- C32: after one call of `buildBVH` on a mesh without boxes and with
`N >= 8` triangles, with a sorting routine that returns a permutation of the
range it is given, at least one box is stored, the vertex buffer is the one
before the call, and every stored box `m_vBbox[i]` contains every vertex of
every triangle `p` that lies in the range `[uLeft, uLeft + uElems)` that
`binaryTreeBoundaries` assigns to `i` in the final index buffer. -/
theorem Mesh_buildBVH_boxes_contain_ranges
    (sort_r : List IndexTriple → (IndexTriple → IndexTriple → Int) → List IndexTriple)
    (hsort : ∀ l cmp, (sort_r l cmp).Perm l) (m : Mesh) (h0 : m.m_vBbox = [])
    (hN : 8 ≤ m.m_IndexBuffer.length / 3) :
    1 ≤ (m.buildBVH sort_r).m_vBbox.length ∧
    (m.buildBVH sort_r).m_VertexBuffer = m.m_VertexBuffer ∧
    ∀ i, i < (m.buildBVH sort_r).m_vBbox.length → ∀ p,
      ((m.buildBVH sort_r).binaryTreeBoundaries i).1 ≤ p →
      p < ((m.buildBVH sort_r).binaryTreeBoundaries i).1
            + ((m.buildBVH sort_r).binaryTreeBoundaries i).2 →
      (m.buildBVH sort_r).BoxCoversTriple ((m.buildBVH sort_r).m_vBbox.getD i BBox.default)
        ((m.buildBVH sort_r).indexTriple p) := by
  have hlen := Mesh.buildBVH_bbox_length sort_r hsort m h0 (by omega)
  have hlog : 3 ≤ Nat.log2 (m.m_IndexBuffer.length / 3) := by
    have h8 : Nat.log2 8 = 3 := by simp [Nat.log2]
    have := Mesh.log2_mono hN
    omega
  have hpos : 1 ≤ (m.buildBVH sort_r).m_vBbox.length := by
    rw [hlen, Nat.one_shiftLeft]
    unfold Mesh.bvhLevels
    have : 2 ^ 1 ≤ 2 ^ (Nat.log2 (m.m_IndexBuffer.length / 3) - 2) :=
      Nat.pow_le_pow_right (by norm_num) (by omega)
    omega
  have hne : (m.buildBVH sort_r).m_vBbox ≠ [] := by
    intro h
    rw [h] at hpos
    simp at hpos
  obtain ⟨-, -, hv, hcov⟩ := Mesh.buildBVH_boxes_cover sort_r hsort m h0 hne
  refine ⟨hpos, hv, ?_⟩
  intro i hi p hp1 hp2
  rw [Mesh.binaryTreeBoundaries_eq] at hp1 hp2
  simp only at hp1 hp2
  have hw := Mesh.treeRange_wf ((m.buildBVH sort_r).m_IndexBuffer.length / 3) i
  exact hcov i hi p ⟨hp1, by omega⟩

/-- C32 on the example mesh of eight triangles with insertion sort as the
sorting routine. -/
theorem Mesh_buildBVH_boxes_contain_ranges_witness :
    ((∀ l cmp, (exampleSort l cmp).Perm l) ∧ exampleMesh8.m_vBbox = [] ∧
      8 ≤ exampleMesh8.m_IndexBuffer.length / 3) ∧
    1 ≤ (exampleMesh8.buildBVH exampleSort).m_vBbox.length ∧
    (exampleMesh8.buildBVH exampleSort).m_VertexBuffer = exampleMesh8.m_VertexBuffer :=
  ⟨⟨exampleSort_perm, rfl, by simp [exampleMesh8]⟩,
    (Mesh_buildBVH_boxes_contain_ranges exampleSort exampleSort_perm exampleMesh8 rfl
      (by simp [exampleMesh8])).1,
    (Mesh_buildBVH_boxes_contain_ranges exampleSort exampleSort_perm exampleMesh8 rfl
      (by simp [exampleMesh8])).2.1⟩

/-! ## Thin lens: lens sample and focal point -/

namespace Camera

/-- The first call of `getPrimaryRays` runs the loop over the rows with the
film values `filmOrigin`, `filmDw` and `filmDh`. -/
theorem getPrimaryRays_rows (L : Libm) (c : Camera) (heap : Heap) (rng : Nat)
    (hdone : c.m_bDone = false) :
    (c.getPrimaryRays L heap rng).1 =
      ((List.range c.m_uHres).foldl (rowStep L c (c.filmOrigin L) (c.filmDw L) (c.filmDh L))
        { primaryRays := [], heap := heap, rng := rng, ray_local := Ray.default }).primaryRays := by
  unfold getPrimaryRays
  simp only [hdone, Bool.false_eq_true, if_false]
  rfl

/-- The pass of the loop over the columns for the pixel `(i, j)` runs the
loop over the samples from the state that holds the pinhole ray. -/
theorem pixelStep_samples (L : Libm) (c : Camera) (j : Nat) (st : RayLoop) (i : Nat) :
    pixelStep L c (c.filmOrigin L) (c.filmDw L) (c.filmDh L) j st i =
      (List.range c.m_iSamples.toNat).foldl (sampleStep L c (j * c.m_uWres + i))
        { st with ray_local := c.pinholeRay L i j } := rfl

/-- The camera-space ray of a sample for a non-zero lens radius: it starts at
the vector of the two values drawn with `uniformRealDistribution(0,1)`, scaled
by the radius, and points to the focal point of the ray of before. -/
theorem sampleStep_lens (L : Libm) (c : Camera) (id : Nat) (st : RayLoop) (k : Nat)
    (hR : c.m_fLensRadius ≠ 0) :
    (sampleStep L c id st k).ray_local =
      Ray.mk3 id (Vector3.smul c.m_fLensRadius ⟨L.canonical st.rng, L.canonical (st.rng + 1), 0⟩)
        (((st.ray_local.pointAt (c.m_fFocalDist / -(st.ray_local.m_vDirection.z))).sub
          (Vector3.smul c.m_fLensRadius
            ⟨L.canonical st.rng, L.canonical (st.rng + 1), 0⟩)).normalize L) := by
  simp [sampleStep, hR, Random.uniformRealDistribution, Vector3.get]

end Camera

/-- C36 (the lens sample is not the disk sample): for a non-zero lens radius
`R` the origin of the camera-space ray of every sample is `R * (rx, ry, 0)`
with the two values `rx`, `ry` drawn with `uniformRealDistribution(0,1)`,
whatever `sampleConcentricDisk` returns; with a generator that yields `9/10`
and the example camera (`R = 1/10`) the origin is `(9/100, 9/100, 0)`, which
lies outside of the lens disk. -/
theorem Camera_lens_sample_outside_disk :
    (∀ (L : Libm) (c : Camera) (id : Nat) (st : Camera.RayLoop) (k : Nat),
      c.m_fLensRadius ≠ 0 →
      (Camera.sampleStep L c id st k).ray_local.m_vOrigin
        = Vector3.smul c.m_fLensRadius ⟨L.canonical st.rng, L.canonical (st.rng + 1), 0⟩) ∧
    exampleCamera.m_fLensRadius = 1 / 10 ∧
    (Camera.sampleStep exampleLibmHigh exampleCamera 0
      { primaryRays := [], heap := [], rng := 0,
        ray_local := exampleCamera.pinholeRay exampleLibmHigh 0 0 } 0).ray_local.m_vOrigin
      = ⟨9 / 100, 9 / 100, 0⟩ ∧
    (9 / 100 : ℚ) * (9 / 100) + (9 / 100) * (9 / 100) > (1 / 10) * (1 / 10) := by
  refine ⟨?_, ?_, ?_, by norm_num⟩
  · intro L c id st k hR
    rw [Camera.sampleStep_lens L c id st k hR]
    rfl
  · simp [exampleCamera, Camera.mk5, Camera.setLensRadius, Camera.setNumberOfSamples]
  · have hR : exampleCamera.m_fLensRadius ≠ 0 := by
      simp [exampleCamera, Camera.mk5, Camera.setLensRadius, Camera.setNumberOfSamples]
    rw [Camera.sampleStep_lens _ _ _ _ _ hR]
    norm_num [Ray.mk3, Ray.setOrigin, Ray.setDirection, Vector3.smul, exampleLibmHigh,
      exampleCamera, Camera.mk5, Camera.setLensRadius, Camera.setNumberOfSamples]

theorem Transformation.RotationX_inverseCorrect (L : Libm) (phi : ℚ)
    (h : L.cos phi * L.cos phi + L.sin phi * L.sin phi = 1) :
    (Transformation.RotationX L phi).InverseCorrect := by
  constructor <;>
    simp only [Transformation.RotationX, Matrix3x3.RotationX, Matrix3x3.transpose,
      Matrix3x3.matmult, Matrix3x3.Identity, Matrix3x3.mk.injEq] <;>
    refine ⟨?_, ?_, ?_, ?_, ?_, ?_, ?_, ?_, ?_⟩ <;>
    first | ring1 | linear_combination h

theorem Transformation.RotationY_inverseCorrect (L : Libm) (phi : ℚ)
    (h : L.cos phi * L.cos phi + L.sin phi * L.sin phi = 1) :
    (Transformation.RotationY L phi).InverseCorrect := by
  constructor <;>
    simp only [Transformation.RotationY, Matrix3x3.RotationY, Matrix3x3.transpose,
      Matrix3x3.matmult, Matrix3x3.Identity, Matrix3x3.mk.injEq] <;>
    refine ⟨?_, ?_, ?_, ?_, ?_, ?_, ?_, ?_, ?_⟩ <;>
    first | ring1 | linear_combination h

theorem Transformation.RotationZ_inverseCorrect (L : Libm) (phi : ℚ)
    (h : L.cos phi * L.cos phi + L.sin phi * L.sin phi = 1) :
    (Transformation.RotationZ L phi).InverseCorrect := by
  constructor <;>
    simp only [Transformation.RotationZ, Matrix3x3.RotationZ, Matrix3x3.transpose,
      Matrix3x3.matmult, Matrix3x3.Identity, Matrix3x3.mk.injEq] <;>
    refine ⟨?_, ?_, ?_, ?_, ?_, ?_, ?_, ?_, ?_⟩ <;>
    first | ring1 | linear_combination h

theorem Transformation.Rotation_inverseCorrect (L : Libm) (n : Vector3) (phi : ℚ)
    (h : L.cos phi * L.cos phi + L.sin phi * L.sin phi = 1)
    (hn : (n.normalize L).x * (n.normalize L).x + (n.normalize L).y * (n.normalize L).y
      + (n.normalize L).z * (n.normalize L).z = 1) :
    (Transformation.Rotation L n phi).InverseCorrect := by
  simp only [Transformation.InverseCorrect, Transformation.Rotation, Matrix3x3.Rotation,
    Matrix3x3.transpose, Matrix3x3.matmult, Matrix3x3.Identity, Matrix3x3.mk.injEq]
  generalize n.normalize L = v at hn ⊢
  obtain ⟨a, b, c⟩ := v
  simp only at hn ⊢
  generalize L.cos phi = k at h ⊢
  generalize L.sin phi = s at h ⊢
  refine ⟨⟨?_, ?_, ?_, ?_, ?_, ?_, ?_, ?_, ?_⟩, ?_, ?_, ?_, ?_, ?_, ?_, ?_, ?_, ?_⟩
  · linear_combination (1 - a * a) * h + (s * s + a * a * (1 - k) ^ 2) * hn
  · linear_combination (-(a * b)) * h + (a * b * (1 - k) ^ 2) * hn
  · linear_combination (-(a * c)) * h + (a * c * (1 - k) ^ 2) * hn
  · linear_combination (-(a * b)) * h + (a * b * (1 - k) ^ 2) * hn
  · linear_combination (1 - b * b) * h + (s * s + b * b * (1 - k) ^ 2) * hn
  · linear_combination (-(b * c)) * h + (b * c * (1 - k) ^ 2) * hn
  · linear_combination (-(a * c)) * h + (a * c * (1 - k) ^ 2) * hn
  · linear_combination (-(b * c)) * h + (b * c * (1 - k) ^ 2) * hn
  · linear_combination (1 - c * c) * h + (s * s + c * c * (1 - k) ^ 2) * hn
  · linear_combination (1 - a * a) * h + (s * s + a * a * (1 - k) ^ 2) * hn
  · linear_combination (-(a * b)) * h + (a * b * (1 - k) ^ 2) * hn
  · linear_combination (-(a * c)) * h + (a * c * (1 - k) ^ 2) * hn
  · linear_combination (-(a * b)) * h + (a * b * (1 - k) ^ 2) * hn
  · linear_combination (1 - b * b) * h + (s * s + b * b * (1 - k) ^ 2) * hn
  · linear_combination (-(b * c)) * h + (b * c * (1 - k) ^ 2) * hn
  · linear_combination (-(a * c)) * h + (a * c * (1 - k) ^ 2) * hn
  · linear_combination (-(b * c)) * h + (b * c * (1 - k) ^ 2) * hn
  · linear_combination (1 - c * c) * h + (s * s + c * c * (1 - k) ^ 2) * hn

theorem Quaternion.toMatrix_orthogonal (q : Quaternion) (hq : q.length2 = 1) :
    q.toMatrix.transpose.matmult q.toMatrix = Matrix3x3.Identity ∧
    q.toMatrix.matmult q.toMatrix.transpose = Matrix3x3.Identity := by
  obtain ⟨⟨x, y, z⟩, w⟩ := q
  simp only [Quaternion.length2, Quaternion.dot, Vector3.dot] at hq
  simp only [Quaternion.toMatrix, Matrix3x3.transpose, Matrix3x3.matmult, Matrix3x3.Identity,
    Matrix3x3.mk.injEq]
  refine ⟨⟨?_, ?_, ?_, ?_, ?_, ?_, ?_, ?_, ?_⟩, ?_, ?_, ?_, ?_, ?_, ?_, ?_, ?_, ?_⟩
  · linear_combination (4 * (y * y + z * z)) * hq
  · linear_combination (-4 * (x * y)) * hq
  · linear_combination (-4 * (x * z)) * hq
  · linear_combination (-4 * (x * y)) * hq
  · linear_combination (4 * (x * x + z * z)) * hq
  · linear_combination (-4 * (y * z)) * hq
  · linear_combination (-4 * (x * z)) * hq
  · linear_combination (-4 * (y * z)) * hq
  · linear_combination (4 * (x * x + y * y)) * hq
  · linear_combination (4 * (y * y + z * z)) * hq
  · linear_combination (-4 * (x * y)) * hq
  · linear_combination (-4 * (x * z)) * hq
  · linear_combination (-4 * (x * y)) * hq
  · linear_combination (4 * (x * x + z * z)) * hq
  · linear_combination (-4 * (y * z)) * hq
  · linear_combination (-4 * (x * z)) * hq
  · linear_combination (-4 * (y * z)) * hq
  · linear_combination (4 * (x * x + y * y)) * hq

theorem Transformation.RotationQuaternion_inverseCorrect (L : Libm) (q : Quaternion)
    (hq : (q.normalize L).length2 = 1) :
    (Transformation.RotationQuaternion L q).InverseCorrect :=
  Quaternion.toMatrix_orthogonal (q.normalize L) hq

theorem Matrix3x3.Scale_reciprocal (x y z : ℚ) (hx : x ≠ 0) (hy : y ≠ 0) (hz : z ≠ 0) :
    (Matrix3x3.Scale (1 / x) (1 / y) (1 / z)).matmult (Matrix3x3.Scale x y z)
      = Matrix3x3.Identity ∧
    (Matrix3x3.Scale x y z).matmult (Matrix3x3.Scale (1 / x) (1 / y) (1 / z))
      = Matrix3x3.Identity := by
  simp only [Matrix3x3.Scale, Matrix3x3.matmult, Matrix3x3.Identity, Matrix3x3.mk.injEq]
  refine ⟨⟨?_, ?_, ?_, ?_, ?_, ?_, ?_, ?_, ?_⟩, ?_, ?_, ?_, ?_, ?_, ?_, ?_, ?_, ?_⟩ <;>
    field_simp

theorem Transformation.TRS_inverseCorrect (translation : Vector3) (rotation : Quaternion)
    (scale : Vector3) (hq : rotation.length2 = 1)
    (hx : scale.x ≠ 0) (hy : scale.y ≠ 0) (hz : scale.z ≠ 0) :
    (Transformation.TRS translation rotation scale).InverseCorrect := by
  have hR := Quaternion.toMatrix_orthogonal rotation hq
  have hS := Matrix3x3.Scale_reciprocal scale.x scale.y scale.z hx hy hz
  constructor
  · show ((Matrix3x3.Scale (1 / scale.x) (1 / scale.y) (1 / scale.z)).matmult
        rotation.toMatrix.transpose).matmult
        (rotation.toMatrix.matmult (Matrix3x3.Scale scale.x scale.y scale.z))
      = Matrix3x3.Identity
    rw [Matrix3x3.matmult_assoc, ← Matrix3x3.matmult_assoc rotation.toMatrix.transpose, hR.1,
      Matrix3x3.Identity_matmult, hS.1]
  · show (rotation.toMatrix.matmult (Matrix3x3.Scale scale.x scale.y scale.z)).matmult
        ((Matrix3x3.Scale (1 / scale.x) (1 / scale.y) (1 / scale.z)).matmult
          rotation.toMatrix.transpose)
      = Matrix3x3.Identity
    rw [Matrix3x3.matmult_assoc, ← Matrix3x3.matmult_assoc (Matrix3x3.Scale _ _ _), hS.2,
      Matrix3x3.Identity_matmult, hR.2]

/-- The factories of the claim other than `Scale`, at concrete arguments: the
quarter turn with `cos = 0`, `sin = 1` around each axis and around the vector
`(0,0,2)`, and `TRS` with the unit quaternion `(3/5) k + 4/5` and the scale
`(2,3,4)`, have a correct cached inverse. -/
theorem Transformation.factories_examples :
    (Transformation.RotationX { exampleLibm with cos := fun _ => 0, sin := fun _ => 1 } 1).InverseCorrect ∧
    (Transformation.RotationY { exampleLibm with cos := fun _ => 0, sin := fun _ => 1 } 1).InverseCorrect ∧
    (Transformation.RotationZ { exampleLibm with cos := fun _ => 0, sin := fun _ => 1 } 1).InverseCorrect ∧
    (Transformation.TRS ⟨1, 2, 3⟩ ⟨⟨0, 0, 3 / 5⟩, 4 / 5⟩ ⟨2, 3, 4⟩).InverseCorrect ∧
    (Transformation.TRS ⟨1, 2, 3⟩ ⟨⟨0, 0, 3 / 5⟩, 4 / 5⟩ ⟨2, 3, 4⟩).transformPointToLocal
      ((Transformation.TRS ⟨1, 2, 3⟩ ⟨⟨0, 0, 3 / 5⟩, 4 / 5⟩ ⟨2, 3, 4⟩).transformPointToWorld
        ⟨1, 1, 1⟩) = ⟨1, 1, 1⟩ := by
  refine ⟨Transformation.RotationX_inverseCorrect _ _ (by norm_num),
    Transformation.RotationY_inverseCorrect _ _ (by norm_num),
    Transformation.RotationZ_inverseCorrect _ _ (by norm_num),
    Transformation.TRS_inverseCorrect _ _ _
      (by norm_num [Quaternion.length2, Quaternion.dot, Vector3.dot])
      (by norm_num) (by norm_num) (by norm_num), ?_⟩
  exact Transformation.toLocal_toWorld _
    (Transformation.TRS_inverseCorrect _ _ _
      (by norm_num [Quaternion.length2, Quaternion.dot, Vector3.dot])
      (by norm_num) (by norm_num) (by norm_num)).1 _

theorem Transformation.Scale_inverseCorrect_iff (x y z : ℚ) :
    (Transformation.Scale x y z).InverseCorrect ↔ x * x = 1 ∧ y * y = 1 ∧ z * z = 1 := by
  simp only [Transformation.InverseCorrect, Transformation.Scale, Matrix3x3.Scale,
    Matrix3x3.transpose, Matrix3x3.matmult, Matrix3x3.Identity, Matrix3x3.mk.injEq]
  constructor
  · rintro ⟨⟨h0, -, -, -, h4, -, -, -, h8⟩, -⟩
    refine ⟨?_, ?_, ?_⟩
    · linear_combination h0
    · linear_combination h4
    · linear_combination h8
  · rintro ⟨hx, hy, hz⟩
    refine ⟨⟨?_, ?_, ?_, ?_, ?_, ?_, ?_, ?_, ?_⟩, ?_, ?_, ?_, ?_, ?_, ?_, ?_, ?_, ?_⟩ <;>
      first | ring1 | linear_combination hx | linear_combination hy | linear_combination hz

/-- C37 (evaluation on the code): `Transformation::Scale(x, y, z)` caches the
transposed matrix, which for the diagonal matrix is `diag(x,y,z)` itself, as
the inverse.  So the product of cached inverse and matrix is
`diag(x², y², z²)`, `transformPointToLocal(transformPointToWorld(p))` is
`(x² p.x, y² p.y, z² p.z)`, the cached inverse is the inverse exactly when
`x² = y² = z² = 1`, and with `Scale(2,2,2)` the point `(1,1,1)` comes back as
`(4,4,4)`. -/
theorem Transformation_Scale_cached_inverse (x y z : ℚ) (p : Vector3) :
    (Transformation.Scale x y z).m_m = Matrix3x3.Scale x y z ∧
    (Transformation.Scale x y z).m_mInv = Matrix3x3.Scale x y z ∧
    (Transformation.Scale x y z).m_mInv.matmult (Transformation.Scale x y z).m_m
      = Matrix3x3.Scale (x * x) (y * y) (z * z) ∧
    (Transformation.Scale x y z).transformPointToLocal
        ((Transformation.Scale x y z).transformPointToWorld p)
      = ⟨x * x * p.x, y * y * p.y, z * z * p.z⟩ ∧
    ((Transformation.Scale x y z).InverseCorrect ↔ x * x = 1 ∧ y * y = 1 ∧ z * z = 1) ∧
    ¬ (Transformation.Scale 2 2 2).InverseCorrect ∧
    (Transformation.Scale 2 2 2).transformPointToLocal
        ((Transformation.Scale 2 2 2).transformPointToWorld ⟨1, 1, 1⟩)
      = ⟨4, 4, 4⟩ := by
  refine ⟨rfl, rfl, ?_, ?_, Transformation.Scale_inverseCorrect_iff x y z, ?_, ?_⟩
  · simp only [Transformation.Scale, Matrix3x3.Scale, Matrix3x3.transpose, Matrix3x3.matmult,
      Matrix3x3.mk.injEq]
    refine ⟨?_, ?_, ?_, ?_, ?_, ?_, ?_, ?_, ?_⟩ <;> ring
  · simp only [Transformation.Scale, Matrix3x3.Scale, Matrix3x3.transpose,
      Transformation.transformPointToLocal, Transformation.transformPointToWorld,
      Matrix3x3.apply, Vector3.add, Vector3.sub, Vector3.mk.injEq]
    refine ⟨?_, ?_, ?_⟩ <;> ring
  · rw [Transformation.Scale_inverseCorrect_iff]
    norm_num
  · norm_num [Transformation.Scale, Matrix3x3.Scale, Matrix3x3.transpose,
      Transformation.transformPointToLocal, Transformation.transformPointToWorld,
      Matrix3x3.apply, Vector3.add, Vector3.sub]

/-! ## The comparison of `buildBVH` -/

theorem Mesh.compareFunction_eq (vb : List ℚ) (index : Nat) (a b : IndexTriple) :
    Mesh.compareFunction vb index a b
      = if Mesh.compareKey vb index a < Mesh.compareKey vb index b then 1 else 0 := rfl

/-- The axis chosen in `buildBVH` is one of greatest extent of a box with
finite corners. -/
theorem Mesh.splitAxis_greatest (x0 y0 z0 x1 y1 z1 : ℚ) :
    (Mesh.splitAxis ⟨XFloat.fin x0, XFloat.fin y0, XFloat.fin z0⟩
        ⟨XFloat.fin x1, XFloat.fin y1, XFloat.fin z1⟩ = 0 ∧
      y1 - y0 ≤ x1 - x0 ∧ z1 - z0 ≤ x1 - x0) ∨
    (Mesh.splitAxis ⟨XFloat.fin x0, XFloat.fin y0, XFloat.fin z0⟩
        ⟨XFloat.fin x1, XFloat.fin y1, XFloat.fin z1⟩ = 1 ∧
      x1 - x0 ≤ y1 - y0 ∧ z1 - z0 ≤ y1 - y0) ∨
    (Mesh.splitAxis ⟨XFloat.fin x0, XFloat.fin y0, XFloat.fin z0⟩
        ⟨XFloat.fin x1, XFloat.fin y1, XFloat.fin z1⟩ = 2 ∧
      x1 - x0 ≤ z1 - z0 ∧ y1 - y0 ≤ z1 - z0) := by
  simp only [Mesh.splitAxis, XFloat.sub, XFloat.lt, Bool.and_eq_true, decide_eq_true_eq]
  by_cases h1 : y1 - y0 < x1 - x0 ∧ z1 - z0 < x1 - x0
  · left
    rw [if_pos h1]
    exact ⟨rfl, le_of_lt h1.1, le_of_lt h1.2⟩
  · rw [if_neg h1]
    by_cases h2 : z1 - z0 < y1 - y0
    · right; left
      rw [if_pos h2]
      refine ⟨rfl, ?_, le_of_lt h2⟩
      by_contra hc
      exact h1 ⟨lt_of_not_le hc, lt_trans h2 (lt_of_not_le hc)⟩
    · right; right
      rw [if_neg h2]
      refine ⟨rfl, ?_, le_of_not_lt h2⟩
      by_contra hc
      exact h1 ⟨lt_of_le_of_lt (le_of_not_lt h2) (lt_of_not_le hc), lt_of_not_le hc⟩

theorem compareMesh8_axis :
    compareMesh8.binaryTreeBoundaries 0 = (0, 8) ∧
    compareMesh8.rangeBounds 0 8
      = (⟨XFloat.fin 0, XFloat.fin 0, XFloat.fin 0⟩, ⟨XFloat.fin 9, XFloat.fin 0, XFloat.fin 0⟩) ∧
    Mesh.splitAxis (compareMesh8.rangeBounds 0 8).1 (compareMesh8.rangeBounds 0 8).2 = 0 := by
  have h : compareMesh8.rangeBounds 0 8
      = (⟨XFloat.fin 0, XFloat.fin 0, XFloat.fin 0⟩,
         ⟨XFloat.fin 9, XFloat.fin 0, XFloat.fin 0⟩) := by
    norm_num [Mesh.rangeBounds, List.range_succ, Mesh.boundsStep, Mesh.vertex, compareMesh8,
      XFloat.minQ, XFloat.maxQ, XFloat.lt]
  refine ⟨?_, h, ?_⟩
  · rw [Mesh.binaryTreeBoundaries_eq, Mesh.treeRange_zero]; rfl
  rw [h]
  norm_num [Mesh.splitAxis, XFloat.sub, XFloat.lt]

/-- C31 (evaluation on the code): the value of `compareFunction` is `1` when
the key of `a` is below the key of `b` and `0` otherwise, where the key adds
the coordinates of the index entries `0`, `1` and again `1`: it does not
depend on entry `2`, so it is not the centroid coordinate, and the result is
never negative, so of two triangles with different keys one direction gives
`1` and the other `0`.  In the example mesh `buildBVH` chooses the axis `0`
for position `0`; there the triangle `(0,1,2)` has the centroid `3` and the
key `0`, `(3,4,5)` has centroid and key `1`, `(6,7,8)` has centroid and key
`2`; the comparison gives `1` for the pair `(0,1,2)`, `(3,4,5)` with
decreasing centroids as well as for `(3,4,5)`, `(6,7,8)` with increasing
centroids. -/
theorem Mesh_compareFunction_key (vb : List ℚ) (index : Nat) (a b : IndexTriple) (c d : Nat) :
    Mesh.compareFunction vb index a b
      = (if Mesh.compareKey vb index a < Mesh.compareKey vb index b then 1 else 0) ∧
    Mesh.compareKey vb index (a.1, a.2.1, c) = Mesh.compareKey vb index a ∧
    Mesh.compareFunction vb index (a.1, a.2.1, c) (b.1, b.2.1, d)
      = Mesh.compareFunction vb index a b ∧
    0 ≤ Mesh.compareFunction vb index a b ∧
    (Mesh.compareFunction vb index a b = 0 ∨ Mesh.compareFunction vb index b a = 0) ∧
    Mesh.splitAxis (compareMesh8.rangeBounds (compareMesh8.binaryTreeBoundaries 0).1
        (compareMesh8.binaryTreeBoundaries 0).2).1
      (compareMesh8.rangeBounds (compareMesh8.binaryTreeBoundaries 0).1
        (compareMesh8.binaryTreeBoundaries 0).2).2 = 0 ∧
    compareMesh8.indexTriple 0 = (0, 1, 2) ∧ compareMesh8.indexTriple 1 = (3, 4, 5) ∧
    compareMesh8.indexTriple 2 = (6, 7, 8) ∧
    Mesh.centroidCoordinate compareMesh8.m_VertexBuffer 0 (0, 1, 2) = 3 ∧
    Mesh.centroidCoordinate compareMesh8.m_VertexBuffer 0 (3, 4, 5) = 1 ∧
    Mesh.centroidCoordinate compareMesh8.m_VertexBuffer 0 (6, 7, 8) = 2 ∧
    Mesh.compareKey compareMesh8.m_VertexBuffer 0 (0, 1, 2) = 0 ∧
    Mesh.compareKey compareMesh8.m_VertexBuffer 0 (3, 4, 5) = 1 ∧
    Mesh.compareKey compareMesh8.m_VertexBuffer 0 (6, 7, 8) = 2 ∧
    Mesh.compareFunction compareMesh8.m_VertexBuffer 0 (0, 1, 2) (3, 4, 5) = 1 ∧
    Mesh.compareFunction compareMesh8.m_VertexBuffer 0 (3, 4, 5) (0, 1, 2) = 0 ∧
    Mesh.compareFunction compareMesh8.m_VertexBuffer 0 (3, 4, 5) (6, 7, 8) = 1 ∧
    Mesh.compareFunction compareMesh8.m_VertexBuffer 0 (6, 7, 8) (3, 4, 5) = 0 := by
  have hk0 : Mesh.compareKey compareMesh8.m_VertexBuffer 0 (0, 1, 2) = 0 := by
    norm_num [Mesh.compareKey, compareMesh8]
  have hk1 : Mesh.compareKey compareMesh8.m_VertexBuffer 0 (3, 4, 5) = 1 := by
    norm_num [Mesh.compareKey, compareMesh8]
  have hk2 : Mesh.compareKey compareMesh8.m_VertexBuffer 0 (6, 7, 8) = 2 := by
    norm_num [Mesh.compareKey, compareMesh8]
  refine ⟨rfl, rfl, rfl, ?_, ?_, ?_, by decide, by decide, by decide, ?_, ?_, ?_, hk0, hk1, hk2,
    ?_, ?_, ?_, ?_⟩
  · rw [Mesh.compareFunction_eq]; split_ifs <;> norm_num
  · rw [Mesh.compareFunction_eq, Mesh.compareFunction_eq]
    by_cases h : Mesh.compareKey vb index a < Mesh.compareKey vb index b
    · right; rw [if_neg (not_lt.mpr (le_of_lt h))]
    · left; rw [if_neg h]
  · rw [compareMesh8_axis.1]; exact compareMesh8_axis.2.2
  · norm_num [Mesh.centroidCoordinate, compareMesh8]
  · norm_num [Mesh.centroidCoordinate, compareMesh8]
  · norm_num [Mesh.centroidCoordinate, compareMesh8]
  · rw [Mesh.compareFunction_eq, hk0, hk1]; norm_num
  · rw [Mesh.compareFunction_eq, hk0, hk1]; norm_num
  · rw [Mesh.compareFunction_eq, hk1, hk2]; norm_num
  · rw [Mesh.compareFunction_eq, hk1, hk2]; norm_num

/-! ## The cyclic-structure check of `loadNodes` -/

theorem cyclicNodes_parents :
    cyclicNodes.map (fun n => n.m_pParent) = [some 1, some 2, some 1, none] ∧
    cyclicNodes.map (fun n => n.m_uNodeNumber) = [0, 1, 2, 3] ∧
    cyclicNodes.map (fun n => n.m_pChildren) = [[], [0, 2], [1], []] := by
  refine ⟨?_, ?_, ?_⟩ <;> rfl

/-- A parent chain that stays inside a set `S` of positions whose nodes all
have a parent in `S` and a number different from `uNodeNumber` keeps the loop
of `hasParent` running for every fuel. -/
theorem Node.hasParentLoop_diverges (nodes : List Node) (uNodeNumber : Nat) (S : Nat → Prop)
    (hS : ∀ p, S p → ∃ n q, nodes.get? p = some n ∧ n.m_uNodeNumber ≠ uNodeNumber ∧
      n.m_pParent = some q ∧ S q) :
    ∀ fuel p, S p → Node.hasParentLoop nodes uNodeNumber fuel (some p) = none := by
  intro fuel
  induction fuel with
  | zero => intro p _; rfl
  | succ fuel ih =>
    intro p hp
    obtain ⟨n, q, hn, hne, hq, hSq⟩ := hS p hp
    simp only [Node.hasParentLoop, hn, if_neg hne, hq]
    exact ih q hSq

/-- With a parent chain that ends, the loop of `hasParent` returns once the
fuel exceeds the length of the chain; more fuel does not change the result. -/
theorem Node.hasParentLoop_mono (nodes : List Node) (uNodeNumber : Nat) :
    ∀ fuel p b, Node.hasParentLoop nodes uNodeNumber fuel p = some b →
      Node.hasParentLoop nodes uNodeNumber (fuel + 1) p = some b := by
  intro fuel
  induction fuel with
  | zero =>
    intro p b h
    cases p with
    | none => simpa [Node.hasParentLoop] using h
    | some p => simp [Node.hasParentLoop] at h
  | succ fuel ih =>
    intro p b h
    cases p with
    | none => simpa [Node.hasParentLoop] using h
    | some p =>
      rw [Node.hasParentLoop] at h ⊢
      cases hn : nodes.get? p with
      | none => rw [hn] at h; simp at h
      | some n =>
        rw [hn] at h
        simp only at h ⊢
        by_cases hu : n.m_uNodeNumber = uNodeNumber
        · rw [if_pos hu] at h ⊢; exact h
        · rw [if_neg hu] at h ⊢; exact ih _ _ h

theorem cyclicNodes_diverges (fuel : Nat) (p : Nat) (hp : p = 1 ∨ p = 2) :
    Node.hasParentLoop cyclicNodes 0 fuel (some p) = none := by
  refine Node.hasParentLoop_diverges cyclicNodes 0 (fun p => p = 1 ∨ p = 2) ?_ fuel p hp
  intro p hp
  rcases hp with rfl | rfl
  · exact ⟨_, 2, rfl, by decide, rfl, Or.inr rfl⟩
  · exact ⟨_, 1, rfl, by decide, rfl, Or.inl rfl⟩

/-- The check finds the cycle when the first node of the array lies on it,
and a tree passes the check. -/
theorem AssetGeometry.loadNodes_examples :
    AssetGeometry.loadNodes 0 twoCycleGltfNodes [] 2 = some (.error Fault.GltfError) ∧
    (∃ nodes, AssetGeometry.loadNodes 0 treeGltfNodes [0] 2 = some (.ok nodes) ∧
      nodes.map (fun n => n.m_pParent) = [none, some 0, some 0] ∧
      nodes.map (fun n => n.m_pChildren) = [[1, 2], [], []]) ∧
    AssetGeometry.loadNodes 0 treeGltfNodes [1] 2 = some (.error Fault.GltfError) ∧
    AssetGeometry.loadNodes 0 [{ gltfLeaf with children := [1] }] [0] 2
      = some (.error Fault.GltfError) ∧
    AssetGeometry.loadNodes 0 [{ gltfLeaf with mesh := 0 }] [0] 2
      = some (.error Fault.GltfError) := by
  refine ⟨rfl, ⟨_, rfl, rfl, rfl⟩, rfl, rfl, rfl⟩

/-- C40 (evaluation on the code): from the glTF nodes `cyclicGltfNodes` the
initialization loop of `loadNodes` builds the parent links `0 → 1`, `1 → 2`,
`2 → 1`, all inside the array; they contain the cycle `1 → 2 → 1`, and node 0
is not on it.  `Node::hasParent` called on node 0 with its own number, the
first call of the cyclic-structure check, does not return for any fuel, so
`loadNodes` does not return and raises no `GltfError`; on node 1, which is on
the cycle, `hasParent` returns `true`. -/
theorem AssetGeometry_loadNodes_cycle_check_diverges :
    AssetGeometry.initNodes 0 cyclicGltfNodes 0 ((List.range cyclicGltfNodes.length).map Node.mk1)
      = .ok cyclicNodes ∧
    cyclicNodes.map (fun n => n.m_pParent) = [some 1, some 2, some 1, none] ∧
    cyclicNodes.map (fun n => n.m_uNodeNumber) = [0, 1, 2, 3] ∧
    (∀ fuel, ∃ node, cyclicNodes.get? 1 = some node ∧
      node.hasParent cyclicNodes (fuel + 2) node.m_uNodeNumber = some true) ∧
    (∀ fuel, ∃ node, cyclicNodes.get? 0 = some node ∧
      node.hasParent cyclicNodes fuel node.m_uNodeNumber = none) ∧
    (∀ fuel, AssetGeometry.cycleCheck cyclicNodes fuel cyclicNodes = none) ∧
    (∀ fuel, AssetGeometry.loadNodes 0 cyclicGltfNodes [3] fuel = none) := by
  have h0 : ∀ fuel, ∃ node, cyclicNodes.get? 0 = some node ∧
      node.hasParent cyclicNodes fuel node.m_uNodeNumber = none := by
    intro fuel
    exact ⟨_, rfl, cyclicNodes_diverges fuel 1 (Or.inl rfl)⟩
  have hc : ∀ fuel, AssetGeometry.cycleCheck cyclicNodes fuel cyclicNodes = none := by
    intro fuel
    obtain ⟨node, hn, hd⟩ := h0 fuel
    have hl : ∃ rest, cyclicNodes = node :: rest := by
      cases hcn : cyclicNodes with
      | nil => rw [hcn] at hn; simp at hn
      | cons a rest =>
        rw [hcn] at hn
        simp only [List.get?_cons_zero, Option.some.injEq] at hn
        exact ⟨rest, by rw [hn]⟩
    obtain ⟨rest, hr⟩ := hl
    conv_lhs => arg 3; rw [hr]
    simp only [AssetGeometry.cycleCheck, hd]
  refine ⟨rfl, rfl, rfl, ?_, h0, hc, ?_⟩
  · intro fuel
    exact ⟨_, rfl, rfl⟩
  · intro fuel
    have hi : AssetGeometry.initNodes 0 cyclicGltfNodes 0
        ((List.range cyclicGltfNodes.length).map Node.mk1) = .ok cyclicNodes := rfl
    have hroot : ([3] : List Nat).all
        (fun iNodeNumber => AssetGeometry.checkNodeIsRoot cyclicGltfNodes iNodeNumber) = true := by
      decide
    simp only [AssetGeometry.loadNodes, hi, hroot, if_true, hc fuel]

/-! ## The incidence cosine of the specular model -/

/-- The normal and the cosine that `bounce` uses, in terms of the smooth
normal `N` and the flat normal `F` of the record. -/
theorem MaterialModelSpecular.incidence_eq (L : Libm) (M : MaterialModelSpecular)
    (vIncident : Vector3) (I : Intersection) (N F : Vector3)
    (hN : I.getNormal L = Except.ok N) (hF : I.getFlatNormal L = Except.ok F) :
    M.incidence L vIncident I = Except.ok
      (if -(vIncident.dot N) > 1 then some (N, 1)
       else if -(vIncident.dot N) < 0 then
         (if -(vIncident.dot F) < 0 then
           (if M.m_applyFlippedNormalCorrection then some (N.neg, -(vIncident.dot F)) else none)
          else some (N.neg, -(vIncident.dot F)))
       else some (N, -(vIncident.dot N))) := by
  simp only [MaterialModelSpecular.incidence, hN, hF]
  split_ifs <;> rfl

theorem bentHit_normals :
    bentHit.getNormal exampleLibm = Except.ok ⟨4/5, 0, 3/5⟩ ∧
    bentHit.getFlatNormal exampleLibm = Except.ok ⟨0, 0, 1⟩ := by
  have hup : Transformation.Identity.transformNormalToWorld exampleLibm ⟨0, 0, 1⟩
      = ⟨0, 0, 1⟩ := by
    simp only [Transformation.transformNormalToWorld, Transformation.Identity]
    have : Matrix3x3.Identity.applyTransposed ⟨0, 0, 1⟩ = (⟨0, 0, 1⟩ : Vector3) := by
      simp [Matrix3x3.applyTransposed, Matrix3x3.Identity]
    rw [this, exampleLibm_normalize_up]
  have hnorm : (⟨4/5, 0, 3/5⟩ : Vector3).normalize exampleLibm = ⟨4/5, 0, 3/5⟩ := by
    have h1 : (4/5 : ℚ) * (4/5) + 3/5 * (3/5) = 1 := by norm_num
    simp [Vector3.normalize, Vector3.length, Vector3.length2, Vector3.dot, exampleLibm, h1,
      exampleSqrt_one]
  have hbent : Transformation.Identity.transformNormalToWorld exampleLibm ⟨4/5, 0, 3/5⟩
      = ⟨4/5, 0, 3/5⟩ := by
    simp only [Transformation.transformNormalToWorld, Transformation.Identity]
    have : Matrix3x3.Identity.applyTransposed ⟨4/5, 0, 3/5⟩ = (⟨4/5, 0, 3/5⟩ : Vector3) := by
      simp [Matrix3x3.applyTransposed, Matrix3x3.Identity]
    rw [this, hnorm]
  constructor
  · have hm : bentMesh.getNormal exampleLibm 0 (1/4) (1/4) = ⟨4/5, 0, 3/5⟩ := by
      have hs : (((Vector3.smul (1 - 1/4 - 1/4) (⟨4/5, 0, 3/5⟩ : Vector3)).add
          (Vector3.smul (1/4) ⟨4/5, 0, 3/5⟩)).add (Vector3.smul (1/4) ⟨4/5, 0, 3/5⟩))
          = ⟨4/5, 0, 3/5⟩ := by
        norm_num [Vector3.smul, Vector3.add]
      have hn : bentMesh.getNormalsOfTriangle 0
          = some (⟨4/5, 0, 3/5⟩, ⟨4/5, 0, 3/5⟩, ⟨4/5, 0, 3/5⟩) := by
        simp [Mesh.getNormalsOfTriangle, Mesh.normal, bentMesh]
      simp only [Mesh.getNormal, hn, hs, hnorm]
    show Except.ok (Transformation.Identity.transformNormalToWorld exampleLibm
      (bentMesh.getNormal exampleLibm 0 (1/4) (1/4))) = _
    rw [hm, hbent]
  · have hf : bentMesh.getFlatNormal exampleLibm 0 = ⟨0, 0, 1⟩ := by
      have hv : bentMesh.getVerticesOfTriangle 0 = (⟨0, 0, 0⟩, ⟨1, 0, 0⟩, ⟨0, 1, 0⟩) := by
        simp [Mesh.getVerticesOfTriangle, Mesh.vertex, bentMesh]
      simp only [Mesh.getFlatNormal, hv]
      have : ((⟨1, 0, 0⟩ : Vector3).sub ⟨0, 0, 0⟩).cross ((⟨0, 1, 0⟩ : Vector3).sub ⟨0, 0, 0⟩)
          = ⟨0, 0, 1⟩ := by
        simp [Vector3.sub, Vector3.cross]
      rw [this, exampleLibm_normalize_up]
    show Except.ok (Transformation.Identity.transformNormalToWorld exampleLibm
      (bentMesh.getFlatNormal exampleLibm 0)) = _
    rw [hf, hup]

theorem exampleMaterial_attenuate_ok (c : ℚ) (S : SpectrumRGB) :
    ∃ S', MaterialModelSpecular.attenuateAll exampleLibm exampleIor 300 c (List.range S.size) S
      = Except.ok S' := by
  have h0 := exampleIor_getIor (650 / 1000000000) (by norm_num) (by norm_num)
  have h1 := exampleIor_getIor (510 / 1000000000) (by norm_num) (by norm_num)
  have h2 := exampleIor_getIor (440 / 1000000000) (by norm_num) (by norm_num)
  have hr : List.range S.size = [0, 1, 2] := rfl
  rw [hr]
  simp only [MaterialModelSpecular.attenuateAll, MaterialModelSpecular.attenuate,
    pfRGBWavelengths, List.getD_cons_zero, List.getD_cons_succ, h0, h1, h2]
  exact ⟨_, rfl⟩

theorem bentRay_normalize :
    bentRay.m_vDirection.normalize exampleLibm = ⟨4/5, 0, -3/5⟩ := by
  have h1 : (4/5 : ℚ) * (4/5) + 3/5 * (3/5) = 1 := by norm_num
  have h2 : (4/5 : ℚ) * (4/5) + -3/5 * (-3/5) = 1 := by norm_num
  have hd : bentRay.m_vDirection = ⟨4/5, 0, -3/5⟩ := rfl
  rw [hd]
  simp [Vector3.normalize, Vector3.length, Vector3.length2, Vector3.dot, exampleLibm, h1, h2,
    exampleSqrt_one]

/-- C39 (evaluation on the code): the ray `bentRay` meets the triangle of
`bentMesh` from the front; the record of the hit has the smooth normal
`(4/5, 0, 3/5)` and the flat normal `(0, 0, 1)`.  The cosine for the smooth
normal is `-7/25`, the one for the flat normal `3/5`, so `bounce` reflects at
the negated smooth normal `(-4/5, 0, -3/5)`, for which the cosine is `7/25`,
but hands `3/5` to `fresnelReflection`, and one child ray is produced.  For
the incident direction `(4/5, 0, 3/5)` both cosines are negative: with the
flip enabled (the state after construction) the cosine handed on is `-3/5`,
with the flip disabled there are no rays. -/
theorem MaterialModelSpecular_bounce_cosine_mismatch :
    Mesh.scanStep bentMesh bentRay (XFloat.fin 0) 0
        (0, XFloat.pinf, Intersection.ofRay bentRay) 0 = (1, XFloat.fin 1, bentHit) ∧
    bentHit.getNormal exampleLibm = Except.ok ⟨4/5, 0, 3/5⟩ ∧
    bentHit.getFlatNormal exampleLibm = Except.ok ⟨0, 0, 1⟩ ∧
    bentRay.m_vDirection.normalize exampleLibm = ⟨4/5, 0, -3/5⟩ ∧
    -((⟨4/5, 0, -3/5⟩ : Vector3).dot ⟨4/5, 0, 3/5⟩) = -7/25 ∧
    -((⟨4/5, 0, -3/5⟩ : Vector3).dot ⟨0, 0, 1⟩) = 3/5 ∧
    MaterialModelSpecular.default.incidence exampleLibm
        (bentRay.m_vDirection.normalize exampleLibm) bentHit
      = Except.ok (some (⟨-4/5, 0, -3/5⟩, 3/5)) ∧
    -((⟨4/5, 0, -3/5⟩ : Vector3).dot ⟨-4/5, 0, -3/5⟩) = 7/25 ∧
    (∃ r heap', MaterialModelSpecular.default.bounce exampleLibm [exampleMaterial] bentRay
        bentHit [some ⟨1, 1, 1⟩] = Except.ok ([r], heap')) ∧
    MaterialModelSpecular.default.m_applyFlippedNormalCorrection = true ∧
    MaterialModelSpecular.default.incidence exampleLibm ⟨4/5, 0, 3/5⟩ bentHit
      = Except.ok (some (⟨-4/5, 0, -3/5⟩, -3/5)) ∧
    -((⟨4/5, 0, 3/5⟩ : Vector3).dot ⟨-4/5, 0, -3/5⟩) = 1 ∧
    (⟨false⟩ : MaterialModelSpecular).incidence exampleLibm ⟨4/5, 0, 3/5⟩ bentHit
      = Except.ok none := by
  have hinc : MaterialModelSpecular.default.incidence exampleLibm ⟨4/5, 0, -3/5⟩ bentHit
      = Except.ok (some (⟨-4/5, 0, -3/5⟩, 3/5)) := by
    rw [MaterialModelSpecular.incidence_eq _ _ _ _ _ _ bentHit_normals.1 bentHit_normals.2]
    norm_num [Vector3.dot, Vector3.neg]
  refine ⟨?_, bentHit_normals.1, bentHit_normals.2, bentRay_normalize, ?_, ?_, ?_, ?_, ?_, rfl,
    ?_, ?_, ?_⟩
  · have hv : bentMesh.getVerticesOfTriangle (0 + 0) = (⟨0, 0, 0⟩, ⟨1, 0, 0⟩, ⟨0, 1, 0⟩) := by
      simp [Mesh.getVerticesOfTriangle, Mesh.vertex, bentMesh]
    have hd : bentRay.m_vDirection = ⟨4/5, 0, -3/5⟩ := rfl
    have ho : bentRay.m_vOrigin = ⟨-11/20, 1/4, 3/5⟩ := rfl
    have hhit : intersectRayTriangle ⟨0, 0, 0⟩ ⟨1, 0, 0⟩ ⟨0, 1, 0⟩ bentRay.m_vOrigin
        bentRay.m_vDirection (XFloat.fin 0) XFloat.pinf true = some ⟨1, 1, 1/4, 1/4⟩ := by
      rw [hd, ho]
      norm_num [intersectRayTriangle, Vector3.sub, Vector3.cross, Vector3.dot, XFloat.lt]
    simp only [Mesh.scanStep, hv, hhit]
    rfl
  · norm_num [Vector3.dot]
  · norm_num [Vector3.dot]
  · rw [bentRay_normalize]; exact hinc
  · norm_num [Vector3.dot]
  · obtain ⟨S', hS'⟩ := exampleMaterial_attenuate_ok (3/5) ⟨1, 1, 1⟩
    have hmaterial : bentHit.getMaterial = Except.ok (some 0) := rfl
    have hdata : bentRay.getDataRGBUnpolarized = Except.ok (some 0) := rfl
    have hread : Heap.read [some ⟨1, 1, 1⟩] (some 0) = Except.ok ⟨1, 1, 1⟩ := rfl
    have hP : bentHit.getIntersectionPoint
        = some (bentHit.m_vRayOrigin.add (Vector3.smul 1 bentHit.m_vRayDirection)) := rfl
    have ht : bentHit.getSeparation = some 1 := rfl
    simp only [MaterialModelSpecular.bounce, bentRay_normalize, hinc, hP, ht, hmaterial, hdata,
      hread, Option.some_bind, List.get?_cons_zero, exampleMaterial, hS']
    exact ⟨_, _, rfl⟩
  · rw [MaterialModelSpecular.incidence_eq _ _ _ _ _ _ bentHit_normals.1 bentHit_normals.2]
    norm_num [Vector3.dot, Vector3.neg, MaterialModelSpecular.default]
  · norm_num [Vector3.dot]
  · rw [MaterialModelSpecular.incidence_eq _ _ _ _ _ _ bentHit_normals.1 bentHit_normals.2]
    norm_num [Vector3.dot, Vector3.neg]

/-! ## One report per traced ray without ray caster mode -/

namespace Renderer

end Renderer

/-- A call of `Camera::reportPrimaryRay` that returns has deleted the spectrum
behind the payload pointer of the ray. -/
theorem Camera.reportPrimaryRay_deletes (c : Camera) (ray : Ray) (heap : Heap) (c' : Camera)
    (ray' : Ray) (heap' : Heap)
    (h : c.reportPrimaryRay ray heap = Except.ok (c', ray', heap')) :
    ∃ a, ray.getDataRGBUnpolarized = Except.ok (some a) ∧ heap' = heap.delete a ∧ ray' = ray := by
  unfold Camera.reportPrimaryRay at h
  simp only at h
  split at h
  · exact absurd h (by simp)
  · rename_i pSpectrum hdata
    split at h
    · rename_i Sp a hread
      split_ifs at h
      simp only [Except.ok.injEq, Prod.mk.injEq] at h
      exact ⟨a, hdata, h.2.2.symm, h.2.1.symm⟩
    · exact absurd h (by simp)

end OpenMaterial
